import Mathlib

/-!
# rwscan: the event grouper, the TRW and BLR classifiers, the worker and the
work queue

A shallow embedding of `rwscan.c`, `rwscan_utils.c`, `rwscan_icmp.c`,
`rwscan_tcp.c`, `rwscan_udp.c` and `rwscan_workqueue.c` of SiLK 3.18.2.

Conventions.
* `uint32_t` and `uint8_t` values are natural numbers; every increment or sum
  the code performs on them is reduced modulo `2^32` or `2^8`.
* `double` values live in an arbitrary linearly ordered field `K` (exact
  arithmetic); `exp` is passed as a function `K → K`, to be instantiated with
  the real exponential.
* Threads are not modelled: the producer and one worker are sequential
  functions, every critical section being atomic.  A call of the work queue
  that would wait for another thread has no result.
* Diagnostic output on standard error is left out; memory allocation succeeds.
* A step at which the program aborts, exits or traps (a division of unsigned
  integers by zero) has no result: the function returns `none`.
-/

namespace RwScan

/-! ## Constants -/

/-- Largest `uint32_t` plus one. -/
def U32 : Nat := 4294967296

/-- Largest `uint8_t` plus one. -/
def U8 : Nat := 256

def IPPROTO_ICMP : Nat := 1
def IPPROTO_TCP : Nat := 6
def IPPROTO_UDP : Nat := 17

def FIN_FLAG : Nat := 1
def SYN_FLAG : Nat := 2
def RST_FLAG : Nat := 4
def ACK_FLAG : Nat := 16

/-- The macro `TCP_FLAGS_STATE` of `rwscan.h`: `FIN | SYN | RST | ACK`. -/
def TCP_FLAGS_STATE : Nat := FIN_FLAG ||| SYN_FLAG ||| RST_FLAG ||| ACK_FLAG

def EVENT_FLOW_THRESHOLD : Nat := 32
def SMALL_PKT_CUTOFF : Nat := 3
def PACKET_PAYLOAD_CUTOFF : Nat := 60
def RWSCAN_FLOW_CUTOFF : Nat := 100000
def RWSCAN_ALLOC_SIZE : Nat := 65536
def RWSCAN_MAX_FLAGS : Nat := 64

/-! ## Data model -/

/-- Modelled from the spec: the flow record of the data model (source and
destination address, ports, protocol, TCP flags, byte and packet counts, start
and end time, ICMP type and code).  The type `rwRec` and its accessors belong
to `silk/rwrec.h`, which is not among these sources.  The start time is kept in
milliseconds together with the duration, and the ICMP type and code share the
destination-port field. -/
structure rwRec where
  sIP : Nat
  dIP : Nat
  sPort : Nat
  dPort : Nat
  proto : Nat
  flags : Nat
  pkts : Nat
  bytes : Nat
  sTime : Nat
  elapsed : Nat
deriving DecidableEq, Repr

/-- The record after `RWREC_CLEAR`: every field zero. -/
def RWREC_CLEAR : rwRec :=
  { sIP := 0, dIP := 0, sPort := 0, dPort := 0, proto := 0, flags := 0,
    pkts := 0, bytes := 0, sTime := 0, elapsed := 0 }

instance : Inhabited rwRec := ⟨RWREC_CLEAR⟩

/-- A record whose fields fit their C types. -/
def rwRec.wf (r : rwRec) : Prop :=
  r.sIP < U32 ∧ r.dIP < U32 ∧ r.sPort < 65536 ∧ r.dPort < 65536 ∧
  r.proto < 256 ∧ r.flags < 256 ∧ r.pkts < U32 ∧ r.bytes < U32 ∧
  r.elapsed < U32

instance (r : rwRec) : Decidable r.wf := by
  unfold rwRec.wf; infer_instance

def rwRecGetSIPv4 (r : rwRec) : Nat := r.sIP
def rwRecGetDIPv4 (r : rwRec) : Nat := r.dIP
def rwRecGetSPort (r : rwRec) : Nat := r.sPort
def rwRecGetDPort (r : rwRec) : Nat := r.dPort
def rwRecGetProto (r : rwRec) : Nat := r.proto
def rwRecGetFlags (r : rwRec) : Nat := r.flags
def rwRecGetPkts (r : rwRec) : Nat := r.pkts
def rwRecGetBytes (r : rwRec) : Nat := r.bytes
def rwRecGetStartTime (r : rwRec) : Nat := r.sTime
/-- Start time in whole seconds, as a `uint32_t`. -/
def rwRecGetStartSeconds (r : rwRec) : Nat := (r.sTime / 1000) % U32
/-- End time (start plus duration) in whole seconds, as a `uint32_t`. -/
def rwRecGetEndSeconds (r : rwRec) : Nat := ((r.sTime + r.elapsed) / 1000) % U32
def rwRecGetIcmpType (r : rwRec) : Nat := (r.dPort / 256) % 256
def rwRecGetIcmpCode (r : rwRec) : Nat := r.dPort % 256

inductive EventClassification where
  | EVENT_UNKNOWN
  | EVENT_BENIGN
  | EVENT_BACKSCATTER
  | EVENT_FLOOD
  | EVENT_SCAN
deriving DecidableEq, Repr

inductive ScanModel where
  | RWSCAN_MODEL_HYBRID
  | RWSCAN_MODEL_TRW
  | RWSCAN_MODEL_BLR
deriving DecidableEq, Repr

open EventClassification ScanModel

/-- The ICMP member of the union `proto` of `event_metrics_t`. -/
structure icmp_metrics (K : Type) where
  max_class_c_subnet_run_length : Nat
  max_class_c_dip_run_length : Nat
  max_class_c_dip_count : Nat
  total_dip_count : Nat
  echo_ratio : K

/-- The TCP member of the union `proto` of `event_metrics_t`. -/
structure tcp_metrics (K : Type) where
  noack_ratio : K
  small_ratio : K
  sp_dip_ratio : K
  payload_ratio : K
  unique_dip_ratio : K
  backscatter_ratio : K

/-- The UDP member of the union `proto` of `event_metrics_t`. -/
structure udp_metrics (K : Type) where
  small_ratio : K
  max_class_c_dip_run_length : Nat
  max_low_dp_hit : Nat
  max_low_port_run_length : Nat
  sp_dip_ratio : K
  payload_ratio : K
  unique_sp_ratio : K

/-- The struct `event_metrics_t`.  The three members of its union are separate
fields here: an event has one protocol, so only one member is ever used.  The
field `top_tcp_flags` is never touched by the code and is left out. -/
structure event_metrics (K : Type) where
  protocol : Nat
  sip : Nat
  event_size : Nat
  stime : Nat
  etime : Nat
  sp_count : Nat
  unique_dsts : Nat
  unique_dips : Nat
  unique_ports : Nat
  bytes : Nat
  pkts : Nat
  unique_sp_count : Nat
  flows_noack : Nat
  flows_small : Nat
  flows_with_payload : Nat
  flows_backscatter : Nat
  flows_icmp_echo : Nat
  tcp_flag_counts : List Nat
  icmp : icmp_metrics K
  tcp : tcp_metrics K
  udp : udp_metrics K
  event_class : EventClassification
  scan_probability : K
  model : ScanModel

/-- The struct `summary_metrics_t` (without its mutex). -/
structure summary_metrics where
  total_flows : Nat
  total_flows_processed : Nat
  ignored_flows : Nat
  scanners : Nat
  benign : Nat
  backscatter : Nat
  flooders : Nat
  unknown : Nat
deriving DecidableEq, Repr

/-- The struct `worker_thread_data_t`: one event batch.  The scratch counters
are allocated and released inside the worker and are not part of the batch. -/
structure worker_thread_data (K : Type) where
  flows : List rwRec
  metrics : event_metrics K

section Code

variable {K : Type} [LinearOrderedField K]

/-- An `event_metrics_t` after `memset(metrics, 0, sizeof(event_metrics_t))`. -/
def metrics_zero : event_metrics K :=
  { protocol := 0, sip := 0, event_size := 0, stime := 0, etime := 0,
    sp_count := 0, unique_dsts := 0, unique_dips := 0, unique_ports := 0,
    bytes := 0, pkts := 0, unique_sp_count := 0, flows_noack := 0,
    flows_small := 0, flows_with_payload := 0, flows_backscatter := 0,
    flows_icmp_echo := 0, tcp_flag_counts := List.replicate RWSCAN_MAX_FLAGS 0,
    icmp := { max_class_c_subnet_run_length := 0, max_class_c_dip_run_length := 0,
              max_class_c_dip_count := 0, total_dip_count := 0, echo_ratio := 0 },
    tcp := { noack_ratio := 0, small_ratio := 0, sp_dip_ratio := 0,
             payload_ratio := 0, unique_dip_ratio := 0, backscatter_ratio := 0 },
    udp := { small_ratio := 0, max_class_c_dip_run_length := 0, max_low_dp_hit := 0,
             max_low_port_run_length := 0, sp_dip_ratio := 0, payload_ratio := 0,
             unique_sp_ratio := 0 },
    event_class := EVENT_UNKNOWN, scan_probability := 0,
    model := RWSCAN_MODEL_HYBRID }

/-- A `summary_metrics_t` after `memset`. -/
def summary_zero : summary_metrics :=
  { total_flows := 0, total_flows_processed := 0, ignored_flows := 0,
    scanners := 0, benign := 0, backscatter := 0, flooders := 0, unknown := 0 }

/-! ## The event grouper: `process_file` -/

/-- The local variables of `process_file` that survive an iteration of its
loop, the work queue (the batches handed to `workqueue_put`, oldest first)
and the summary counters.  `event_flows` holds the first `event_size` slots of
the buffer of the same name. -/
structure pf_state (K : Type) where
  event_flows : List rwRec
  metrics : event_metrics K
  last_sip : Nat
  last_proto : Nat
  work_queue : List (worker_thread_data K)
  summary : summary_metrics

/-- The state of `process_file` when its loop is entered: `metrics` comes from
`calloc`, `event_flows` is `NULL`. -/
def pf_init (q : List (worker_thread_data K)) (s : summary_metrics) : pf_state K :=
  { event_flows := [], metrics := metrics_zero, last_sip := 0, last_proto := 0,
    work_queue := q, summary := s }

/-- The branch "No new event" of the loop of `process_file`: the running start
and end times of the current event. -/
def pf_keep_event (rwrec : rwRec) (metrics : event_metrics K) : event_metrics K :=
  let m1 :=
    if rwRecGetStartSeconds rwrec < metrics.stime then
      { metrics with stime := rwRecGetStartSeconds rwrec }
    else metrics
  if rwRecGetStartSeconds rwrec > m1.etime then
    { m1 with etime := rwRecGetEndSeconds rwrec }
  else m1

/-- The branch of the loop of `process_file` that closes the current event and
begins a new one: a non-empty event goes to the work queue, and fresh buffers
are set up from the record at hand. -/
def pf_new_event (rwrec : rwRec) (st : pf_state K) : pf_state K :=
  let q :=
    if st.metrics.event_size > 0 then
      st.work_queue ++ [{ flows := st.event_flows, metrics := st.metrics }]
    else st.work_queue
  { st with
    work_queue := q
    event_flows := []
    metrics :=
      { (metrics_zero : event_metrics K) with
        protocol := rwRecGetProto rwrec
        sip := rwRecGetSIPv4 rwrec
        stime := rwRecGetStartSeconds rwrec
        etime := rwRecGetEndSeconds rwrec } }

/-- The end of the loop body of `process_file`: the record is stored in the
buffer of the current event. -/
def pf_store (rwrec : rwRec) (st : pf_state K) : pf_state K :=
  { st with
    metrics := { st.metrics with event_size := (st.metrics.event_size + 1) % U32 }
    event_flows := st.event_flows ++ [rwrec]
    last_sip := rwRecGetSIPv4 rwrec
    last_proto := rwRecGetProto rwrec }

/-- The body of the loop of `process_file` after the read: `rwrec` is the
record buffer and `done` tells whether the read failed. -/
def pf_body (done : Bool) (rwrec : rwRec) (st : pf_state K) : pf_state K :=
  if rwRecGetProto rwrec ≠ IPPROTO_ICMP ∧ rwRecGetProto rwrec ≠ IPPROTO_TCP
      ∧ rwRecGetProto rwrec ≠ IPPROTO_UDP then
    { st with summary :=
        { st.summary with ignored_flows := (st.summary.ignored_flows + 1) % U32 } }
  else if rwRecGetSIPv4 rwrec ≠ st.last_sip ∨ rwRecGetProto rwrec ≠ st.last_proto
      ∨ done = true then
    pf_store rwrec (pf_new_event rwrec st)
  else
    pf_store rwrec { st with metrics := pf_keep_event rwrec st.metrics }

/-- The loop of `process_file` over the records still in the stream.
`skStreamReadRecord` (not among these sources) is modelled by the list: a
successful read stores the next record in the buffer `rwrec`; at the end of
the stream the read fails, the buffer keeps its contents and `done` is set,
after which the body runs one last time. -/
def pf_loop : List rwRec → rwRec → pf_state K → pf_state K
  | [], rwrec, st => pf_body true rwrec st
  | r :: rest, _, st =>
    pf_loop rest r
      (pf_body false r
        { st with summary :=
            { st.summary with total_flows := (st.summary.total_flows + 1) % U32 } })

/-- The function `process_file` on a stream delivering `recs`: the resulting
work queue and summary counters (its leftover buffers are freed). -/
def process_file (recs : List rwRec) (q : List (worker_thread_data K))
    (s : summary_metrics) : List (worker_thread_data K) × summary_metrics :=
  let st := pf_loop recs RWREC_CLEAR (pf_init q s)
  (st.work_queue, st.summary)

/-! ## Shared state and options -/

/-- The struct `trw_data_t` (without its mutex).  An IP set or IP tree is the
list of its addresses; `skIPSetCheckRecordDIP` and `skIPTreeAddAddress` (not
among these sources) are membership and insertion. -/
structure trw_data where
  existing : List Nat
  benign : List Nat
  scanners : List Nat
deriving DecidableEq, Repr

/-- The fields of `options_t` read by the classifiers.  The parser admits only
the values 0, 1 and 2 for `scan_model`; the remaining options steer the
diagnostics and the layout of the output. -/
structure options_t (K : Type) where
  scan_model : ScanModel
  trw_theta0 : K
  trw_theta1 : K

/-- The struct `trw_counters_t`. -/
structure trw_counters (K : Type) where
  flows : Nat
  dips : Nat
  hits : Nat
  misses : Nat
  syns : Nat
  bs : Nat
  floodresponse : Nat
  likelihood : K

/-- The struct `scan_info_t` as filled in by the worker (`country` and
`uniq_dsts` stay zero and are left out): one row of the output. -/
structure scan_info (K : Type) where
  ip : Nat
  stime : Nat
  etime : Nat
  flows : Nat
  pkts : Nat
  bytes : Nat
  proto : Nat
  scan_prob : K
  model : ScanModel

def TRW_ALPHA : K := 0.01
def TRW_BETA : K := 0.99
def TRW_ETA0 : K := (1 - TRW_BETA) / (1 - TRW_ALPHA)
def TRW_ETA1 : K := TRW_BETA / TRW_ALPHA
def TRW_DEFAULT_THETA0 : K := 0.8
def TRW_DEFAULT_THETA1 : K := 0.2

/-- The counters after `calloc` and `memset`. -/
def trw_counters_zero : trw_counters K :=
  { flows := 0, dips := 0, hits := 0, misses := 0, syns := 0, bs := 0,
    floodresponse := 0, likelihood := 0 }

/-! ## `calculate_shared_metrics` -/

/-- The loop variables of `calculate_shared_metrics`. -/
structure shared_state (K : Type) where
  metrics : event_metrics K
  last_dip : Nat
  last_sp : Nat
  last_dp : Nat

/-- One iteration of the loop of `calculate_shared_metrics`. -/
def shared_body (s : shared_state K) (rwcurr : rwRec) : shared_state K :=
  let m := s.metrics
  let m := { m with pkts := (m.pkts + rwRecGetPkts rwcurr) % U32 }
  let m := { m with bytes := (m.bytes + rwRecGetBytes rwcurr) % U32 }
  let m :=
    if rwRecGetDIPv4 rwcurr = s.last_dip then
      if rwRecGetSPort rwcurr ≠ s.last_sp then
        { m with sp_count := (m.sp_count + 1) % U32 }
      else m
    else
      { m with sp_count := 1, unique_dips := (m.unique_dips + 1) % U32 }
  let m :=
    if rwRecGetDIPv4 rwcurr ≠ s.last_dip ∨ rwRecGetDPort rwcurr ≠ s.last_dp then
      { m with unique_dsts := (m.unique_dsts + 1) % U32 }
    else m
  { metrics := m, last_sp := rwRecGetSPort rwcurr, last_dp := rwRecGetDPort rwcurr,
    last_dip := rwRecGetDIPv4 rwcurr }

/-- The function `calculate_shared_metrics`.  The array `event_flows` is the
list of its first `event_size` records; on an empty event the code would read
an uninitialised slot, for which the cleared record stands. -/
def calculate_shared_metrics (event_flows : List rwRec) (metrics : event_metrics K) :
    event_metrics K :=
  let m := { metrics with sp_count := 1, unique_dips := 1, unique_dsts := 0 }
  let s0 : shared_state K :=
    { metrics := m, last_dip := rwRecGetDIPv4 (event_flows.headD RWREC_CLEAR),
      last_sp := rwRecGetSPort (event_flows.headD RWREC_CLEAR), last_dp := 0xffffffff }
  ((event_flows.take metrics.event_size).foldl shared_body s0).metrics

/-! ## The TRW classifier: `invoke_trw_model` -/

/-- The loop `for (j = 0; j < n; j++) l = l * r`. -/
def mul_loop (r : K) : Nat → K → K
  | 0, l => l
  | n + 1, l => mul_loop r n (l * r)

/-- The counter updates of one iteration of the loop of `invoke_trw_model`:
everything from `counters->flows++` to the recomputation of the likelihood. -/
def trw_count (opts : options_t K) (existing : List Nat) (dip_prev : Nat)
    (c : trw_counters K) (rwcurr : rwRec) : trw_counters K :=
  let dip_curr := rwRecGetDIPv4 rwcurr
  let c := { c with flows := (c.flows + 1) % U32 }
  let c :=
    if dip_curr ≠ dip_prev then
      let c :=
        if rwRecGetDIPv4 rwcurr ∈ existing then
          { c with hits := (c.hits + 1) % U32 }
        else if rwRecGetFlags rwcurr &&& TCP_FLAGS_STATE = SYN_FLAG then
          { c with misses := (c.misses + 1) % U32 }
        else
          { c with hits := (c.hits + 1) % U32 }
      { c with dips := (c.dips + 1) % U32 }
    else c
  let c :=
    if rwRecGetFlags rwcurr &&& TCP_FLAGS_STATE = SYN_FLAG then
      { c with syns := (c.syns + 1) % U32 }
    else c
  let c :=
    if rwRecGetFlags rwcurr = RST_FLAG
        ∨ rwRecGetFlags rwcurr = (SYN_FLAG ||| ACK_FLAG)
        ∨ rwRecGetFlags rwcurr = (RST_FLAG ||| ACK_FLAG) then
      { c with bs := (c.bs + 1) % U32 }
    else c
  let c :=
    if rwRecGetFlags rwcurr = RST_FLAG
        ∨ rwRecGetFlags rwcurr = (SYN_FLAG ||| RST_FLAG)
        ∨ rwRecGetFlags rwcurr = (RST_FLAG ||| ACK_FLAG) then
      { c with floodresponse := (c.floodresponse + 1) % U32 }
    else c
  if dip_curr ≠ dip_prev then
    let l := mul_loop (opts.trw_theta1 / opts.trw_theta0) c.hits 1
    let l := mul_loop ((1 - opts.trw_theta1) / (1 - opts.trw_theta0)) c.misses l
    { c with likelihood := l }
  else c

/-- What `invoke_trw_model` owns while it runs. -/
structure trw_state (K : Type) where
  counters : trw_counters K
  metrics : event_metrics K
  data : trw_data

/-- The loop of `invoke_trw_model` from index `i` on, `rest` being the records
`flows[i], ..., flows[event_size - 1]`.  The Boolean tells whether the function
returned from inside the loop (a SCAN or BENIGN decision); otherwise the loop
ended, by exhaustion or by the `break` of the cutoff. -/
def trw_loop (opts : options_t K) (flows : List rwRec) :
    List rwRec → Nat → Nat → trw_state K → Bool × trw_state K
  | [], _, _, st => (false, st)
  | rwcurr :: rest, i, dip_prev, st =>
    let c := trw_count opts st.data.existing dip_prev st.counters rwcurr
    if i > RWSCAN_FLOW_CUTOFF then
      (false, { st with counters := c })
    else if c.syns = c.flows then
      if c.likelihood > TRW_ETA1 then
        let d := { st.data with scanners := List.insert (rwRecGetSIPv4 rwcurr) st.data.scanners }
        let m := { st.metrics with scan_probability := c.likelihood }
        let m := calculate_shared_metrics flows m
        (true, { counters := c, metrics := { m with event_class := EVENT_SCAN }, data := d })
      else if c.likelihood < TRW_ETA0 then
        let d := { st.data with benign := List.insert (rwRecGetSIPv4 rwcurr) st.data.benign }
        let m := { st.metrics with scan_probability := c.likelihood }
        (true, { counters := c, metrics := { m with event_class := EVENT_BENIGN }, data := d })
      else
        trw_loop opts flows rest (i + 1) (rwRecGetDIPv4 rwcurr) { st with counters := c }
    else
      trw_loop opts flows rest (i + 1) (rwRecGetDIPv4 rwcurr) { st with counters := c }

/-- The classification made after the loop of `invoke_trw_model`. -/
def trw_final (c : trw_counters K) : EventClassification :=
  if c.bs = c.flows ∧ c.dips > 3 ∧ c.flows > 100 then EVENT_BACKSCATTER
  else if c.dips = 1 ∧ (c.syns : K) ≥ (c.flows : K) * 0.5
      ∧ (c.syns + c.floodresponse) % U32 = c.flows ∧ c.flows > 10 then EVENT_FLOOD
  else EVENT_UNKNOWN

/-- The function `invoke_trw_model`; `counters` is the zeroed scratch block the
worker allocates. -/
def invoke_trw_model (opts : options_t K) (flows : List rwRec) (metrics : event_metrics K)
    (counters : trw_counters K) (data : trw_data) : trw_state K :=
  let metrics := { metrics with model := RWSCAN_MODEL_TRW }
  let r := trw_loop opts flows (flows.take metrics.event_size) 0 0xffffffff
    { counters := counters, metrics := metrics, data := data }
  if r.1 then r.2
  else { r.2 with metrics := { r.2.metrics with event_class := trw_final r.2.counters } }

/-! ## The BLR classifier: per-flow counters -/

/-- The function `add_count`: bump slot `value` of a histogram of `max` slots,
values of at least `max - 1` sharing the last slot. -/
def add_count (counts : List Nat) (value max : Nat) : List Nat :=
  if value ≥ max - 1 then
    counts.modify (fun n => (n + 1) % U32) (max - 1)
  else
    counts.modify (fun n => (n + 1) % U32) value

def increment_icmp_counters (rwrec : rwRec) (metrics : event_metrics K) : event_metrics K :=
  let type := rwRecGetIcmpType rwrec
  let code := rwRecGetIcmpCode rwrec
  if (type = 8 ∨ type = 13 ∨ type = 15 ∨ type = 17) ∧ code = 0 then
    { metrics with flows_icmp_echo := (metrics.flows_icmp_echo + 1) % U32 }
  else metrics

/-- The function `increment_tcp_counters`.  The quotient `bytes / pkts` divides
two `uint32_t` values: on a record without packets the division by zero ends
the program, and the function has no result. -/
def increment_tcp_counters (rwrec : rwRec) (metrics : event_metrics K) :
    Option (event_metrics K) :=
  let m := metrics
  let m :=
    if rwRecGetFlags rwrec &&& ACK_FLAG = 0 then
      { m with flows_noack := (m.flows_noack + 1) % U32 }
    else m
  let m :=
    if rwRecGetPkts rwrec < SMALL_PKT_CUTOFF then
      { m with flows_small := (m.flows_small + 1) % U32 }
    else m
  if rwRecGetPkts rwrec = 0 then none
  else
    let m :=
      if rwRecGetBytes rwrec / rwRecGetPkts rwrec > PACKET_PAYLOAD_CUTOFF then
        { m with flows_with_payload := (m.flows_with_payload + 1) % U32 }
      else m
    let m :=
      if rwRecGetFlags rwrec = RST_FLAG
          ∨ rwRecGetFlags rwrec = (SYN_FLAG ||| ACK_FLAG)
          ∨ rwRecGetFlags rwrec = (RST_FLAG ||| ACK_FLAG) then
        { m with flows_backscatter := (m.flows_backscatter + 1) % U32 }
      else m
    some { m with
      tcp_flag_counts := add_count m.tcp_flag_counts (rwRecGetFlags rwrec) RWSCAN_MAX_FLAGS }

/-- The function `increment_udp_counters`.  As for TCP, the quotient
`bytes / pkts` of a record without packets is a division by zero that ends the
program: no result. -/
def increment_udp_counters (rwrec : rwRec) (metrics : event_metrics K) :
    Option (event_metrics K) :=
  let m := metrics
  let m :=
    if rwRecGetPkts rwrec < SMALL_PKT_CUTOFF then
      { m with flows_small := (m.flows_small + 1) % U32 }
    else m
  if rwRecGetPkts rwrec = 0 then none
  else if rwRecGetBytes rwrec / rwRecGetPkts rwrec > PACKET_PAYLOAD_CUTOFF then
    some { m with flows_with_payload := (m.flows_with_payload + 1) % U32 }
  else some m

/-! ## The comparators handed to `qsort` -/

def rwrec_compare_proto_stime (pa pb : rwRec) : Int :=
  if rwRecGetProto pa > rwRecGetProto pb then 1
  else if rwRecGetProto pa < rwRecGetProto pb then -1
  else if rwRecGetStartTime pa > rwRecGetStartTime pb then 1
  else if rwRecGetStartTime pa < rwRecGetStartTime pb then -1
  else 0

def rwrec_compare_dip (pa pb : rwRec) : Int :=
  if rwRecGetDIPv4 pa > rwRecGetDIPv4 pb then 1
  else if rwRecGetDIPv4 pa < rwRecGetDIPv4 pb then -1
  else 0

/-- The function `rwrec_compare_dip_sport`, its third test as written:
`!(proto == TCP) || (proto == UDP)`. -/
def rwrec_compare_dip_sport (pa pb : rwRec) : Int :=
  if rwRecGetDIPv4 pa > rwRecGetDIPv4 pb then 1
  else if rwRecGetDIPv4 pa < rwRecGetDIPv4 pb then -1
  else if ¬ (rwRecGetProto pa = IPPROTO_TCP) ∨ rwRecGetProto pa = IPPROTO_UDP then 0
  else if rwRecGetSPort pa > rwRecGetSPort pb then 1
  else if rwRecGetSPort pa < rwRecGetSPort pb then -1
  else 0

/-- A sorting routine in the role of the C library's `qsort`: stable insertion
sort by the comparator.  The classifiers take the routine as an argument. -/
def qsort_insertion (cmp : rwRec → rwRec → Int) (l : List rwRec) : List rwRec :=
  l.insertionSort (fun a b => cmp a b ≤ 0)

/-- The call `qsort(flows, n, sizeof(rwRec), cmp)` on the array `flows`. -/
def qsort_flows (qsort : (rwRec → rwRec → Int) → List rwRec → List rwRec)
    (cmp : rwRec → rwRec → Int) (flows : List rwRec) (n : Nat) : List rwRec :=
  qsort cmp (flows.take n) ++ flows.drop n

/-! ## The BLR classifier: ICMP -/

/-- The local variables of `calculate_icmp_metrics` together with the metrics.
The variables `run`, `max_run_curr`, `class_c_dip_count` and
`max_class_c_dip_count` are `uint8_t`. -/
structure icmp_state (K : Type) where
  metrics : event_metrics K
  class_c_next : Nat
  dip_next : Nat
  run : Nat
  max_run_curr : Nat
  class_c_run : Nat
  max_class_c_run : Nat
  class_c_dip_count : Nat
  max_class_c_dip_count : Nat

/-- One iteration of the loop of `calculate_icmp_metrics`; `rwnext` is the
following record, if there is one. -/
def icmp_body (s : icmp_state K) (rwcurr : rwRec) (rwnext : Option rwRec) : icmp_state K :=
  let dip_curr := rwRecGetDIPv4 rwcurr
  let class_c_curr := dip_curr &&& 0xFFFFFF00
  let s : icmp_state K :=
    match rwnext with
    | some n =>
      { s with dip_next := rwRecGetDIPv4 n, class_c_next := rwRecGetDIPv4 n &&& 0xFFFFFF00 }
    | none => s
  if rwnext.isSome = true ∧ class_c_curr = s.class_c_next then
    if dip_curr ≠ s.dip_next then
      let s : icmp_state K := { s with class_c_dip_count := (s.class_c_dip_count + 1) % U8 }
      if (s.dip_next + U32 - dip_curr) % U32 = 1 then
        { s with run := (s.run + 1) % U8 }
      else
        let s : icmp_state K := if s.run > s.max_run_curr then { s with max_run_curr := s.run } else s
        { s with run := 1 }
    else s
  else
    let s : icmp_state K :=
      if ((s.class_c_next + U32 - class_c_curr) % U32) >>> 8 = 1 then
        { s with class_c_run := (s.class_c_run + 1) % U32 }
      else
        let s : icmp_state K :=
          if s.class_c_run > s.max_class_c_run then
            { s with max_class_c_run := s.class_c_run }
          else s
        { s with class_c_run := 1 }
    let s : icmp_state K :=
      if s.max_run_curr > s.metrics.icmp.max_class_c_dip_run_length then
        { s with metrics :=
            { s.metrics with icmp :=
                { s.metrics.icmp with max_class_c_dip_run_length := s.max_run_curr } } }
      else s
    let s : icmp_state K :=
      if s.class_c_dip_count > s.max_class_c_dip_count then
        { s with max_class_c_dip_count := s.class_c_dip_count }
      else s
    { s with class_c_dip_count := 1 }

/-- The loop of `calculate_icmp_metrics` over the records still to visit. -/
def icmp_loop : List rwRec → icmp_state K → icmp_state K
  | [], s => s
  | rwcurr :: rest, s => icmp_loop rest (icmp_body s rwcurr rest.head?)

def calculate_icmp_metrics (event_flows : List rwRec) (metrics : event_metrics K) :
    event_metrics K :=
  let metrics := calculate_shared_metrics event_flows metrics
  let s0 : icmp_state K :=
    { metrics := metrics, class_c_next := 0, dip_next := 0, run := 1, max_run_curr := 1,
      class_c_run := 1, max_class_c_run := 1, class_c_dip_count := 1,
      max_class_c_dip_count := 1 }
  let s := icmp_loop (event_flows.take metrics.event_size) s0
  let m := s.metrics
  { m with icmp :=
      { max_class_c_subnet_run_length := s.max_class_c_run
        max_class_c_dip_run_length := m.icmp.max_class_c_dip_run_length
        echo_ratio := (m.flows_icmp_echo : K) / (m.event_size : K)
        max_class_c_dip_count := s.max_class_c_dip_count
        total_dip_count := m.unique_dsts } }

def ICMP_BETA0 : K := -4.307079
def ICMP_BETA1 : K := -0.08245704
def ICMP_BETA5 : K := -0.02800612
def ICMP_BETA6 : K := 0.04877852
def ICMP_BETA11 : K := -0.000006398878
def ICMP_BETA22 : K := 4.016751

/-- The linear score `y` of `calculate_icmp_scan_probability`. -/
def icmp_score (metrics : event_metrics K) : K :=
  ICMP_BETA0
    + ICMP_BETA1 * (metrics.icmp.max_class_c_subnet_run_length : K)
    + ICMP_BETA5 * (metrics.icmp.max_class_c_dip_run_length : K)
    + ICMP_BETA6 * (metrics.icmp.max_class_c_dip_count : K)
    + ICMP_BETA11 * (metrics.icmp.total_dip_count : K)
    + ICMP_BETA22 * metrics.icmp.echo_ratio

def calculate_icmp_scan_probability (exp : K → K) (metrics : event_metrics K) :
    event_metrics K :=
  let y := icmp_score metrics
  let m := { metrics with scan_probability := exp y / (1.0 + exp y) }
  if m.scan_probability > 0.5 then { m with event_class := EVENT_SCAN } else m

/-! ## The BLR classifier: TCP -/

def calculate_tcp_metrics (event_flows : List rwRec) (metrics : event_metrics K) :
    event_metrics K :=
  let m := calculate_shared_metrics event_flows metrics
  { m with tcp :=
      { noack_ratio := (m.flows_noack : K) / (m.event_size : K)
        small_ratio := (m.flows_small : K) / (m.event_size : K)
        sp_dip_ratio := (m.sp_count : K) / (m.unique_dips : K)
        payload_ratio := (m.flows_with_payload : K) / (m.event_size : K)
        unique_dip_ratio := (m.unique_dips : K) / (m.event_size : K)
        backscatter_ratio := (m.flows_backscatter : K) / (m.event_size : K) } }

def TCP_BETA0 : K := -2.838353611
def TCP_BETA2 : K := 3.309023427
def TCP_BETA4 : K := -0.157047027
def TCP_BETA13 : K := -0.002319304
def TCP_BETA15 : K := -1.047413699
def TCP_BETA19 : K := 3.163018548
def TCP_BETA21 : K := -3.260270447

/-- The linear score `y` of `calculate_tcp_scan_probability`. -/
def tcp_score (metrics : event_metrics K) : K :=
  TCP_BETA0
    + TCP_BETA2 * metrics.tcp.noack_ratio
    + TCP_BETA4 * metrics.tcp.small_ratio
    + TCP_BETA13 * metrics.tcp.sp_dip_ratio
    + TCP_BETA15 * metrics.tcp.payload_ratio
    + TCP_BETA19 * metrics.tcp.unique_dip_ratio
    + TCP_BETA21 * metrics.tcp.backscatter_ratio

def calculate_tcp_scan_probability (exp : K → K) (metrics : event_metrics K) :
    event_metrics K :=
  let y := tcp_score metrics
  let m := { metrics with scan_probability := exp y / (1.0 + exp y) }
  if m.scan_probability > 0.5 then { m with event_class := EVENT_SCAN } else m

/-! ## The BLR classifier: UDP -/

/-- Modelled from the spec: the bitmap behind "a 1024-bit bitmap reset per
dip" and behind the count of distinct source ports.  The type `sk_bitmap_t`
and its operations belong to the SiLK library, which is not among these
sources.  A bitmap is its size and the list of the positions that are set;
setting a position outside the bitmap has no effect. -/
structure sk_bitmap where
  num_bits : Nat
  bits : List Nat
deriving DecidableEq, Repr

def skBitmapCreate (n : Nat) : sk_bitmap := { num_bits := n, bits := [] }

def skBitmapSetBit (b : sk_bitmap) (pos : Nat) : sk_bitmap :=
  if pos < b.num_bits then { b with bits := List.insert pos b.bits } else b

def skBitmapGetBit (b : sk_bitmap) (pos : Nat) : Bool := decide (pos ∈ b.bits)

def skBitmapGetHighCount (b : sk_bitmap) : Nat := b.bits.length

def skBitmapClearAllBits (b : sk_bitmap) : sk_bitmap := { b with bits := [] }

def UINT16_MAX : Nat := 65535

/-- The local variables of `calculate_udp_metrics` together with the metrics. -/
structure udp_state (K : Type) where
  metrics : event_metrics K
  low_dp_bitmap : sk_bitmap
  sp_bitmap : sk_bitmap
  class_c_next : Nat
  dip_next : Nat
  subnet_run : Nat
  max_subnet_run : Nat

/-- One step of the loop over `j` in `calculate_udp_metrics`; the pair holds
`port_run` and `max_low_port_run_length`. -/
def port_run_body (low_dp_bitmap : sk_bitmap) (acc : Nat × Nat) (j : Nat) : Nat × Nat :=
  if skBitmapGetBit low_dp_bitmap j = true then
    ((acc.1 + 1) % U32, acc.2)
  else if acc.1 ≠ 0 then
    (0, if acc.1 > acc.2 then acc.1 else acc.2)
  else acc

/-- The first part of the loop body of `calculate_udp_metrics`: the source port
is recorded and the loop moves on to the following record `rwnext`, absent
when `i + 1 == event_size`. -/
def udp_advance (s : udp_state K) (rwcurr : rwRec) (rwnext : Option rwRec) : udp_state K :=
  let s : udp_state K :=
    { s with sp_bitmap := skBitmapSetBit s.sp_bitmap (rwRecGetSPort rwcurr) }
  let dip_curr := s.dip_next
  let class_c_curr := s.class_c_next
  match rwnext with
  | none =>
    let s : udp_state K :=
      { s with dip_next := (dip_curr + U32 - 1) % U32,
               class_c_next := (class_c_curr + U32 - 0x100) % U32 }
    if s.subnet_run > s.max_subnet_run then
      { s with max_subnet_run := s.subnet_run }
    else s
  | some n =>
    let s : udp_state K :=
      { s with dip_next := rwRecGetDIPv4 n, class_c_next := rwRecGetDIPv4 n &&& 0xFFFFFF00 }
    if dip_curr = s.dip_next then
      { s with low_dp_bitmap := skBitmapSetBit s.low_dp_bitmap (rwRecGetDPort n) }
    else if class_c_curr = s.class_c_next then
      if (s.dip_next + U32 - dip_curr) % U32 = 1 then
        { s with subnet_run := (s.subnet_run + 1) % U32 }
      else if s.subnet_run > s.max_subnet_run then
        { s with max_subnet_run := s.subnet_run, subnet_run := 1 }
      else s
    else s

/-- The block `if (dip_curr != dip_next)` of the loop body of
`calculate_udp_metrics`: the low ports of the destination just left are
evaluated and the bitmap is reset. -/
def udp_low_ports (s : udp_state K) (rwcurr : rwRec) (dip_curr : Nat) : udp_state K :=
  if dip_curr ≠ s.dip_next then
    let pr := (List.range 1024).foldl (port_run_body s.low_dp_bitmap)
      (0, s.metrics.udp.max_low_port_run_length)
    let m : event_metrics K :=
      { s.metrics with udp := { s.metrics.udp with max_low_port_run_length := pr.2 } }
    let low_dp_hit := skBitmapGetHighCount s.low_dp_bitmap
    let m : event_metrics K :=
      if low_dp_hit > m.udp.max_low_dp_hit then
        { m with udp := { m.udp with max_low_dp_hit := low_dp_hit } }
      else m
    { s with
      metrics := m
      low_dp_bitmap :=
        skBitmapSetBit (skBitmapClearAllBits s.low_dp_bitmap) (rwRecGetDPort rwcurr) }
  else s

/-- The block `if (class_c_curr != class_c_next)` of the loop body of
`calculate_udp_metrics`. -/
def udp_class_c (s : udp_state K) (class_c_curr : Nat) : udp_state K :=
  if class_c_curr ≠ s.class_c_next then
    let m : event_metrics K :=
      if s.max_subnet_run > s.metrics.udp.max_class_c_dip_run_length then
        { s.metrics with udp :=
            { s.metrics.udp with max_class_c_dip_run_length := s.max_subnet_run } }
      else s.metrics
    { s with metrics := m, max_subnet_run := 1 }
  else s

/-- One iteration of the loop of `calculate_udp_metrics`; `rwnext` is the
following record, absent when `i + 1 == event_size`. -/
def udp_body (s : udp_state K) (rwcurr : rwRec) (rwnext : Option rwRec) : udp_state K :=
  let dip_curr := s.dip_next
  let class_c_curr := s.class_c_next
  udp_class_c (udp_low_ports (udp_advance s rwcurr rwnext) rwcurr dip_curr) class_c_curr

/-- The loop of `calculate_udp_metrics` over the records still to visit. -/
def udp_loop : List rwRec → udp_state K → udp_state K
  | [], s => s
  | rwcurr :: rest, s => udp_loop rest (udp_body s rwcurr rest.head?)

def calculate_udp_metrics (event_flows : List rwRec) (metrics : event_metrics K) :
    event_metrics K :=
  let low_dp_bitmap := skBitmapCreate 1024
  let sp_bitmap := skBitmapCreate UINT16_MAX
  let metrics := calculate_shared_metrics event_flows metrics
  let first := event_flows.headD RWREC_CLEAR
  let s0 : udp_state K :=
    { metrics := metrics
      low_dp_bitmap := skBitmapSetBit low_dp_bitmap (rwRecGetDPort first)
      sp_bitmap := sp_bitmap
      dip_next := rwRecGetDIPv4 first
      class_c_next := rwRecGetDIPv4 first &&& 0xFFFFFF00
      subnet_run := 1, max_subnet_run := 1 }
  let s := udp_loop (event_flows.take metrics.event_size) s0
  let m : event_metrics K :=
    { s.metrics with unique_sp_count := skBitmapGetHighCount s.sp_bitmap }
  { m with udp :=
      { m.udp with
        sp_dip_ratio := (m.sp_count : K) / (m.unique_dsts : K)
        payload_ratio := (m.flows_with_payload : K) / (m.event_size : K)
        unique_sp_ratio := (m.unique_sp_count : K) / (m.event_size : K)
        small_ratio := (m.flows_small : K) / (m.event_size : K) } }

def UDP_BETA0 : K := -1.887907966
def UDP_BETA4 : K := 0.543683505
def UDP_BETA5 : K := 0.025150994
def UDP_BETA8 : K := 0.529094801
def UDP_BETA10 : K := -1.244182168
def UDP_BETA13 : K := -0.001841634
def UDP_BETA15 : K := -0.224548546
def UDP_BETA20 : K := -0.697943155

/-- The linear score `y` of `calculate_udp_scan_probability`. -/
def udp_score (metrics : event_metrics K) : K :=
  UDP_BETA0
    + UDP_BETA4 * metrics.udp.small_ratio
    + UDP_BETA5 * (metrics.udp.max_class_c_dip_run_length : K)
    + UDP_BETA8 * (metrics.udp.max_low_dp_hit : K)
    + UDP_BETA10 * (metrics.udp.max_low_port_run_length : K)
    + UDP_BETA13 * metrics.udp.sp_dip_ratio
    + UDP_BETA15 * metrics.udp.payload_ratio
    + UDP_BETA20 * metrics.udp.unique_sp_ratio

def calculate_udp_scan_probability (exp : K → K) (metrics : event_metrics K) :
    event_metrics K :=
  let y := udp_score metrics
  let m := { metrics with scan_probability := exp y / (1.0 + exp y) }
  if m.scan_probability > 0.5 then { m with event_class := EVENT_SCAN } else m

/-! ## `invoke_blr_model` -/

/-- The first loop of `invoke_blr_model`: the per-flow counters.  A record of
another protocol makes the program abort (`skAbortBadCase`), and a TCP or UDP
record without packets ends it in the division of its counter function: no
result. -/
def blr_count : List rwRec → event_metrics K → Option (event_metrics K)
  | [], m => some m
  | rwcurr :: rest, m =>
    if rwRecGetProto rwcurr = IPPROTO_ICMP then
      blr_count rest (increment_icmp_counters rwcurr m)
    else if rwRecGetProto rwcurr = IPPROTO_TCP then
      match increment_tcp_counters rwcurr m with
      | none => none
      | some m1 => blr_count rest m1
    else if rwRecGetProto rwcurr = IPPROTO_UDP then
      match increment_udp_counters rwcurr m with
      | none => none
      | some m1 => blr_count rest m1
    else none

/-- The function `invoke_blr_model`; the result is the metrics block, absent
when the program aborts or exits on a protocol it does not handle, or dies in
the per-flow counters. -/
def invoke_blr_model (exp : K → K)
    (qsort : (rwRec → rwRec → Int) → List rwRec → List rwRec)
    (flows : List rwRec) (metrics : event_metrics K) : Option (event_metrics K) :=
  let metrics := { metrics with model := RWSCAN_MODEL_BLR }
  if metrics.event_size ≥ EVENT_FLOW_THRESHOLD then
    match blr_count (flows.take metrics.event_size) metrics with
    | none => none
    | some metrics =>
      let flows := qsort_flows qsort rwrec_compare_dip_sport flows metrics.event_size
      if metrics.protocol = IPPROTO_ICMP then
        some (calculate_icmp_scan_probability exp (calculate_icmp_metrics flows metrics))
      else if metrics.protocol = IPPROTO_TCP then
        some (calculate_tcp_scan_probability exp (calculate_tcp_metrics flows metrics))
      else if metrics.protocol = IPPROTO_UDP then
        some (calculate_udp_scan_probability exp (calculate_udp_metrics flows metrics))
      else none
  else some metrics

/-! ## The worker -/

/-- What a worker shares with the other threads: the TRW sets, the summary
counters and the rows written so far to the output. -/
structure worker_state (K : Type) where
  data : trw_data
  summary : summary_metrics
  out_scans : List (scan_info K)

/-- The classifier chain of `worker_thread` for one batch: TRW for a TCP event
under the models HYBRID and TRW, then BLR unless the class is already SCAN,
FLOOD or BACKSCATTER and under the models HYBRID and BLR. -/
def worker_classify (exp : K → K)
    (qsort : (rwRec → rwRec → Int) → List rwRec → List rwRec)
    (opts : options_t K) (mywork : worker_thread_data K) (data : trw_data) :
    Option (event_metrics K × trw_data) :=
  let r : event_metrics K × trw_data :=
    if mywork.metrics.protocol = IPPROTO_TCP
        ∧ (opts.scan_model = RWSCAN_MODEL_HYBRID ∨ opts.scan_model = RWSCAN_MODEL_TRW) then
      let st := invoke_trw_model opts mywork.flows mywork.metrics trw_counters_zero data
      (st.metrics, st.data)
    else (mywork.metrics, data)
  let metrics := r.1
  if (metrics.event_class ≠ EVENT_SCAN ∧ metrics.event_class ≠ EVENT_FLOOD
        ∧ metrics.event_class ≠ EVENT_BACKSCATTER)
      ∧ (opts.scan_model = RWSCAN_MODEL_HYBRID ∨ opts.scan_model = RWSCAN_MODEL_BLR) then
    let flows := qsort_flows qsort rwrec_compare_proto_stime mywork.flows metrics.event_size
    (invoke_blr_model exp qsort flows metrics).map (fun m => (m, r.2))
  else some r

/-- The record a worker fills in for a scan: the assignments to `scan->ip`,
..., `scan->scan_prob` in the case `EVENT_SCAN` of `worker_thread`. -/
def scan_record (metrics : event_metrics K) : scan_info K :=
  { ip := metrics.sip, model := metrics.model, stime := metrics.stime,
    etime := metrics.etime, flows := metrics.event_size, pkts := metrics.pkts,
    bytes := metrics.bytes, proto := metrics.protocol,
    scan_prob := metrics.scan_probability }

/-- The `switch` of `worker_thread` on the final class: one summary counter
is bumped and, for a scan, a row is written.  The assertion
`scan->scan_prob > 0` is not part of the state change. -/
def worker_report (metrics : event_metrics K) (ws : worker_state K) : worker_state K :=
  match metrics.event_class with
  | EVENT_SCAN =>
    { ws with
      summary := { ws.summary with scanners := (ws.summary.scanners + 1) % U32 }
      out_scans := ws.out_scans ++ [scan_record metrics] }
  | EVENT_BENIGN =>
    { ws with summary := { ws.summary with benign := (ws.summary.benign + 1) % U32 } }
  | EVENT_BACKSCATTER =>
    { ws with summary := { ws.summary with backscatter := (ws.summary.backscatter + 1) % U32 } }
  | EVENT_FLOOD =>
    { ws with summary := { ws.summary with flooders := (ws.summary.flooders + 1) % U32 } }
  | EVENT_UNKNOWN =>
    { ws with summary := { ws.summary with unknown := (ws.summary.unknown + 1) % U32 } }

/-- One iteration of the loop of `worker_thread`: the batch `mywork` taken from
the work queue is classified and reported. -/
def worker_event (exp : K → K)
    (qsort : (rwRec → rwRec → Int) → List rwRec → List rwRec)
    (opts : options_t K) (ws : worker_state K) (mywork : worker_thread_data K) :
    Option (worker_state K) :=
  match worker_classify exp qsort opts mywork ws.data with
  | none => none
  | some r => some (worker_report r.1 { ws with data := r.2 })

/-- The loop of `worker_thread` over the batches it takes from the work queue,
in the order it takes them. -/
def worker_thread (exp : K → K)
    (qsort : (rwRec → rwRec → Int) → List rwRec → List rwRec)
    (opts : options_t K) : List (worker_thread_data K) → worker_state K →
    Option (worker_state K)
  | [], ws => some ws
  | mywork :: rest, ws =>
    match worker_event exp qsort opts ws mywork with
    | none => none
    | some ws1 => worker_thread exp qsort opts rest ws1

/-! ## Vocabulary of the statements -/

/-- The protocols the grouper lets through. -/
def accepted_proto (p : Nat) : Prop :=
  p = IPPROTO_ICMP ∨ p = IPPROTO_TCP ∨ p = IPPROTO_UDP

instance (p : Nat) : Decidable (accepted_proto p) := by
  unfold accepted_proto; infer_instance

/-- The invariant of an event batch: it is not empty, `event_size` counts its
flows, its flows carry its source address and protocol, and the protocol is
ICMP, TCP or UDP. -/
def batch_inv (w : worker_thread_data K) : Prop :=
  w.metrics.event_size ≥ 1 ∧ w.metrics.event_size = w.flows.length
  ∧ (∀ f ∈ w.flows, rwRecGetSIPv4 f = w.metrics.sip ∧ rwRecGetProto f = w.metrics.protocol)
  ∧ accepted_proto w.metrics.protocol

/-- What the callers may assume of the C library's `qsort`: the result is a
rearrangement of the input. -/
def qsort_perm (qsort : (rwRec → rwRec → Int) → List rwRec → List rwRec) : Prop :=
  ∀ cmp l, List.Perm (qsort cmp l) l

/-- The flag bytes of the backscatter pattern: `RST`, `SYN|ACK`, `RST|ACK`. -/
def bs_flags (fl : Nat) : Prop :=
  fl = RST_FLAG ∨ fl = (SYN_FLAG ||| ACK_FLAG) ∨ fl = (RST_FLAG ||| ACK_FLAG)

instance (fl : Nat) : Decidable (bs_flags fl) := by
  unfold bs_flags; infer_instance

/-- The flag bytes of a flood response: `RST`, `SYN|RST`, `RST|ACK`. -/
def flood_flags (fl : Nat) : Prop :=
  fl = RST_FLAG ∨ fl = (SYN_FLAG ||| RST_FLAG) ∨ fl = (RST_FLAG ||| ACK_FLAG)

instance (fl : Nat) : Decidable (flood_flags fl) := by
  unfold flood_flags; infer_instance

/-- The number of entries of a list of addresses that differ from the entry
before them, the first one being compared with `prev`. -/
def dip_changes : Nat → List Nat → Nat
  | _, [] => 0
  | prev, d :: rest => (if d ≠ prev then 1 else 0) + dip_changes d rest

/-- The sum of the five class counters of the summary. -/
def class_total (s : summary_metrics) : Nat :=
  s.scanners + s.benign + s.backscatter + s.flooders + s.unknown

/-- Two records of one event: same source address and protocol. -/
def same_event (a b : rwRec) : Bool :=
  decide (rwRecGetSIPv4 a = rwRecGetSIPv4 b ∧ rwRecGetProto a = rwRecGetProto b)

/-- A record of one of the three protocols. -/
def accepted_rec (r : rwRec) : Bool := decide (accepted_proto (rwRecGetProto r))

/-- The event batches the specification asks for: the records of other
protocols removed, the maximal runs of consecutive records with the same
source address and protocol. -/
def spec_event_runs (recs : List rwRec) : List (List rwRec) :=
  (recs.filter accepted_rec).splitBy same_event

/-- The runs that reach the work queue: all of them, or all but the last. -/
def enqueued_runs (all : Bool) (runs : List (List rwRec)) : List (List rwRec) :=
  if all then runs else runs.dropLast

/-- The invariant of the loop of `process_file` after `n` records: the buffer
of the current event agrees with its metrics block and with `last_sip` and
`last_proto`. -/
def pf_inv (n : Nat) (st : pf_state K) : Prop :=
  st.metrics.event_size = st.event_flows.length ∧ st.event_flows.length ≤ n
  ∧ st.last_sip = st.metrics.sip ∧ st.last_proto = st.metrics.protocol
  ∧ (∀ f ∈ st.event_flows,
      rwRecGetSIPv4 f = st.metrics.sip ∧ rwRecGetProto f = st.metrics.protocol)
  ∧ (st.event_flows ≠ [] → accepted_proto st.metrics.protocol)

/-- Two metrics blocks with the same header and verdict: protocol, source
address, size, times, class, scan probability and model tag. -/
def same_tag (m m1 : event_metrics K) : Prop :=
  m1.protocol = m.protocol ∧ m1.sip = m.sip ∧ m1.event_size = m.event_size
  ∧ m1.stime = m.stime ∧ m1.etime = m.etime ∧ m1.event_class = m.event_class
  ∧ m1.scan_probability = m.scan_probability ∧ m1.model = m.model

/-! ## Sample inputs -/

/-- A one-packet, 40-byte flow from port 1024 to port 80 starting at time 0. -/
def sample_flow (sIP dIP proto flags : Nat) : rwRec :=
  { sIP := sIP, dIP := dIP, sPort := 1024, dPort := 80, proto := proto, flags := flags,
    pkts := 1, bytes := 40, sTime := 0, elapsed := 0 }

/-- A TCP flow from address 1 to port 80 of address 2 with the given start
time and duration in milliseconds. -/
def sample_timed (sTime elapsed : Nat) : rwRec :=
  { sIP := 1, dIP := 2, sPort := 1024, dPort := 80, proto := IPPROTO_TCP, flags := SYN_FLAG,
    pkts := 1, bytes := 40, sTime := sTime, elapsed := elapsed }

/-- The metrics block `process_file` hands over with a batch of `n` flows of
protocol `proto` from source `sip` (times zero). -/
def sample_metrics (proto sip n : Nat) : event_metrics K :=
  { (metrics_zero : event_metrics K) with protocol := proto, sip := sip, event_size := n }

/-- The default options with the given scan model. -/
def default_options (model : ScanModel) : options_t K :=
  { scan_model := model, trw_theta0 := TRW_DEFAULT_THETA0, trw_theta1 := TRW_DEFAULT_THETA1 }

/-- No address known, nothing classified yet. -/
def trw_data_empty : trw_data := { existing := [], benign := [], scanners := [] }

/-- A worker that has not reported anything yet. -/
def worker_state_zero : worker_state K :=
  { data := trw_data_empty, summary := summary_zero, out_scans := [] }

/-- Five bare-SYN TCP flows from address 9 to the addresses 1 to 5. -/
def sample_syn_event : List rwRec :=
  [sample_flow 9 1 6 2, sample_flow 9 2 6 2, sample_flow 9 3 6 2, sample_flow 9 4 6 2,
    sample_flow 9 5 6 2]

/-- A TCP event of `n + 3` flows with the flag byte `RST` from address 9:
`n` flows to address 1, then one flow to each of the addresses 2, 3 and 4. -/
def sample_backscatter (n : Nat) : List rwRec :=
  List.replicate n (sample_flow 9 1 6 4)
    ++ [sample_flow 9 2 6 4, sample_flow 9 3 6 4, sample_flow 9 4 6 4]

/-- A TCP event from address 9 to address 1: `n` flows with the flag byte
`RST` followed by `k` bare-SYN flows. -/
def sample_flood (n k : Nat) : List rwRec :=
  List.replicate n (sample_flow 9 1 6 4) ++ List.replicate k (sample_flow 9 1 6 2)

/-! ## Further vocabulary and sample inputs -/

/-- The metrics block of a batch as `process_file` hands it over: apart from
the header (protocol, source address, times, size) every field is still zero
from `calloc`. -/
def fresh_metrics (m : event_metrics K) : Prop :=
  m = { (metrics_zero : event_metrics K) with
        protocol := m.protocol, sip := m.sip, event_size := m.event_size,
        stime := m.stime, etime := m.etime }

/-- Three UDP flows from address 9 to the addresses 1, 2 and 3. -/
def sample_udp_event : List rwRec :=
  [sample_flow 9 1 17 0, sample_flow 9 2 17 0, sample_flow 9 3 17 0]

/-- The packet counts of the flows of an event, added up. -/
def event_pkts (flows : List rwRec) : Nat := (flows.map rwRecGetPkts).sum

/-- The byte counts of the flows of an event, added up. -/
def event_bytes (flows : List rwRec) : Nat := (flows.map rwRecGetBytes).sum

/-- Two metrics blocks with the same packet and byte totals. -/
def same_sums (m m1 : event_metrics K) : Prop :=
  m1.pkts = m.pkts ∧ m1.bytes = m.bytes

/-- Two metrics blocks with the same header: protocol, source address, size
and times. -/
def same_header (m m1 : event_metrics K) : Prop :=
  m1.protocol = m.protocol ∧ m1.sip = m.sip ∧ m1.event_size = m.event_size
  ∧ m1.stime = m.stime ∧ m1.etime = m.etime

/-- What the callers may further assume of the C library's `qsort`: when the
comparator orders the records of the array consistently (transitive and total
on them), the result is in non-decreasing order. -/
def qsort_sorted (qsort : (rwRec → rwRec → Int) → List rwRec → List rwRec) : Prop :=
  ∀ cmp l,
    (∀ a ∈ l, ∀ b ∈ l, ∀ c ∈ l, cmp a b ≤ 0 → cmp b c ≤ 0 → cmp a c ≤ 0) →
    (∀ a ∈ l, ∀ b ∈ l, cmp a b ≤ 0 ∨ cmp b a ≤ 0) →
    List.Pairwise (fun a b => cmp a b ≤ 0) (qsort cmp l)

/-- An ICMP echo request (type 8, code 0) of one 64-byte packet. -/
def sample_echo (sIP dIP : Nat) : rwRec :=
  { sIP := sIP, dIP := dIP, sPort := 0, dPort := 2048, proto := IPPROTO_ICMP, flags := 0,
    pkts := 1, bytes := 64, sTime := 0, elapsed := 0 }

/-- One echo request from `sIP` to each of the `n` addresses from `b` on. -/
def sample_sweep (sIP b n : Nat) : List rwRec :=
  (List.range' b n).map (sample_echo sIP)

/-- An ICMP echo request: protocol 1, type 8, code 0. -/
def echo_request (f : rwRec) : Prop :=
  rwRecGetProto f = IPPROTO_ICMP ∧ rwRecGetIcmpType f = 8 ∧ rwRecGetIcmpCode f = 0

/-! ## Counters of TRW, runs of /24 blocks, groups of source ports -/

/-- The counters at the place where `invoke_trw_model` releases the TRW mutex,
in an iteration whose flow goes to a new destination address: `flows` and the
hit or the miss counter have been updated, `dips` has not. -/
def trw_lookup (existing : List Nat) (c : trw_counters K) (rwcurr : rwRec) :
    trw_counters K :=
  let c := { c with flows := (c.flows + 1) % U32 }
  if rwRecGetDIPv4 rwcurr ∈ existing then
    { c with hits := (c.hits + 1) % U32 }
  else if rwRecGetFlags rwcurr &&& TCP_FLAGS_STATE = SYN_FLAG then
    { c with misses := (c.misses + 1) % U32 }
  else
    { c with hits := (c.hits + 1) % U32 }

/-- The counters after the iterations of the loop of `invoke_trw_model` over
the given flows, `dip_prev` being the value of that variable before them. -/
def trw_counts (opts : options_t K) (existing : List Nat) :
    List rwRec → Nat → trw_counters K → trw_counters K
  | [], _, c => c
  | rwcurr :: rest, dip_prev, c =>
    trw_counts opts existing rest (rwRecGetDIPv4 rwcurr)
      (trw_count opts existing dip_prev c rwcurr)

/-- The value of `dip_prev` after the iterations over the given flows: the
destination of the last of them, or the initial value `0xffffffff`. -/
def trw_prev (pre : List rwRec) : Nat :=
  (pre.getLast?.map rwRecGetDIPv4).getD 0xffffffff

/-- The closed form of the likelihood for the current hits and misses. -/
def trw_closed (opts : options_t K) (c : trw_counters K) : Prop :=
  c.likelihood = (opts.trw_theta1 / opts.trw_theta0) ^ c.hits
    * ((1 - opts.trw_theta1) / (1 - opts.trw_theta0)) ^ c.misses

/-- The loop of `calculate_icmp_metrics` as far as it concerns the run of /24
blocks: the values `dip & 0xFFFFFF00` of the records still to visit and the
variables `class_c_next`, `class_c_run` and `max_class_c_run`; the result is
the final `max_class_c_run`. -/
def subnet_runs : List Nat → Nat → Nat → Nat → Nat
  | [], _, _, max_class_c_run => max_class_c_run
  | class_c_curr :: rest, class_c_next, class_c_run, max_class_c_run =>
    let class_c_next := rest.head?.getD class_c_next
    if rest.head?.isSome = true ∧ class_c_curr = class_c_next then
      subnet_runs rest class_c_next class_c_run max_class_c_run
    else if ((class_c_next + U32 - class_c_curr) % U32) >>> 8 = 1 then
      subnet_runs rest class_c_next ((class_c_run + 1) % U32) max_class_c_run
    else
      subnet_runs rest class_c_next 1
        (if class_c_run > max_class_c_run then class_c_run else max_class_c_run)

/-- The /24 blocks in which the destination addresses of an event lie, each
given by its first address. -/
def event_blocks (flows : List rwRec) : List Nat :=
  flows.map (fun f => rwRecGetDIPv4 f / 256 * 256)

/-- The `k` numerically adjacent /24 blocks from `b` on each hold a
destination address of the event. -/
def adjacent_blocks (flows : List rwRec) (b k : Nat) : Prop :=
  ∀ j < k, b + 256 * j ∈ event_blocks flows

/-- The number `r` is the length of the longest sequence of numerically
adjacent /24 blocks that each hold a destination address of the event. -/
def longest_subnet_run (flows : List rwRec) (r : Nat) : Prop :=
  (∃ b, adjacent_blocks flows b r) ∧ ∀ b k, adjacent_blocks flows b k → k ≤ r

/-- The blocks the loop of `calculate_icmp_metrics` still has to account for
when it stands at a record of block `c` with `class_c_run = run`: the `run`
adjacent blocks that end with `c`, and the blocks of the records to come. -/
def blocks_open (c run : Nat) (rest : List Nat) (y : Nat) : Prop :=
  (∃ i < run, y + 256 * i = c) ∨ y ∈ rest

/-- Three echo requests from address 9, to addresses in the /24 blocks
1280, 1536 and 2304. -/
def sample_blocks : List rwRec :=
  [sample_echo 9 1281, sample_echo 9 1543, sample_echo 9 2304]

/-- The order by destination address, then by source port. -/
def dip_sport_le (a b : rwRec) : Prop :=
  rwRecGetDIPv4 a < rwRecGetDIPv4 b
    ∨ (rwRecGetDIPv4 a = rwRecGetDIPv4 b ∧ rwRecGetSPort a ≤ rwRecGetSPort b)

instance (a b : rwRec) : Decidable (dip_sport_le a b) := by
  unfold dip_sport_le; infer_instance

/-- The numerically largest destination address of an event. -/
def largest_dip (flows : List rwRec) : Nat :=
  (flows.map rwRecGetDIPv4).foldr max 0

/-- The number of distinct source ports among the flows of an event that go
to the address `d`. -/
def sports_to (flows : List rwRec) (d : Nat) : Nat :=
  ((flows.filter (fun f => decide (rwRecGetDIPv4 f = d))).map rwRecGetSPort).toFinset.card

/-- The number of distinct destination addresses of an event. -/
def distinct_dips (flows : List rwRec) : Nat :=
  (flows.map rwRecGetDIPv4).toFinset.card

/-- Four TCP flows from address 9: two to address 1 from one source port, two
to address 2 from two source ports. -/
def sample_ports : List rwRec :=
  [{ sample_flow 9 1 6 2 with sPort := 1024 }, { sample_flow 9 1 6 2 with sPort := 1024 },
   { sample_flow 9 2 6 2 with sPort := 1024 }, { sample_flow 9 2 6 2 with sPort := 1025 }]

/-! ## Destinations, low ports and the undecided state of TRW -/

/-- A flow from address 9 to port 80 of address 1 with the given protocol and
source port. -/
def sample_from_port (proto sPort : Nat) : rwRec :=
  { sample_flow 9 1 proto 0 with sPort := sPort }

/-- The number of distinct pairs of destination address and destination port
of an event. -/
def distinct_dsts (flows : List rwRec) : Nat :=
  (flows.map (fun f => (rwRecGetDIPv4 f, rwRecGetDPort f))).toFinset.card

/-- Three TCP flows from address 9 to address 1: from the source ports 1024,
1025 and 1026 to the destination ports 80, 443 and 80. -/
def sample_dports : List rwRec :=
  [{ sample_flow 9 1 6 2 with sPort := 1024, dPort := 80 },
   { sample_flow 9 1 6 2 with sPort := 1025, dPort := 443 },
   { sample_flow 9 1 6 2 with sPort := 1026, dPort := 80 }]

/-- A one-packet UDP flow from port 1024 of address 9 to the given address and
port. -/
def sample_udp (dIP dPort : Nat) : rwRec :=
  { sample_flow 9 dIP 17 0 with dPort := dPort }

/-- Thirty-two UDP flows from address 9 to port 53 of the addresses 1 to 32;
the first of them carries no packet and no byte. -/
def sample_empty_flow_event : List rwRec :=
  { sample_udp 1 53 with pkts := 0, bytes := 0 }
    :: (List.range' 2 31).map (fun d => sample_udp d 53)

/-- The number of distinct destination ports below 1024 among the flows of an
event that go to the address `d`. -/
def low_ports_to (flows : List rwRec) (d : Nat) : Nat :=
  (((flows.filter (fun f => decide (rwRecGetDIPv4 f = d))).map rwRecGetDPort).filter
    (fun p => decide (p < 1024))).toFinset.card

/-- Three UDP flows: one to port 81 of address 1, then one each to the ports 80
and 81 of address 2. -/
def sample_low_ports : List rwRec :=
  [sample_udp 1 81, sample_udp 2 80, sample_udp 2 81]

/-- Six UDP flows to port 53 of the addresses 1, 2, 4, 5, 7 and 8. -/
def sample_pairs : List rwRec :=
  [sample_udp 1 53, sample_udp 2 53, sample_udp 4 53, sample_udp 5 53, sample_udp 7 53,
   sample_udp 8 53]

/-- The counters of TRW as long as no decision has been taken on an event of
bare SYNs: either no destination has been counted yet and the likelihood is the
0 of the cleared block, or the likelihood has its closed form and hits and
misses are at most `n` apart. -/
def trw_within (opts : options_t K) (n : Nat) (c : trw_counters K) : Prop :=
  (c.likelihood = 0 ∧ c.hits = 0 ∧ c.misses = 0)
    ∨ (trw_closed opts c ∧ c.misses ≤ c.hits + n ∧ c.hits ≤ c.misses + n)

end Code

/-! ## The work queue: `rwscan_workqueue.c` -/

/-- The struct `work_queue_t` without its mutex and condition variables.  A
node pointer is `none` for `NULL` and otherwise the address of a node; the
fields of type `int` are unbounded integers. -/
structure work_queue where
  head : Option Nat
  tail : Option Nat
  depth : Int
  maxdepth : Int
  pending : Int
  active : Int
deriving DecidableEq, Repr

/-- A `uint32_t` stored into an `int`: values from `2^31` on wrap around to
negative numbers. -/
def int_of_uint32 (n : Nat) : Int :=
  if n % U32 < 2147483648 then ((n % U32 : Nat) : Int) else ((n % U32 : Nat) : Int) - 4294967296

/-- The function `workqueue_create` (the allocation succeeds): a zeroed struct
with `maxdepth` and `active` set. -/
def workqueue_create (maxdepth : Nat) : work_queue :=
  { head := none, tail := none, depth := 0, maxdepth := int_of_uint32 maxdepth,
    pending := 0, active := 1 }

/-- What `workqueue_put` leaves behind when it returns: its return value, the
queue (`none` for a `NULL` queue pointer) and the memory of the nodes, which
maps the address of a node to its field `next`. -/
structure put_result where
  rv : Int
  q : Option work_queue
  mem : Nat → Option Nat

/-- The function `workqueue_put`.  The result is `none` when the queue is full:
the caller then waits on `cond_avail` and, no other thread being modelled, does
not return. -/
def workqueue_put (q : Option work_queue) (mem : Nat → Option Nat) (newnode : Option Nat) :
    Option put_result :=
  match newnode, q with
  | none, _ => some { rv := -1, q := q, mem := mem }
  | some _, none => some { rv := -1, q := q, mem := mem }
  | some n, some q =>
    if q.maxdepth > 0 ∧ q.depth + q.pending ≥ q.maxdepth then none
    else
      let q1 : work_queue :=
        match q.tail with
        | none => { q with tail := some n, head := some n }
        | some _ => { q with tail := some n }
      let mem1 : Nat → Option Nat :=
        match q.tail with
        | none => mem
        | some t => Function.update mem t (some n)
      let mem2 : Nat → Option Nat := Function.update mem1 n none
      let q2 : work_queue := { q1 with depth := q1.depth + 1 }
      some { rv := q2.depth, q := some q2, mem := mem2 }

/-- What `workqueue_get` leaves behind: its return value, the queue, the memory
of the nodes and the caller's node pointer `*retnode`. -/
structure get_result where
  rv : Int
  q : work_queue
  mem : Nat → Option Nat
  node : Option Nat

/-- The function `workqueue_get`; `retnode` is the value of the caller's node
pointer before the call.  On an empty queue only the local copy of the argument
is set to `NULL`. -/
def workqueue_get (q : work_queue) (mem : Nat → Option Nat) (retnode : Option Nat) :
    get_result :=
  match q.head with
  | none => { rv := -1, q := q, mem := mem, node := retnode }
  | some node =>
    if q.depth = 0 then { rv := -1, q := q, mem := mem, node := retnode }
    else
      let q1 : work_queue :=
        match mem node with
        | some nx => { q with head := some nx }
        | none => { q with head := none, tail := none }
      let mem1 : Nat → Option Nat := Function.update mem node none
      { rv := 0, q := { q1 with depth := q1.depth - 1, pending := q1.pending + 1 },
        mem := mem1, node := some node }

def workqueue_depth (q : work_queue) : Int := q.depth

def workqueue_pending (q : work_queue) : Int := q.pending

/-- The calls made on the work queue: `workqueue_put` by the producer,
`workqueue_get` by a worker, and the completion of a batch by a worker
(`work_queue->pending--` at the end of the loop of `worker_thread`). -/
inductive wq_call where
  | put (node : Option Nat)
  | get
  | done
deriving DecidableEq, Repr

/-- The work queue in use: the queue, the memory of the nodes, the nodes passed
to the calls of `workqueue_put` that returned a depth and the nodes returned by
the successful calls of `workqueue_get`, both oldest first, and the number of
batches taken by workers and not yet completed. -/
structure wq_sys where
  q : work_queue
  mem : Nat → Option Nat
  puts : List Nat
  gets : List Nat
  in_flight : Nat

/-- The work queue right after `workqueue_create(maxdepth)`. -/
def wq_init (maxdepth : Nat) (mem : Nat → Option Nat) : wq_sys :=
  { q := workqueue_create maxdepth, mem := mem, puts := [], gets := [], in_flight := 0 }

/-- One call on the work queue.  There is no result when the call cannot be
made: a put that would wait, or a completion without a batch in flight. -/
def wq_step (s : wq_sys) : wq_call → Option wq_sys
  | wq_call.put node =>
    match workqueue_put (some s.q) s.mem node with
    | none => none
    | some r =>
      match r.q with
      | none => none
      | some q1 =>
        some { s with q := q1, mem := r.mem,
                      puts := if r.rv ≥ 0 then s.puts ++ node.toList else s.puts }
  | wq_call.get =>
    let r := workqueue_get s.q s.mem none
    if r.rv = 0 then
      some { s with q := r.q, mem := r.mem, gets := s.gets ++ r.node.toList,
                    in_flight := s.in_flight + 1 }
    else some { s with q := r.q, mem := r.mem }
  | wq_call.done =>
    if s.in_flight > 0 then
      some { s with q := { s.q with pending := s.q.pending - 1 },
                    in_flight := s.in_flight - 1 }
    else none

/-- A sequence of calls on the work queue, one after the other. -/
def wq_run : List wq_call → wq_sys → Option wq_sys
  | [], s => some s
  | c :: rest, s =>
    match wq_step s c with
    | none => none
    | some s1 => wq_run rest s1

/-- The nodes met on a walk of at most `k` steps along the `next` pointers. -/
def wq_walk (mem : Nat → Option Nat) : Nat → Option Nat → List Nat
  | 0, _ => []
  | _ + 1, none => []
  | k + 1, some a => a :: wq_walk mem k (mem a)

/-- The nodes in the queue: the walk of `depth` steps from `head`. -/
def wq_contents (q : work_queue) (mem : Nat → Option Nat) : List Nat :=
  wq_walk mem q.depth.toNat q.head

/-- The pointer `p` leads through exactly the nodes of the list and then to
`NULL`. -/
def wq_linked (mem : Nat → Option Nat) : Option Nat → List Nat → Prop
  | p, [] => p = none
  | p, a :: rest => p = some a ∧ wq_linked mem (mem a) rest

/-- The queue holds exactly the nodes of the list, oldest first: `head` leads
through them, `tail` is the last of them, no node occurs twice and `depth` is
their number. -/
def wq_repr (q : work_queue) (mem : Nat → Option Nat) (l : List Nat) : Prop :=
  wq_linked mem q.head l ∧ q.tail = l.getLast? ∧ l.Nodup ∧ q.depth = l.length

/-- Every put of the sequence passes a node that is not in the queue at that
moment. -/
def wq_fresh_puts : List wq_call → wq_sys → Bool
  | [], _ => true
  | c :: rest, s =>
    (match c with
      | wq_call.put (some n) => decide (n ∉ wq_contents s.q s.mem)
      | _ => true)
    && (match wq_step s c with
      | none => true
      | some s1 => wq_fresh_puts rest s1)

/-- The bounds the work queue keeps: the counters are not negative, `pending`
counts the batches in flight, and queued and pending batches together do not
exceed `maxdepth`. -/
def wq_inv (maxdepth : Int) (s : wq_sys) : Prop :=
  s.q.maxdepth = maxdepth ∧ 0 ≤ s.q.depth ∧ s.q.pending = s.in_flight
  ∧ s.q.depth + s.q.pending ≤ maxdepth

/-- A queue holding the nodes 1 and 2. -/
def sample_queue : work_queue :=
  { head := some 1, tail := some 2, depth := 2, maxdepth := 4, pending := 0, active := 1 }

/-- Node memory in which node 1 points to node 2. -/
def sample_mem : Nat → Option Nat := fun n => if n = 1 then some 2 else none

/-- The queue holds, oldest first, the nodes that were put and not yet
returned by a get. -/
def wq_fifo_inv (s : wq_sys) : Prop :=
  ∃ l, wq_repr s.q s.mem l ∧ s.puts = s.gets ++ l

/-! ## Option processing: the size of the worker pool -/

/-- The two entries of the option table `appOptions` that size the worker pool
and the work queue, `--threads` and `--queue-depth`, each with its argument as
parsed by `skStringParseUint32`. -/
inductive thread_option where
  | OPT_WORKER_THREADS (n : Nat)
  | OPT_WORK_QUEUE_DEPTH (n : Nat)
deriving DecidableEq, Repr

/-- The fields `worker_threads` and `work_queue_depth` of `options_t`. -/
structure thread_options where
  worker_threads : Nat
  work_queue_depth : Nat
deriving DecidableEq, Repr

/-- The cases `OPT_WORKER_THREADS` and `OPT_WORK_QUEUE_DEPTH` of
`appOptionsHandler`: the parsed argument is stored. -/
def appOptionsHandler (o : thread_options) : thread_option → thread_options
  | thread_option.OPT_WORKER_THREADS n => { o with worker_threads := n }
  | thread_option.OPT_WORK_QUEUE_DEPTH n => { o with work_queue_depth := n }

/-- The part of `appSetup` that settles the two fields: both start at zero, the
options of the command line are handled in their order, and then the defaults
are filled in. -/
def appSetup (argv : List thread_option) : thread_options :=
  let options := argv.foldl appOptionsHandler { worker_threads := 0, work_queue_depth := 0 }
  if options.worker_threads = 0 then
    { worker_threads := 1, work_queue_depth := 1 }
  else if options.work_queue_depth = 0 then
    { options with work_queue_depth := options.worker_threads }
  else options

/-- The work queue as `main` creates it:
`workqueue_create(options.work_queue_depth)`. -/
def main_work_queue (argv : List thread_option) : work_queue :=
  workqueue_create (appSetup argv).work_queue_depth

/-- The bare-SYN TCP flows from address 9 to the addresses 1 to `n`. -/
def sample_syns (n : Nat) : List rwRec :=
  (List.range' 1 n).map (fun d => sample_flow 9 d 6 2)

/-- The addresses 1 to `n` known as internal. -/
def trw_data_known (n : Nat) : trw_data :=
  { existing := List.range' 1 n, benign := [], scanners := [] }

/-! # Theorems -/

set_option linter.unusedSectionVars false

section Grouper

variable {K : Type} [LinearOrderedField K]

open EventClassification ScanModel

@[simp] theorem pf_keep_event_size (r : rwRec) (m : event_metrics K) :
    (pf_keep_event r m).event_size = m.event_size := by
  unfold pf_keep_event; dsimp only; split_ifs <;> rfl

@[simp] theorem pf_keep_event_sip (r : rwRec) (m : event_metrics K) :
    (pf_keep_event r m).sip = m.sip := by
  unfold pf_keep_event; dsimp only; split_ifs <;> rfl

@[simp] theorem pf_keep_event_protocol (r : rwRec) (m : event_metrics K) :
    (pf_keep_event r m).protocol = m.protocol := by
  unfold pf_keep_event; dsimp only; split_ifs <;> rfl

/-- One pass through the loop body of `process_file` appends at most one batch
to the work queue, and that batch satisfies the batch invariant. -/
theorem pf_body_queue (done : Bool) (r : rwRec) (st : pf_state K) (n : Nat)
    (h : pf_inv n st) :
    ∃ new, (pf_body done r st).work_queue = st.work_queue ++ new ∧ ∀ w ∈ new, batch_inv w := by
  obtain ⟨h1, h2, h3, h4, h5, h6⟩ := h
  unfold pf_body
  split_ifs with ha hb
  · exact ⟨[], by simp⟩
  · by_cases hc : st.metrics.event_size > 0
    · refine ⟨[{ flows := st.event_flows, metrics := st.metrics }],
        by simp [pf_store, pf_new_event, hc], ?_⟩
      intro w hw
      simp only [List.mem_singleton] at hw
      subst hw
      have hne : st.event_flows ≠ [] := by
        intro he
        rw [he] at h1
        simp at h1
        omega
      exact ⟨hc, h1, h5, h6 hne⟩
    · exact ⟨[], by simp [pf_store, pf_new_event, hc]⟩
  · exact ⟨[], by simp [pf_store]⟩

/-- The loop body of `process_file` keeps the loop invariant as long as the
flow count cannot wrap. -/
theorem pf_body_inv (r : rwRec) (st : pf_state K) (n : Nat)
    (h : pf_inv n st) (hn : n + 1 < U32) : pf_inv (n + 1) (pf_body false r st) := by
  obtain ⟨h1, h2, h3, h4, h5, h6⟩ := h
  unfold pf_body
  split_ifs with ha hb
  · exact ⟨h1, Nat.le_succ_of_le h2, h3, h4, h5, h6⟩
  · have hacc : accepted_proto (rwRecGetProto r) := by
      unfold accepted_proto; tauto
    refine ⟨?_, ?_, ?_, ?_, ?_, ?_⟩ <;>
      simp [pf_store, pf_new_event, metrics_zero, U32, hacc]
  · have hacc : accepted_proto (rwRecGetProto r) := by
      unfold accepted_proto; tauto
    simp only [not_or, not_not, Bool.false_eq_true, not_false_eq_true, and_true] at hb
    obtain ⟨hb1, hb2⟩ := hb
    have hlen : (st.event_flows.length + 1) % U32 = st.event_flows.length + 1 :=
      Nat.mod_eq_of_lt (by omega)
    refine ⟨?_, ?_, ?_, ?_, ?_, ?_⟩
    · simp [pf_store, h1, hlen]
    · simp only [pf_store, List.length_append, List.length_singleton]; omega
    · simp [pf_store, hb1, h3]
    · simp [pf_store, hb2, h4]
    · intro f hf
      simp only [pf_store, List.mem_append, List.mem_singleton] at hf
      rcases hf with hf | hf
      · simpa [pf_store] using h5 f hf
      · subst hf
        simp [pf_store, hb1, hb2, h3, h4]
    · intro _
      have : accepted_proto st.metrics.protocol := by rw [← h4, ← hb2]; exact hacc
      simpa [pf_store] using this

/-- Every batch the loop of `process_file` appends to the work queue satisfies
the batch invariant. -/
theorem pf_loop_queue (recs : List rwRec) :
    ∀ (rw : rwRec) (st : pf_state K) (n : Nat), pf_inv n st → n + recs.length < U32 →
    ∃ new, (pf_loop recs rw st).work_queue = st.work_queue ++ new
      ∧ ∀ w ∈ new, batch_inv w := by
  induction recs with
  | nil =>
    intro rw st n h _
    exact pf_body_queue true rw st n h
  | cons r rest ih =>
    intro rw st n h hn
    simp only [List.length_cons] at hn
    unfold pf_loop
    set st0 : pf_state K :=
      { st with summary :=
          { st.summary with total_flows := (st.summary.total_flows + 1) % U32 } }
    have h0 : pf_inv n st0 := h
    obtain ⟨new1, hq1, hb1⟩ := pf_body_queue false r st0 n h0
    obtain ⟨new2, hq2, hb2⟩ := ih r (pf_body false r st0) (n + 1)
      (pf_body_inv r st0 n h0 (by omega)) (by omega)
    refine ⟨new1 ++ new2, ?_, ?_⟩
    · rw [hq2, hq1, List.append_assoc]
    · intro w hw
      rcases List.mem_append.mp hw with hw | hw
      · exact hb1 w hw
      · exact hb2 w hw

/-- C1 (the code departs from it): a TCP record followed by a record of
another protocol.  The specification asks for one batch holding the TCP record;
`process_file` puts nothing on the work queue, because at the end of the stream
the stale record in the buffer is filtered out before the current event is
closed. -/
theorem process_file_drops_last_event :
    spec_event_runs [sample_flow 1 2 6 2, sample_flow 1 3 47 0] = [[sample_flow 1 2 6 2]]
    ∧ (process_file (K := ℚ) [sample_flow 1 2 6 2, sample_flow 1 3 47 0] []
        summary_zero).1.map (fun w => w.flows) = [] := by
  decide

/-- C2: every batch `process_file` puts on the work queue has
`event_size ≥ 1`, `event_size` equal to the number of its flows, all its flows
carry its source address and protocol, and the protocol is ICMP, TCP or UDP
(for a stream of fewer than `2^32` records, the range of `event_size`). -/
theorem process_file_batch_invariant (recs : List rwRec) (q : List (worker_thread_data K))
    (s : summary_metrics) (h : recs.length < U32) :
    ∃ new, (process_file recs q s).1 = q ++ new ∧ ∀ w ∈ new, batch_inv w := by
  have hinit : pf_inv 0 (pf_init q s : pf_state K) := by
    simp [pf_inv, pf_init, metrics_zero]
  obtain ⟨new, h1, h2⟩ := pf_loop_queue recs RWREC_CLEAR (pf_init q s) 0 hinit (by omega)
  exact ⟨new, h1, h2⟩

/-- C2 at a stream of two TCP records of one source, a UDP record and a GRE
record. -/
theorem process_file_batch_invariant_witness :
    [sample_flow 1 2 6 2, sample_flow 1 3 6 2, sample_flow 1 3 17 0,
      sample_flow 1 3 47 0].length < U32
    ∧ ∃ new, (process_file (K := ℚ)
        [sample_flow 1 2 6 2, sample_flow 1 3 6 2, sample_flow 1 3 17 0, sample_flow 1 3 47 0]
        [] summary_zero).1 = [] ++ new ∧ ∀ w ∈ new, batch_inv w :=
  ⟨by decide, process_file_batch_invariant _ _ _ (by decide)⟩

/-- C4 (the code departs from it): on the empty stream `ignored_flows` grows by
one although no record was read, and on a stream of one TCP record and one GRE
record it grows by two although one record has another protocol: at the end of
the stream the stale buffer is counted once more. -/
theorem process_file_ignored_overcount :
    (process_file (K := ℚ) [] [] summary_zero).2.ignored_flows = 1
    ∧ (process_file (K := ℚ) [sample_flow 1 2 6 2, sample_flow 1 3 47 0] []
        summary_zero).2.ignored_flows = 2
    ∧ ([sample_flow 1 2 6 2, sample_flow 1 3 47 0].filter
        (fun r => decide (¬ accepted_proto (rwRecGetProto r)))).length = 1 := by
  decide

/-- C5 (the code departs from it): two TCP flows of one source, the first from
second 0 to second 10, the second from second 5 to second 20.  The batch is
enqueued with end time 10, while the largest end time of its flows is 20: the
running end time is compared with the start time of the record. -/
theorem process_file_etime_not_max :
    (process_file (K := ℚ) [sample_timed 0 10000, sample_timed 5000 15000] []
        summary_zero).1.map (fun w => (w.metrics.etime, w.flows.map rwRecGetEndSeconds))
      = [(10, [10, 20])] := by
  decide

end Grouper

section TrwLoop
variable {K : Type} [LinearOrderedField K]
open EventClassification ScanModel

theorem mul_loop_eq (r : K) (n : Nat) (l : K) : mul_loop r n l = l * r ^ n := by
  induction n generalizing l with
  | zero => simp [mul_loop]
  | succ n ih => rw [mul_loop, ih, pow_succ]; ring

theorem shared_body_frame (s : shared_state K) (rw : rwRec) :
    ∃ a b c d e, (shared_body s rw).metrics =
      { s.metrics with pkts := a, bytes := b, sp_count := c, unique_dips := d, unique_dsts := e } := by
  unfold shared_body
  dsimp only
  split_ifs <;> exact ⟨_, _, _, _, _, rfl⟩

theorem shared_fold_frame (l : List rwRec) : ∀ s : shared_state K,
    ∃ a b c d e, (l.foldl shared_body s).metrics =
      { s.metrics with pkts := a, bytes := b, sp_count := c, unique_dips := d, unique_dsts := e } := by
  induction l with
  | nil => intro s; exact ⟨_, _, _, _, _, rfl⟩
  | cons x t ih =>
    intro s
    obtain ⟨a, b, c, d, e, h⟩ := ih (shared_body s x)
    obtain ⟨a1, b1, c1, d1, e1, h1⟩ := shared_body_frame s x
    rw [List.foldl_cons, h, h1]
    exact ⟨_, _, _, _, _, rfl⟩

theorem calculate_shared_metrics_frame (flows : List rwRec) (m : event_metrics K) :
    ∃ a b c d e, calculate_shared_metrics flows m =
      { m with pkts := a, bytes := b, sp_count := c, unique_dips := d, unique_dsts := e } := by
  unfold calculate_shared_metrics
  obtain ⟨a, b, c, d, e, h⟩ := shared_fold_frame (flows.take m.event_size)
    ({ metrics := { m with sp_count := 1, unique_dips := 1, unique_dsts := 0 },
       last_dip := rwRecGetDIPv4 (flows.headD RWREC_CLEAR),
       last_sp := rwRecGetSPort (flows.headD RWREC_CLEAR), last_dp := 0xffffffff } : shared_state K)
  exact ⟨a, b, c, d, e, h⟩

@[simp] theorem calculate_shared_metrics_scan_probability (flows : List rwRec) (m : event_metrics K) :
    (calculate_shared_metrics flows m).scan_probability = m.scan_probability := by
  obtain ⟨a, b, c, d, e, h⟩ := calculate_shared_metrics_frame flows m
  rw [h]

@[simp] theorem calculate_shared_metrics_model (flows : List rwRec) (m : event_metrics K) :
    (calculate_shared_metrics flows m).model = m.model := by
  obtain ⟨a, b, c, d, e, h⟩ := calculate_shared_metrics_frame flows m
  rw [h]

@[simp] theorem calculate_shared_metrics_event_class (flows : List rwRec) (m : event_metrics K) :
    (calculate_shared_metrics flows m).event_class = m.event_class := by
  obtain ⟨a, b, c, d, e, h⟩ := calculate_shared_metrics_frame flows m
  rw [h]

theorem eta1_val : (TRW_ETA1 : K) = 99 := by
  unfold TRW_ETA1 TRW_BETA TRW_ALPHA; norm_num

theorem eta0_val : (TRW_ETA0 : K) = 1 / 99 := by
  unfold TRW_ETA0 TRW_BETA TRW_ALPHA; norm_num

theorem syn_not_special (fl : Nat) (h : fl &&& TCP_FLAGS_STATE = SYN_FLAG) :
    fl ≠ RST_FLAG ∧ fl ≠ (SYN_FLAG ||| ACK_FLAG) ∧ fl ≠ (RST_FLAG ||| ACK_FLAG)
      ∧ fl ≠ (SYN_FLAG ||| RST_FLAG) := by
  refine ⟨?_, ?_, ?_, ?_⟩ <;> (intro h2; rw [h2] at h; revert h; decide)

theorem bs_flags_not_syn (fl : Nat) (h : bs_flags fl) : fl &&& TCP_FLAGS_STATE ≠ SYN_FLAG := by
  rcases h with h | h | h <;> (rw [h]; decide)

theorem flood_flags_not_syn (fl : Nat) (h : flood_flags fl) :
    fl &&& TCP_FLAGS_STATE ≠ SYN_FLAG := by
  rcases h with h | h | h <;> (rw [h]; decide)

@[simp] theorem trw_count_flows (opts : options_t K) (ex : List Nat) (prev : Nat)
    (c : trw_counters K) (rw : rwRec) :
    (trw_count opts ex prev c rw).flows = (c.flows + 1) % U32 := by
  unfold trw_count; dsimp only; split_ifs <;> rfl

theorem trw_count_dips (opts : options_t K) (ex : List Nat) (prev : Nat)
    (c : trw_counters K) (rw : rwRec) :
    (trw_count opts ex prev c rw).dips
      = if rwRecGetDIPv4 rw ≠ prev then (c.dips + 1) % U32 else c.dips := by
  unfold trw_count; dsimp only; split_ifs <;> rfl

theorem trw_count_syns (opts : options_t K) (ex : List Nat) (prev : Nat)
    (c : trw_counters K) (rw : rwRec) :
    (trw_count opts ex prev c rw).syns
      = if rwRecGetFlags rw &&& TCP_FLAGS_STATE = SYN_FLAG then (c.syns + 1) % U32
        else c.syns := by
  unfold trw_count; dsimp only; split_ifs <;> rfl

theorem trw_count_bs (opts : options_t K) (ex : List Nat) (prev : Nat)
    (c : trw_counters K) (rw : rwRec) :
    (trw_count opts ex prev c rw).bs
      = if bs_flags (rwRecGetFlags rw) then (c.bs + 1) % U32 else c.bs := by
  unfold trw_count bs_flags; dsimp only; split_ifs <;> rfl

theorem trw_count_floodresponse (opts : options_t K) (ex : List Nat) (prev : Nat)
    (c : trw_counters K) (rw : rwRec) :
    (trw_count opts ex prev c rw).floodresponse
      = if flood_flags (rwRecGetFlags rw) then (c.floodresponse + 1) % U32
        else c.floodresponse := by
  unfold trw_count flood_flags; dsimp only; split_ifs <;> rfl

theorem trw_count_likelihood_same (opts : options_t K) (ex : List Nat) (prev : Nat)
    (c : trw_counters K) (rw : rwRec) (h : rwRecGetDIPv4 rw = prev) :
    (trw_count opts ex prev c rw).likelihood = c.likelihood := by
  unfold trw_count; dsimp only; simp only [h, ne_eq, not_true_eq_false, if_false]
  split_ifs <;> rfl

theorem trw_loop_cons (opts : options_t K) (flows rest : List rwRec) (rwcurr : rwRec)
    (i prev : Nat) (st : trw_state K) :
    trw_loop opts flows (rwcurr :: rest) i prev st =
      (let c := trw_count opts st.data.existing prev st.counters rwcurr
       if i > RWSCAN_FLOW_CUTOFF then (false, { st with counters := c })
       else if c.syns = c.flows then
         if c.likelihood > TRW_ETA1 then
           (true, { counters := c,
                    metrics := { calculate_shared_metrics flows
                      { st.metrics with scan_probability := c.likelihood } with
                        event_class := EVENT_SCAN },
                    data := { st.data with
                      scanners := List.insert (rwRecGetSIPv4 rwcurr) st.data.scanners } })
         else if c.likelihood < TRW_ETA0 then
           (true, { counters := c,
                    metrics := { st.metrics with scan_probability := c.likelihood,
                                                 event_class := EVENT_BENIGN },
                    data := { st.data with
                      benign := List.insert (rwRecGetSIPv4 rwcurr) st.data.benign } })
         else trw_loop opts flows rest (i + 1) (rwRecGetDIPv4 rwcurr) { st with counters := c }
       else trw_loop opts flows rest (i + 1) (rwRecGetDIPv4 rwcurr) { st with counters := c }) := by
  rw [trw_loop]

/-- The loop of `invoke_trw_model` over flows of the backscatter pattern: no
decision is taken inside the loop, and the counters at its end are those of
the flows up to the cutoff. -/
theorem trw_loop_bs (opts : options_t K) (flows : List rwRec) :
    ∀ (rest : List rwRec) (i prev : Nat) (st : trw_state K),
    (∀ f ∈ rest.take (RWSCAN_FLOW_CUTOFF + 2 - i), bs_flags (rwRecGetFlags f)) →
    i ≤ RWSCAN_FLOW_CUTOFF + 1 → st.counters.flows = i → st.counters.syns = 0 →
    st.counters.bs = i → st.counters.dips ≤ i →
    ∃ c, trw_loop opts flows rest i prev st = (false, { st with counters := c })
      ∧ c.flows = i + min rest.length (RWSCAN_FLOW_CUTOFF + 2 - i)
      ∧ c.bs = c.flows ∧ c.syns = 0
      ∧ c.dips = st.counters.dips
          + dip_changes prev ((rest.take (RWSCAN_FLOW_CUTOFF + 2 - i)).map rwRecGetDIPv4) := by
  intro rest
  induction rest with
  | nil =>
    intro i prev st _ _ hf hs hb _
    refine ⟨st.counters, by simp [trw_loop], ?_, ?_, hs, ?_⟩
    · simp [hf]
    · rw [hb, hf]
    · simp [dip_changes]
  | cons rw rest ih =>
    intro i prev st hall hi hf hs hb hd
    simp only [RWSCAN_FLOW_CUTOFF] at hi hall ih ⊢
    have hpos : 100000 + 2 - i = (100000 + 1 - i) + 1 := by omega
    rw [hpos, List.take_succ_cons] at hall
    have hrw : bs_flags (rwRecGetFlags rw) := hall rw (List.mem_cons_self _ _)
    have hns := bs_flags_not_syn _ hrw
    set c1 := trw_count opts st.data.existing prev st.counters rw with hc1
    have c1f : c1.flows = i + 1 := by
      rw [hc1, trw_count_flows, hf]; exact Nat.mod_eq_of_lt (by unfold U32; omega)
    have c1s : c1.syns = 0 := by
      rw [hc1, trw_count_syns, if_neg hns, hs]
    have c1b : c1.bs = i + 1 := by
      rw [hc1, trw_count_bs, if_pos hrw, hb]; exact Nat.mod_eq_of_lt (by unfold U32; omega)
    have c1d : c1.dips = st.counters.dips + (if rwRecGetDIPv4 rw ≠ prev then 1 else 0) := by
      rw [hc1, trw_count_dips]
      split_ifs
      · exact Nat.mod_eq_of_lt (by unfold U32; omega)
      · rfl
    rw [trw_loop_cons]
    simp only [RWSCAN_FLOW_CUTOFF]
    rw [← hc1]
    by_cases hcut : i > 100000
    · refine ⟨c1, by simp [hcut], ?_, ?_, c1s, ?_⟩
      · rw [c1f]; simp only [List.length_cons]; omega
      · rw [c1b, c1f]
      · have h1 : 100000 + 1 - i = 0 := by omega
        rw [hpos, List.take_succ_cons, h1]
        simp [dip_changes, c1d]
    · have hne : ¬ (c1.syns = c1.flows) := by rw [c1s, c1f]; omega
      obtain ⟨c, h1, h2, h3, h4, h5⟩ := ih (i + 1) (rwRecGetDIPv4 rw) { st with counters := c1 }
        (by
          intro f hfm
          apply hall f
          have : 100000 + 2 - (i + 1) = 100000 + 1 - i := by omega
          rw [this] at hfm
          exact List.mem_cons_of_mem _ hfm)
        (by omega) c1f c1s c1b (by rw [c1d]; split_ifs <;> omega)
      refine ⟨c, ?_, ?_, h3, h4, ?_⟩
      · simp only [hcut, if_false, hne]
        exact h1
      · rw [h2]; simp only [List.length_cons]; omega
      · rw [h5, hpos, List.take_succ_cons]
        have : 100000 + 2 - (i + 1) = 100000 + 1 - i := by omega
        rw [this]
        simp only [List.map_cons, dip_changes, c1d]
        omega

/-- Every address of a list either equals `prev` or shows up as a change. -/
theorem card_insert_le_dip_changes (l : List Nat) :
    ∀ prev : Nat, (insert prev l.toFinset).card ≤ dip_changes prev l + 1 := by
  induction l with
  | nil => intro prev; simp [dip_changes]
  | cons x t ih =>
    intro prev
    have h := ih x
    rw [List.toFinset_cons]
    by_cases hx : x = prev
    · subst hx
      simp only [dip_changes, ne_eq, not_true_eq_false, if_false, zero_add,
        Finset.insert_idem]
      exact h
    · simp only [dip_changes, ne_eq, hx, not_false_eq_true, if_true]
      have := Finset.card_insert_le prev (insert x t.toFinset)
      omega

/-- A list of addresses that does not start with `prev` has at least as many
changes as distinct addresses. -/
theorem card_le_dip_changes (x : Nat) (t : List Nat) (prev : Nat) (h : x ≠ prev) :
    (x :: t).toFinset.card ≤ dip_changes prev (x :: t) := by
  have := card_insert_le_dip_changes t x
  rw [List.toFinset_cons]
  simp only [dip_changes, ne_eq, h, not_false_eq_true, if_true]
  omega

theorem dip_changes_replicate (prev x : Nat) (n : Nat) :
    dip_changes prev (List.replicate (n + 1) x) = if x ≠ prev then 1 else 0 := by
  induction n generalizing prev with
  | zero => simp [dip_changes]
  | succ n ih =>
    rw [List.replicate_succ, dip_changes, ih]
    simp

/-- The post-loop classification never yields SCAN. -/
theorem trw_final_ne_scan (c : trw_counters K) : trw_final c ≠ EVENT_SCAN := by
  unfold trw_final; split_ifs <;> simp

/-- Backscatter events (helper for C8): flows of the backscatter pattern, more
than 100 of them, the first not to 255.255.255.255, with more than 3 distinct
destinations among the first 100000, are classified BACKSCATTER and leave
the shared sets alone. -/
theorem invoke_trw_model_backscatter (opts : options_t K) (flows : List rwRec)
    (m : event_metrics K) (data : trw_data)
    (hsize : m.event_size = flows.length)
    (hwf : ∀ f ∈ flows, f.wf)
    (hsorted : (flows.map rwRecGetDIPv4).Sorted (· ≤ ·))
    (hbs : ∀ f ∈ flows, bs_flags (rwRecGetFlags f))
    (hlen : 100 < flows.length)
    (hdips : 3 < ((flows.take RWSCAN_FLOW_CUTOFF).map rwRecGetDIPv4).toFinset.card) :
    (invoke_trw_model opts flows m trw_counters_zero data).metrics
        = { m with model := RWSCAN_MODEL_TRW, event_class := EVENT_BACKSCATTER }
    ∧ (invoke_trw_model opts flows m trw_counters_zero data).data = data := by
  obtain ⟨c, h1, h2, h3, h4, h5⟩ := trw_loop_bs opts flows flows 0 0xffffffff
    { counters := trw_counters_zero, metrics := { m with model := RWSCAN_MODEL_TRW },
      data := data }
    (fun f hf => hbs f (List.take_subset _ _ hf)) (by simp) rfl rfl rfl (Nat.le_refl 0)
  simp only [RWSCAN_FLOW_CUTOFF, trw_counters_zero, zero_add, Nat.sub_zero] at h2 h5 hdips
  have hcard : 3 < ((flows.take (100000 + 2)).map rwRecGetDIPv4).toFinset.card := by
    refine lt_of_lt_of_le hdips (Finset.card_le_card ?_)
    intro d hd
    rw [List.mem_toFinset] at hd ⊢
    exact List.map_subset _ (List.take_subset_take_left flows (by omega)) hd
  have hd : 3 < c.dips := by
    rw [h5]
    rcases flows with _ | ⟨x, t⟩
    · simp at hlen
    · have hx : rwRecGetDIPv4 x ≠ 4294967295 := by
        intro hx
        have hall : ∀ d ∈ ((x :: t).take (100000 + 2)).map rwRecGetDIPv4, d = 4294967295 := by
          intro d hd
          obtain ⟨f, hf, rfl⟩ := List.mem_map.mp hd
          have hfm : f ∈ x :: t := List.take_subset _ _ hf
          have hw := (hwf f hfm).2.1
          rcases List.mem_cons.mp hfm with rfl | hft
          · exact hx
          · have hle : rwRecGetDIPv4 x ≤ rwRecGetDIPv4 f := by
              simp only [List.map_cons, List.sorted_cons, List.mem_map,
                forall_exists_index, and_imp, forall_apply_eq_imp_iff₂] at hsorted
              exact hsorted.1 f hft
            unfold rwRecGetDIPv4 U32 at *
            omega
        have hsub : (((x :: t).take (100000 + 2)).map rwRecGetDIPv4).toFinset
            ⊆ {4294967295} := by
          intro d hd
          rw [List.mem_toFinset] at hd
          simp [hall d hd]
        have := Finset.card_le_card hsub
        simp only [Finset.card_singleton] at this
        omega
      rw [List.take_succ_cons, List.map_cons] at hcard ⊢
      exact lt_of_lt_of_le hcard (card_le_dip_changes _ _ _ hx)
  have hfl : 100 < c.flows := by rw [h2]; omega
  have hfin : trw_final c = EVENT_BACKSCATTER := by
    unfold trw_final
    rw [if_pos ⟨h3, hd, hfl⟩]
  have ht : List.take m.event_size flows = flows := by rw [hsize, List.take_length]
  simp only [invoke_trw_model, ht, h1]
  simp [hfin]

theorem syn_flag_masked : SYN_FLAG &&& TCP_FLAGS_STATE = SYN_FLAG := by decide

theorem syn_flag_not_flood : ¬ flood_flags SYN_FLAG := by decide

/-- A flow that is a bare SYN or a flood response bumps exactly one of the
counters `syns` and `floodresponse`. -/
theorem trw_count_syn_or_flood (opts : options_t K) (ex : List Nat) (prev : Nat)
    (c : trw_counters K) (rw : rwRec)
    (hrf : rwRecGetFlags rw = SYN_FLAG ∨ flood_flags (rwRecGetFlags rw))
    (hb : c.syns + c.floodresponse + 1 < U32) :
    (trw_count opts ex prev c rw).syns
        = c.syns + (if rwRecGetFlags rw = SYN_FLAG then 1 else 0)
    ∧ (trw_count opts ex prev c rw).syns + (trw_count opts ex prev c rw).floodresponse
        = c.syns + c.floodresponse + 1 := by
  rw [trw_count_syns, trw_count_floodresponse]
  rcases hrf with hsyn | hfl
  · rw [hsyn, if_pos syn_flag_masked, if_neg syn_flag_not_flood]
    have : (c.syns + 1) % U32 = c.syns + 1 := Nat.mod_eq_of_lt (by omega)
    rw [this]
    simp only [if_true, true_and]
    omega
  · have hne : rwRecGetFlags rw ≠ SYN_FLAG := by
      intro h; rw [h] at hfl; exact syn_flag_not_flood hfl
    rw [if_neg (flood_flags_not_syn _ hfl), if_pos hfl, if_neg hne]
    have : (c.floodresponse + 1) % U32 = c.floodresponse + 1 :=
      Nat.mod_eq_of_lt (by omega)
    rw [this]
    omega

/-- The loop of `invoke_trw_model` over bare-SYN and flood-response flows that
all go to the destination of the flow before them: as long as the likelihood
stays between the two thresholds no decision is taken, and every flow is
counted as a SYN or as a flood response. -/
theorem trw_loop_same_dip (opts : options_t K) (flows : List rwRec) (d : Nat) :
    ∀ (rest : List rwRec) (i : Nat) (st : trw_state K),
    (∀ f ∈ rest, rwRecGetDIPv4 f = d
      ∧ (rwRecGetFlags f = SYN_FLAG ∨ flood_flags (rwRecGetFlags f))) →
    i + rest.length ≤ RWSCAN_FLOW_CUTOFF + 1 →
    st.counters.flows = i → st.counters.dips = 1 →
    st.counters.syns + st.counters.floodresponse = i →
    ¬ (st.counters.likelihood > TRW_ETA1) → ¬ (st.counters.likelihood < TRW_ETA0) →
    ∃ c, trw_loop opts flows rest i d st = (false, { st with counters := c })
      ∧ c.flows = i + rest.length ∧ c.dips = 1
      ∧ c.syns = st.counters.syns
          + rest.countP (fun f => decide (rwRecGetFlags f = SYN_FLAG))
      ∧ c.syns + c.floodresponse = c.flows := by
  intro rest
  induction rest with
  | nil =>
    intro i st _ _ hf hd hsf _ _
    exact ⟨st.counters, by simp [trw_loop], by simp [hf], hd, by simp, by rw [hsf, hf]⟩
  | cons rw rest ih =>
    intro i st hall hi hf hd hsf hl1 hl0
    simp only [RWSCAN_FLOW_CUTOFF, List.length_cons] at hi ih
    obtain ⟨hrd, hrf⟩ := hall rw (List.mem_cons_self _ _)
    set c1 := trw_count opts st.data.existing d st.counters rw with hc1
    have c1f : c1.flows = i + 1 := by
      rw [hc1, trw_count_flows, hf]; exact Nat.mod_eq_of_lt (by unfold U32; omega)
    have c1d : c1.dips = 1 := by
      rw [hc1, trw_count_dips, if_neg (by simp [hrd]), hd]
    have c1l : c1.likelihood = st.counters.likelihood :=
      trw_count_likelihood_same _ _ _ _ _ hrd
    have c1s := trw_count_syn_or_flood opts st.data.existing d st.counters rw hrf
      (by rw [hsf]; unfold U32; omega)
    rw [← hc1, hsf] at c1s
    obtain ⟨c, h1, h2, h3, h4, h5⟩ := ih (i + 1) { st with counters := c1 }
      (fun f hf => hall f (List.mem_cons_of_mem _ hf)) (by omega) c1f c1d c1s.2
      (by rw [c1l]; exact hl1) (by rw [c1l]; exact hl0)
    refine ⟨c, ?_, ?_, h3, ?_, h5⟩
    · rw [trw_loop_cons]
      simp only [RWSCAN_FLOW_CUTOFF]
      rw [← hc1, hrd]
      have hcut : ¬ (i > 100000) := by omega
      have g1 : ¬ (c1.likelihood > TRW_ETA1) := by rw [c1l]; exact hl1
      have g0 : ¬ (c1.likelihood < TRW_ETA0) := by rw [c1l]; exact hl0
      simp only [hcut, if_false, g1, g0, ite_self]
      exact h1
    · rw [h2]; simp only [List.length_cons]; omega
    · rw [h4, c1s.1, List.countP_cons]
      simp only [decide_eq_true_eq]
      omega

/-- With the default values of theta the likelihood after the first flow of
an event lies between the two thresholds. -/
theorem trw_count_first_quiet (opts : options_t K) (ex : List Nat) (prev : Nat) (rw : rwRec)
    (h0 : opts.trw_theta0 = TRW_DEFAULT_THETA0) (h1 : opts.trw_theta1 = TRW_DEFAULT_THETA1)
    (hne : rwRecGetDIPv4 rw ≠ prev) :
    ¬ ((trw_count opts ex prev trw_counters_zero rw).likelihood > TRW_ETA1)
    ∧ ¬ ((trw_count opts ex prev trw_counters_zero rw).likelihood < TRW_ETA0) := by
  have t10 : (opts.trw_theta1 / opts.trw_theta0 : K) = 1 / 4 := by
    rw [h0, h1]; unfold TRW_DEFAULT_THETA0 TRW_DEFAULT_THETA1; norm_num
  have t11 : ((1 - opts.trw_theta1) / (1 - opts.trw_theta0) : K) = 4 := by
    rw [h0, h1]; unfold TRW_DEFAULT_THETA0 TRW_DEFAULT_THETA1; norm_num
  have hl : (trw_count opts ex prev trw_counters_zero rw).likelihood = 1 / 4
      ∨ (trw_count opts ex prev trw_counters_zero rw).likelihood = 4 := by
    unfold trw_count
    simp only [hne, ne_eq, not_false_eq_true, if_true, t10, t11, mul_loop_eq,
      trw_counters_zero]
    split_ifs <;> norm_num [U32]
  rw [eta1_val, eta0_val]
  rcases hl with hl | hl <;> (rw [hl]; norm_num)

/-- Flood events (helper for C9): more than 10 and at most 100000 flows to one
destination other than 255.255.255.255, each a bare SYN or a flood response,
at least half of them bare SYNs, are classified FLOOD under the default
values of theta, and the shared sets stay as they are. -/
theorem invoke_trw_model_flood (opts : options_t K) (flows : List rwRec)
    (m : event_metrics K) (data : trw_data) (d : Nat)
    (h0 : opts.trw_theta0 = TRW_DEFAULT_THETA0) (h1 : opts.trw_theta1 = TRW_DEFAULT_THETA1)
    (hsize : m.event_size = flows.length)
    (hd : d ≠ 0xffffffff)
    (hall : ∀ f ∈ flows, rwRecGetDIPv4 f = d
      ∧ (rwRecGetFlags f = SYN_FLAG ∨ flood_flags (rwRecGetFlags f)))
    (hlen : 10 < flows.length) (hcut : flows.length ≤ RWSCAN_FLOW_CUTOFF)
    (hsyn : flows.length ≤ 2 * flows.countP (fun f => decide (rwRecGetFlags f = SYN_FLAG))) :
    (invoke_trw_model opts flows m trw_counters_zero data).metrics
        = { m with model := RWSCAN_MODEL_TRW, event_class := EVENT_FLOOD }
    ∧ (invoke_trw_model opts flows m trw_counters_zero data).data = data := by
  rcases flows with _ | ⟨x, t⟩
  · simp at hlen
  obtain ⟨hxd, hxf⟩ := hall x (List.mem_cons_self _ _)
  simp only [RWSCAN_FLOW_CUTOFF, List.length_cons] at hcut hlen hsyn
  have hne : rwRecGetDIPv4 x ≠ 4294967295 := by rw [hxd]; exact hd
  set st0 : trw_state K :=
    { counters := trw_counters_zero, metrics := { m with model := RWSCAN_MODEL_TRW },
      data := data } with hst0
  set c1 := trw_count opts data.existing 4294967295 trw_counters_zero x with hc1
  obtain ⟨q1, q0⟩ := trw_count_first_quiet opts data.existing 4294967295 x h0 h1 hne
  rw [← hc1] at q1 q0
  have c1f : c1.flows = 1 := by rw [hc1, trw_count_flows]; rfl
  have c1d : c1.dips = 1 := by rw [hc1, trw_count_dips, if_pos hne]; rfl
  have c1s := trw_count_syn_or_flood opts data.existing 4294967295 trw_counters_zero x hxf
    (by simp [trw_counters_zero, U32])
  rw [← hc1] at c1s
  simp only [trw_counters_zero, zero_add] at c1s
  obtain ⟨c, e1, e2, e3, e4, e5⟩ := trw_loop_same_dip opts (x :: t) d t 1
    { st0 with counters := c1 }
    (fun f hf => hall f (List.mem_cons_of_mem _ hf))
    (by simp only [RWSCAN_FLOW_CUTOFF]; omega) c1f c1d c1s.2 q1 q0
  have hloop : trw_loop opts (x :: t) (x :: t) 0 4294967295 st0
      = (false, { st0 with counters := c }) := by
    rw [trw_loop_cons]
    simp only [RWSCAN_FLOW_CUTOFF]
    have : st0.data.existing = data.existing := rfl
    rw [this, ← hc1, hxd]
    simp only [gt_iff_lt, Nat.not_lt_zero, if_false, q0, ite_self]
    have g1 : ¬ (TRW_ETA1 < c1.likelihood) := q1
    simp only [g1, if_false, ite_self]
    exact e1
  have hcount : c.syns = (x :: t).countP (fun f => decide (rwRecGetFlags f = SYN_FLAG)) := by
    rw [e4, c1s.1, List.countP_cons]
    simp only [decide_eq_true_eq]
    omega
  have hfin : trw_final c = EVENT_FLOOD := by
    unfold trw_final
    have hnb : ¬ (c.bs = c.flows ∧ c.dips > 3 ∧ c.flows > 100) := by
      rw [e3]; omega
    rw [if_neg hnb]
    have hhalf : (c.syns : K) ≥ (c.flows : K) * 0.5 := by
      have : c.flows ≤ 2 * c.syns := by rw [e2, hcount]; omega
      have hk : (c.flows : K) ≤ 2 * (c.syns : K) := by exact_mod_cast this
      norm_num
      linarith
    have hsum : (c.syns + c.floodresponse) % U32 = c.flows := by
      rw [e5]; exact Nat.mod_eq_of_lt (by rw [e2]; unfold U32; omega)
    rw [if_pos ⟨e3, hhalf, hsum, by rw [e2]; omega⟩]
  have ht : List.take m.event_size (x :: t) = x :: t := by rw [hsize, List.take_length]
  simp only [invoke_trw_model, ht]
  rw [← hst0, hloop]
  simp [hfin, hst0]

end TrwLoop

section TrwFourFlows
variable {K : Type} [LinearOrderedField K]
open EventClassification ScanModel

theorem default_theta_hit (opts : options_t K)
    (h0 : opts.trw_theta0 = TRW_DEFAULT_THETA0) (h1 : opts.trw_theta1 = TRW_DEFAULT_THETA1) :
    (opts.trw_theta1 / opts.trw_theta0 : K) = 1 / 4 := by
  rw [h0, h1]; unfold TRW_DEFAULT_THETA0 TRW_DEFAULT_THETA1; norm_num

theorem default_theta_miss (opts : options_t K)
    (h0 : opts.trw_theta0 = TRW_DEFAULT_THETA0) (h1 : opts.trw_theta1 = TRW_DEFAULT_THETA1) :
    ((1 - opts.trw_theta1) / (1 - opts.trw_theta0) : K) = 4 := by
  rw [h0, h1]; unfold TRW_DEFAULT_THETA0 TRW_DEFAULT_THETA1; norm_num

/-- The counters after a bare-SYN flow to a destination other than that of the
flow before it. -/
theorem trw_count_syn_new (opts : options_t K) (existing : List Nat) (prev : Nat)
    (c : trw_counters K) (rw : rwRec)
    (hsyn : rwRecGetFlags rw &&& TCP_FLAGS_STATE = SYN_FLAG) (hnew : rwRecGetDIPv4 rw ≠ prev) :
    trw_count opts existing prev c rw =
      if rwRecGetDIPv4 rw ∈ existing then
        { flows := (c.flows + 1) % U32, dips := (c.dips + 1) % U32,
          hits := (c.hits + 1) % U32, misses := c.misses, syns := (c.syns + 1) % U32,
          bs := c.bs, floodresponse := c.floodresponse,
          likelihood := (opts.trw_theta1 / opts.trw_theta0) ^ ((c.hits + 1) % U32)
            * ((1 - opts.trw_theta1) / (1 - opts.trw_theta0)) ^ c.misses }
      else
        { flows := (c.flows + 1) % U32, dips := (c.dips + 1) % U32,
          hits := c.hits, misses := (c.misses + 1) % U32, syns := (c.syns + 1) % U32,
          bs := c.bs, floodresponse := c.floodresponse,
          likelihood := (opts.trw_theta1 / opts.trw_theta0) ^ c.hits
            * ((1 - opts.trw_theta1) / (1 - opts.trw_theta0)) ^ ((c.misses + 1) % U32) } := by
  obtain ⟨h1, h2, h3, h4⟩ := syn_not_special _ hsyn
  unfold trw_count
  by_cases he : rwRecGetDIPv4 rw ∈ existing
  · simp [hsyn, hnew, he, h1, h2, h3, h4, mul_loop_eq]
  · simp [hsyn, hnew, he, h1, h2, h3, h4, mul_loop_eq]

/-- Four bare-SYN flows to increasing destinations outside `existing` (helper
for C6): the loop returns at the fourth flow with the class SCAN and the
likelihood 256. -/
theorem invoke_trw_model_scan_four (opts : options_t K) (f1 f2 f3 f4 : rwRec)
    (rest : List rwRec) (m : event_metrics K) (data : trw_data)
    (h0 : opts.trw_theta0 = TRW_DEFAULT_THETA0) (h1 : opts.trw_theta1 = TRW_DEFAULT_THETA1)
    (hsize : m.event_size = (f1 :: f2 :: f3 :: f4 :: rest).length)
    (d1 : rwRecGetDIPv4 f1 ≠ 4294967295) (d2 : rwRecGetDIPv4 f2 ≠ rwRecGetDIPv4 f1)
    (d3 : rwRecGetDIPv4 f3 ≠ rwRecGetDIPv4 f2) (d4 : rwRecGetDIPv4 f4 ≠ rwRecGetDIPv4 f3)
    (y1 : rwRecGetFlags f1 &&& TCP_FLAGS_STATE = SYN_FLAG)
    (y2 : rwRecGetFlags f2 &&& TCP_FLAGS_STATE = SYN_FLAG)
    (y3 : rwRecGetFlags f3 &&& TCP_FLAGS_STATE = SYN_FLAG)
    (y4 : rwRecGetFlags f4 &&& TCP_FLAGS_STATE = SYN_FLAG)
    (e1 : rwRecGetDIPv4 f1 ∉ data.existing) (e2 : rwRecGetDIPv4 f2 ∉ data.existing)
    (e3 : rwRecGetDIPv4 f3 ∉ data.existing) (e4 : rwRecGetDIPv4 f4 ∉ data.existing) :
    invoke_trw_model opts (f1 :: f2 :: f3 :: f4 :: rest) m trw_counters_zero data
      = { counters := { flows := 4, dips := 4, hits := 0, misses := 4, syns := 4, bs := 0,
                        floodresponse := 0, likelihood := 256 },
          metrics := { calculate_shared_metrics (f1 :: f2 :: f3 :: f4 :: rest)
                        { m with model := RWSCAN_MODEL_TRW, scan_probability := 256 } with
                          event_class := EVENT_SCAN },
          data := { data with scanners := List.insert (rwRecGetSIPv4 f4) data.scanners } } := by
  have t10 := default_theta_hit opts h0 h1
  have t11 := default_theta_miss opts h0 h1
  have ht : List.take m.event_size (f1 :: f2 :: f3 :: f4 :: rest)
      = f1 :: f2 :: f3 :: f4 :: rest := by rw [hsize, List.take_length]
  have hres : trw_loop opts (f1 :: f2 :: f3 :: f4 :: rest) (f1 :: f2 :: f3 :: f4 :: rest)
      0 0xffffffff
      { counters := trw_counters_zero, metrics := { m with model := RWSCAN_MODEL_TRW },
        data := data }
      = (true, { counters := { flows := 4, dips := 4, hits := 0, misses := 4, syns := 4,
                               bs := 0, floodresponse := 0, likelihood := 256 },
                 metrics := { calculate_shared_metrics (f1 :: f2 :: f3 :: f4 :: rest)
                      { m with model := RWSCAN_MODEL_TRW, scan_probability := 256 } with
                        event_class := EVENT_SCAN },
                 data := { data with
                   scanners := List.insert (rwRecGetSIPv4 f4) data.scanners } }) := by
    rw [trw_loop_cons, trw_count_syn_new _ _ _ _ _ y1 d1]
    simp only [e1, if_false, t10, t11, trw_counters_zero, eta1_val, eta0_val]
    norm_num [U32, RWSCAN_FLOW_CUTOFF]
    rw [trw_loop_cons, trw_count_syn_new _ _ _ _ _ y2 d2]
    simp only [e2, if_false, t10, t11, trw_counters_zero, eta1_val, eta0_val]
    norm_num [U32, RWSCAN_FLOW_CUTOFF]
    rw [trw_loop_cons, trw_count_syn_new _ _ _ _ _ y3 d3]
    simp only [e3, if_false, t10, t11, trw_counters_zero, eta1_val, eta0_val]
    norm_num [U32, RWSCAN_FLOW_CUTOFF]
    rw [trw_loop_cons, trw_count_syn_new _ _ _ _ _ y4 d4]
    simp only [e4, if_false, t10, t11, trw_counters_zero, eta1_val, eta0_val]
    norm_num [U32, RWSCAN_FLOW_CUTOFF]
  simp only [invoke_trw_model, ht, hres]
  simp

/-- Four bare-SYN flows to increasing destinations inside `existing` (helper
for C7): the loop returns at the fourth flow with the class BENIGN and the
likelihood `1/256`. -/
theorem invoke_trw_model_benign_four (opts : options_t K) (f1 f2 f3 f4 : rwRec)
    (rest : List rwRec) (m : event_metrics K) (data : trw_data)
    (h0 : opts.trw_theta0 = TRW_DEFAULT_THETA0) (h1 : opts.trw_theta1 = TRW_DEFAULT_THETA1)
    (hsize : m.event_size = (f1 :: f2 :: f3 :: f4 :: rest).length)
    (d1 : rwRecGetDIPv4 f1 ≠ 4294967295) (d2 : rwRecGetDIPv4 f2 ≠ rwRecGetDIPv4 f1)
    (d3 : rwRecGetDIPv4 f3 ≠ rwRecGetDIPv4 f2) (d4 : rwRecGetDIPv4 f4 ≠ rwRecGetDIPv4 f3)
    (y1 : rwRecGetFlags f1 &&& TCP_FLAGS_STATE = SYN_FLAG)
    (y2 : rwRecGetFlags f2 &&& TCP_FLAGS_STATE = SYN_FLAG)
    (y3 : rwRecGetFlags f3 &&& TCP_FLAGS_STATE = SYN_FLAG)
    (y4 : rwRecGetFlags f4 &&& TCP_FLAGS_STATE = SYN_FLAG)
    (e1 : rwRecGetDIPv4 f1 ∈ data.existing) (e2 : rwRecGetDIPv4 f2 ∈ data.existing)
    (e3 : rwRecGetDIPv4 f3 ∈ data.existing) (e4 : rwRecGetDIPv4 f4 ∈ data.existing) :
    invoke_trw_model opts (f1 :: f2 :: f3 :: f4 :: rest) m trw_counters_zero data
      = { counters := { flows := 4, dips := 4, hits := 4, misses := 0, syns := 4, bs := 0,
                        floodresponse := 0, likelihood := 1 / 256 },
          metrics := { m with model := RWSCAN_MODEL_TRW, scan_probability := 1 / 256,
                              event_class := EVENT_BENIGN },
          data := { data with benign := List.insert (rwRecGetSIPv4 f4) data.benign } } := by
  have t10 := default_theta_hit opts h0 h1
  have t11 := default_theta_miss opts h0 h1
  have ht : List.take m.event_size (f1 :: f2 :: f3 :: f4 :: rest)
      = f1 :: f2 :: f3 :: f4 :: rest := by rw [hsize, List.take_length]
  have hres : trw_loop opts (f1 :: f2 :: f3 :: f4 :: rest) (f1 :: f2 :: f3 :: f4 :: rest)
      0 0xffffffff
      { counters := trw_counters_zero, metrics := { m with model := RWSCAN_MODEL_TRW },
        data := data }
      = (true, { counters := { flows := 4, dips := 4, hits := 4, misses := 0, syns := 4,
                               bs := 0, floodresponse := 0, likelihood := 1 / 256 },
                 metrics := { m with model := RWSCAN_MODEL_TRW, scan_probability := 1 / 256,
                                     event_class := EVENT_BENIGN },
                 data := { data with
                   benign := List.insert (rwRecGetSIPv4 f4) data.benign } }) := by
    rw [trw_loop_cons, trw_count_syn_new _ _ _ _ _ y1 d1]
    simp only [e1, if_true, t10, t11, trw_counters_zero, eta1_val, eta0_val]
    norm_num [U32, RWSCAN_FLOW_CUTOFF]
    rw [trw_loop_cons, trw_count_syn_new _ _ _ _ _ y2 d2]
    simp only [e2, if_true, t10, t11, trw_counters_zero, eta1_val, eta0_val]
    norm_num [U32, RWSCAN_FLOW_CUTOFF]
    rw [trw_loop_cons, trw_count_syn_new _ _ _ _ _ y3 d3]
    simp only [e3, if_true, t10, t11, trw_counters_zero, eta1_val, eta0_val]
    norm_num [U32, RWSCAN_FLOW_CUTOFF]
    rw [trw_loop_cons, trw_count_syn_new _ _ _ _ _ y4 d4]
    simp only [e4, if_true, t10, t11, trw_counters_zero, eta1_val, eta0_val]
    norm_num [U32, RWSCAN_FLOW_CUTOFF]
  simp only [invoke_trw_model, ht, hres]
  simp

end TrwFourFlows
section TrwDecisions
variable {K : Type} [LinearOrderedField K]
open EventClassification ScanModel

/-- When TRW classifies a TCP event as SCAN, FLOOD or BACKSCATTER, the worker
does not run BLR: the verdict of TRW is the result of the classifier chain. -/
theorem worker_classify_trw_final (exp : K → K)
    (qsort : (rwRec → rwRec → Int) → List rwRec → List rwRec)
    (opts : options_t K) (w : worker_thread_data K) (data : trw_data)
    (hp : w.metrics.protocol = IPPROTO_TCP)
    (hm : opts.scan_model = RWSCAN_MODEL_HYBRID ∨ opts.scan_model = RWSCAN_MODEL_TRW)
    (hc : (invoke_trw_model opts w.flows w.metrics trw_counters_zero data).metrics.event_class
            = EVENT_SCAN
        ∨ (invoke_trw_model opts w.flows w.metrics trw_counters_zero data).metrics.event_class
            = EVENT_FLOOD
        ∨ (invoke_trw_model opts w.flows w.metrics trw_counters_zero data).metrics.event_class
            = EVENT_BACKSCATTER) :
    worker_classify exp qsort opts w data
      = some ((invoke_trw_model opts w.flows w.metrics trw_counters_zero data).metrics,
              (invoke_trw_model opts w.flows w.metrics trw_counters_zero data).data) := by
  unfold worker_classify
  simp only [hp, hm, and_self, if_true]
  rw [if_neg]
  rintro ⟨⟨n1, n2, n3⟩, -⟩
  rcases hc with hc | hc | hc
  · exact n1 hc
  · exact n2 hc
  · exact n3 hc

/-- C6: with the default values of theta and the scan model HYBRID or TRW, a
TCP event of at least four flows, sorted by strictly increasing destination
address, every flow a bare SYN (of the flags FIN, SYN, RST, ACK only SYN is
set), the first four destinations outside `existing`: `invoke_trw_model`
returns SCAN when it has counted exactly four flows, the scan probability is
`4^4 = 256`, the source address is added to `scanners`, and the worker keeps
this verdict. -/
theorem trw_scan_at_fourth_flow (exp : K → K)
    (qsort : (rwRec → rwRec → Int) → List rwRec → List rwRec)
    (opts : options_t K) (flows : List rwRec) (m : event_metrics K) (data : trw_data)
    (h0 : opts.trw_theta0 = TRW_DEFAULT_THETA0) (h1 : opts.trw_theta1 = TRW_DEFAULT_THETA1)
    (hmodel : opts.scan_model = RWSCAN_MODEL_HYBRID ∨ opts.scan_model = RWSCAN_MODEL_TRW)
    (hproto : m.protocol = IPPROTO_TCP)
    (hsize : m.event_size = flows.length)
    (hwf : ∀ f ∈ flows, f.wf)
    (hsip : ∀ f ∈ flows, rwRecGetSIPv4 f = m.sip)
    (hsorted : (flows.map rwRecGetDIPv4).Sorted (· < ·))
    (hsyn : ∀ f ∈ flows, rwRecGetFlags f &&& TCP_FLAGS_STATE = SYN_FLAG)
    (hlen : 4 ≤ flows.length)
    (hmiss : ∀ f ∈ flows.take 4, rwRecGetDIPv4 f ∉ data.existing) :
    (invoke_trw_model opts flows m trw_counters_zero data).metrics.event_class = EVENT_SCAN
    ∧ (invoke_trw_model opts flows m trw_counters_zero data).counters.flows = 4
    ∧ (invoke_trw_model opts flows m trw_counters_zero data).metrics.scan_probability = 4 ^ 4
    ∧ (invoke_trw_model opts flows m trw_counters_zero data).data
        = { data with scanners := List.insert m.sip data.scanners }
    ∧ worker_classify exp qsort opts { flows := flows, metrics := m } data
        = some ((invoke_trw_model opts flows m trw_counters_zero data).metrics,
                (invoke_trw_model opts flows m trw_counters_zero data).data) := by
  rcases flows with _ | ⟨f1, _ | ⟨f2, _ | ⟨f3, _ | ⟨f4, rest⟩⟩⟩⟩
  · simp at hlen
  · simp at hlen
  · simp at hlen
  · simp at hlen
  simp only [List.map_cons, List.sorted_cons, List.mem_cons, List.mem_map,
    forall_eq_or_imp] at hsorted
  simp only [List.mem_cons, forall_eq_or_imp] at hwf hsip hsyn
  simp only [List.take_succ_cons, List.take_zero, List.mem_cons, forall_eq_or_imp,
    List.not_mem_nil, false_imp_iff, implies_true, and_true] at hmiss
  obtain ⟨⟨s12, -⟩, ⟨s23, -⟩, ⟨s34, -⟩, -⟩ := hsorted
  obtain ⟨-, w2, -, -, -⟩ := hwf
  obtain ⟨-, -, -, p4, -⟩ := hsip
  obtain ⟨y1, y2, y3, y4, -⟩ := hsyn
  obtain ⟨e1, e2, e3, e4⟩ := hmiss
  have d1 : rwRecGetDIPv4 f1 ≠ 4294967295 := by
    have := w2.2.1
    unfold rwRecGetDIPv4 U32 at *
    omega
  have hres := invoke_trw_model_scan_four opts f1 f2 f3 f4 rest m data h0 h1 hsize d1
    (by omega) (by omega) (by omega) y1 y2 y3 y4 e1 e2 e3 e4
  have hclass : (invoke_trw_model opts (f1 :: f2 :: f3 :: f4 :: rest) m trw_counters_zero
      data).metrics.event_class = EVENT_SCAN := by rw [hres]
  refine ⟨hclass, by rw [hres], ?_, by rw [hres, p4], ?_⟩
  · rw [hres]; simp; norm_num
  · exact worker_classify_trw_final exp qsort opts _ data hproto hmodel (Or.inl hclass)

/-- C6 at five bare-SYN flows from address 9 to the addresses 1 to 5, none of
them known, under the model HYBRID. -/
theorem trw_scan_at_fourth_flow_witness :
    (invoke_trw_model (default_options RWSCAN_MODEL_HYBRID : options_t ℝ) sample_syn_event
        (sample_metrics 6 9 5) trw_counters_zero trw_data_empty).metrics.event_class
      = EVENT_SCAN
    ∧ (invoke_trw_model (default_options RWSCAN_MODEL_HYBRID : options_t ℝ) sample_syn_event
        (sample_metrics 6 9 5) trw_counters_zero trw_data_empty).counters.flows = 4
    ∧ (invoke_trw_model (default_options RWSCAN_MODEL_HYBRID : options_t ℝ) sample_syn_event
        (sample_metrics 6 9 5) trw_counters_zero trw_data_empty).metrics.scan_probability
      = 4 ^ 4 :=
  have h := trw_scan_at_fourth_flow Real.exp qsort_insertion
    (default_options RWSCAN_MODEL_HYBRID : options_t ℝ) sample_syn_event
    (sample_metrics 6 9 5) trw_data_empty rfl rfl (Or.inl rfl) rfl rfl
    (by decide) (by decide) (by decide) (by decide) (by decide) (by decide)
  ⟨h.1, h.2.1, h.2.2.1⟩

/-- C7: with the default values of theta, a TCP event of at least four flows,
sorted by strictly increasing destination address, every flow a bare SYN, the
first four destinations in `existing`: `invoke_trw_model` returns BENIGN when
it has counted exactly four flows, the scan probability is `(1/4)^4`, and the
source address is added to `benign`. -/
theorem trw_benign_at_fourth_flow
    (opts : options_t K) (flows : List rwRec) (m : event_metrics K) (data : trw_data)
    (h0 : opts.trw_theta0 = TRW_DEFAULT_THETA0) (h1 : opts.trw_theta1 = TRW_DEFAULT_THETA1)
    (hsize : m.event_size = flows.length)
    (hwf : ∀ f ∈ flows, f.wf)
    (hsip : ∀ f ∈ flows, rwRecGetSIPv4 f = m.sip)
    (hsorted : (flows.map rwRecGetDIPv4).Sorted (· < ·))
    (hsyn : ∀ f ∈ flows, rwRecGetFlags f &&& TCP_FLAGS_STATE = SYN_FLAG)
    (hlen : 4 ≤ flows.length)
    (hhit : ∀ f ∈ flows.take 4, rwRecGetDIPv4 f ∈ data.existing) :
    (invoke_trw_model opts flows m trw_counters_zero data).metrics.event_class = EVENT_BENIGN
    ∧ (invoke_trw_model opts flows m trw_counters_zero data).counters.flows = 4
    ∧ (invoke_trw_model opts flows m trw_counters_zero data).metrics.scan_probability
        = (1 / 4) ^ 4
    ∧ (invoke_trw_model opts flows m trw_counters_zero data).data
        = { data with benign := List.insert m.sip data.benign } := by
  rcases flows with _ | ⟨f1, _ | ⟨f2, _ | ⟨f3, _ | ⟨f4, rest⟩⟩⟩⟩
  · simp at hlen
  · simp at hlen
  · simp at hlen
  · simp at hlen
  simp only [List.map_cons, List.sorted_cons, List.mem_cons, List.mem_map,
    forall_eq_or_imp] at hsorted
  simp only [List.mem_cons, forall_eq_or_imp] at hwf hsip hsyn
  simp only [List.take_succ_cons, List.take_zero, List.mem_cons, forall_eq_or_imp,
    List.not_mem_nil, false_imp_iff, implies_true, and_true] at hhit
  obtain ⟨⟨s12, -⟩, ⟨s23, -⟩, ⟨s34, -⟩, -⟩ := hsorted
  obtain ⟨-, w2, -, -, -⟩ := hwf
  obtain ⟨-, -, -, p4, -⟩ := hsip
  obtain ⟨y1, y2, y3, y4, -⟩ := hsyn
  obtain ⟨e1, e2, e3, e4⟩ := hhit
  have d1 : rwRecGetDIPv4 f1 ≠ 4294967295 := by
    have := w2.2.1
    unfold rwRecGetDIPv4 U32 at *
    omega
  have hres := invoke_trw_model_benign_four opts f1 f2 f3 f4 rest m data h0 h1 hsize d1
    (by omega) (by omega) (by omega) y1 y2 y3 y4 e1 e2 e3 e4
  refine ⟨by rw [hres], by rw [hres], ?_, by rw [hres, p4]⟩
  rw [hres]; norm_num

/-- C7 at five bare-SYN flows from address 9 to the addresses 1 to 5, all of
them known. -/
theorem trw_benign_at_fourth_flow_witness :
    (invoke_trw_model (default_options RWSCAN_MODEL_HYBRID : options_t ℝ) sample_syn_event
        (sample_metrics 6 9 5) trw_counters_zero
        { existing := [1, 2, 3, 4, 5], benign := [], scanners := [] }).metrics.event_class
      = EVENT_BENIGN
    ∧ (invoke_trw_model (default_options RWSCAN_MODEL_HYBRID : options_t ℝ) sample_syn_event
        (sample_metrics 6 9 5) trw_counters_zero
        { existing := [1, 2, 3, 4, 5], benign := [], scanners := [] }).metrics.scan_probability
      = (1 / 4) ^ 4 :=
  have h := trw_benign_at_fourth_flow
    (default_options RWSCAN_MODEL_HYBRID : options_t ℝ) sample_syn_event
    (sample_metrics 6 9 5) { existing := [1, 2, 3, 4, 5], benign := [], scanners := [] }
    rfl rfl rfl (by decide) (by decide) (by decide) (by decide) (by decide) (by decide)
  ⟨h.1, h.2.2.1⟩

end TrwDecisions

section TrwBackscatter
variable {K : Type} [LinearOrderedField K]
open EventClassification ScanModel

/-- A list of addresses that are all `d` has no change after `d`. -/
theorem dip_changes_same (d : Nat) (l : List Nat) (h : ∀ x ∈ l, x = d) :
    dip_changes d l = 0 := by
  induction l with
  | nil => rfl
  | cons x t ih =>
    have hx : x = d := h x (List.mem_cons_self _ _)
    subst hx
    rw [dip_changes, ih (fun y hy => h y (List.mem_cons_of_mem _ hy))]
    simp

/-- A list of addresses that are all `d` has at most one change. -/
theorem dip_changes_const (d : Nat) (l : List Nat) (h : ∀ x ∈ l, x = d) (prev : Nat) :
    dip_changes prev l ≤ 1 := by
  rcases l with _ | ⟨x, t⟩
  · simp [dip_changes]
  · have hx : x = d := h x (List.mem_cons_self _ _)
    subst hx
    rw [dip_changes, dip_changes_same x t (fun y hy => h y (List.mem_cons_of_mem _ hy))]
    split_ifs <;> omega

/-- The cutoff at work: when the first 100002 flows of an event all have the
backscatter pattern and one destination, `invoke_trw_model` returns UNKNOWN
whatever the flows after them are. -/
theorem invoke_trw_model_cutoff_unknown (opts : options_t K) (flows : List rwRec)
    (m : event_metrics K) (data : trw_data) (d : Nat)
    (hsize : m.event_size = flows.length)
    (hall : ∀ f ∈ flows.take (RWSCAN_FLOW_CUTOFF + 2),
      bs_flags (rwRecGetFlags f) ∧ rwRecGetDIPv4 f = d)
    (hlen : RWSCAN_FLOW_CUTOFF + 2 ≤ flows.length) :
    (invoke_trw_model opts flows m trw_counters_zero data).metrics.event_class
      = EVENT_UNKNOWN := by
  obtain ⟨c, h1, h2, h3, h4, h5⟩ := trw_loop_bs opts flows flows 0 0xffffffff
    { counters := trw_counters_zero, metrics := { m with model := RWSCAN_MODEL_TRW },
      data := data }
    (fun f hf => (hall f hf).1) (by simp) rfl rfl rfl (Nat.le_refl 0)
  simp only [RWSCAN_FLOW_CUTOFF, trw_counters_zero, zero_add, Nat.sub_zero] at h2 h5 hlen hall
  have hd : c.dips ≤ 1 := by
    rw [h5]
    apply dip_changes_const d
    intro x hx
    obtain ⟨f, hf, rfl⟩ := List.mem_map.mp hx
    exact (hall f hf).2
  have hfl : c.flows = 100002 := by rw [h2]; omega
  have hfin : trw_final c = EVENT_UNKNOWN := by
    unfold trw_final
    rw [if_neg (by omega)]
    rw [if_neg]
    rintro ⟨-, hh, -, -⟩
    rw [h4, hfl] at hh
    norm_num at hh
  have ht : List.take m.event_size flows = flows := by rw [hsize, List.take_length]
  simp only [invoke_trw_model, ht, h1]
  simp [hfin]

theorem sample_backscatter_length (n : Nat) : (sample_backscatter n).length = n + 3 := by
  simp [sample_backscatter]

theorem sample_backscatter_flags (n : Nat) :
    ∀ f ∈ sample_backscatter n, bs_flags (rwRecGetFlags f) := by
  intro f hf
  simp only [sample_backscatter, List.mem_append, List.mem_replicate, List.mem_cons,
    List.not_mem_nil, or_false] at hf
  rcases hf with ⟨-, rfl⟩ | rfl | rfl | rfl <;> decide

theorem sample_backscatter_wf (n : Nat) : ∀ f ∈ sample_backscatter n, f.wf := by
  intro f hf
  simp only [sample_backscatter, List.mem_append, List.mem_replicate, List.mem_cons,
    List.not_mem_nil, or_false] at hf
  rcases hf with ⟨-, rfl⟩ | rfl | rfl | rfl <;> decide

theorem sample_backscatter_sorted (n : Nat) :
    ((sample_backscatter n).map rwRecGetDIPv4).Sorted (· ≤ ·) := by
  simp only [sample_backscatter, List.map_append, List.map_replicate, List.map_cons,
    List.map_nil, List.Sorted, List.pairwise_append, List.pairwise_replicate]
  refine ⟨Or.inr (le_refl _), by decide, ?_⟩
  intro a ha b hb
  rw [List.mem_replicate] at ha
  rw [ha.2]
  simp only [List.mem_cons, List.not_mem_nil, or_false] at hb
  rcases hb with rfl | rfl | rfl <;> decide

theorem sample_backscatter_card (n : Nat) (hn : 0 < n) :
    ((sample_backscatter n).map rwRecGetDIPv4).toFinset.card = 4 := by
  have : ((sample_backscatter n).map rwRecGetDIPv4).toFinset = {1, 2, 3, 4} := by
    ext x
    simp only [sample_backscatter, List.map_append, List.map_replicate, List.map_cons,
      List.map_nil, List.toFinset_append, List.toFinset_cons, List.toFinset_nil,
      Finset.mem_union, List.mem_toFinset, List.mem_replicate, Finset.mem_insert,
      Finset.mem_singleton]
    have h1 : rwRecGetDIPv4 (sample_flow 9 1 6 4) = 1 := rfl
    have h2 : rwRecGetDIPv4 (sample_flow 9 2 6 4) = 2 := rfl
    have h3 : rwRecGetDIPv4 (sample_flow 9 3 6 4) = 3 := rfl
    have h4 : rwRecGetDIPv4 (sample_flow 9 4 6 4) = 4 := rfl
    rw [h1, h2, h3, h4]
    simp [Nat.pos_iff_ne_zero.mp hn]
  rw [this]
  rfl

/-- Under the models HYBRID and TRW the worker reports a TCP event that TRW
classifies as BACKSCATTER by bumping `summary.backscatter` and nothing else. -/
theorem worker_event_backscatter (exp : K → K)
    (qsort : (rwRec → rwRec → Int) → List rwRec → List rwRec)
    (opts : options_t K) (w : worker_thread_data K) (ws : worker_state K)
    (hp : w.metrics.protocol = IPPROTO_TCP)
    (hm : opts.scan_model = RWSCAN_MODEL_HYBRID ∨ opts.scan_model = RWSCAN_MODEL_TRW)
    (hc : (invoke_trw_model opts w.flows w.metrics trw_counters_zero ws.data).metrics
        = { w.metrics with model := RWSCAN_MODEL_TRW, event_class := EVENT_BACKSCATTER })
    (hd : (invoke_trw_model opts w.flows w.metrics trw_counters_zero ws.data).data = ws.data) :
    worker_classify exp qsort opts w ws.data
        = some ({ w.metrics with model := RWSCAN_MODEL_TRW,
                                 event_class := EVENT_BACKSCATTER }, ws.data)
    ∧ worker_event exp qsort opts ws w
        = some { ws with summary :=
            { ws.summary with backscatter := (ws.summary.backscatter + 1) % U32 } } := by
  have h := worker_classify_trw_final exp qsort opts w ws.data hp hm
    (Or.inr (Or.inr (by rw [hc])))
  rw [hc, hd] at h
  refine ⟨h, ?_⟩
  unfold worker_event
  rw [h]
  simp [worker_report]

/-- C8 as amended: a TCP event sorted by destination address whose flows all
have the flag byte `RST`, `SYN|ACK` or `RST|ACK`, with more than 100 flows and
more than 3 distinct destination addresses among its first 100000 flows (the
cutoff of TRW) is classified BACKSCATTER by `invoke_trw_model`; under the
models HYBRID and TRW the worker then skips BLR (the model tag stays TRW),
writes no row and increments `summary.backscatter` only. -/
theorem trw_backscatter (exp : K → K)
    (qsort : (rwRec → rwRec → Int) → List rwRec → List rwRec)
    (opts : options_t K) (flows : List rwRec) (m : event_metrics K) (ws : worker_state K)
    (hmodel : opts.scan_model = RWSCAN_MODEL_HYBRID ∨ opts.scan_model = RWSCAN_MODEL_TRW)
    (hproto : m.protocol = IPPROTO_TCP)
    (hsize : m.event_size = flows.length)
    (hwf : ∀ f ∈ flows, f.wf)
    (hsorted : (flows.map rwRecGetDIPv4).Sorted (· ≤ ·))
    (hbs : ∀ f ∈ flows, bs_flags (rwRecGetFlags f))
    (hlen : 100 < flows.length)
    (hdips : 3 < ((flows.take RWSCAN_FLOW_CUTOFF).map rwRecGetDIPv4).toFinset.card) :
    (invoke_trw_model opts flows m trw_counters_zero ws.data).metrics.event_class
        = EVENT_BACKSCATTER
    ∧ worker_classify exp qsort opts { flows := flows, metrics := m } ws.data
        = some ({ m with model := RWSCAN_MODEL_TRW, event_class := EVENT_BACKSCATTER },
                ws.data)
    ∧ worker_event exp qsort opts ws { flows := flows, metrics := m }
        = some { ws with summary :=
            { ws.summary with backscatter := (ws.summary.backscatter + 1) % U32 } } := by
  obtain ⟨h1, h2⟩ := invoke_trw_model_backscatter opts flows m ws.data hsize hwf hsorted hbs
    hlen hdips
  obtain ⟨h3, h4⟩ := worker_event_backscatter exp qsort opts { flows := flows, metrics := m }
    ws hproto hmodel h1 h2
  exact ⟨by rw [h1], h3, h4⟩

/-- C8 as amended at an event of 101 `RST` flows to four destinations. -/
theorem trw_backscatter_witness :
    (invoke_trw_model (default_options RWSCAN_MODEL_HYBRID : options_t ℝ)
        (sample_backscatter 98) (sample_metrics 6 9 101) trw_counters_zero
        trw_data_empty).metrics.event_class = EVENT_BACKSCATTER
    ∧ worker_event Real.exp qsort_insertion (default_options RWSCAN_MODEL_HYBRID)
        worker_state_zero { flows := sample_backscatter 98, metrics := sample_metrics 6 9 101 }
      = some { (worker_state_zero : worker_state ℝ) with summary :=
          { summary_zero with backscatter := (summary_zero.backscatter + 1) % U32 } } :=
  have h := trw_backscatter Real.exp qsort_insertion
    (default_options RWSCAN_MODEL_HYBRID : options_t ℝ) (sample_backscatter 98)
    (sample_metrics 6 9 101) worker_state_zero (Or.inl rfl) rfl
    (by rw [sample_backscatter_length]; rfl)
    (sample_backscatter_wf 98) (sample_backscatter_sorted 98) (sample_backscatter_flags 98)
    (by rw [sample_backscatter_length]; decide)
    (by
      rw [List.take_of_length_le (by rw [sample_backscatter_length]; decide),
        sample_backscatter_card 98 (by decide)]
      decide)
  ⟨h.1, h.2.2⟩

/-- C8 as stated fails beyond the cutoff: 100002 `RST` flows to one address
followed by one flow to each of three more addresses are sorted, have the
backscatter pattern throughout, more than 100 flows and 4 distinct
destinations, and `invoke_trw_model` returns UNKNOWN. -/
theorem trw_backscatter_beyond_cutoff :
    (∀ f ∈ sample_backscatter 100002, bs_flags (rwRecGetFlags f))
    ∧ ((sample_backscatter 100002).map rwRecGetDIPv4).Sorted (· ≤ ·)
    ∧ 100 < (sample_backscatter 100002).length
    ∧ 3 < ((sample_backscatter 100002).map rwRecGetDIPv4).toFinset.card
    ∧ (invoke_trw_model (default_options RWSCAN_MODEL_HYBRID : options_t ℚ)
        (sample_backscatter 100002) (sample_metrics 6 9 100005) trw_counters_zero
        trw_data_empty).metrics.event_class = EVENT_UNKNOWN := by
  refine ⟨sample_backscatter_flags _, sample_backscatter_sorted _,
    by rw [sample_backscatter_length]; decide,
    by rw [sample_backscatter_card _ (by decide)]; decide, ?_⟩
  apply invoke_trw_model_cutoff_unknown _ _ _ _ 1
  · rw [sample_backscatter_length]; rfl
  · intro f hf
    have ht : (sample_backscatter 100002).take (RWSCAN_FLOW_CUTOFF + 2)
        = List.replicate 100002 (sample_flow 9 1 6 4) :=
      List.take_left' (by rw [List.length_replicate]; rfl)
    rw [ht, List.mem_replicate] at hf
    rw [hf.2]
    exact ⟨by decide, rfl⟩
  · rw [sample_backscatter_length]; decide

end TrwBackscatter
section TrwFlood
variable {K : Type} [LinearOrderedField K]
open EventClassification ScanModel

theorem sample_flood_length (n k : Nat) : (sample_flood n k).length = n + k := by
  simp [sample_flood]

theorem sample_flood_flows (n k : Nat) :
    ∀ f ∈ sample_flood n k, rwRecGetDIPv4 f = 1
      ∧ (rwRecGetFlags f = SYN_FLAG ∨ flood_flags (rwRecGetFlags f)) := by
  intro f hf
  simp only [sample_flood, List.mem_append, List.mem_replicate] at hf
  rcases hf with ⟨-, rfl⟩ | ⟨-, rfl⟩ <;> decide

theorem sample_flood_syns (n k : Nat) :
    (sample_flood n k).countP (fun f => decide (rwRecGetFlags f = SYN_FLAG)) = k := by
  simp only [sample_flood, List.countP_append, List.countP_replicate]
  have h1 : decide (rwRecGetFlags (sample_flow 9 1 6 4) = SYN_FLAG) = false := by decide
  have h2 : decide (rwRecGetFlags (sample_flow 9 1 6 2) = SYN_FLAG) = true := by decide
  simp [h1, h2]

/-- C9 as amended: with the default values of theta, a TCP event of more than
10 and at most 100000 flows (the cutoff of TRW), all to one destination
address other than 255.255.255.255, every flow a bare SYN (flag byte `SYN`) or
a flood response (flag byte `RST`, `SYN|RST` or `RST|ACK`), at least half of
the flows bare SYNs, is classified FLOOD by `invoke_trw_model`, in whatever
order the flows come. -/
theorem trw_flood (opts : options_t K) (flows : List rwRec) (m : event_metrics K)
    (data : trw_data) (d : Nat)
    (h0 : opts.trw_theta0 = TRW_DEFAULT_THETA0) (h1 : opts.trw_theta1 = TRW_DEFAULT_THETA1)
    (hsize : m.event_size = flows.length)
    (hd : d ≠ 0xffffffff)
    (hall : ∀ f ∈ flows, rwRecGetDIPv4 f = d
      ∧ (rwRecGetFlags f = SYN_FLAG ∨ flood_flags (rwRecGetFlags f)))
    (hlen : 10 < flows.length) (hcut : flows.length ≤ RWSCAN_FLOW_CUTOFF)
    (hsyn : flows.length ≤ 2 * flows.countP (fun f => decide (rwRecGetFlags f = SYN_FLAG))) :
    (invoke_trw_model opts flows m trw_counters_zero data).metrics.event_class
      = EVENT_FLOOD := by
  rw [(invoke_trw_model_flood opts flows m data d h0 h1 hsize hd hall hlen hcut hsyn).1]

/-- C9 as amended at an event of 5 `RST` flows followed by 6 bare-SYN flows to
address 1. -/
theorem trw_flood_witness :
    (invoke_trw_model (default_options RWSCAN_MODEL_HYBRID : options_t ℝ) (sample_flood 5 6)
        (sample_metrics 6 9 11) trw_counters_zero trw_data_empty).metrics.event_class
      = EVENT_FLOOD :=
  trw_flood (default_options RWSCAN_MODEL_HYBRID : options_t ℝ) (sample_flood 5 6)
    (sample_metrics 6 9 11) trw_data_empty 1 rfl rfl
    (by rw [sample_flood_length]; rfl) (by decide) (sample_flood_flows 5 6)
    (by rw [sample_flood_length]; decide) (by rw [sample_flood_length]; decide)
    (by rw [sample_flood_length, sample_flood_syns]; decide)

/-- C9 as stated fails beyond the cutoff: 100002 `RST` flows followed by 100002
bare-SYN flows, all to address 1, are more than 10 flows to one destination,
each a bare SYN or a flood response, half of them bare SYNs, and
`invoke_trw_model` returns UNKNOWN: it stops counting before the first SYN. -/
theorem trw_flood_beyond_cutoff :
    10 < (sample_flood 100002 100002).length
    ∧ (∀ f ∈ sample_flood 100002 100002, rwRecGetDIPv4 f = 1
        ∧ (rwRecGetFlags f = SYN_FLAG ∨ flood_flags (rwRecGetFlags f)))
    ∧ (sample_flood 100002 100002).length
        ≤ 2 * (sample_flood 100002 100002).countP
            (fun f => decide (rwRecGetFlags f = SYN_FLAG))
    ∧ (invoke_trw_model (default_options RWSCAN_MODEL_HYBRID : options_t ℚ)
        (sample_flood 100002 100002) (sample_metrics 6 9 200004) trw_counters_zero
        trw_data_empty).metrics.event_class = EVENT_UNKNOWN := by
  refine ⟨by rw [sample_flood_length]; decide, sample_flood_flows _ _,
    by rw [sample_flood_length, sample_flood_syns], ?_⟩
  apply invoke_trw_model_cutoff_unknown _ _ _ _ 1
  · rw [sample_flood_length]; rfl
  · intro f hf
    have ht : (sample_flood 100002 100002).take (RWSCAN_FLOW_CUTOFF + 2)
        = List.replicate 100002 (sample_flow 9 1 6 4) :=
      List.take_left' (by rw [List.length_replicate]; rfl)
    rw [ht, List.mem_replicate] at hf
    rw [hf.2]
    exact ⟨by decide, rfl⟩
  · rw [sample_flood_length]; decide

end TrwFlood

section BlrFrame
variable {K : Type} [LinearOrderedField K]
open EventClassification ScanModel

theorem same_tag_refl (m : event_metrics K) : same_tag m m :=
  ⟨rfl, rfl, rfl, rfl, rfl, rfl, rfl, rfl⟩

theorem same_tag_trans {m m1 m2 : event_metrics K} (h1 : same_tag m m1)
    (h2 : same_tag m1 m2) : same_tag m m2 := by
  obtain ⟨a1, a2, a3, a4, a5, a6, a7, a8⟩ := h1
  obtain ⟨b1, b2, b3, b4, b5, b6, b7, b8⟩ := h2
  exact ⟨b1.trans a1, b2.trans a2, b3.trans a3, b4.trans a4, b5.trans a5, b6.trans a6,
    b7.trans a7, b8.trans a8⟩

theorem calculate_shared_metrics_tag (flows : List rwRec) (m : event_metrics K) :
    same_tag m (calculate_shared_metrics flows m) := by
  obtain ⟨a, b, c, d, e, h⟩ := calculate_shared_metrics_frame flows m
  rw [h]
  exact ⟨rfl, rfl, rfl, rfl, rfl, rfl, rfl, rfl⟩

theorem increment_icmp_counters_tag (rw : rwRec) (m : event_metrics K) :
    same_tag m (increment_icmp_counters rw m) := by
  unfold increment_icmp_counters
  dsimp only
  split_ifs <;> exact ⟨rfl, rfl, rfl, rfl, rfl, rfl, rfl, rfl⟩

theorem increment_tcp_counters_tag (rw : rwRec) (m m1 : event_metrics K)
    (h : increment_tcp_counters rw m = some m1) : same_tag m m1 := by
  unfold increment_tcp_counters at h
  dsimp only at h
  split_ifs at h <;> cases h <;> exact ⟨rfl, rfl, rfl, rfl, rfl, rfl, rfl, rfl⟩

theorem increment_udp_counters_tag (rw : rwRec) (m m1 : event_metrics K)
    (h : increment_udp_counters rw m = some m1) : same_tag m m1 := by
  unfold increment_udp_counters at h
  dsimp only at h
  split_ifs at h <;> cases h <;> exact ⟨rfl, rfl, rfl, rfl, rfl, rfl, rfl, rfl⟩

/-- On a record that carries a packet `increment_tcp_counters` returns. -/
theorem increment_tcp_counters_some (rw : rwRec) (m : event_metrics K)
    (h : 1 ≤ rwRecGetPkts rw) : ∃ m1, increment_tcp_counters rw m = some m1 := by
  have h0 : ¬ (rwRecGetPkts rw = 0) := by omega
  unfold increment_tcp_counters
  dsimp only
  rw [if_neg h0]
  exact ⟨_, rfl⟩

/-- On a record that carries a packet `increment_udp_counters` returns. -/
theorem increment_udp_counters_some (rw : rwRec) (m : event_metrics K)
    (h : 1 ≤ rwRecGetPkts rw) : ∃ m1, increment_udp_counters rw m = some m1 := by
  have h0 : ¬ (rwRecGetPkts rw = 0) := by omega
  unfold increment_udp_counters
  dsimp only
  rw [if_neg h0]
  split_ifs <;> exact ⟨_, rfl⟩

/-- On a record without packets `increment_tcp_counters` divides by zero. -/
theorem increment_tcp_counters_none (rw : rwRec) (m : event_metrics K)
    (h : rwRecGetPkts rw = 0) : increment_tcp_counters rw m = none := by
  unfold increment_tcp_counters
  dsimp only
  rw [if_pos h]

/-- On a record without packets `increment_udp_counters` divides by zero. -/
theorem increment_udp_counters_none (rw : rwRec) (m : event_metrics K)
    (h : rwRecGetPkts rw = 0) : increment_udp_counters rw m = none := by
  unfold increment_udp_counters
  dsimp only
  rw [if_pos h]

/-- The per-flow counting of BLR, when it ends normally, leaves header and
verdict alone. -/
theorem blr_count_tag (l : List rwRec) :
    ∀ m m1 : event_metrics K, blr_count l m = some m1 → same_tag m m1 := by
  induction l with
  | nil =>
    intro m m1 h
    simp only [blr_count, Option.some.injEq] at h
    subst h
    exact same_tag_refl m
  | cons x t ih =>
    intro m m1 h
    unfold blr_count at h
    split_ifs at h
    · exact same_tag_trans (increment_icmp_counters_tag x m) (ih _ _ h)
    · cases hc : increment_tcp_counters x m with
      | none => rw [hc] at h; exact absurd h (by simp)
      | some m2 =>
        rw [hc] at h
        exact same_tag_trans (increment_tcp_counters_tag x m m2 hc) (ih _ _ h)
    · cases hc : increment_udp_counters x m with
      | none => rw [hc] at h; exact absurd h (by simp)
      | some m2 =>
        rw [hc] at h
        exact same_tag_trans (increment_udp_counters_tag x m m2 hc) (ih _ _ h)

/-- The per-flow counting of BLR ends normally on flows of the three protocols
whose TCP and UDP records carry a packet each. -/
theorem blr_count_some (l : List rwRec) :
    ∀ m : event_metrics K, (∀ f ∈ l, accepted_proto (rwRecGetProto f)) →
    (∀ f ∈ l, rwRecGetProto f ≠ IPPROTO_ICMP → 1 ≤ rwRecGetPkts f) →
    ∃ m1, blr_count l m = some m1 := by
  induction l with
  | nil => intro m _ _; exact ⟨m, rfl⟩
  | cons x t ih =>
    intro m h hp
    have hx := h x (List.mem_cons_self _ _)
    have ht : ∀ f ∈ t, accepted_proto (rwRecGetProto f) :=
      fun f hf => h f (List.mem_cons_of_mem _ hf)
    have hpt : ∀ f ∈ t, rwRecGetProto f ≠ IPPROTO_ICMP → 1 ≤ rwRecGetPkts f :=
      fun f hf => hp f (List.mem_cons_of_mem _ hf)
    unfold blr_count
    by_cases h1 : rwRecGetProto x = IPPROTO_ICMP
    · rw [if_pos h1]
      exact ih (increment_icmp_counters x m) ht hpt
    · rw [if_neg h1]
      have hpx := hp x (List.mem_cons_self _ _) h1
      by_cases h2 : rwRecGetProto x = IPPROTO_TCP
      · rw [if_pos h2]
        obtain ⟨m2, e2⟩ := increment_tcp_counters_some x m hpx
        rw [e2]
        exact ih m2 ht hpt
      · rw [if_neg h2]
        have h3 : rwRecGetProto x = IPPROTO_UDP := by
          rcases hx with hx | hx | hx
          · exact absurd hx h1
          · exact absurd hx h2
          · exact hx
        rw [if_pos h3]
        obtain ⟨m2, e2⟩ := increment_udp_counters_some x m hpx
        rw [e2]
        exact ih m2 ht hpt

/-- The per-flow counting of BLR has no result when one of the flows is a TCP
or UDP record without packets: either an earlier record ends the program, or
the division by zero at that record does. -/
theorem blr_count_none (l : List rwRec) :
    ∀ m : event_metrics K,
    (∃ f ∈ l, (rwRecGetProto f = IPPROTO_TCP ∨ rwRecGetProto f = IPPROTO_UDP)
      ∧ rwRecGetPkts f = 0) →
    blr_count l m = none := by
  induction l with
  | nil =>
    intro m h
    obtain ⟨f, hf, -⟩ := h
    exact absurd hf (List.not_mem_nil _)
  | cons x t ih =>
    intro m h
    obtain ⟨f, hf, hproto, hpk⟩ := h
    unfold blr_count
    rcases List.mem_cons.mp hf with hfx | hft
    · subst hfx
      have h1 : ¬ (rwRecGetProto f = IPPROTO_ICMP) := by
        rcases hproto with hq | hq <;> rw [hq] <;> decide
      rw [if_neg h1]
      rcases hproto with hq | hq
      · rw [if_pos hq, increment_tcp_counters_none f m hpk]
      · have h2 : ¬ (rwRecGetProto f = IPPROTO_TCP) := by rw [hq]; decide
        rw [if_neg h2, if_pos hq, increment_udp_counters_none f m hpk]
    · have hrest : ∀ m2 : event_metrics K, blr_count t m2 = none :=
        fun m2 => ih m2 ⟨f, hft, hproto, hpk⟩
      split_ifs
      · exact hrest _
      · cases increment_tcp_counters x m with
        | none => rfl
        | some m2 => exact hrest m2
      · cases increment_udp_counters x m with
        | none => rfl
        | some m2 => exact hrest m2
      · rfl

theorem icmp_body_tag (s : icmp_state K) (rw : rwRec) (nx : Option rwRec) :
    same_tag s.metrics (icmp_body s rw nx).metrics := by
  unfold icmp_body
  rcases nx with _ | n <;> dsimp only <;> split_ifs <;>
    exact ⟨rfl, rfl, rfl, rfl, rfl, rfl, rfl, rfl⟩

theorem icmp_loop_tag (l : List rwRec) :
    ∀ s : icmp_state K, same_tag s.metrics (icmp_loop l s).metrics := by
  induction l with
  | nil => intro s; exact same_tag_refl _
  | cons x t ih =>
    intro s
    rw [icmp_loop]
    exact same_tag_trans (icmp_body_tag s x t.head?) (ih _)

theorem calculate_icmp_metrics_tag (flows : List rwRec) (m : event_metrics K) :
    same_tag m (calculate_icmp_metrics flows m) := by
  unfold calculate_icmp_metrics
  dsimp only
  have h1 := calculate_shared_metrics_tag flows m
  have h2 := icmp_loop_tag (flows.take (calculate_shared_metrics flows m).event_size)
    ({ metrics := calculate_shared_metrics flows m, class_c_next := 0, dip_next := 0,
       run := 1, max_run_curr := 1, class_c_run := 1, max_class_c_run := 1,
       class_c_dip_count := 1, max_class_c_dip_count := 1 } : icmp_state K)
  have h3 := same_tag_trans h1 h2
  obtain ⟨a1, a2, a3, a4, a5, a6, a7, a8⟩ := h3
  exact ⟨a1, a2, a3, a4, a5, a6, a7, a8⟩

theorem calculate_tcp_metrics_tag (flows : List rwRec) (m : event_metrics K) :
    same_tag m (calculate_tcp_metrics flows m) := by
  unfold calculate_tcp_metrics
  dsimp only
  refine same_tag_trans (calculate_shared_metrics_tag flows m) ?_
  exact ⟨rfl, rfl, rfl, rfl, rfl, rfl, rfl, rfl⟩

theorem udp_advance_metrics (s : udp_state K) (rw : rwRec) (nx : Option rwRec) :
    (udp_advance s rw nx).metrics = s.metrics := by
  unfold udp_advance
  rcases nx with _ | n <;> dsimp only <;> split_ifs <;> rfl

theorem udp_low_ports_tag (s : udp_state K) (rw : rwRec) (d : Nat) :
    same_tag s.metrics (udp_low_ports s rw d).metrics := by
  unfold udp_low_ports
  by_cases h : d ≠ s.dip_next
  · rw [if_pos h]
    generalize List.foldl (port_run_body s.low_dp_bitmap)
      (0, s.metrics.udp.max_low_port_run_length) (List.range 1024) = pr
    dsimp only
    split_ifs <;> exact ⟨rfl, rfl, rfl, rfl, rfl, rfl, rfl, rfl⟩
  · rw [if_neg h]
    exact same_tag_refl _

theorem udp_class_c_tag (s : udp_state K) (c : Nat) :
    same_tag s.metrics (udp_class_c s c).metrics := by
  unfold udp_class_c
  dsimp only
  split_ifs <;> exact ⟨rfl, rfl, rfl, rfl, rfl, rfl, rfl, rfl⟩

theorem udp_body_tag (s : udp_state K) (rw : rwRec) (nx : Option rwRec) :
    same_tag s.metrics (udp_body s rw nx).metrics := by
  unfold udp_body
  dsimp only
  have h1 := udp_advance_metrics s rw nx
  have h2 := udp_low_ports_tag (udp_advance s rw nx) rw s.dip_next
  have h3 := udp_class_c_tag (udp_low_ports (udp_advance s rw nx) rw s.dip_next)
    s.class_c_next
  rw [h1] at h2
  exact same_tag_trans h2 h3

theorem udp_loop_tag (l : List rwRec) :
    ∀ s : udp_state K, same_tag s.metrics (udp_loop l s).metrics := by
  induction l with
  | nil => intro s; exact same_tag_refl _
  | cons x t ih =>
    intro s
    rw [udp_loop]
    exact same_tag_trans (udp_body_tag s x t.head?) (ih _)

theorem calculate_udp_metrics_tag (flows : List rwRec) (m : event_metrics K) :
    same_tag m (calculate_udp_metrics flows m) := by
  unfold calculate_udp_metrics
  dsimp only
  have h1 := calculate_shared_metrics_tag flows m
  have h2 := udp_loop_tag (flows.take (calculate_shared_metrics flows m).event_size)
    ({ metrics := calculate_shared_metrics flows m
       low_dp_bitmap := skBitmapSetBit (skBitmapCreate 1024)
         (rwRecGetDPort (flows.headD RWREC_CLEAR))
       sp_bitmap := skBitmapCreate UINT16_MAX
       dip_next := rwRecGetDIPv4 (flows.headD RWREC_CLEAR)
       class_c_next := rwRecGetDIPv4 (flows.headD RWREC_CLEAR) &&& 0xFFFFFF00
       subnet_run := 1, max_subnet_run := 1 } : udp_state K)
  have h3 := same_tag_trans h1 h2
  obtain ⟨a1, a2, a3, a4, a5, a6, a7, a8⟩ := h3
  exact ⟨a1, a2, a3, a4, a5, a6, a7, a8⟩

end BlrFrame

section WorkerChain
variable {K : Type} [LinearOrderedField K]
open EventClassification ScanModel

/-- The three scorers store the logistic value of their linear score and keep
the model tag. -/
theorem calculate_icmp_scan_probability_spec (exp : K → K) (m : event_metrics K) :
    (calculate_icmp_scan_probability exp m).scan_probability
        = exp (icmp_score m) / (1.0 + exp (icmp_score m))
    ∧ (calculate_icmp_scan_probability exp m).model = m.model := by
  unfold calculate_icmp_scan_probability
  dsimp only
  split_ifs <;> exact ⟨rfl, rfl⟩

theorem calculate_tcp_scan_probability_spec (exp : K → K) (m : event_metrics K) :
    (calculate_tcp_scan_probability exp m).scan_probability
        = exp (tcp_score m) / (1.0 + exp (tcp_score m))
    ∧ (calculate_tcp_scan_probability exp m).model = m.model := by
  unfold calculate_tcp_scan_probability
  dsimp only
  split_ifs <;> exact ⟨rfl, rfl⟩

theorem calculate_udp_scan_probability_spec (exp : K → K) (m : event_metrics K) :
    (calculate_udp_scan_probability exp m).scan_probability
        = exp (udp_score m) / (1.0 + exp (udp_score m))
    ∧ (calculate_udp_scan_probability exp m).model = m.model := by
  unfold calculate_udp_scan_probability
  dsimp only
  split_ifs <;> exact ⟨rfl, rfl⟩

/-- The result of `invoke_blr_model`, when it has one, carries the model tag
BLR; either the event is small and class and scan probability are as before,
or the scan probability is the logistic value of some score. -/
theorem invoke_blr_model_spec (exp : K → K)
    (qsort : (rwRec → rwRec → Int) → List rwRec → List rwRec)
    (flows : List rwRec) (m m1 : event_metrics K)
    (h : invoke_blr_model exp qsort flows m = some m1) :
    m1.model = RWSCAN_MODEL_BLR
      ∧ ((m1.event_class = m.event_class ∧ m1.scan_probability = m.scan_probability)
        ∨ ∃ y, m1.scan_probability = exp y / (1.0 + exp y)) := by
  unfold invoke_blr_model at h
  dsimp only at h
  split_ifs at h with hsz
  · cases hc : blr_count (flows.take m.event_size)
        ({ m with model := RWSCAN_MODEL_BLR } : event_metrics K) with
    | none => rw [hc] at h; exact absurd h (by simp)
    | some mc =>
      rw [hc] at h
      have tm1 : mc.model = RWSCAN_MODEL_BLR := (blr_count_tag _ _ _ hc).2.2.2.2.2.2.2
      dsimp only at h
      split_ifs at h
      · rw [Option.some.injEq] at h
        subst h
        obtain ⟨q1, q2⟩ := calculate_icmp_scan_probability_spec exp
          (calculate_icmp_metrics
            (qsort_flows qsort rwrec_compare_dip_sport flows mc.event_size) mc)
        refine ⟨?_, Or.inr ⟨_, q1⟩⟩
        rw [q2, (calculate_icmp_metrics_tag _ mc).2.2.2.2.2.2.2, tm1]
      · rw [Option.some.injEq] at h
        subst h
        obtain ⟨q1, q2⟩ := calculate_tcp_scan_probability_spec exp
          (calculate_tcp_metrics
            (qsort_flows qsort rwrec_compare_dip_sport flows mc.event_size) mc)
        refine ⟨?_, Or.inr ⟨_, q1⟩⟩
        rw [q2, (calculate_tcp_metrics_tag _ mc).2.2.2.2.2.2.2, tm1]
      · rw [Option.some.injEq] at h
        subst h
        obtain ⟨q1, q2⟩ := calculate_udp_scan_probability_spec exp
          (calculate_udp_metrics
            (qsort_flows qsort rwrec_compare_dip_sport flows mc.event_size) mc)
        refine ⟨?_, Or.inr ⟨_, q1⟩⟩
        rw [q2, (calculate_udp_metrics_tag _ mc).2.2.2.2.2.2.2, tm1]
  · rw [Option.some.injEq] at h
    subst h
    exact ⟨rfl, Or.inl ⟨rfl, rfl⟩⟩

/-- On a batch of the three protocols whose TCP and UDP records carry a packet
each, `invoke_blr_model` ends normally. -/
theorem invoke_blr_model_some (exp : K → K)
    (qsort : (rwRec → rwRec → Int) → List rwRec → List rwRec)
    (flows : List rwRec) (m : event_metrics K)
    (hacc : ∀ f ∈ flows.take m.event_size, accepted_proto (rwRecGetProto f))
    (hpk : ∀ f ∈ flows.take m.event_size,
      rwRecGetProto f ≠ IPPROTO_ICMP → 1 ≤ rwRecGetPkts f)
    (hm : accepted_proto m.protocol) :
    ∃ m1, invoke_blr_model exp qsort flows m = some m1 := by
  unfold invoke_blr_model
  dsimp only
  split_ifs with hsz
  · obtain ⟨m1, e⟩ := blr_count_some (flows.take m.event_size)
      ({ m with model := RWSCAN_MODEL_BLR } : event_metrics K) hacc hpk
    rw [e]
    have tp1 : m1.protocol = m.protocol := (blr_count_tag _ _ _ e).1
    dsimp only
    rcases hm with hp | hp | hp
    · rw [if_pos (tp1.trans hp)]
      exact ⟨_, rfl⟩
    · have hne : ¬ (m1.protocol = IPPROTO_ICMP) := by rw [tp1, hp]; decide
      rw [if_neg hne, if_pos (tp1.trans hp)]
      exact ⟨_, rfl⟩
    · have hne : ¬ (m1.protocol = IPPROTO_ICMP) := by rw [tp1, hp]; decide
      have hne2 : ¬ (m1.protocol = IPPROTO_TCP) := by rw [tp1, hp]; decide
      rw [if_neg hne, if_neg hne2, if_pos (tp1.trans hp)]
      exact ⟨_, rfl⟩
  · exact ⟨_, rfl⟩

/-- An event of at least `EVENT_FLOW_THRESHOLD` flows that holds a TCP or UDP
record without packets: `invoke_blr_model` has no result, the program ends in
the division by zero of the per-flow counters (or earlier). -/
theorem invoke_blr_model_none (exp : K → K)
    (qsort : (rwRec → rwRec → Int) → List rwRec → List rwRec)
    (flows : List rwRec) (m : event_metrics K)
    (hsz : m.event_size ≥ EVENT_FLOW_THRESHOLD)
    (h0 : ∃ f ∈ flows.take m.event_size,
      (rwRecGetProto f = IPPROTO_TCP ∨ rwRecGetProto f = IPPROTO_UDP)
        ∧ rwRecGetPkts f = 0) :
    invoke_blr_model exp qsort flows m = none := by
  unfold invoke_blr_model
  dsimp only
  rw [if_pos hsz, blr_count_none (flows.take m.event_size)
    ({ m with model := RWSCAN_MODEL_BLR } : event_metrics K) h0]

/-- The sorted array holds records of the array it was made from. -/
theorem mem_qsort_flows (qsort : (rwRec → rwRec → Int) → List rwRec → List rwRec)
    (hq : qsort_perm qsort) (cmp : rwRec → rwRec → Int) (flows : List rwRec) (n : Nat)
    (f : rwRec) (hf : f ∈ qsort_flows qsort cmp flows n) : f ∈ flows := by
  unfold qsort_flows at hf
  rcases List.mem_append.mp hf with h | h
  · exact List.take_subset _ _ ((hq cmp _).subset h)
  · exact List.drop_subset _ _ h

/-- What the loop of `invoke_trw_model` leaves behind: a decision inside the
loop is SCAN with a likelihood above the upper threshold or BENIGN with a
likelihood below the lower one; without a decision the metrics are untouched.
The model tag is never changed. -/
theorem trw_loop_verdict (opts : options_t K) (flows : List rwRec) :
    ∀ (rest : List rwRec) (i prev : Nat) (st : trw_state K),
    ((trw_loop opts flows rest i prev st).1 = true →
        ((trw_loop opts flows rest i prev st).2.metrics.event_class = EVENT_SCAN
          ∧ (trw_loop opts flows rest i prev st).2.metrics.scan_probability > TRW_ETA1)
        ∨ ((trw_loop opts flows rest i prev st).2.metrics.event_class = EVENT_BENIGN
          ∧ (trw_loop opts flows rest i prev st).2.metrics.scan_probability < TRW_ETA0))
    ∧ (trw_loop opts flows rest i prev st).2.metrics.model = st.metrics.model
    ∧ (trw_loop opts flows rest i prev st).2.metrics.protocol = st.metrics.protocol
    ∧ (trw_loop opts flows rest i prev st).2.metrics.event_size = st.metrics.event_size := by
  intro rest
  induction rest with
  | nil => intro i prev st; simp [trw_loop]
  | cons rw rest ih =>
    intro i prev st
    rw [trw_loop_cons]
    dsimp only
    split_ifs with h1 h2 h3 h4
    · simp
    · obtain ⟨-, -, -, -, -, -, t7, t8⟩ := calculate_shared_metrics_tag flows
        ({ st.metrics with scan_probability :=
            (trw_count opts st.data.existing prev st.counters rw).likelihood })
      obtain ⟨u1, -, u3, -⟩ := calculate_shared_metrics_tag flows
        ({ st.metrics with scan_probability :=
            (trw_count opts st.data.existing prev st.counters rw).likelihood })
      refine ⟨fun _ => Or.inl ⟨rfl, ?_⟩, t8, u1, u3⟩
      show (calculate_shared_metrics flows _).scan_probability > TRW_ETA1
      rw [t7]
      exact h3
    · exact ⟨fun _ => Or.inr ⟨rfl, h4⟩, rfl, rfl, rfl⟩
    · exact ih _ _ _
    · exact ih _ _ _

/-- The verdict of `invoke_trw_model`: the model tag is TRW, and the class SCAN
comes with a scan probability above the upper threshold. -/
theorem invoke_trw_model_verdict (opts : options_t K) (flows : List rwRec)
    (m : event_metrics K) (c : trw_counters K) (data : trw_data) :
    (invoke_trw_model opts flows m c data).metrics.model = RWSCAN_MODEL_TRW
    ∧ (invoke_trw_model opts flows m c data).metrics.protocol = m.protocol
    ∧ (invoke_trw_model opts flows m c data).metrics.event_size = m.event_size
    ∧ ((invoke_trw_model opts flows m c data).metrics.event_class = EVENT_SCAN →
        (invoke_trw_model opts flows m c data).metrics.scan_probability > TRW_ETA1) := by
  obtain ⟨h1, h2, h3, h4⟩ := trw_loop_verdict opts flows (flows.take m.event_size) 0 0xffffffff
    { counters := c, metrics := { m with model := RWSCAN_MODEL_TRW }, data := data }
  unfold invoke_trw_model
  dsimp only at h1 h2 h3 h4 ⊢
  split_ifs with hr
  · refine ⟨h2, h3, h4, fun hs => ?_⟩
    rcases h1 hr with ⟨-, hp⟩ | ⟨hb, -⟩
    · exact hp
    · rw [hb] at hs; exact absurd hs (by decide)
  · refine ⟨h2, h3, h4, fun hs => ?_⟩
    exact absurd hs (trw_final_ne_scan _)

/-- The result of the classifier chain of the worker, when it has one.  If the
batch did not come in as a scan and leaves as one, then either TRW decided (tag
TRW, probability above the upper threshold) or BLR did (tag BLR, probability
the logistic value of a score). -/
theorem worker_classify_spec (exp : K → K)
    (qsort : (rwRec → rwRec → Int) → List rwRec → List rwRec)
    (opts : options_t K) (w : worker_thread_data K) (data : trw_data)
    (m : event_metrics K) (d : trw_data)
    (h : worker_classify exp qsort opts w data = some (m, d)) :
    w.metrics.event_class ≠ EVENT_SCAN → m.event_class = EVENT_SCAN →
      (m.model = RWSCAN_MODEL_TRW ∧ m.scan_probability > TRW_ETA1)
      ∨ (m.model = RWSCAN_MODEL_BLR ∧ ∃ y, m.scan_probability = exp y / (1.0 + exp y)) := by
  unfold worker_classify at h
  dsimp only at h
  by_cases htrw : w.metrics.protocol = IPPROTO_TCP
      ∧ (opts.scan_model = RWSCAN_MODEL_HYBRID ∨ opts.scan_model = RWSCAN_MODEL_TRW)
  · rw [if_pos htrw] at h
    obtain ⟨v1, v2, v3, v4⟩ := invoke_trw_model_verdict opts w.flows w.metrics
      trw_counters_zero data
    generalize invoke_trw_model opts w.flows w.metrics trw_counters_zero data = st
      at h v1 v2 v3 v4
    dsimp only at h
    split_ifs at h with hb
    · cases hc : invoke_blr_model exp qsort
          (qsort_flows qsort rwrec_compare_proto_stime w.flows st.metrics.event_size)
          st.metrics with
      | none => rw [hc] at h; exact absurd h (by simp)
      | some m1 =>
        rw [hc] at h
        simp only [Option.map_some', Option.some.injEq, Prod.mk.injEq] at h
        obtain ⟨hm, -⟩ := h
        subst hm
        obtain ⟨tm, hm1⟩ := invoke_blr_model_spec exp qsort _ _ _ hc
        intro _ hs
        refine Or.inr ⟨tm, ?_⟩
        rcases hm1 with ⟨hcl, -⟩ | hy
        · rw [hcl] at hs; exact absurd hs hb.1.1
        · exact hy
    · simp only [Option.some.injEq, Prod.mk.injEq] at h
      obtain ⟨hm, -⟩ := h
      subst hm
      exact fun _ hs => Or.inl ⟨v1, v4 hs⟩
  · rw [if_neg htrw] at h
    dsimp only at h
    split_ifs at h with hb
    · cases hc : invoke_blr_model exp qsort
          (qsort_flows qsort rwrec_compare_proto_stime w.flows w.metrics.event_size)
          w.metrics with
      | none => rw [hc] at h; exact absurd h (by simp)
      | some m1 =>
        rw [hc] at h
        simp only [Option.map_some', Option.some.injEq, Prod.mk.injEq] at h
        obtain ⟨hm, -⟩ := h
        subst hm
        obtain ⟨tm, hm1⟩ := invoke_blr_model_spec exp qsort _ _ _ hc
        intro _ hs
        refine Or.inr ⟨tm, ?_⟩
        rcases hm1 with ⟨hcl, -⟩ | hy
        · rw [hcl] at hs; exact absurd hs hb.1.1
        · exact hy
    · simp only [Option.some.injEq, Prod.mk.injEq] at h
      obtain ⟨hm, -⟩ := h
      subst hm
      exact fun hn hs => absurd hs hn

/-- The classifier chain of the worker ends normally on a batch that satisfies
the batch invariant and whose TCP and UDP records carry a packet each. -/
theorem worker_classify_some (exp : K → K)
    (qsort : (rwRec → rwRec → Int) → List rwRec → List rwRec) (hq : qsort_perm qsort)
    (opts : options_t K) (w : worker_thread_data K) (hw : batch_inv w)
    (hpk : ∀ f ∈ w.flows, rwRecGetProto f ≠ IPPROTO_ICMP → 1 ≤ rwRecGetPkts f)
    (data : trw_data) :
    ∃ m d, worker_classify exp qsort opts w data = some (m, d) := by
  obtain ⟨-, -, hfl, hacc⟩ := hw
  have hmem : ∀ (m0 : event_metrics K) (n : Nat),
      ∀ f ∈ (qsort_flows qsort rwrec_compare_proto_stime w.flows n).take m0.event_size,
        accepted_proto (rwRecGetProto f) := by
    intro m0 n f hf
    have := mem_qsort_flows qsort hq _ _ _ f (List.take_subset _ _ hf)
    rw [(hfl f this).2]
    exact hacc
  have hmpk : ∀ (m0 : event_metrics K) (n : Nat),
      ∀ f ∈ (qsort_flows qsort rwrec_compare_proto_stime w.flows n).take m0.event_size,
        rwRecGetProto f ≠ IPPROTO_ICMP → 1 ≤ rwRecGetPkts f := by
    intro m0 n f hf
    exact hpk f (mem_qsort_flows qsort hq _ _ _ f (List.take_subset _ _ hf))
  unfold worker_classify
  dsimp only
  by_cases htrw : w.metrics.protocol = IPPROTO_TCP
      ∧ (opts.scan_model = RWSCAN_MODEL_HYBRID ∨ opts.scan_model = RWSCAN_MODEL_TRW)
  · rw [if_pos htrw]
    obtain ⟨v1, v2, v3, v4⟩ := invoke_trw_model_verdict opts w.flows w.metrics
      trw_counters_zero data
    generalize invoke_trw_model opts w.flows w.metrics trw_counters_zero data = st
      at v1 v2 v3 v4
    dsimp only
    split_ifs with hb
    · obtain ⟨m1, e⟩ := invoke_blr_model_some exp qsort
        (qsort_flows qsort rwrec_compare_proto_stime w.flows st.metrics.event_size)
        st.metrics (hmem _ _) (hmpk _ _) (by rw [v2]; exact hacc)
      rw [e]
      exact ⟨m1, st.data, rfl⟩
    · exact ⟨st.metrics, st.data, rfl⟩
  · rw [if_neg htrw]
    dsimp only
    split_ifs with hb
    · obtain ⟨m1, e⟩ := invoke_blr_model_some exp qsort
        (qsort_flows qsort rwrec_compare_proto_stime w.flows w.metrics.event_size)
        w.metrics (hmem _ _) (hmpk _ _) hacc
      rw [e]
      exact ⟨m1, data, rfl⟩
    · exact ⟨w.metrics, data, rfl⟩

/-- A batch of UDP, or of TCP under the scan model BLR, that comes in with the
class UNKNOWN, counts at least `EVENT_FLOW_THRESHOLD` flows and holds a record
without packets: the classifier chain has no result, the worker ends in the
division by zero of the per-flow counters of BLR. -/
theorem worker_classify_none (exp : K → K)
    (qsort : (rwRec → rwRec → Int) → List rwRec → List rwRec) (hq : qsort_perm qsort)
    (opts : options_t K) (w : worker_thread_data K) (data : trw_data)
    (hsize : w.metrics.event_size = w.flows.length)
    (hbig : w.metrics.event_size ≥ EVENT_FLOW_THRESHOLD)
    (hclass : w.metrics.event_class = EVENT_UNKNOWN)
    (hmodel : (w.metrics.protocol ≠ IPPROTO_TCP ∧ opts.scan_model = RWSCAN_MODEL_HYBRID)
      ∨ opts.scan_model = RWSCAN_MODEL_BLR)
    (h0 : ∃ f ∈ w.flows, (rwRecGetProto f = IPPROTO_TCP ∨ rwRecGetProto f = IPPROTO_UDP)
      ∧ rwRecGetPkts f = 0) :
    worker_classify exp qsort opts w data = none := by
  have htrw : ¬ (w.metrics.protocol = IPPROTO_TCP
      ∧ (opts.scan_model = RWSCAN_MODEL_HYBRID ∨ opts.scan_model = RWSCAN_MODEL_TRW)) := by
    rintro ⟨hp, hm⟩
    rcases hmodel with ⟨hn, -⟩ | hb
    · exact hn hp
    · rw [hb] at hm
      rcases hm with hm | hm <;> exact absurd hm (by decide)
  have hblr : (w.metrics.event_class ≠ EVENT_SCAN ∧ w.metrics.event_class ≠ EVENT_FLOOD
        ∧ w.metrics.event_class ≠ EVENT_BACKSCATTER)
      ∧ (opts.scan_model = RWSCAN_MODEL_HYBRID ∨ opts.scan_model = RWSCAN_MODEL_BLR) := by
    refine ⟨by rw [hclass]; decide, ?_⟩
    rcases hmodel with ⟨-, hh⟩ | hb
    · exact Or.inl hh
    · exact Or.inr hb
  obtain ⟨f, hf, hproto, hpk⟩ := h0
  have hmem : f ∈ (qsort_flows qsort rwrec_compare_proto_stime w.flows
      w.metrics.event_size).take w.metrics.event_size := by
    unfold qsort_flows
    rw [hsize, List.take_length, List.drop_length, List.append_nil, List.take_of_length_le
      (by rw [(hq _ _).length_eq])]
    exact (hq _ _).mem_iff.mpr hf
  unfold worker_classify
  dsimp only
  rw [if_neg htrw]
  dsimp only
  rw [if_pos hblr, invoke_blr_model_none exp qsort _ _ hbig ⟨f, hmem, hproto, hpk⟩]
  rfl

/-- What the report of the worker changes when no counter wraps: exactly the
counter of the class grows by one, and a row is appended exactly for a scan. -/
theorem worker_report_spec (m : event_metrics K) (ws : worker_state K)
    (hb : class_total ws.summary + 1 < U32) :
    (worker_report m ws).summary.scanners
        = ws.summary.scanners + (if m.event_class = EVENT_SCAN then 1 else 0)
    ∧ (worker_report m ws).summary.benign
        = ws.summary.benign + (if m.event_class = EVENT_BENIGN then 1 else 0)
    ∧ (worker_report m ws).summary.backscatter
        = ws.summary.backscatter + (if m.event_class = EVENT_BACKSCATTER then 1 else 0)
    ∧ (worker_report m ws).summary.flooders
        = ws.summary.flooders + (if m.event_class = EVENT_FLOOD then 1 else 0)
    ∧ (worker_report m ws).summary.unknown
        = ws.summary.unknown + (if m.event_class = EVENT_UNKNOWN then 1 else 0)
    ∧ (worker_report m ws).out_scans
        = ws.out_scans ++ (if m.event_class = EVENT_SCAN then [scan_record m] else [])
    ∧ (worker_report m ws).data = ws.data := by
  unfold class_total at hb
  have h1 : (ws.summary.scanners + 1) % U32 = ws.summary.scanners + 1 :=
    Nat.mod_eq_of_lt (by omega)
  have h2 : (ws.summary.benign + 1) % U32 = ws.summary.benign + 1 :=
    Nat.mod_eq_of_lt (by omega)
  have h3 : (ws.summary.backscatter + 1) % U32 = ws.summary.backscatter + 1 :=
    Nat.mod_eq_of_lt (by omega)
  have h4 : (ws.summary.flooders + 1) % U32 = ws.summary.flooders + 1 :=
    Nat.mod_eq_of_lt (by omega)
  have h5 : (ws.summary.unknown + 1) % U32 = ws.summary.unknown + 1 :=
    Nat.mod_eq_of_lt (by omega)
  unfold worker_report
  cases m.event_class <;> simp [h1, h2, h3, h4, h5]

/-- The report of the worker adds one to the sum of the class counters. -/
theorem worker_report_total (m : event_metrics K) (ws : worker_state K)
    (hb : class_total ws.summary + 1 < U32) :
    class_total (worker_report m ws).summary = class_total ws.summary + 1 := by
  obtain ⟨h1, h2, h3, h4, h5, -, -⟩ := worker_report_spec m ws hb
  unfold class_total
  rw [h1, h2, h3, h4, h5]
  cases m.event_class <;> simp <;> omega

/-- One iteration of the worker that ends normally: the classifier chain had
a result, which is reported. -/
theorem worker_event_spec (exp : K → K)
    (qsort : (rwRec → rwRec → Int) → List rwRec → List rwRec)
    (opts : options_t K) (w : worker_thread_data K) (ws ws1 : worker_state K)
    (h : worker_event exp qsort opts ws w = some ws1) :
    ∃ m d, worker_classify exp qsort opts w ws.data = some (m, d)
      ∧ ws1 = worker_report m { ws with data := d } := by
  unfold worker_event at h
  cases hc : worker_classify exp qsort opts w ws.data with
  | none => rw [hc] at h; exact absurd h (by simp)
  | some r =>
    rw [hc] at h
    simp only [Option.some.injEq] at h
    exact ⟨r.1, r.2, rfl, h.symm⟩

/-- One iteration of the worker on a batch that satisfies the batch invariant
and whose TCP and UDP records carry a packet each: the classifier chain ends
normally and its result is reported. -/
theorem worker_event_some (exp : K → K)
    (qsort : (rwRec → rwRec → Int) → List rwRec → List rwRec) (hq : qsort_perm qsort)
    (opts : options_t K) (w : worker_thread_data K) (hw : batch_inv w)
    (hpk : ∀ f ∈ w.flows, rwRecGetProto f ≠ IPPROTO_ICMP → 1 ≤ rwRecGetPkts f)
    (ws : worker_state K) :
    ∃ m d, worker_classify exp qsort opts w ws.data = some (m, d)
      ∧ worker_event exp qsort opts ws w = some (worker_report m { ws with data := d }) := by
  obtain ⟨m, d, h⟩ := worker_classify_some exp qsort hq opts w hw hpk ws.data
  refine ⟨m, d, h, ?_⟩
  unfold worker_event
  rw [h]

/-- A worker that handles a sequence of batches, each satisfying the batch
invariant and with a packet in every TCP and UDP record, no counter wrapping,
ends normally, and the sum of the class counters `scanners`, `benign`,
`backscatter`, `flooders`, `unknown` has grown by the number of batches.  For
every batch of the sequence: the classifier chain yields a final metrics block
`m`, exactly the counter of the class of `m` grows by one, and a row (the
record of `m`) is appended to the output if and only if that class is SCAN. -/
theorem worker_thread_counts (exp : K → K)
    (qsort : (rwRec → rwRec → Int) → List rwRec → List rwRec) (hq : qsort_perm qsort)
    (opts : options_t K) (events : List (worker_thread_data K)) :
    ∀ (ws : worker_state K), (∀ w ∈ events, batch_inv w) →
    (∀ w ∈ events, ∀ f ∈ w.flows, rwRecGetProto f ≠ IPPROTO_ICMP → 1 ≤ rwRecGetPkts f) →
    class_total ws.summary + events.length < U32 →
    ∃ ws1, worker_thread exp qsort opts events ws = some ws1
      ∧ class_total ws1.summary = class_total ws.summary + events.length
      ∧ ∀ pre w post, events = pre ++ w :: post →
          ∃ wsa wsb m d, worker_thread exp qsort opts pre ws = some wsa
            ∧ worker_classify exp qsort opts w wsa.data = some (m, d)
            ∧ worker_event exp qsort opts wsa w = some wsb
            ∧ wsb.summary.scanners
                = wsa.summary.scanners + (if m.event_class = EVENT_SCAN then 1 else 0)
            ∧ wsb.summary.benign
                = wsa.summary.benign + (if m.event_class = EVENT_BENIGN then 1 else 0)
            ∧ wsb.summary.backscatter
                = wsa.summary.backscatter
                  + (if m.event_class = EVENT_BACKSCATTER then 1 else 0)
            ∧ wsb.summary.flooders
                = wsa.summary.flooders + (if m.event_class = EVENT_FLOOD then 1 else 0)
            ∧ wsb.summary.unknown
                = wsa.summary.unknown + (if m.event_class = EVENT_UNKNOWN then 1 else 0)
            ∧ wsb.out_scans
                = wsa.out_scans
                  ++ (if m.event_class = EVENT_SCAN then [scan_record m] else []) := by
  induction events with
  | nil =>
    intro ws _ _ _
    refine ⟨ws, rfl, by simp, ?_⟩
    intro pre w post h
    exact absurd h (by simp)
  | cons e es ih =>
    intro ws hok hpk hb
    simp only [List.length_cons] at hb
    have he : batch_inv e := hok e (List.mem_cons_self _ _)
    obtain ⟨m, d, hc, hev⟩ := worker_event_some exp qsort hq opts e he
      (hpk e (List.mem_cons_self _ _)) ws
    have hb1 : class_total ({ ws with data := d } : worker_state K).summary + 1 < U32 := by
      show class_total ws.summary + 1 < U32
      omega
    have htot := worker_report_total m { ws with data := d } hb1
    obtain ⟨r1, r2, r3, r4, r5, r6, -⟩ := worker_report_spec m { ws with data := d } hb1
    obtain ⟨ws1, hrun, hsum, hall⟩ := ih (worker_report m { ws with data := d })
      (fun w hw => hok w (List.mem_cons_of_mem _ hw))
      (fun w hw => hpk w (List.mem_cons_of_mem _ hw))
      (by rw [htot]; show class_total ws.summary + 1 + es.length < U32; omega)
    have hstep : worker_thread exp qsort opts (e :: es) ws
        = worker_thread exp qsort opts es (worker_report m { ws with data := d }) := by
      rw [worker_thread, hev]
    refine ⟨ws1, by rw [hstep, hrun], ?_, ?_⟩
    · rw [hsum, htot]
      show class_total ws.summary + 1 + es.length = class_total ws.summary + (es.length + 1)
      omega
    · intro pre w post h
      rcases pre with _ | ⟨p, pre1⟩
      · simp only [List.nil_append, List.cons.injEq] at h
        obtain ⟨rfl, -⟩ := h
        exact ⟨ws, worker_report m { ws with data := d }, m, d, rfl, hc, hev,
          r1, r2, r3, r4, r5, r6⟩
      · simp only [List.cons_append, List.cons.injEq] at h
        obtain ⟨rfl, h2⟩ := h
        obtain ⟨wsa, wsb, m2, d2, g1, g2⟩ := hall pre1 w post h2
        refine ⟨wsa, wsb, m2, d2, ?_, g2⟩
        rw [worker_thread, hev]
        exact g1

end WorkerChain

section ScanRows
open EventClassification ScanModel

theorem qsort_insertion_perm : qsort_perm qsort_insertion := by
  intro cmp l
  exact List.perm_insertionSort _ l

/-- The rows the report of the worker appends. -/
theorem worker_report_out {K : Type} [LinearOrderedField K] (m : event_metrics K)
    (ws : worker_state K) :
    (worker_report m ws).out_scans
      = ws.out_scans ++ (if m.event_class = EVENT_SCAN then [scan_record m] else []) := by
  unfold worker_report
  cases m.event_class <;> simp

/-- The counting of the worker at a single batch: five bare-SYN flows, under
the default options. -/
theorem worker_thread_counts_sample :
    ∃ ws1, worker_thread Real.exp qsort_insertion
        (default_options RWSCAN_MODEL_HYBRID : options_t ℝ)
        [{ flows := sample_syn_event, metrics := sample_metrics 6 9 5 }] worker_state_zero
          = some ws1
      ∧ class_total ws1.summary = class_total (worker_state_zero : worker_state ℝ).summary + 1 :=
  have h := worker_thread_counts Real.exp qsort_insertion qsort_insertion_perm
    (default_options RWSCAN_MODEL_HYBRID : options_t ℝ)
    [{ flows := sample_syn_event, metrics := sample_metrics 6 9 5 }] worker_state_zero
    (by
      intro w hw
      rw [List.mem_singleton] at hw
      subst hw
      exact ⟨by decide, rfl, by decide, by decide⟩)
    (by
      intro w hw
      rw [List.mem_singleton] at hw
      subst hw
      decide)
    (by decide)
  h.elim fun ws1 h1 => ⟨ws1, h1.1, h1.2.1⟩

set_option maxRecDepth 100000 in
/-- C3 (the code departs from it): a batch of 32 UDP flows from one source, the
first of which carries no packet, satisfies the batch invariant and comes in
with the class UNKNOWN.  Under the scan model HYBRID the worker has no result
on it: the program ends in the division `bytes / pkts` of
`increment_udp_counters`, before the `switch` on the final class.  None of the
five counters grows and the loop of the worker does not go on, where the claim
asks for exactly one counter to grow by one for every event. -/
theorem worker_thread_division_by_zero :
    batch_inv ({ flows := sample_empty_flow_event, metrics := sample_metrics 17 9 32 } :
      worker_thread_data ℝ)
    ∧ (∃ f ∈ sample_empty_flow_event, rwRecGetPkts f = 0)
    ∧ worker_classify Real.exp qsort_insertion
        (default_options RWSCAN_MODEL_HYBRID : options_t ℝ)
        { flows := sample_empty_flow_event, metrics := sample_metrics 17 9 32 }
        trw_data_empty = none
    ∧ worker_thread Real.exp qsort_insertion
        (default_options RWSCAN_MODEL_HYBRID : options_t ℝ)
        [{ flows := sample_empty_flow_event, metrics := sample_metrics 17 9 32 }]
        worker_state_zero = none := by
  have hmem : { sample_udp 1 53 with pkts := 0, bytes := 0 } ∈ sample_empty_flow_event :=
    List.mem_cons_self _ _
  have h := worker_classify_none Real.exp qsort_insertion qsort_insertion_perm
    (default_options RWSCAN_MODEL_HYBRID : options_t ℝ)
    { flows := sample_empty_flow_event, metrics := sample_metrics 17 9 32 }
    trw_data_empty rfl (by decide) rfl (Or.inl ⟨by decide, rfl⟩)
    ⟨_, hmem, Or.inr rfl, rfl⟩
  refine ⟨⟨by decide, rfl, by decide, by decide⟩, ⟨_, hmem, rfl⟩, h, ?_⟩
  have hd : (worker_state_zero : worker_state ℝ).data = trw_data_empty := rfl
  rw [worker_thread, worker_event, hd, h]

/-- Under the models HYBRID and TRW the worker reports a TCP event that TRW
classifies as SCAN with one row, the record of the metrics TRW leaves. -/
theorem worker_event_trw_scan {K : Type} [LinearOrderedField K] (exp : K → K)
    (qsort : (rwRec → rwRec → Int) → List rwRec → List rwRec)
    (opts : options_t K) (w : worker_thread_data K) (ws : worker_state K)
    (hp : w.metrics.protocol = IPPROTO_TCP)
    (hm : opts.scan_model = RWSCAN_MODEL_HYBRID ∨ opts.scan_model = RWSCAN_MODEL_TRW)
    (hc : (invoke_trw_model opts w.flows w.metrics trw_counters_zero
        ws.data).metrics.event_class = EVENT_SCAN) :
    ∃ ws1, worker_event exp qsort opts ws w = some ws1
      ∧ ws1.out_scans = ws.out_scans
          ++ [scan_record (invoke_trw_model opts w.flows w.metrics trw_counters_zero
                ws.data).metrics] := by
  have h := worker_classify_trw_final exp qsort opts w ws.data hp hm (Or.inl hc)
  refine ⟨_, by unfold worker_event; rw [h], ?_⟩
  rw [worker_report_out, if_pos hc]

/-- C10 as stated fails for rows decided by TRW: the worker reports the event
of five bare-SYN flows to unknown addresses with a row whose scan probability
is the likelihood ratio 256. -/
theorem scan_row_probability_above_one :
    ∃ ws1, worker_event Real.exp qsort_insertion
        (default_options RWSCAN_MODEL_HYBRID : options_t ℝ) worker_state_zero
        { flows := sample_syn_event, metrics := sample_metrics 6 9 5 } = some ws1
      ∧ ∃ row ∈ ws1.out_scans, row.scan_prob = 256
          ∧ ¬ (0 ≤ row.scan_prob ∧ row.scan_prob ≤ 1) := by
  have hres : invoke_trw_model (default_options RWSCAN_MODEL_HYBRID : options_t ℝ)
      sample_syn_event (sample_metrics 6 9 5) trw_counters_zero trw_data_empty = _ :=
    invoke_trw_model_scan_four (default_options RWSCAN_MODEL_HYBRID : options_t ℝ)
      (sample_flow 9 1 6 2) (sample_flow 9 2 6 2) (sample_flow 9 3 6 2) (sample_flow 9 4 6 2)
      [sample_flow 9 5 6 2] (sample_metrics 6 9 5) trw_data_empty rfl rfl rfl
      (by decide) (by decide) (by decide) (by decide) (by decide) (by decide) (by decide)
      (by decide) (by decide) (by decide) (by decide) (by decide)
  have hclass : (invoke_trw_model (default_options RWSCAN_MODEL_HYBRID : options_t ℝ)
      sample_syn_event (sample_metrics 6 9 5) trw_counters_zero
      trw_data_empty).metrics.event_class = EVENT_SCAN := by rw [hres]
  have hprob : (invoke_trw_model (default_options RWSCAN_MODEL_HYBRID : options_t ℝ)
      sample_syn_event (sample_metrics 6 9 5) trw_counters_zero
      trw_data_empty).metrics.scan_probability = 256 := by rw [hres]; simp
  obtain ⟨ws1, h1, h2⟩ := worker_event_trw_scan Real.exp qsort_insertion
    (default_options RWSCAN_MODEL_HYBRID : options_t ℝ)
    { flows := sample_syn_event, metrics := sample_metrics 6 9 5 } worker_state_zero rfl
    (Or.inl rfl) hclass
  refine ⟨ws1, h1, scan_record _,
    by rw [h2]; exact List.mem_append_right _ (List.mem_singleton.mpr rfl), hprob, ?_⟩
  intro h
  have h3 : (scan_record (invoke_trw_model (default_options RWSCAN_MODEL_HYBRID : options_t ℝ)
      sample_syn_event (sample_metrics 6 9 5) trw_counters_zero
      trw_data_empty).metrics).scan_prob = 256 := hprob
  have h4 := h.2
  rw [h3] at h4
  norm_num at h4

/-- C10 as amended: for a batch as `process_file` hands it over (batch
invariant, class UNKNOWN), whenever the worker ends its iteration every row it
has appended either is decided by BLR (model tag BLR) and has its scan
probability in `[0, 1]`, or is decided by TRW (model tag TRW) and carries the
likelihood ratio, which is above 99.  The worker does end its iteration when
every TCP and UDP record of the batch carries a packet. -/
theorem scan_row_probability
    (qsort : (rwRec → rwRec → Int) → List rwRec → List rwRec) (hq : qsort_perm qsort)
    (opts : options_t ℝ) (w : worker_thread_data ℝ) (hw : batch_inv w)
    (hfresh : w.metrics.event_class = EVENT_UNKNOWN) (ws : worker_state ℝ) :
    (∀ ws1, worker_event Real.exp qsort opts ws w = some ws1 →
      ∃ rows, ws1.out_scans = ws.out_scans ++ rows
        ∧ ∀ row ∈ rows,
          (row.model = RWSCAN_MODEL_BLR ∧ 0 ≤ row.scan_prob ∧ row.scan_prob ≤ 1)
          ∨ (row.model = RWSCAN_MODEL_TRW ∧ 99 < row.scan_prob))
    ∧ ((∀ f ∈ w.flows, rwRecGetProto f ≠ IPPROTO_ICMP → 1 ≤ rwRecGetPkts f) →
        ∃ ws1, worker_event Real.exp qsort opts ws w = some ws1) := by
  refine ⟨?_, fun hpk => ?_⟩
  · intro ws1 hev
    obtain ⟨m, d, hc, hws⟩ := worker_event_spec Real.exp qsort opts w ws ws1 hev
    have hv := worker_classify_spec Real.exp qsort opts w ws.data m d hc
    subst hws
    refine ⟨if m.event_class = EVENT_SCAN then [scan_record m] else [],
      worker_report_out _ _, ?_⟩
    intro row hrow
    by_cases hs : m.event_class = EVENT_SCAN
    · rw [if_pos hs, List.mem_singleton] at hrow
      subst hrow
      rcases hv (by rw [hfresh]; decide) hs with ⟨ht, hp⟩ | ⟨hb, y, hy⟩
      · right
        refine ⟨ht, ?_⟩
        rw [eta1_val] at hp
        exact hp
      · left
        refine ⟨hb, ?_, ?_⟩
        · show 0 ≤ m.scan_probability
          rw [hy]
          have := Real.exp_pos y
          positivity
        · show m.scan_probability ≤ 1
          rw [hy]
          have := Real.exp_pos y
          rw [div_le_one (by norm_num; linarith)]
          norm_num
    · rw [if_neg hs] at hrow
      exact absurd hrow (List.not_mem_nil _)
  · obtain ⟨m, d, -, hev⟩ := worker_event_some Real.exp qsort hq opts w hw hpk ws
    exact ⟨_, hev⟩

/-- C10 as amended at the batch of five bare-SYN flows: the worker ends its
iteration, and the rows it has appended are as stated. -/
theorem scan_row_probability_witness :
    ∃ ws1 rows, worker_event Real.exp qsort_insertion
        (default_options RWSCAN_MODEL_HYBRID : options_t ℝ) worker_state_zero
        { flows := sample_syn_event, metrics := sample_metrics 6 9 5 } = some ws1
      ∧ ws1.out_scans = (worker_state_zero : worker_state ℝ).out_scans ++ rows
      ∧ ∀ row ∈ rows,
          (row.model = RWSCAN_MODEL_BLR ∧ 0 ≤ row.scan_prob ∧ row.scan_prob ≤ 1)
          ∨ (row.model = RWSCAN_MODEL_TRW ∧ 99 < row.scan_prob) :=
  have h := scan_row_probability qsort_insertion qsort_insertion_perm
    (default_options RWSCAN_MODEL_HYBRID : options_t ℝ)
    { flows := sample_syn_event, metrics := sample_metrics 6 9 5 }
    ⟨by decide, rfl, by decide, by decide⟩ rfl worker_state_zero
  (h.2 (by decide)).elim fun ws1 h1 =>
    (h.1 ws1 h1).elim fun rows h2 => ⟨ws1, rows, h1, h2.1, h2.2⟩

end ScanRows

section GrouperRuns
variable {K : Type} [LinearOrderedField K]
open EventClassification ScanModel

/-- Groups already closed come first in the result of the loop of `splitBy`. -/
theorem split_loop_append (r : rwRec → rwRec → Bool) (l : List rwRec) :
    ∀ (a : rwRec) (g : List rwRec) (gs : List (List rwRec)),
    List.splitBy.loop r l a g gs = gs.reverse ++ List.splitBy.loop r l a g [] := by
  induction l with
  | nil => intro a g gs; simp [List.splitBy.loop]
  | cons b l ih =>
    intro a g gs
    rw [List.splitBy.loop, List.splitBy.loop]
    cases r a b
    · dsimp only
      rw [ih b [] (_ :: gs), ih b [] [_]]
      simp
    · dsimp only
      exact ih b (a :: g) gs

theorem split_loop_ne_nil (r : rwRec → rwRec → Bool) (l : List rwRec) :
    ∀ (a : rwRec) (g : List rwRec), List.splitBy.loop r l a g [] ≠ [] := by
  induction l with
  | nil => intro a g; simp [List.splitBy.loop]
  | cons b l ih =>
    intro a g
    rw [List.splitBy.loop]
    cases r a b
    · dsimp only
      rw [split_loop_append]
      simp
    · dsimp only
      exact ih b (a :: g)

theorem pf_body_ignored (done : Bool) (r : rwRec) (st : pf_state K)
    (h : accepted_rec r = false) :
    pf_body done r st = { st with summary :=
        { st.summary with ignored_flows := (st.summary.ignored_flows + 1) % U32 } } := by
  unfold accepted_rec accepted_proto at h
  simp only [decide_eq_false_iff_not, not_or] at h
  unfold pf_body
  rw [if_pos h]

theorem pf_body_accepted (done : Bool) (r : rwRec) (st : pf_state K)
    (h : accepted_rec r = true) :
    pf_body done r st =
      if rwRecGetSIPv4 r ≠ st.last_sip ∨ rwRecGetProto r ≠ st.last_proto ∨ done = true then
        pf_store r (pf_new_event r st)
      else pf_store r { st with metrics := pf_keep_event r st.metrics } := by
  unfold accepted_rec accepted_proto at h
  simp only [decide_eq_true_eq] at h
  unfold pf_body
  rw [if_neg (by tauto)]

/-- The loop of `process_file` while an event is open: the batches it adds to
the work queue are the runs of the accepted records still to come, the first
run continuing the open event; the last run is lost when the record buffer at
the end of the stream holds a record of another protocol. -/
theorem pf_loop_runs_open (recs : List rwRec) :
    ∀ (buf : rwRec) (st : pf_state K) (ag : rwRec) (g : List rwRec),
    st.event_flows = (ag :: g).reverse → st.metrics.event_size = st.event_flows.length →
    st.last_sip = rwRecGetSIPv4 ag → st.last_proto = rwRecGetProto ag →
    st.event_flows.length + recs.length < U32 →
    (pf_loop recs buf st).work_queue.map (fun w => w.flows)
      = st.work_queue.map (fun w => w.flows)
        ++ enqueued_runs (accepted_rec (recs.getLastD buf))
            (List.splitBy.loop same_event (recs.filter accepted_rec) ag g []) := by
  induction recs with
  | nil =>
    intro buf st ag g he hs _ _ hb
    have hpos : st.metrics.event_size > 0 := by rw [hs, he]; simp
    simp only [pf_loop, List.getLastD_nil, List.filter_nil, List.splitBy.loop]
    cases hacc : accepted_rec buf
    · rw [pf_body_ignored _ _ _ hacc]
      simp [enqueued_runs]
    · rw [pf_body_accepted _ _ _ hacc]
      simp [enqueued_runs, pf_store, pf_new_event, hpos, he]
  | cons r rest ih =>
    intro buf st ag g he hs hsip hproto hb
    simp only [List.length_cons] at hb
    rw [pf_loop, List.getLastD_cons]
    set st0 : pf_state K :=
      { st with summary :=
          { st.summary with total_flows := (st.summary.total_flows + 1) % U32 } } with hst0
    cases hacc : accepted_rec r
    · rw [pf_body_ignored _ _ _ hacc, List.filter_cons_of_neg (by simp [hacc])]
      exact ih r _ ag g he hs hsip hproto (by
        show st.event_flows.length + rest.length < U32
        omega)
    · rw [pf_body_accepted _ _ _ hacc, List.filter_cons_of_pos hacc, List.splitBy.loop]
      by_cases hsame : rwRecGetSIPv4 r = rwRecGetSIPv4 ag ∧ rwRecGetProto r = rwRecGetProto ag
      · have hr : same_event ag r = true := by
          unfold same_event
          simp [hsame.1, hsame.2]
        have hcond : ¬ (rwRecGetSIPv4 r ≠ st0.last_sip ∨ rwRecGetProto r ≠ st0.last_proto
            ∨ false = true) := by
          simp only [hst0, hsip, hproto, hsame.1, hsame.2, ne_eq, not_true_eq_false,
            Bool.false_eq_true, or_self, not_false_eq_true]
        rw [if_neg hcond, hr]
        dsimp only
        have hlen : (st.event_flows.length + 1) % U32 = st.event_flows.length + 1 :=
          Nat.mod_eq_of_lt (by omega)
        have := ih r (pf_store r { st0 with metrics := pf_keep_event r st0.metrics }) r
          (ag :: g)
          (by simp [pf_store, hst0, he])
          (by simp [pf_store, hst0, hs, hlen])
          rfl rfl
          (by simp only [pf_store, hst0, List.length_append, List.length_singleton]; omega)
        rw [this]
        simp [pf_store, hst0]
      · have hr : same_event ag r = false := by
          unfold same_event
          simp only [decide_eq_false_iff_not]
          intro h
          exact hsame ⟨h.1.symm, h.2.symm⟩
        have hcond : rwRecGetSIPv4 r ≠ st0.last_sip ∨ rwRecGetProto r ≠ st0.last_proto
            ∨ false = true := by
          simp only [hst0, hsip, hproto]
          by_contra hc
          simp only [not_or, not_not, ne_eq] at hc
          exact hsame ⟨hc.1, hc.2.1⟩
        have hpos : st.metrics.event_size > 0 := by rw [hs, he]; simp
        rw [if_pos hcond, hr]
        dsimp only
        have := ih r (pf_store r (pf_new_event r st0)) r []
          (by simp [pf_store, pf_new_event])
          (by simp [pf_store, pf_new_event, metrics_zero, U32])
          rfl rfl
          (by
            simp only [pf_store, pf_new_event, List.nil_append, List.length_singleton]
            omega)
        rw [this]
        have hne := split_loop_ne_nil same_event (rest.filter accepted_rec) r []
        simp only [pf_store, pf_new_event, hst0, hpos, if_true, List.map_append,
          List.map_cons, List.map_nil, List.reverse_cons, List.reverse_nil, List.nil_append,
          List.append_assoc, he]
        congr 1
        rw [split_loop_append same_event _ r [] [g.reverse ++ [ag]]]
        unfold enqueued_runs
        split_ifs
        · rfl
        · rw [List.dropLast_append_of_ne_nil _ hne]
          rfl

/-- The loop of `process_file` before the first accepted record. -/
theorem pf_loop_runs_start (recs : List rwRec) :
    ∀ (buf : rwRec) (st : pf_state K),
    st.event_flows = [] → st.metrics.event_size = 0 → st.last_proto = 0 →
    recs.length < U32 →
    (pf_loop recs buf st).work_queue.map (fun w => w.flows)
      = st.work_queue.map (fun w => w.flows)
        ++ enqueued_runs (accepted_rec (recs.getLastD buf)) (spec_event_runs recs) := by
  induction recs with
  | nil =>
    intro buf st he hs _ _
    simp only [pf_loop, spec_event_runs, List.filter_nil, List.splitBy_nil]
    have hnil : ∀ b, enqueued_runs b ([] : List (List rwRec)) = [] := by
      intro b; cases b <;> rfl
    rw [hnil, List.append_nil]
    cases hacc : accepted_rec buf
    · rw [pf_body_ignored _ _ _ hacc]
    · rw [pf_body_accepted _ _ _ hacc]
      simp [pf_store, pf_new_event, hs]
  | cons r rest ih =>
    intro buf st he hs hp hb
    simp only [List.length_cons] at hb
    rw [pf_loop, List.getLastD_cons]
    set st0 : pf_state K :=
      { st with summary :=
          { st.summary with total_flows := (st.summary.total_flows + 1) % U32 } } with hst0
    cases hacc : accepted_rec r
    · rw [pf_body_ignored _ _ _ hacc]
      have : spec_event_runs (r :: rest) = spec_event_runs rest := by
        unfold spec_event_runs
        rw [List.filter_cons_of_neg (by simp [hacc])]
      rw [this]
      exact ih r _ he hs hp (by omega)
    · have hne : rwRecGetProto r ≠ 0 := by
        have h := hacc
        unfold accepted_rec accepted_proto IPPROTO_ICMP IPPROTO_TCP IPPROTO_UDP at h
        simp only [decide_eq_true_eq] at h
        omega
      have hcond : rwRecGetSIPv4 r ≠ st0.last_sip ∨ rwRecGetProto r ≠ st0.last_proto
          ∨ false = true := by
        right; left
        simp only [hst0, hp]
        exact hne
      rw [pf_body_accepted _ _ _ hacc, if_pos hcond]
      have := pf_loop_runs_open rest r (pf_store r (pf_new_event r st0)) r []
        (by simp [pf_store, pf_new_event])
        (by simp [pf_store, pf_new_event, metrics_zero, U32])
        rfl rfl
        (by
          simp only [pf_store, pf_new_event, List.nil_append, List.length_singleton]
          omega)
      rw [this]
      have hq : (pf_store r (pf_new_event r st0)).work_queue = st.work_queue := by
        simp [pf_store, pf_new_event, hst0, hs]
      rw [hq]
      unfold spec_event_runs
      rw [List.filter_cons_of_pos hacc]
      rfl

/-- The grouper characterised: the batches `process_file` adds to the work
queue are, in order, the event runs of the specification when the stream ends
with a record of ICMP, TCP or UDP; otherwise (the stream is empty or ends with
a record of another protocol) the last run is missing. -/
theorem process_file_runs (recs : List rwRec) (q : List (worker_thread_data K))
    (s : summary_metrics) (h : recs.length < U32) :
    (process_file recs q s).1.map (fun w => w.flows)
      = q.map (fun w => w.flows)
        ++ enqueued_runs (accepted_rec (recs.getLastD RWREC_CLEAR)) (spec_event_runs recs) :=
  pf_loop_runs_start recs RWREC_CLEAR (pf_init q s) rfl rfl rfl h

/-- The summary counters after one pass through the loop body of
`process_file`: one more ignored flow exactly when the buffer holds a record of
another protocol. -/
theorem pf_body_summary (done : Bool) (r : rwRec) (st : pf_state K) :
    (pf_body done r st).summary
      = { st.summary with ignored_flows :=
            if accepted_rec r = true then st.summary.ignored_flows
            else (st.summary.ignored_flows + 1) % U32 } := by
  cases hacc : accepted_rec r
  · rw [pf_body_ignored _ _ _ hacc]
    simp
  · rw [pf_body_accepted _ _ _ hacc, if_pos rfl]
    split_ifs <;> simp [pf_store, pf_new_event]

/-- The counter `ignored_flows` after the loop of `process_file` (no wrap): it
has grown by the number of records of other protocols in the stream, plus one
when the record buffer at the end of the stream holds such a record. -/
theorem pf_loop_ignored (recs : List rwRec) :
    ∀ (buf : rwRec) (st : pf_state K),
    st.summary.ignored_flows + recs.length + 1 < U32 →
    (pf_loop recs buf st).summary.ignored_flows
      = st.summary.ignored_flows + (recs.filter (fun r => !accepted_rec r)).length
          + (if accepted_rec (recs.getLastD buf) = true then 0 else 1) := by
  induction recs with
  | nil =>
    intro buf st hb
    rw [pf_loop, pf_body_summary]
    cases hacc : accepted_rec buf
    · simp only [Bool.false_eq_true, if_false, List.filter_nil, List.length_nil, add_zero,
        List.getLastD_nil, hacc]
      exact Nat.mod_eq_of_lt (by simp only [List.length_nil] at hb; omega)
    · simp [hacc]
  | cons r rest ih =>
    intro buf st hb
    simp only [List.length_cons] at hb
    rw [pf_loop, List.getLastD_cons]
    have hflen := List.length_filter_le (fun r => !accepted_rec r) rest
    cases hacc : accepted_rec r
    · have hm : (st.summary.ignored_flows + 1) % U32 = st.summary.ignored_flows + 1 :=
        Nat.mod_eq_of_lt (by omega)
      rw [ih r _ (by
        rw [pf_body_summary]
        simp only [hacc, Bool.false_eq_true, if_false, hm]
        omega)]
      rw [pf_body_summary]
      simp only [hacc, Bool.false_eq_true, if_false, hm, Bool.not_false,
        List.filter_cons_of_pos, List.length_cons]
      omega
    · rw [ih r _ (by
        rw [pf_body_summary]
        simp only [hacc, if_true]
        omega)]
      rw [pf_body_summary]
      simp [hacc]

/-- The counter `ignored_flows` after `process_file` (no wrap): the number of
records of other protocols, plus one when the stream is empty or ends with such
a record. -/
theorem process_file_ignored (recs : List rwRec) (q : List (worker_thread_data K))
    (s : summary_metrics) (hb : s.ignored_flows + recs.length + 1 < U32) :
    (process_file recs q s).2.ignored_flows
      = s.ignored_flows + (recs.filter (fun r => !accepted_rec r)).length
          + (if accepted_rec (recs.getLastD RWREC_CLEAR) = true then 0 else 1) :=
  pf_loop_ignored recs RWREC_CLEAR (pf_init q s) hb

end GrouperRuns

section ScanAssertion
variable {K : Type} [LinearOrderedField K]
open EventClassification ScanModel

theorem fresh_metrics_class (m : event_metrics K) (h : fresh_metrics m) :
    m.event_class = EVENT_UNKNOWN ∧ m.scan_probability = 0 ∧ m.pkts = 0 ∧ m.bytes = 0 := by
  unfold fresh_metrics at h
  rw [h]
  exact ⟨rfl, rfl, rfl, rfl⟩

theorem pf_keep_event_fresh (r : rwRec) (m : event_metrics K) (h : fresh_metrics m) :
    fresh_metrics (pf_keep_event r m) := by
  unfold fresh_metrics at h ⊢
  unfold pf_keep_event
  dsimp only
  split_ifs <;> rw [h]

theorem pf_body_fresh (done : Bool) (r : rwRec) (st : pf_state K)
    (h : fresh_metrics st.metrics) :
    fresh_metrics (pf_body done r st).metrics
    ∧ ∃ new, (pf_body done r st).work_queue = st.work_queue ++ new
        ∧ ∀ w ∈ new, fresh_metrics w.metrics := by
  unfold pf_body
  split_ifs with ha hb
  · exact ⟨h, [], by simp⟩
  · refine ⟨by simp only [pf_store, pf_new_event]; rfl, ?_⟩
    by_cases hc : st.metrics.event_size > 0
    · refine ⟨[{ flows := st.event_flows, metrics := st.metrics }],
        by simp [pf_store, pf_new_event, hc], ?_⟩
      intro w hw
      simp only [List.mem_singleton] at hw
      subst hw
      exact h
    · exact ⟨[], by simp [pf_store, pf_new_event, hc]⟩
  · refine ⟨?_, [], by simp [pf_store]⟩
    have := pf_keep_event_fresh r st.metrics h
    unfold fresh_metrics at this ⊢
    simp only [pf_store]
    rw [this]


theorem pf_loop_fresh (recs : List rwRec) :
    ∀ (rw : rwRec) (st : pf_state K), fresh_metrics st.metrics →
    ∃ new, (pf_loop recs rw st).work_queue = st.work_queue ++ new
      ∧ ∀ w ∈ new, fresh_metrics w.metrics := by
  induction recs with
  | nil =>
    intro rw st h
    exact (pf_body_fresh true rw st h).2
  | cons r rest ih =>
    intro rw st h
    unfold pf_loop
    set st0 : pf_state K :=
      { st with summary :=
          { st.summary with total_flows := (st.summary.total_flows + 1) % U32 } }
    have h0 : fresh_metrics st0.metrics := h
    obtain ⟨hf, new1, hq1, hb1⟩ := pf_body_fresh false r st0 h0
    obtain ⟨new2, hq2, hb2⟩ := ih r (pf_body false r st0) hf
    refine ⟨new1 ++ new2, ?_, ?_⟩
    · rw [hq2, hq1, List.append_assoc]
    · intro w hw
      rcases List.mem_append.mp hw with hw | hw
      · exact hb1 w hw
      · exact hb2 w hw

/-- Every batch `process_file` puts on the work queue carries a metrics block
in which only the header is filled in: class UNKNOWN, scan probability, packet
and byte counts and all other counters zero. -/
theorem process_file_fresh (recs : List rwRec) (q : List (worker_thread_data K))
    (s : summary_metrics) :
    ∃ new, (process_file recs q s).1 = q ++ new ∧ ∀ w ∈ new, fresh_metrics w.metrics :=
  pf_loop_fresh recs RWREC_CLEAR (pf_init q s) rfl

/-- C11: the assertion `scan->scan_prob > 0` of the worker holds.  For a batch
as `process_file` hands it over (batch invariant, class UNKNOWN), under every
scan model and for all values of the thetas: whenever the classifier chain
ends with the final class SCAN, the scan probability copied into the row is
strictly positive (exact arithmetic, `exp` positive).  The classifier chain
does end when every TCP and UDP record of the batch carries a packet. -/
theorem scan_assertion_holds (exp : K → K) (hexp : ∀ y, 0 < exp y)
    (qsort : (rwRec → rwRec → Int) → List rwRec → List rwRec) (hq : qsort_perm qsort)
    (opts : options_t K) (w : worker_thread_data K) (hw : batch_inv w)
    (hfresh : w.metrics.event_class = EVENT_UNKNOWN) (data : trw_data) :
    (∀ m d, worker_classify exp qsort opts w data = some (m, d) →
      m.event_class = EVENT_SCAN → 0 < (scan_record m).scan_prob)
    ∧ ((∀ f ∈ w.flows, rwRecGetProto f ≠ IPPROTO_ICMP → 1 ≤ rwRecGetPkts f) →
        ∃ m d, worker_classify exp qsort opts w data = some (m, d)) := by
  refine ⟨fun m d hc hs => ?_, fun hpk => worker_classify_some exp qsort hq opts w hw hpk data⟩
  have hv := worker_classify_spec exp qsort opts w data m d hc
  show 0 < m.scan_probability
  rcases hv (by rw [hfresh]; decide) hs with ⟨-, hp⟩ | ⟨-, y, hy⟩
  · rw [eta1_val] at hp
    exact lt_trans (by norm_num) hp
  · rw [hy]
    have := hexp y
    positivity

end ScanAssertion

section ScanAssertionReal
open EventClassification ScanModel

/-- C11 at the batch of five bare-SYN flows, over the reals: the classifier
chain ends, and a final class SCAN comes with a positive scan probability. -/
theorem scan_assertion_holds_witness :
    ∃ m d, worker_classify Real.exp qsort_insertion
        (default_options RWSCAN_MODEL_HYBRID : options_t ℝ)
        { flows := sample_syn_event, metrics := sample_metrics 6 9 5 } trw_data_empty
          = some (m, d)
      ∧ (m.event_class = EVENT_SCAN → 0 < (scan_record m).scan_prob) :=
  have h := scan_assertion_holds Real.exp Real.exp_pos qsort_insertion qsort_insertion_perm
    (default_options RWSCAN_MODEL_HYBRID : options_t ℝ)
    { flows := sample_syn_event, metrics := sample_metrics 6 9 5 }
    ⟨by decide, rfl, by decide, by decide⟩ rfl trw_data_empty
  (h.2 (by decide)).elim fun m hm => hm.elim fun d hd => ⟨m, d, hd, h.1 m d hd⟩

end ScanAssertionReal

section SmallEvents
variable {K : Type} [LinearOrderedField K]
open EventClassification ScanModel

/-- On an event of fewer than 32 flows `invoke_blr_model` only sets the model
tag. -/
theorem invoke_blr_model_small (exp : K → K)
    (qsort : (rwRec → rwRec → Int) → List rwRec → List rwRec)
    (flows : List rwRec) (m : event_metrics K) (h : m.event_size < EVENT_FLOW_THRESHOLD) :
    invoke_blr_model exp qsort flows m = some { m with model := RWSCAN_MODEL_BLR } := by
  unfold invoke_blr_model
  dsimp only
  rw [if_neg (by omega)]

/-- The classifier chain on a small event that TRW does not classify. -/
theorem worker_classify_small (exp : K → K)
    (qsort : (rwRec → rwRec → Int) → List rwRec → List rwRec)
    (opts : options_t K) (w : worker_thread_data K) (data : trw_data)
    (hsmall : w.metrics.event_size < EVENT_FLOW_THRESHOLD)
    (hfresh : w.metrics.event_class = EVENT_UNKNOWN)
    (hcase : w.metrics.protocol ≠ IPPROTO_TCP ∨ opts.scan_model = RWSCAN_MODEL_BLR
      ∨ (invoke_trw_model opts w.flows w.metrics trw_counters_zero
          data).metrics.event_class = EVENT_UNKNOWN) :
    ∃ m d, worker_classify exp qsort opts w data = some (m, d)
      ∧ m.event_class = EVENT_UNKNOWN := by
  unfold worker_classify
  dsimp only
  by_cases htrw : w.metrics.protocol = IPPROTO_TCP
      ∧ (opts.scan_model = RWSCAN_MODEL_HYBRID ∨ opts.scan_model = RWSCAN_MODEL_TRW)
  · rw [if_pos htrw]
    have hu : (invoke_trw_model opts w.flows w.metrics trw_counters_zero
        data).metrics.event_class = EVENT_UNKNOWN := by
      rcases hcase with h | h | h
      · exact absurd htrw.1 h
      · rcases htrw.2 with h2 | h2 <;> rw [h] at h2 <;> exact absurd h2 (by decide)
      · exact h
    obtain ⟨-, -, v3, -⟩ := invoke_trw_model_verdict opts w.flows w.metrics
      trw_counters_zero data
    set st := invoke_trw_model opts w.flows w.metrics trw_counters_zero data
    dsimp only
    split_ifs with hb
    · rw [invoke_blr_model_small exp qsort _ _ (by rw [v3]; exact hsmall)]
      exact ⟨_, _, rfl, hu⟩
    · exact ⟨_, _, rfl, hu⟩
  · rw [if_neg htrw]
    dsimp only
    split_ifs with hb
    · rw [invoke_blr_model_small exp qsort _ _ hsmall]
      exact ⟨_, _, rfl, hfresh⟩
    · exact ⟨_, _, rfl, hfresh⟩

/-- C12: an event of fewer than 32 flows that is not TCP, or on which TRW is
not run (scan model BLR), or for which TRW returns UNKNOWN, ends with the class
UNKNOWN under every scan model: the worker writes no row, `summary.unknown`
grows by one and the other four class counters keep their values.  On every
metrics block of fewer than 32 flows `invoke_blr_model` ends normally and
leaves `event_class` and `scan_probability` as they are. -/
theorem small_event_unknown (exp : K → K)
    (qsort : (rwRec → rwRec → Int) → List rwRec → List rwRec)
    (opts : options_t K) (w : worker_thread_data K) (ws : worker_state K)
    (hsmall : w.metrics.event_size < EVENT_FLOW_THRESHOLD)
    (hfresh : w.metrics.event_class = EVENT_UNKNOWN)
    (hcase : w.metrics.protocol ≠ IPPROTO_TCP ∨ opts.scan_model = RWSCAN_MODEL_BLR
      ∨ (invoke_trw_model opts w.flows w.metrics trw_counters_zero
          ws.data).metrics.event_class = EVENT_UNKNOWN)
    (hb : ws.summary.unknown + 1 < U32) :
    (∃ m d ws1, worker_classify exp qsort opts w ws.data = some (m, d)
      ∧ m.event_class = EVENT_UNKNOWN
      ∧ worker_event exp qsort opts ws w = some ws1
      ∧ ws1.out_scans = ws.out_scans
      ∧ ws1.summary.unknown = ws.summary.unknown + 1
      ∧ ws1.summary.scanners = ws.summary.scanners
      ∧ ws1.summary.benign = ws.summary.benign
      ∧ ws1.summary.backscatter = ws.summary.backscatter
      ∧ ws1.summary.flooders = ws.summary.flooders)
    ∧ ∀ (flows : List rwRec) (m0 : event_metrics K),
        m0.event_size < EVENT_FLOW_THRESHOLD →
        ∃ m1, invoke_blr_model exp qsort flows m0 = some m1
          ∧ m1.event_class = m0.event_class
          ∧ m1.scan_probability = m0.scan_probability := by
  constructor
  · obtain ⟨m, d, hc, hu⟩ := worker_classify_small exp qsort opts w ws.data hsmall hfresh hcase
    refine ⟨m, d, worker_report m { ws with data := d }, hc, hu, ?_, ?_⟩
    · unfold worker_event
      rw [hc]
    · unfold worker_report
      rw [hu]
      exact ⟨rfl, Nat.mod_eq_of_lt hb, rfl, rfl, rfl, rfl⟩
  · intro flows m0 h0
    exact ⟨_, invoke_blr_model_small exp qsort flows m0 h0, rfl, rfl⟩

end SmallEvents

section SmallEventsReal
open EventClassification ScanModel

/-- C12 at an event of three UDP flows under the scan model HYBRID. -/
theorem small_event_unknown_witness :
    (∃ m d ws1, worker_classify Real.exp qsort_insertion
          (default_options RWSCAN_MODEL_HYBRID : options_t ℝ)
          { flows := sample_udp_event, metrics := sample_metrics 17 9 3 }
          (worker_state_zero : worker_state ℝ).data = some (m, d)
      ∧ m.event_class = EVENT_UNKNOWN
      ∧ worker_event Real.exp qsort_insertion
          (default_options RWSCAN_MODEL_HYBRID : options_t ℝ) worker_state_zero
          { flows := sample_udp_event, metrics := sample_metrics 17 9 3 } = some ws1
      ∧ ws1.out_scans = (worker_state_zero : worker_state ℝ).out_scans
      ∧ ws1.summary.unknown = (worker_state_zero : worker_state ℝ).summary.unknown + 1
      ∧ ws1.summary.scanners = (worker_state_zero : worker_state ℝ).summary.scanners
      ∧ ws1.summary.benign = (worker_state_zero : worker_state ℝ).summary.benign
      ∧ ws1.summary.backscatter = (worker_state_zero : worker_state ℝ).summary.backscatter
      ∧ ws1.summary.flooders = (worker_state_zero : worker_state ℝ).summary.flooders)
    ∧ ∀ (flows : List rwRec) (m0 : event_metrics ℝ),
        m0.event_size < EVENT_FLOW_THRESHOLD →
        ∃ m1, invoke_blr_model Real.exp qsort_insertion flows m0 = some m1
          ∧ m1.event_class = m0.event_class
          ∧ m1.scan_probability = m0.scan_probability :=
  small_event_unknown Real.exp qsort_insertion
    (default_options RWSCAN_MODEL_HYBRID : options_t ℝ)
    { flows := sample_udp_event, metrics := sample_metrics 17 9 3 } worker_state_zero
    (by decide) rfl (Or.inl (by decide)) (by decide)

end SmallEventsReal

section Scorers
open EventClassification ScanModel

/-- The logistic value lies strictly between 0 and 1 and exceeds one half
exactly for a positive score. -/
theorem logistic_bounds (y : ℝ) :
    0 < Real.exp y / (1.0 + Real.exp y) ∧ Real.exp y / (1.0 + Real.exp y) < 1
    ∧ (Real.exp y / (1.0 + Real.exp y) > 0.5 ↔ 0 < y) := by
  have hp := Real.exp_pos y
  have hd : (0 : ℝ) < 1.0 + Real.exp y := by norm_num; linarith
  refine ⟨by positivity, ?_, ?_⟩
  · rw [div_lt_one hd]; norm_num
  · rw [gt_iff_lt, lt_div_iff₀ hd]
    constructor
    · intro h
      have h1 : 1 < Real.exp y := by norm_num at h; linarith
      exact Real.one_lt_exp_iff.mp h1
    · intro h
      have h1 : 1 < Real.exp y := Real.one_lt_exp_iff.mpr h
      norm_num
      linarith

/-- C13: over the reals each of the three scorers stores the logistic value
`p = e^y / (1 + e^y)` of its linear score `y`, which lies strictly between 0
and 1; it sets the class to SCAN when `y > 0` and leaves the class as it is
otherwise. -/
theorem scorers_logistic (m : event_metrics ℝ) :
    ((calculate_icmp_scan_probability Real.exp m).scan_probability
        = Real.exp (icmp_score m) / (1 + Real.exp (icmp_score m))
      ∧ 0 < (calculate_icmp_scan_probability Real.exp m).scan_probability
      ∧ (calculate_icmp_scan_probability Real.exp m).scan_probability < 1
      ∧ (0 < icmp_score m →
          (calculate_icmp_scan_probability Real.exp m).event_class = EVENT_SCAN)
      ∧ (¬ 0 < icmp_score m →
          (calculate_icmp_scan_probability Real.exp m).event_class = m.event_class))
    ∧ ((calculate_tcp_scan_probability Real.exp m).scan_probability
        = Real.exp (tcp_score m) / (1 + Real.exp (tcp_score m))
      ∧ 0 < (calculate_tcp_scan_probability Real.exp m).scan_probability
      ∧ (calculate_tcp_scan_probability Real.exp m).scan_probability < 1
      ∧ (0 < tcp_score m →
          (calculate_tcp_scan_probability Real.exp m).event_class = EVENT_SCAN)
      ∧ (¬ 0 < tcp_score m →
          (calculate_tcp_scan_probability Real.exp m).event_class = m.event_class))
    ∧ ((calculate_udp_scan_probability Real.exp m).scan_probability
        = Real.exp (udp_score m) / (1 + Real.exp (udp_score m))
      ∧ 0 < (calculate_udp_scan_probability Real.exp m).scan_probability
      ∧ (calculate_udp_scan_probability Real.exp m).scan_probability < 1
      ∧ (0 < udp_score m →
          (calculate_udp_scan_probability Real.exp m).event_class = EVENT_SCAN)
      ∧ (¬ 0 < udp_score m →
          (calculate_udp_scan_probability Real.exp m).event_class = m.event_class)) := by
  have one : (1.0 : ℝ) = 1 := by norm_num
  refine ⟨?_, ?_, ?_⟩
  · obtain ⟨b1, b2, b3⟩ := logistic_bounds (icmp_score m)
    have hp := (calculate_icmp_scan_probability_spec Real.exp m).1
    refine ⟨by rw [hp, one], by rw [hp]; exact b1, by rw [hp]; exact b2, ?_, ?_⟩
    · intro hy
      unfold calculate_icmp_scan_probability
      dsimp only
      rw [if_pos (b3.mpr hy)]
    · intro hy
      unfold calculate_icmp_scan_probability
      dsimp only
      rw [if_neg (fun h => hy (b3.mp h))]
  · obtain ⟨b1, b2, b3⟩ := logistic_bounds (tcp_score m)
    have hp := (calculate_tcp_scan_probability_spec Real.exp m).1
    refine ⟨by rw [hp, one], by rw [hp]; exact b1, by rw [hp]; exact b2, ?_, ?_⟩
    · intro hy
      unfold calculate_tcp_scan_probability
      dsimp only
      rw [if_pos (b3.mpr hy)]
    · intro hy
      unfold calculate_tcp_scan_probability
      dsimp only
      rw [if_neg (fun h => hy (b3.mp h))]
  · obtain ⟨b1, b2, b3⟩ := logistic_bounds (udp_score m)
    have hp := (calculate_udp_scan_probability_spec Real.exp m).1
    refine ⟨by rw [hp, one], by rw [hp]; exact b1, by rw [hp]; exact b2, ?_, ?_⟩
    · intro hy
      unfold calculate_udp_scan_probability
      dsimp only
      rw [if_pos (b3.mpr hy)]
    · intro hy
      unfold calculate_udp_scan_probability
      dsimp only
      rw [if_neg (fun h => hy (b3.mp h))]

end Scorers

section RowSums
variable {K : Type} [LinearOrderedField K]
open EventClassification ScanModel

theorem same_sums_refl (m : event_metrics K) : same_sums m m := ⟨rfl, rfl⟩

theorem same_sums_trans {m m1 m2 : event_metrics K} (h1 : same_sums m m1)
    (h2 : same_sums m1 m2) : same_sums m m2 :=
  ⟨h2.1.trans h1.1, h2.2.trans h1.2⟩

theorem shared_body_sums (s : shared_state K) (rw : rwRec) :
    (shared_body s rw).metrics.pkts = (s.metrics.pkts + rwRecGetPkts rw) % U32
    ∧ (shared_body s rw).metrics.bytes = (s.metrics.bytes + rwRecGetBytes rw) % U32 := by
  unfold shared_body
  dsimp only
  split_ifs <;> exact ⟨rfl, rfl⟩

theorem shared_fold_sums (l : List rwRec) : ∀ s : shared_state K,
    s.metrics.pkts < U32 → s.metrics.bytes < U32 →
    (l.foldl shared_body s).metrics.pkts = (s.metrics.pkts + event_pkts l) % U32
    ∧ (l.foldl shared_body s).metrics.bytes = (s.metrics.bytes + event_bytes l) % U32 := by
  induction l with
  | nil =>
    intro s hp hb
    simp [event_pkts, event_bytes, Nat.mod_eq_of_lt hp, Nat.mod_eq_of_lt hb]
  | cons x t ih =>
    intro s hp hb
    obtain ⟨b1, b2⟩ := shared_body_sums s x
    have hU : 0 < U32 := by decide
    obtain ⟨i1, i2⟩ := ih (shared_body s x) (by rw [b1]; exact Nat.mod_lt _ hU)
      (by rw [b2]; exact Nat.mod_lt _ hU)
    rw [List.foldl_cons, i1, i2, b1, b2]
    simp only [event_pkts, event_bytes, List.map_cons, List.sum_cons]
    constructor
    · rw [Nat.add_mod, Nat.mod_mod, ← Nat.add_mod, Nat.add_assoc]
    · rw [Nat.add_mod, Nat.mod_mod, ← Nat.add_mod, Nat.add_assoc]

/-- The totals `calculate_shared_metrics` leaves: the packet and byte counts of
the first `event_size` flows are added to what the block held, modulo `2^32`. -/
theorem calculate_shared_metrics_sums (flows : List rwRec) (m : event_metrics K)
    (hp : m.pkts < U32) (hb : m.bytes < U32) :
    (calculate_shared_metrics flows m).pkts
        = (m.pkts + event_pkts (flows.take m.event_size)) % U32
    ∧ (calculate_shared_metrics flows m).bytes
        = (m.bytes + event_bytes (flows.take m.event_size)) % U32 := by
  unfold calculate_shared_metrics
  exact shared_fold_sums (flows.take m.event_size)
    ({ metrics := { m with sp_count := 1, unique_dips := 1, unique_dsts := 0 },
       last_dip := rwRecGetDIPv4 (flows.headD RWREC_CLEAR),
       last_sp := rwRecGetSPort (flows.headD RWREC_CLEAR), last_dp := 0xffffffff } :
      shared_state K) hp hb

theorem increment_icmp_counters_sums (rw : rwRec) (m : event_metrics K) :
    same_sums m (increment_icmp_counters rw m) := by
  unfold increment_icmp_counters same_sums
  dsimp only
  split_ifs <;> exact ⟨rfl, rfl⟩

theorem increment_tcp_counters_sums (rw : rwRec) (m m1 : event_metrics K)
    (h : increment_tcp_counters rw m = some m1) : same_sums m m1 := by
  unfold increment_tcp_counters at h
  unfold same_sums
  dsimp only at h
  split_ifs at h <;> cases h <;> exact ⟨rfl, rfl⟩

theorem increment_udp_counters_sums (rw : rwRec) (m m1 : event_metrics K)
    (h : increment_udp_counters rw m = some m1) : same_sums m m1 := by
  unfold increment_udp_counters at h
  unfold same_sums
  dsimp only at h
  split_ifs at h <;> cases h <;> exact ⟨rfl, rfl⟩

theorem blr_count_sums (l : List rwRec) :
    ∀ m m1 : event_metrics K, blr_count l m = some m1 → same_sums m m1 := by
  induction l with
  | nil =>
    intro m m1 h
    simp only [blr_count, Option.some.injEq] at h
    subst h
    exact same_sums_refl m
  | cons x t ih =>
    intro m m1 h
    unfold blr_count at h
    split_ifs at h
    · exact same_sums_trans (increment_icmp_counters_sums x m) (ih _ _ h)
    · cases hc : increment_tcp_counters x m with
      | none => rw [hc] at h; exact absurd h (by simp)
      | some m2 =>
        rw [hc] at h
        exact same_sums_trans (increment_tcp_counters_sums x m m2 hc) (ih _ _ h)
    · cases hc : increment_udp_counters x m with
      | none => rw [hc] at h; exact absurd h (by simp)
      | some m2 =>
        rw [hc] at h
        exact same_sums_trans (increment_udp_counters_sums x m m2 hc) (ih _ _ h)

/-- The loop body of `calculate_icmp_metrics` changes nothing in the metrics
block but `max_class_c_dip_run_length`. -/
theorem icmp_body_frame (s : icmp_state K) (rw : rwRec) (nx : Option rwRec) :
    ∃ v, (icmp_body s rw nx).metrics
      = { s.metrics with icmp := { s.metrics.icmp with max_class_c_dip_run_length := v } } := by
  unfold icmp_body
  rcases nx with _ | n <;> dsimp only <;> split_ifs <;> exact ⟨_, rfl⟩

theorem icmp_body_sums (s : icmp_state K) (rw : rwRec) (nx : Option rwRec) :
    same_sums s.metrics (icmp_body s rw nx).metrics := by
  obtain ⟨v, h⟩ := icmp_body_frame s rw nx
  rw [h]
  exact ⟨rfl, rfl⟩

theorem icmp_loop_sums (l : List rwRec) :
    ∀ s : icmp_state K, same_sums s.metrics (icmp_loop l s).metrics := by
  induction l with
  | nil => intro s; exact same_sums_refl _
  | cons x t ih =>
    intro s
    rw [icmp_loop]
    exact same_sums_trans (icmp_body_sums s x t.head?) (ih _)

theorem calculate_icmp_metrics_sums (flows : List rwRec) (m : event_metrics K) :
    same_sums (calculate_shared_metrics flows m) (calculate_icmp_metrics flows m) := by
  unfold calculate_icmp_metrics
  dsimp only
  have h2 := icmp_loop_sums (flows.take (calculate_shared_metrics flows m).event_size)
    ({ metrics := calculate_shared_metrics flows m, class_c_next := 0, dip_next := 0,
       run := 1, max_run_curr := 1, class_c_run := 1, max_class_c_run := 1,
       class_c_dip_count := 1, max_class_c_dip_count := 1 } : icmp_state K)
  exact ⟨h2.1, h2.2⟩

theorem calculate_tcp_metrics_sums (flows : List rwRec) (m : event_metrics K) :
    same_sums (calculate_shared_metrics flows m) (calculate_tcp_metrics flows m) := by
  unfold calculate_tcp_metrics
  exact ⟨rfl, rfl⟩

theorem udp_low_ports_sums (s : udp_state K) (rw : rwRec) (d : Nat) :
    same_sums s.metrics (udp_low_ports s rw d).metrics := by
  unfold udp_low_ports
  by_cases h : d ≠ s.dip_next
  · rw [if_pos h]
    generalize List.foldl (port_run_body s.low_dp_bitmap)
      (0, s.metrics.udp.max_low_port_run_length) (List.range 1024) = pr
    dsimp only
    split_ifs <;> exact ⟨rfl, rfl⟩
  · rw [if_neg h]
    exact same_sums_refl _

theorem udp_class_c_sums (s : udp_state K) (c : Nat) :
    same_sums s.metrics (udp_class_c s c).metrics := by
  unfold udp_class_c
  dsimp only
  split_ifs <;> exact ⟨rfl, rfl⟩

theorem udp_body_sums (s : udp_state K) (rw : rwRec) (nx : Option rwRec) :
    same_sums s.metrics (udp_body s rw nx).metrics := by
  unfold udp_body
  dsimp only
  have h1 := udp_advance_metrics s rw nx
  have h2 := udp_low_ports_sums (udp_advance s rw nx) rw s.dip_next
  have h3 := udp_class_c_sums (udp_low_ports (udp_advance s rw nx) rw s.dip_next)
    s.class_c_next
  rw [h1] at h2
  exact same_sums_trans h2 h3

theorem udp_loop_sums (l : List rwRec) :
    ∀ s : udp_state K, same_sums s.metrics (udp_loop l s).metrics := by
  induction l with
  | nil => intro s; exact same_sums_refl _
  | cons x t ih =>
    intro s
    rw [udp_loop]
    exact same_sums_trans (udp_body_sums s x t.head?) (ih _)

theorem calculate_udp_metrics_sums (flows : List rwRec) (m : event_metrics K) :
    same_sums (calculate_shared_metrics flows m) (calculate_udp_metrics flows m) := by
  unfold calculate_udp_metrics
  dsimp only
  have h2 := udp_loop_sums (flows.take (calculate_shared_metrics flows m).event_size)
    ({ metrics := calculate_shared_metrics flows m
       low_dp_bitmap := skBitmapSetBit (skBitmapCreate 1024)
         (rwRecGetDPort (flows.headD RWREC_CLEAR))
       sp_bitmap := skBitmapCreate UINT16_MAX
       dip_next := rwRecGetDIPv4 (flows.headD RWREC_CLEAR)
       class_c_next := rwRecGetDIPv4 (flows.headD RWREC_CLEAR) &&& 0xFFFFFF00
       subnet_run := 1, max_subnet_run := 1 } : udp_state K)
  exact ⟨h2.1, h2.2⟩

end RowSums

section RowFields
variable {K : Type} [LinearOrderedField K]
open EventClassification ScanModel

theorem same_tag_header {m m1 : event_metrics K} (h : same_tag m m1) : same_header m m1 :=
  ⟨h.1, h.2.1, h.2.2.1, h.2.2.2.1, h.2.2.2.2.1⟩

theorem same_header_trans {m m1 m2 : event_metrics K} (h1 : same_header m m1)
    (h2 : same_header m1 m2) : same_header m m2 := by
  obtain ⟨a1, a2, a3, a4, a5⟩ := h1
  obtain ⟨b1, b2, b3, b4, b5⟩ := h2
  exact ⟨b1.trans a1, b2.trans a2, b3.trans a3, b4.trans a4, b5.trans a5⟩

/-- The sorted array has the records of the unsorted one in its first `n`
slots. -/
theorem qsort_flows_take (qsort : (rwRec → rwRec → Int) → List rwRec → List rwRec)
    (hq : qsort_perm qsort) (cmp : rwRec → rwRec → Int) (flows : List rwRec) (n : Nat) :
    List.Perm ((qsort_flows qsort cmp flows n).take n) (flows.take n) := by
  unfold qsort_flows
  have hl : (qsort cmp (flows.take n)).length = (flows.take n).length := (hq _ _).length_eq
  have h1 : (qsort cmp (flows.take n)).take n = qsort cmp (flows.take n) :=
    List.take_of_length_le (by rw [hl]; exact List.length_take_le n flows)
  have h2 : (flows.drop n).take (n - (qsort cmp (flows.take n)).length) = [] := by
    by_cases hn : n ≤ flows.length
    · rw [hl, List.length_take, Nat.min_eq_left hn, Nat.sub_self, List.take_zero]
    · rw [List.drop_eq_nil_of_le (by omega), List.take_nil]
  rw [List.take_append_eq_append_take, h1, h2, List.append_nil]
  exact hq _ _

theorem event_pkts_perm {l1 l2 : List rwRec} (h : List.Perm l1 l2) :
    event_pkts l1 = event_pkts l2 :=
  (h.map rwRecGetPkts).sum_eq

theorem event_bytes_perm {l1 l2 : List rwRec} (h : List.Perm l1 l2) :
    event_bytes l1 = event_bytes l2 :=
  (h.map rwRecGetBytes).sum_eq

/-- The three scorers leave header and totals alone. -/
theorem scorers_header (exp : K → K) (m : event_metrics K) :
    (same_header m (calculate_icmp_scan_probability exp m)
      ∧ same_sums m (calculate_icmp_scan_probability exp m))
    ∧ (same_header m (calculate_tcp_scan_probability exp m)
      ∧ same_sums m (calculate_tcp_scan_probability exp m))
    ∧ (same_header m (calculate_udp_scan_probability exp m)
      ∧ same_sums m (calculate_udp_scan_probability exp m)) := by
  unfold calculate_icmp_scan_probability calculate_tcp_scan_probability
    calculate_udp_scan_probability same_header same_sums
  dsimp only
  refine ⟨?_, ?_, ?_⟩ <;> split_ifs <;> exact ⟨⟨rfl, rfl, rfl, rfl, rfl⟩, rfl, rfl⟩

/-- What `invoke_blr_model` does to header and totals: the header stays; on an
event of at least 32 flows the packet and byte counts of its flows are added to
the totals, on a smaller one totals and class stay. -/
theorem invoke_blr_model_row (exp : K → K)
    (qsort : (rwRec → rwRec → Int) → List rwRec → List rwRec) (hq : qsort_perm qsort)
    (flows : List rwRec) (m m1 : event_metrics K)
    (h : invoke_blr_model exp qsort flows m = some m1)
    (hp : m.pkts < U32) (hb : m.bytes < U32) :
    same_header m m1
    ∧ (m.event_size ≥ EVENT_FLOW_THRESHOLD →
        m1.pkts = (m.pkts + event_pkts (flows.take m.event_size)) % U32
        ∧ m1.bytes = (m.bytes + event_bytes (flows.take m.event_size)) % U32)
    ∧ (m.event_size < EVENT_FLOW_THRESHOLD →
        same_sums m m1 ∧ m1.event_class = m.event_class) := by
  by_cases hsz : m.event_size < EVENT_FLOW_THRESHOLD
  · rw [invoke_blr_model_small exp qsort flows m hsz, Option.some.injEq] at h
    subst h
    exact ⟨⟨rfl, rfl, rfl, rfl, rfl⟩, fun h2 => absurd hsz (by omega),
      fun _ => ⟨⟨rfl, rfl⟩, rfl⟩⟩
  · unfold invoke_blr_model at h
    dsimp only at h
    rw [if_pos (by omega)] at h
    cases hc : blr_count (flows.take m.event_size)
        ({ m with model := RWSCAN_MODEL_BLR } : event_metrics K) with
    | none => rw [hc] at h; exact absurd h (by simp)
    | some mc =>
      rw [hc] at h
      dsimp only at h
      have hs := blr_count_sums _ _ _ hc
      have hcp : mc.pkts = m.pkts := hs.1
      have hcb : mc.bytes = m.bytes := hs.2
      have key : ∀ (mm : event_metrics K),
          same_header mc mm →
          same_sums (calculate_shared_metrics
            (qsort_flows qsort rwrec_compare_dip_sport flows mc.event_size) mc) mm →
          mc.event_size = m.event_size → same_header m mc →
          same_header m mm
          ∧ (m.event_size ≥ EVENT_FLOW_THRESHOLD →
              mm.pkts = (m.pkts + event_pkts (flows.take m.event_size)) % U32
              ∧ mm.bytes = (m.bytes + event_bytes (flows.take m.event_size)) % U32)
          ∧ (m.event_size < EVENT_FLOW_THRESHOLD →
              same_sums m mm ∧ mm.event_class = m.event_class) := by
        intro mm hh hsum hsize hmc
        obtain ⟨c1, c2⟩ := calculate_shared_metrics_sums
          (qsort_flows qsort rwrec_compare_dip_sport flows mc.event_size) mc
          (by rw [hcp]; exact hp) (by rw [hcb]; exact hb)
        have hperm := qsort_flows_take qsort hq rwrec_compare_dip_sport flows mc.event_size
        have e1 : event_pkts ((qsort_flows qsort rwrec_compare_dip_sport flows
            mc.event_size).take mc.event_size) = event_pkts (flows.take m.event_size) := by
          rw [event_pkts_perm hperm, hsize]
        have e2 : event_bytes ((qsort_flows qsort rwrec_compare_dip_sport flows
            mc.event_size).take mc.event_size) = event_bytes (flows.take m.event_size) := by
          rw [event_bytes_perm hperm, hsize]
        refine ⟨same_header_trans hmc hh, fun _ => ?_, fun h2 => absurd h2 hsz⟩
        exact ⟨hsum.1.trans (c1.trans (by rw [e1, hcp])),
          hsum.2.trans (c2.trans (by rw [e2, hcb]))⟩
      obtain ⟨t1, t2, t3, t4, t5, -, -, -⟩ := (blr_count_tag _ _ _ hc)
      have hmc : same_header m mc := ⟨t1, t2, t3, t4, t5⟩
      split_ifs at h
      · rw [Option.some.injEq] at h
        subst h
        obtain ⟨⟨i1, i2⟩, -, -⟩ := scorers_header exp
          (calculate_icmp_metrics (qsort_flows qsort rwrec_compare_dip_sport flows
            mc.event_size) mc)
        exact key _ (same_header_trans (same_tag_header (calculate_icmp_metrics_tag _ mc)) i1)
          (same_sums_trans (calculate_icmp_metrics_sums _ mc) i2) t3 hmc
      · rw [Option.some.injEq] at h
        subst h
        obtain ⟨-, ⟨i1, i2⟩, -⟩ := scorers_header exp
          (calculate_tcp_metrics (qsort_flows qsort rwrec_compare_dip_sport flows
            mc.event_size) mc)
        exact key _ (same_header_trans (same_tag_header (calculate_tcp_metrics_tag _ mc)) i1)
          (same_sums_trans (calculate_tcp_metrics_sums _ mc) i2) t3 hmc
      · rw [Option.some.injEq] at h
        subst h
        obtain ⟨-, -, ⟨i1, i2⟩⟩ := scorers_header exp
          (calculate_udp_metrics (qsort_flows qsort rwrec_compare_dip_sport flows
            mc.event_size) mc)
        exact key _ (same_header_trans (same_tag_header (calculate_udp_metrics_tag _ mc)) i1)
          (same_sums_trans (calculate_udp_metrics_sums _ mc) i2) t3 hmc


/-- What the loop of `invoke_trw_model` does to the metrics block: a SCAN
decision stores the likelihood and the shared metrics of the whole event, a
BENIGN decision stores the likelihood, and without a decision nothing is
changed. -/
theorem trw_loop_row (opts : options_t K) (flows : List rwRec) :
    ∀ (rest : List rwRec) (i prev : Nat) (st : trw_state K),
    ((trw_loop opts flows rest i prev st).1 = true
      ∧ ∃ l, (trw_loop opts flows rest i prev st).2.metrics
          = { calculate_shared_metrics flows { st.metrics with scan_probability := l } with
              event_class := EVENT_SCAN })
    ∨ ((trw_loop opts flows rest i prev st).1 = true
      ∧ ∃ l, (trw_loop opts flows rest i prev st).2.metrics
          = { st.metrics with scan_probability := l, event_class := EVENT_BENIGN })
    ∨ ((trw_loop opts flows rest i prev st).1 = false
      ∧ (trw_loop opts flows rest i prev st).2.metrics = st.metrics) := by
  intro rest
  induction rest with
  | nil => intro i prev st; simp [trw_loop]
  | cons rw rest ih =>
    intro i prev st
    rw [trw_loop_cons]
    dsimp only
    split_ifs with h1 h2 h3 h4
    · exact Or.inr (Or.inr ⟨rfl, rfl⟩)
    · exact Or.inl ⟨rfl, _, rfl⟩
    · exact Or.inr (Or.inl ⟨rfl, _, rfl⟩)
    · exact ih _ _ _
    · exact ih _ _ _

/-- What `invoke_trw_model` does to header and totals: the header stays; with
the class SCAN the packet and byte counts of the flows of the event have been
added to the totals, with any other class the totals are untouched. -/
theorem invoke_trw_model_row (opts : options_t K) (flows : List rwRec)
    (m : event_metrics K) (c : trw_counters K) (data : trw_data)
    (hp : m.pkts < U32) (hb : m.bytes < U32) :
    same_header m (invoke_trw_model opts flows m c data).metrics
    ∧ ((invoke_trw_model opts flows m c data).metrics.event_class = EVENT_SCAN →
        (invoke_trw_model opts flows m c data).metrics.pkts
            = (m.pkts + event_pkts (flows.take m.event_size)) % U32
        ∧ (invoke_trw_model opts flows m c data).metrics.bytes
            = (m.bytes + event_bytes (flows.take m.event_size)) % U32)
    ∧ ((invoke_trw_model opts flows m c data).metrics.event_class ≠ EVENT_SCAN →
        same_sums m (invoke_trw_model opts flows m c data).metrics) := by
  have hrow := trw_loop_row opts flows (flows.take m.event_size) 0 0xffffffff
    { counters := c, metrics := { m with model := RWSCAN_MODEL_TRW }, data := data }
  unfold invoke_trw_model
  dsimp only at hrow ⊢
  split_ifs with hr
  · rcases hrow with ⟨-, l, e⟩ | ⟨-, l, e⟩ | ⟨hf, -⟩
    · rw [e]
      obtain ⟨c1, c2⟩ := calculate_shared_metrics_sums flows
        ({ m with model := RWSCAN_MODEL_TRW, scan_probability := l } : event_metrics K) hp hb
      obtain ⟨t1, t2, t3, t4, t5, -⟩ := calculate_shared_metrics_tag flows
        ({ m with model := RWSCAN_MODEL_TRW, scan_probability := l } : event_metrics K)
      exact ⟨⟨t1, t2, t3, t4, t5⟩, fun _ => ⟨c1, c2⟩, fun hn => absurd rfl hn⟩
    · rw [e]
      exact ⟨⟨rfl, rfl, rfl, rfl, rfl⟩, fun hs => absurd hs (by simp), fun _ => ⟨rfl, rfl⟩⟩
    · rw [hr] at hf
      exact absurd hf (by decide)
  · rcases hrow with ⟨ht, -⟩ | ⟨ht, -⟩ | ⟨-, e⟩
    · exact absurd ht hr
    · exact absurd ht hr
    · rw [e]
      exact ⟨⟨rfl, rfl, rfl, rfl, rfl⟩, fun hs => absurd hs (trw_final_ne_scan _),
        fun _ => ⟨rfl, rfl⟩⟩

end RowFields

section RowFieldsWorker
variable {K : Type} [LinearOrderedField K]
open EventClassification ScanModel

/-- BLR applied by the worker to a metrics block whose totals are still zero:
the header stays, and the class SCAN, if it was not there before, comes with
the totals of the whole event. -/
theorem worker_blr_row (exp : K → K)
    (qsort : (rwRec → rwRec → Int) → List rwRec → List rwRec) (hq : qsort_perm qsort)
    (flows : List rwRec) (m0 m m1 : event_metrics K)
    (hlen : m0.event_size = flows.length) (hh : same_header m0 m)
    (hp : m.pkts = 0) (hb : m.bytes = 0) (hns : m.event_class ≠ EVENT_SCAN)
    (h : invoke_blr_model exp qsort
      (qsort_flows qsort rwrec_compare_proto_stime flows m.event_size) m = some m1) :
    same_header m0 m1
    ∧ (m1.event_class = EVENT_SCAN →
        m1.pkts = event_pkts flows % U32 ∧ m1.bytes = event_bytes flows % U32) := by
  obtain ⟨r1, r2, r3⟩ := invoke_blr_model_row exp qsort hq _ m m1 h
    (by rw [hp]; decide) (by rw [hb]; decide)
  refine ⟨same_header_trans hh r1, fun hs => ?_⟩
  by_cases hsz : m.event_size < EVENT_FLOW_THRESHOLD
  · rw [(r3 hsz).2] at hs
    exact absurd hs hns
  · obtain ⟨c1, c2⟩ := r2 (by omega)
    have hperm := qsort_flows_take qsort hq rwrec_compare_proto_stime flows m.event_size
    have htake : flows.take m.event_size = flows :=
      List.take_of_length_le (by rw [hh.2.2.1, hlen])
    rw [event_pkts_perm hperm, htake, hp, Nat.zero_add] at c1
    rw [event_bytes_perm hperm, htake, hb, Nat.zero_add] at c2
    exact ⟨c1, c2⟩

/-- The classifier chain of the worker on a batch as `process_file` hands it
over, when it has a result: the header of the metrics block stays, and the
class SCAN comes with the packet and byte totals of all flows of the event. -/
theorem worker_classify_row (exp : K → K)
    (qsort : (rwRec → rwRec → Int) → List rwRec → List rwRec) (hq : qsort_perm qsort)
    (opts : options_t K) (w : worker_thread_data K) (hw : batch_inv w)
    (hfresh : fresh_metrics w.metrics) (data : trw_data)
    (m : event_metrics K) (d : trw_data)
    (hc : worker_classify exp qsort opts w data = some (m, d)) :
    same_header w.metrics m
      ∧ (m.event_class = EVENT_SCAN →
          m.pkts = event_pkts w.flows % U32 ∧ m.bytes = event_bytes w.flows % U32) := by
  obtain ⟨f1, -, f3, f4⟩ := fresh_metrics_class w.metrics hfresh
  have hlen : w.metrics.event_size = w.flows.length := hw.2.1
  have htake : w.flows.take w.metrics.event_size = w.flows :=
    List.take_of_length_le (by rw [hlen])
  unfold worker_classify at hc
  dsimp only at hc
  by_cases htrw : w.metrics.protocol = IPPROTO_TCP
      ∧ (opts.scan_model = RWSCAN_MODEL_HYBRID ∨ opts.scan_model = RWSCAN_MODEL_TRW)
  · rw [if_pos htrw] at hc
    obtain ⟨r1, r2, r3⟩ := invoke_trw_model_row opts w.flows w.metrics trw_counters_zero data
      (by rw [f3]; decide) (by rw [f4]; decide)
    dsimp only at hc
    split_ifs at hc with hb
    · obtain ⟨m1, e1, e2⟩ := Option.map_eq_some'.mp hc
      rw [Prod.mk.injEq] at e2
      obtain ⟨rfl, -⟩ := e2
      have hs := r3 hb.1.1
      exact worker_blr_row exp qsort hq w.flows w.metrics _ m1 hlen r1
        (hs.1.trans f3) (hs.2.trans f4) hb.1.1 e1
    · rw [Option.some.injEq, Prod.mk.injEq] at hc
      obtain ⟨rfl, -⟩ := hc
      refine ⟨r1, fun hs => ?_⟩
      obtain ⟨c1, c2⟩ := r2 hs
      rw [htake, f3, Nat.zero_add] at c1
      rw [htake, f4, Nat.zero_add] at c2
      exact ⟨c1, c2⟩
  · rw [if_neg htrw] at hc
    dsimp only at hc
    split_ifs at hc with hb
    · obtain ⟨m1, e1, e2⟩ := Option.map_eq_some'.mp hc
      rw [Prod.mk.injEq] at e2
      obtain ⟨rfl, -⟩ := e2
      exact worker_blr_row exp qsort hq w.flows w.metrics _ m1 hlen
        ⟨rfl, rfl, rfl, rfl, rfl⟩ f3 f4 hb.1.1 e1
    · rw [Option.some.injEq, Prod.mk.injEq] at hc
      obtain ⟨rfl, -⟩ := hc
      exact ⟨⟨rfl, rfl, rfl, rfl, rfl⟩, fun hs => absurd (hs.symm.trans f1) (by decide)⟩

/-- C16: for a batch as `process_file` hands it over, whenever the worker ends
its iteration every row it has written, whichever model decided, has `ip`,
`proto`, `stime` and `etime` of the batch, `flows` equal to `event_size`, and
as `pkts` and `bytes` the sums of the packet and byte counts over all flows of
the event modulo `2^32`.  The worker does end its iteration when every TCP and
UDP record of the batch carries a packet. -/
theorem scan_row_fields (exp : K → K)
    (qsort : (rwRec → rwRec → Int) → List rwRec → List rwRec) (hq : qsort_perm qsort)
    (opts : options_t K) (w : worker_thread_data K) (hw : batch_inv w)
    (hfresh : fresh_metrics w.metrics) (ws : worker_state K) :
    (∀ ws1, worker_event exp qsort opts ws w = some ws1 →
      ∃ rows, ws1.out_scans = ws.out_scans ++ rows
        ∧ ∀ row ∈ rows,
          row.ip = w.metrics.sip ∧ row.proto = w.metrics.protocol
          ∧ row.stime = w.metrics.stime ∧ row.etime = w.metrics.etime
          ∧ row.flows = w.metrics.event_size
          ∧ row.pkts = event_pkts w.flows % U32
          ∧ row.bytes = event_bytes w.flows % U32)
    ∧ ((∀ f ∈ w.flows, rwRecGetProto f ≠ IPPROTO_ICMP → 1 ≤ rwRecGetPkts f) →
        ∃ ws1, worker_event exp qsort opts ws w = some ws1) := by
  refine ⟨?_, fun hpk => ?_⟩
  · intro ws1 hev
    obtain ⟨m, d, hc, hws⟩ := worker_event_spec exp qsort opts w ws ws1 hev
    obtain ⟨⟨h1, h2, h3, h4, h5⟩, hs⟩ :=
      worker_classify_row exp qsort hq opts w hw hfresh ws.data m d hc
    subst hws
    refine ⟨if m.event_class = EVENT_SCAN then [scan_record m] else [],
      worker_report_out _ _, ?_⟩
    intro row hrow
    by_cases hscan : m.event_class = EVENT_SCAN
    · rw [if_pos hscan, List.mem_singleton] at hrow
      subst hrow
      exact ⟨h2, h1, h4, h5, h3, (hs hscan).1, (hs hscan).2⟩
    · rw [if_neg hscan] at hrow
      exact absurd hrow (List.not_mem_nil _)
  · obtain ⟨m, d, -, hev⟩ := worker_event_some exp qsort hq opts w hw hpk ws
    exact ⟨_, hev⟩

end RowFieldsWorker

section RowFieldsReal
open EventClassification ScanModel

/-- C16 at the batch of five bare-SYN flows, which TRW decides at the fourth
flow: the worker ends its iteration, and its rows are as stated. -/
theorem scan_row_fields_witness :
    ∃ ws1 rows, worker_event Real.exp qsort_insertion
        (default_options RWSCAN_MODEL_HYBRID : options_t ℝ) worker_state_zero
        { flows := sample_syn_event, metrics := sample_metrics 6 9 5 } = some ws1
      ∧ ws1.out_scans = (worker_state_zero : worker_state ℝ).out_scans ++ rows
      ∧ ∀ row ∈ rows,
          row.ip = (sample_metrics 6 9 5 : event_metrics ℝ).sip
          ∧ row.proto = (sample_metrics 6 9 5 : event_metrics ℝ).protocol
          ∧ row.stime = (sample_metrics 6 9 5 : event_metrics ℝ).stime
          ∧ row.etime = (sample_metrics 6 9 5 : event_metrics ℝ).etime
          ∧ row.flows = (sample_metrics 6 9 5 : event_metrics ℝ).event_size
          ∧ row.pkts = event_pkts sample_syn_event % U32
          ∧ row.bytes = event_bytes sample_syn_event % U32 :=
  have h := scan_row_fields Real.exp qsort_insertion qsort_insertion_perm
    (default_options RWSCAN_MODEL_HYBRID : options_t ℝ)
    { flows := sample_syn_event, metrics := sample_metrics 6 9 5 }
    ⟨by decide, rfl, by decide, by decide⟩ rfl worker_state_zero
  (h.2 (by decide)).elim fun ws1 h1 =>
    (h.1 ws1 h1).elim fun rows h2 => ⟨ws1, rows, h1, h2.1, h2.2⟩

end RowFieldsReal

section WorkQueueLinks
open EventClassification ScanModel

/-- Writing the `next` field of a node outside the list does not disturb the
list. -/
theorem wq_linked_update (mem : Nat → Option Nat) (a : Nat) (v : Option Nat) (l : List Nat) :
    ∀ p, a ∉ l → wq_linked mem p l → wq_linked (Function.update mem a v) p l := by
  induction l with
  | nil => intro p _ h; exact h
  | cons b rest ih =>
    intro p ha h
    obtain ⟨h1, h2⟩ := h
    have hb : b ≠ a := fun e => ha (by rw [e]; exact List.mem_cons_self _ _)
    refine ⟨h1, ?_⟩
    rw [Function.update_noteq hb]
    exact ih _ (fun hm => ha (List.mem_cons_of_mem _ hm)) h2

/-- Linking a new node behind the last node of a non-empty list. -/
theorem wq_linked_append (mem : Nat → Option Nat) (n : Nat) (l : List Nat) :
    ∀ p t, l.getLast? = some t → l.Nodup → n ∉ l → wq_linked mem p l →
    wq_linked (Function.update (Function.update mem t (some n)) n none) p (l ++ [n]) := by
  induction l with
  | nil => intro p t ht; simp at ht
  | cons a rest ih =>
    intro p t ht hnd hn h
    obtain ⟨h1, h2⟩ := h
    have han : a ≠ n := fun e => hn (by rw [e]; exact List.mem_cons_self _ _)
    rcases rest with _ | ⟨b, rest1⟩
    · simp only [List.getLast?_singleton, Option.some.injEq] at ht
      subst ht
      refine ⟨h1, ?_, ?_⟩
      · rw [Function.update_noteq han, Function.update_same]
      · show Function.update (Function.update mem a (some n)) n none n = none
        rw [Function.update_same]
    · have ht1 : (b :: rest1).getLast? = some t := by
        rw [List.getLast?_cons_cons] at ht
        exact ht
      have hat : a ≠ t := by
        intro e
        have hmem : t ∈ b :: rest1 := List.mem_of_getLast?_eq_some ht1
        rw [← e] at hmem
        exact (List.nodup_cons.mp hnd).1 hmem
      refine ⟨h1, ?_⟩
      rw [Function.update_noteq han, Function.update_noteq hat]
      exact ih _ t ht1 (List.nodup_cons.mp hnd).2
        (fun hm => hn (List.mem_cons_of_mem _ hm)) h2

/-- A walk of as many steps as the list is long meets exactly its nodes. -/
theorem wq_walk_linked (mem : Nat → Option Nat) (l : List Nat) :
    ∀ p, wq_linked mem p l → wq_walk mem l.length p = l := by
  induction l with
  | nil => intro p _; rfl
  | cons a rest ih =>
    intro p h
    obtain ⟨h1, h2⟩ := h
    subst h1
    simp only [List.length_cons, wq_walk]
    rw [ih _ h2]

theorem wq_contents_repr (q : work_queue) (mem : Nat → Option Nat) (l : List Nat)
    (h : wq_repr q mem l) : wq_contents q mem = l := by
  obtain ⟨h1, -, -, h4⟩ := h
  unfold wq_contents
  rw [h4, Int.toNat_natCast]
  exact wq_walk_linked mem l _ h1


/-- A put on a queue that is not full, in terms of the list of queued nodes. -/
theorem workqueue_put_repr (q : work_queue) (mem : Nat → Option Nat) (n : Nat) (l : List Nat)
    (hfull : ¬ (q.maxdepth > 0 ∧ q.depth + q.pending ≥ q.maxdepth))
    (hr : wq_repr q mem l) (hn : n ∉ l) :
    ∃ r q1, workqueue_put (some q) mem (some n) = some r ∧ r.q = some q1
      ∧ r.rv = q.depth + 1 ∧ wq_repr q1 r.mem (l ++ [n])
      ∧ q1.depth = q.depth + 1 ∧ q1.pending = q.pending ∧ q1.active = q.active
      ∧ q1.maxdepth = q.maxdepth := by
  obtain ⟨h1, h2, h3, h4⟩ := hr
  unfold workqueue_put
  dsimp only
  rw [if_neg hfull]
  refine ⟨_, _, rfl, rfl, ?_⟩
  rcases hl : l.getLast? with _ | t
  · have hnil : l = [] := List.getLast?_eq_none_iff.mp hl
    subst hnil
    rw [hl] at h2
    rw [h2]
    dsimp only
    refine ⟨rfl, ⟨⟨rfl, ?_⟩, rfl, by simp, ?_⟩, rfl, rfl, rfl, rfl⟩
    · show Function.update mem n none n = none
      rw [Function.update_same]
    · show q.depth + 1 = (([] ++ [n] : List Nat).length : Int)
      rw [h4]; simp
  · rw [hl] at h2
    rw [h2]
    dsimp only
    refine ⟨rfl, ⟨?_, ?_, ?_, ?_⟩, rfl, rfl, rfl, rfl⟩
    · exact wq_linked_append mem n l _ t hl h3 hn h1
    · show some n = (l ++ [n]).getLast?
      rw [List.getLast?_append]; simp
    · rw [List.nodup_append]
      refine ⟨h3, List.nodup_singleton n, ?_⟩
      intro x hx hx2
      rw [List.mem_singleton] at hx2
      rw [hx2] at hx
      exact hn hx
    · show q.depth + 1 = ((l ++ [n]).length : Int)
      rw [h4]; simp

/-- A get on a queue that holds the nodes `a :: rest`. -/
theorem workqueue_get_repr (q : work_queue) (mem : Nat → Option Nat) (ret : Option Nat)
    (a : Nat) (rest : List Nat) (hr : wq_repr q mem (a :: rest)) :
    (workqueue_get q mem ret).rv = 0 ∧ (workqueue_get q mem ret).node = some a
    ∧ wq_repr (workqueue_get q mem ret).q (workqueue_get q mem ret).mem rest
    ∧ (workqueue_get q mem ret).q.depth = q.depth - 1
    ∧ (workqueue_get q mem ret).q.pending = q.pending + 1
    ∧ (workqueue_get q mem ret).q.active = q.active
    ∧ (workqueue_get q mem ret).q.maxdepth = q.maxdepth := by
  obtain ⟨⟨h1, h1r⟩, h2, h3, h4⟩ := hr
  have hd : q.depth ≠ 0 := by
    rw [h4, List.length_cons]
    exact Int.natCast_ne_zero.mpr (Nat.succ_ne_zero _)
  have ha : a ∉ rest := (List.nodup_cons.mp h3).1
  unfold workqueue_get
  rw [h1]
  dsimp only
  rw [if_neg hd]
  rcases rest with _ | ⟨b, rest1⟩
  · have hm : mem a = none := h1r
    rw [hm]
    dsimp only
    refine ⟨rfl, rfl, ⟨rfl, rfl, List.nodup_nil, ?_⟩, rfl, rfl, rfl, rfl⟩
    show q.depth - 1 = (([] : List Nat).length : Int)
    rw [h4]; simp
  · have hm : mem a = some b := h1r.1
    rw [hm]
    dsimp only
    refine ⟨rfl, rfl, ⟨?_, ?_, (List.nodup_cons.mp h3).2, ?_⟩, rfl, rfl, rfl, rfl⟩
    · have := wq_linked_update mem a none (b :: rest1) (mem a) ha h1r
      rw [hm] at this
      exact this
    · show q.tail = (b :: rest1).getLast?
      rw [h2, List.getLast?_cons_cons]
    · show q.depth - 1 = ((b :: rest1).length : Int)
      rw [h4]; simp

end WorkQueueLinks

section WorkQueueCounters
open EventClassification ScanModel

/-- The counters after a put that returns. -/
theorem workqueue_put_counts (q : work_queue) (mem : Nat → Option Nat) (node : Option Nat)
    (r : put_result) (h : workqueue_put (some q) mem node = some r) :
    (node = none ∧ r.q = some q ∧ r.mem = mem ∧ r.rv = -1)
    ∨ (∃ n q1, node = some n ∧ r.q = some q1
        ∧ ¬ (q.maxdepth > 0 ∧ q.depth + q.pending ≥ q.maxdepth)
        ∧ q1.depth = q.depth + 1 ∧ r.rv = q1.depth ∧ q1.pending = q.pending
        ∧ q1.maxdepth = q.maxdepth ∧ q1.active = q.active ∧ q1.tail = some n
        ∧ r.mem n = none) := by
  rcases node with _ | n
  · left
    simp only [workqueue_put, Option.some.injEq] at h
    subst h
    exact ⟨rfl, rfl, rfl, rfl⟩
  · right
    unfold workqueue_put at h
    dsimp only at h
    split_ifs at h with hfull
    rw [Option.some.injEq] at h
    subst h
    refine ⟨n, _, rfl, rfl, hfull, ?_⟩
    rcases ht : q.tail with _ | t <;> dsimp only <;>
      exact ⟨rfl, rfl, rfl, rfl, rfl, rfl, Function.update_same _ _ _⟩

/-- The two outcomes of a get. -/
theorem workqueue_get_counts (q : work_queue) (mem : Nat → Option Nat) (ret : Option Nat) :
    ((q.head = none ∨ q.depth = 0)
      ∧ workqueue_get q mem ret = { rv := -1, q := q, mem := mem, node := ret })
    ∨ (∃ a, q.head = some a ∧ q.depth ≠ 0
      ∧ (workqueue_get q mem ret).rv = 0 ∧ (workqueue_get q mem ret).node = some a
      ∧ (workqueue_get q mem ret).q.head = mem a
      ∧ (workqueue_get q mem ret).q.depth = q.depth - 1
      ∧ (workqueue_get q mem ret).q.pending = q.pending + 1
      ∧ (workqueue_get q mem ret).q.maxdepth = q.maxdepth
      ∧ (workqueue_get q mem ret).q.active = q.active) := by
  unfold workqueue_get
  rcases hh : q.head with _ | a
  · exact Or.inl ⟨Or.inl rfl, rfl⟩
  · dsimp only
    by_cases hd : q.depth = 0
    · rw [if_pos hd]
      exact Or.inl ⟨Or.inr hd, rfl⟩
    · rw [if_neg hd]
      right
      refine ⟨a, rfl, hd, rfl, rfl, ?_⟩
      rcases hm : mem a with _ | b <;> exact ⟨rfl, rfl, rfl, rfl, rfl⟩

end WorkQueueCounters

section WorkQueueCalls
open EventClassification ScanModel

/-- C19: `workqueue_get` on an empty queue (`head` is `NULL` or `depth` is 0)
returns -1 and leaves the queue, the nodes and the caller's node pointer as
they are; on a queue holding the nodes `a :: rest` it returns 0, stores `a`
in the caller's pointer, leaves the queue holding `rest`, decrements `depth`
and increments `pending`, so that their sum is unchanged. -/
theorem workqueue_get_spec (q : work_queue) (mem : Nat → Option Nat) (ret : Option Nat) :
    ((q.head = none ∨ q.depth = 0) →
      workqueue_get q mem ret = { rv := -1, q := q, mem := mem, node := ret })
    ∧ (∀ a rest, wq_repr q mem (a :: rest) →
        (workqueue_get q mem ret).rv = 0
        ∧ (workqueue_get q mem ret).node = some a
        ∧ wq_repr (workqueue_get q mem ret).q (workqueue_get q mem ret).mem rest
        ∧ (workqueue_get q mem ret).q.depth = q.depth - 1
        ∧ (workqueue_get q mem ret).q.pending = q.pending + 1
        ∧ (workqueue_get q mem ret).q.depth + (workqueue_get q mem ret).q.pending
            = q.depth + q.pending) := by
  constructor
  · intro he
    rcases workqueue_get_counts q mem ret with ⟨-, h⟩ | ⟨a, h1, h2, -⟩
    · exact h
    · rcases he with he | he
      · rw [he] at h1; exact absurd h1 (by simp)
      · exact absurd he h2
  · intro a rest hr
    obtain ⟨g1, g2, g3, g4, g5, -, -⟩ := workqueue_get_repr q mem ret a rest hr
    refine ⟨g1, g2, g3, g4, g5, ?_⟩
    rw [g4, g5]
    ring

/-- C19 at a queue holding the nodes 1 and 2. -/
theorem workqueue_get_spec_witness :
    wq_repr sample_queue sample_mem [1, 2]
    ∧ (workqueue_get sample_queue sample_mem none).rv = 0
    ∧ (workqueue_get sample_queue sample_mem none).node = some 1
    ∧ wq_repr (workqueue_get sample_queue sample_mem none).q
        (workqueue_get sample_queue sample_mem none).mem [2]
    ∧ (workqueue_get sample_queue sample_mem none).q.depth = sample_queue.depth - 1
    ∧ (workqueue_get sample_queue sample_mem none).q.pending = sample_queue.pending + 1
    ∧ (workqueue_get sample_queue sample_mem none).q.depth
        + (workqueue_get sample_queue sample_mem none).q.pending
          = sample_queue.depth + sample_queue.pending :=
  ⟨⟨⟨rfl, rfl, rfl⟩, rfl, by decide, rfl⟩,
    (workqueue_get_spec sample_queue sample_mem none).2 1 [2]
      ⟨⟨rfl, rfl, rfl⟩, rfl, by decide, rfl⟩⟩

end WorkQueueCalls

section WorkQueueBounds
open EventClassification ScanModel

/-- Every call that can be made keeps the bounds of a bounded queue. -/
theorem wq_step_inv (md : Int) (hmd : 0 < md) (s s1 : wq_sys) (c : wq_call)
    (hi : wq_inv md s) (hs : wq_step s c = some s1) : wq_inv md s1 := by
  obtain ⟨i1, i2, i3, i4⟩ := hi
  rcases c with node | _ | _
  · simp only [wq_step] at hs
    rcases hp : workqueue_put (some s.q) s.mem node with _ | r
    · rw [hp] at hs; exact absurd hs (by simp)
    · rw [hp] at hs
      dsimp only at hs
      rcases workqueue_put_counts s.q s.mem node r hp with ⟨-, e2, -, -⟩ |
        ⟨n, q1, -, e2, hfull, e3, -, e5, e6, -⟩
      · rw [e2] at hs
        simp only [Option.some.injEq] at hs
        subst hs
        exact ⟨i1, i2, i3, i4⟩
      · rw [e2] at hs
        simp only [Option.some.injEq] at hs
        subst hs
        refine ⟨e6.trans i1, ?_, e5.trans i3, ?_⟩
        · show 0 ≤ q1.depth
          omega
        · show q1.depth + q1.pending ≤ md
          rw [i1] at hfull
          have : ¬ (s.q.depth + s.q.pending ≥ md) := fun h => hfull ⟨hmd, h⟩
          omega
  · simp only [wq_step] at hs
    rcases workqueue_get_counts s.q s.mem none with ⟨-, e⟩ | ⟨a, -, hd, g1, -, -, g4, g5, g6, -⟩
    · rw [e] at hs
      dsimp only at hs
      rw [if_neg (by decide), Option.some.injEq] at hs
      subst hs
      exact ⟨i1, i2, i3, i4⟩
    · rw [if_pos g1, Option.some.injEq] at hs
      subst hs
      refine ⟨g6.trans i1, ?_, ?_, ?_⟩
      · show 0 ≤ (workqueue_get s.q s.mem none).q.depth
        omega
      · show (workqueue_get s.q s.mem none).q.pending = ((s.in_flight + 1 : Nat) : Int)
        rw [g5, i3]; push_cast; rfl
      · show (workqueue_get s.q s.mem none).q.depth
          + (workqueue_get s.q s.mem none).q.pending ≤ md
        omega
  · simp only [wq_step] at hs
    split_ifs at hs with hf
    rw [Option.some.injEq] at hs
    subst hs
    refine ⟨i1, i2, ?_, ?_⟩
    · show s.q.pending - 1 = ((s.in_flight - 1 : Nat) : Int)
      omega
    · show s.q.depth + (s.q.pending - 1) ≤ md
      omega

theorem wq_run_inv (md : Int) (hmd : 0 < md) (calls : List wq_call) :
    ∀ s s1, wq_inv md s → wq_run calls s = some s1 → wq_inv md s1 := by
  induction calls with
  | nil =>
    intro s s1 hi hr
    simp only [wq_run, Option.some.injEq] at hr
    subst hr
    exact hi
  | cons c rest ih =>
    intro s s1 hi hr
    unfold wq_run at hr
    rcases hs : wq_step s c with _ | s2
    · rw [hs] at hr; exact absurd hr (by simp)
    · rw [hs] at hr
      exact ih s2 s1 (wq_step_inv md hmd s s2 c hi hs) hr

/-- An argument of `workqueue_create` within the range of `int` is stored as it
is; from `2^31` on the stored value is negative and the queue is unbounded. -/
theorem workqueue_create_maxdepth (maxdepth : Nat) (h : maxdepth < U32) :
    (maxdepth < 2147483648 → (workqueue_create maxdepth).maxdepth = maxdepth)
    ∧ (2147483648 ≤ maxdepth → (workqueue_create maxdepth).maxdepth < 0) := by
  have hm : maxdepth % U32 = maxdepth := Nat.mod_eq_of_lt h
  unfold U32 at h
  constructor
  · intro h1
    show int_of_uint32 maxdepth = maxdepth
    unfold int_of_uint32
    rw [hm, if_pos h1]
  · intro h1
    show int_of_uint32 maxdepth < 0
    unfold int_of_uint32
    rw [hm, if_neg (by omega)]
    omega

/-- C18 as stated fails for an argument of `2^31` or more: the argument
3000000000 of `workqueue_create` is a positive `uint32_t`, the `int` field
`maxdepth` holds -1294967296.  Already the fresh queue has
`depth + pending = 0 > maxdepth`; a call of `workqueue_put` does not wait
(its loop tests `maxdepth > 0` first) and leaves `depth + pending = 1`. -/
theorem wq_depth_unbounded :
    0 < 3000000000 ∧ 3000000000 < U32
    ∧ (wq_init 3000000000 (fun _ => none)).q.maxdepth = -1294967296
    ∧ ¬ ((wq_init 3000000000 (fun _ => none)).q.depth
          + (wq_init 3000000000 (fun _ => none)).q.pending
        ≤ (wq_init 3000000000 (fun _ => none)).q.maxdepth)
    ∧ ∃ s, wq_run [wq_call.put (some 1)] (wq_init 3000000000 (fun _ => none)) = some s
      ∧ s.puts = [1] ∧ s.q.maxdepth = -1294967296 ∧ s.q.depth = 1 ∧ s.q.pending = 0
      ∧ ¬ (s.q.depth + s.q.pending ≤ s.q.maxdepth) :=
  ⟨by decide, by decide, by decide, by decide, _, rfl, rfl, by decide, by decide, by decide,
    by decide⟩

/-- C18 as amended: for an argument `maxdepth` of `workqueue_create` with
`0 < maxdepth < 2^31` the `int` field `maxdepth` holds the argument, and every
state of the queue that is reached by calls of `workqueue_put` that do not have
to wait, calls of `workqueue_get` and completions by workers (one for each
successful get) satisfies `depth ≥ 0`, `pending ≥ 0` and
`depth + pending ≤ maxdepth`. -/
theorem wq_depth_bounds (maxdepth : Nat) (h0 : 0 < maxdepth) (h1 : maxdepth < 2147483648)
    (mem : Nat → Option Nat) (calls : List wq_call) (s : wq_sys)
    (hrun : wq_run calls (wq_init maxdepth mem) = some s) :
    s.q.maxdepth = (maxdepth : Int) ∧ 0 ≤ s.q.depth ∧ 0 ≤ s.q.pending
    ∧ s.q.depth + s.q.pending ≤ (maxdepth : Int) := by
  have hmd : (workqueue_create maxdepth).maxdepth = (maxdepth : Int) :=
    (workqueue_create_maxdepth maxdepth (by unfold U32; omega)).1 h1
  have hpos : (0 : Int) < (maxdepth : Int) := by omega
  have hinit : wq_inv (maxdepth : Int) (wq_init maxdepth mem) := by
    refine ⟨hmd, le_refl _, rfl, ?_⟩
    show (0 : Int) + 0 ≤ (maxdepth : Int)
    omega
  obtain ⟨i1, i2, i3, i4⟩ := wq_run_inv _ hpos calls _ s hinit hrun
  refine ⟨i1, i2, ?_, i4⟩
  rw [i3]; omega

/-- C18 as amended at a queue of maximum depth 2: two puts, a get, the
completion and a further put. -/
theorem wq_depth_bounds_witness :
    ∃ s, wq_run [wq_call.put (some 1), wq_call.put (some 2), wq_call.get, wq_call.done,
        wq_call.put (some 3)] (wq_init 2 (fun _ => none)) = some s
      ∧ s.q.maxdepth = ((2 : Nat) : Int) ∧ 0 ≤ s.q.depth ∧ 0 ≤ s.q.pending
      ∧ s.q.depth + s.q.pending ≤ ((2 : Nat) : Int) :=
  ⟨_, rfl, wq_depth_bounds 2 (by decide) (by decide) (fun _ => none)
    [wq_call.put (some 1), wq_call.put (some 2), wq_call.get, wq_call.done,
      wq_call.put (some 3)] _ rfl⟩

end WorkQueueBounds

section WorkQueueOrder
open EventClassification ScanModel

/-- A call that can be made, with a node not in the queue if it is a put,
keeps the order of the queue. -/
theorem wq_step_fifo (s s1 : wq_sys) (c : wq_call) (hi : wq_fifo_inv s)
    (hf : ∀ n, c = wq_call.put (some n) → n ∉ wq_contents s.q s.mem)
    (hs : wq_step s c = some s1) : wq_fifo_inv s1 := by
  obtain ⟨l, hr, hp⟩ := hi
  rcases c with node | _ | _
  · simp only [wq_step] at hs
    rcases hput : workqueue_put (some s.q) s.mem node with _ | r
    · rw [hput] at hs; exact absurd hs (by simp)
    · rw [hput] at hs
      dsimp only at hs
      rcases node with _ | n
      · rcases workqueue_put_counts s.q s.mem none r hput with ⟨-, e2, e3, e4⟩ | ⟨n, q1, e, -⟩
        · rw [e2] at hs
          dsimp only at hs
          rw [e3, e4, if_neg (by decide), Option.some.injEq] at hs
          subst hs
          exact ⟨l, hr, hp⟩
        · exact absurd e (by simp)
      · have hn : n ∉ l := by
          have := hf n rfl
          rw [wq_contents_repr s.q s.mem l hr] at this
          exact this
        have hfull : ¬ (s.q.maxdepth > 0 ∧ s.q.depth + s.q.pending ≥ s.q.maxdepth) := by
          rcases workqueue_put_counts s.q s.mem (some n) r hput with ⟨e, -⟩ | ⟨_, _, -, -, h, -⟩
          · exact absurd e (by simp)
          · exact h
        obtain ⟨r2, q2, f1, f2, f3, f4, -⟩ := workqueue_put_repr s.q s.mem n l hfull hr hn
        rw [hput, Option.some.injEq] at f1
        subst f1
        rw [f2] at hs
        dsimp only at hs
        have hrv : r.rv ≥ 0 := by
          rw [f3, hr.2.2.2]
          omega
        rw [if_pos hrv, Option.some.injEq] at hs
        subst hs
        refine ⟨l ++ [n], f4, ?_⟩
        show s.puts ++ [n] = s.gets ++ (l ++ [n])
        rw [hp, List.append_assoc]
  · simp only [wq_step] at hs
    rcases l with _ | ⟨a, rest⟩
    · have hh : s.q.head = none := hr.1
      have e : workqueue_get s.q s.mem none
          = { rv := -1, q := s.q, mem := s.mem, node := none } := by
        rcases workqueue_get_counts s.q s.mem none with ⟨-, e⟩ | ⟨a, h1, -⟩
        · exact e
        · rw [hh] at h1; exact absurd h1 (by simp)
      rw [e] at hs
      dsimp only at hs
      rw [if_neg (by decide), Option.some.injEq] at hs
      subst hs
      exact ⟨[], hr, hp⟩
    · obtain ⟨g1, g2, g3, -⟩ := workqueue_get_repr s.q s.mem none a rest hr
      rw [if_pos g1, Option.some.injEq] at hs
      subst hs
      refine ⟨rest, g3, ?_⟩
      show s.puts = (s.gets ++ (workqueue_get s.q s.mem none).node.toList) ++ rest
      rw [g2, hp]
      simp
  · simp only [wq_step] at hs
    split_ifs at hs with hfl
    rw [Option.some.injEq] at hs
    subst hs
    exact ⟨l, hr, hp⟩

theorem wq_run_fifo (calls : List wq_call) :
    ∀ s s1, wq_fifo_inv s → wq_fresh_puts calls s = true → wq_run calls s = some s1 →
    wq_fifo_inv s1 := by
  induction calls with
  | nil =>
    intro s s1 hi _ hr
    simp only [wq_run, Option.some.injEq] at hr
    subst hr
    exact hi
  | cons c rest ih =>
    intro s s1 hi hf hr
    unfold wq_run at hr
    rcases hs : wq_step s c with _ | s2
    · rw [hs] at hr; exact absurd hr (by simp)
    · rw [hs] at hr
      unfold wq_fresh_puts at hf
      rw [Bool.and_eq_true, hs] at hf
      have hf1 : ∀ n, c = wq_call.put (some n) → n ∉ wq_contents s.q s.mem := by
        intro n hc
        have := hf.1
        rw [hc] at this
        exact of_decide_eq_true this
      exact ih s2 s1 (wq_step_fifo s s2 c hi hf1 hs) hf.2 hr

/-- C17 as stated fails when a node is put while it is still in the queue.  On
a queue of maximum depth 8 the puts of the nodes 1, 2, 3, 2 and 4 all return a
depth; the second put of node 2 clears its `next` field, which cuts node 3 out
of the chain.  Three gets then return the nodes 1, 2 and 4: the third
successful get returns node 4, the third put passed node 3. -/
theorem wq_fifo_repeated_node :
    ∃ s, wq_run [wq_call.put (some 1), wq_call.put (some 2), wq_call.put (some 3),
        wq_call.put (some 2), wq_call.put (some 4), wq_call.get, wq_call.get, wq_call.get]
        (wq_init 8 (fun _ => none)) = some s
      ∧ s.puts = [1, 2, 3, 2, 4] ∧ s.gets = [1, 2, 4]
      ∧ s.puts.get? 2 = some 3 ∧ s.gets.get? 2 = some 4
      ∧ ¬ (s.gets.get? 2 = s.puts.get? 2) :=
  ⟨_, rfl, rfl, rfl, rfl, rfl, by decide⟩

/-- C17 as amended: the work queue is first-in first-out as long as no node is
put twice.  After any sequence of calls on a queue created by
`workqueue_create` (puts that return, gets, completions), in which every put
passes a node that is not in the queue at that moment, the `k`-th successful
get has returned the node passed to the `k`-th put. -/
theorem wq_fifo (maxdepth : Nat) (mem : Nat → Option Nat) (calls : List wq_call)
    (s : wq_sys) (hrun : wq_run calls (wq_init maxdepth mem) = some s)
    (hfresh : wq_fresh_puts calls (wq_init maxdepth mem) = true) :
    s.gets.length ≤ s.puts.length
    ∧ ∀ k, k < s.gets.length → s.gets.get? k = s.puts.get? k := by
  have hinit : wq_fifo_inv (wq_init maxdepth mem) :=
    ⟨[], ⟨rfl, rfl, List.nodup_nil, rfl⟩, rfl⟩
  obtain ⟨l, -, hp⟩ := wq_run_fifo calls _ s hinit hfresh hrun
  constructor
  · rw [hp, List.length_append]
    omega
  · intro k hk
    rw [hp, List.get?_eq_getElem?, List.get?_eq_getElem?, List.getElem?_append_left hk]

/-- C17 as amended at a queue of maximum depth 2: two puts, a get, the
completion, a further put and two gets return the nodes 1, 2 and 3 in this
order. -/
theorem wq_fifo_witness :
    ∃ s, wq_run [wq_call.put (some 1), wq_call.put (some 2), wq_call.get, wq_call.done,
        wq_call.put (some 3), wq_call.get, wq_call.get] (wq_init 2 (fun _ => none)) = some s
      ∧ s.gets = [1, 2, 3]
      ∧ s.gets.length ≤ s.puts.length
      ∧ ∀ k, k < s.gets.length → s.gets.get? k = s.puts.get? k :=
  ⟨_, rfl, rfl, wq_fifo 2 (fun _ => none)
    [wq_call.put (some 1), wq_call.put (some 2), wq_call.get, wq_call.done,
      wq_call.put (some 3), wq_call.get, wq_call.get] _ rfl rfl⟩

end WorkQueueOrder

section SweepCounting
variable {K : Type} [LinearOrderedField K]
open EventClassification ScanModel

/-- The counter of echo flows after the per-flow counting of BLR on echo
requests. -/
theorem blr_count_echo (l : List rwRec) :
    ∀ m : event_metrics K, (∀ f ∈ l, echo_request f) →
    m.flows_icmp_echo + l.length < U32 →
    blr_count l m = some { m with flows_icmp_echo := m.flows_icmp_echo + l.length } := by
  induction l with
  | nil => intro m _ _; rfl
  | cons x t ih =>
    intro m h hb
    obtain ⟨hp, ht, hc⟩ := h x (List.mem_cons_self _ _)
    simp only [List.length_cons] at hb
    have hstep : increment_icmp_counters x m
        = { m with flows_icmp_echo := m.flows_icmp_echo + 1 } := by
      unfold increment_icmp_counters
      dsimp only
      rw [if_pos ⟨Or.inl ht, hc⟩, Nat.mod_eq_of_lt (by omega)]
    unfold blr_count
    rw [if_pos hp, hstep, ih _ (fun f hf => h f (List.mem_cons_of_mem _ hf)) (by
      show m.flows_icmp_echo + 1 + t.length < U32
      omega)]
    simp only [List.length_cons]
    congr 2
    omega

/-- The part of `shared_body` that counts destinations. -/
theorem shared_body_dsts (s : shared_state K) (rw : rwRec) :
    (shared_body s rw).metrics.unique_dsts
        = (if rwRecGetDIPv4 rw ≠ s.last_dip ∨ rwRecGetDPort rw ≠ s.last_dp
            then (s.metrics.unique_dsts + 1) % U32 else s.metrics.unique_dsts)
    ∧ (shared_body s rw).last_dip = rwRecGetDIPv4 rw
    ∧ (shared_body s rw).last_dp = rwRecGetDPort rw := by
  unfold shared_body
  dsimp only
  split_ifs <;> exact ⟨rfl, rfl, rfl⟩

/-- On flows to consecutive addresses every flow counts as a new destination. -/
theorem shared_fold_dsts (l : List rwRec) :
    ∀ (d : Nat) (s : shared_state K),
    l.map rwRecGetDIPv4 = List.range' d l.length →
    (s.last_dip ≠ d ∨ ∀ f ∈ l, rwRecGetDPort f ≠ s.last_dp) →
    s.metrics.unique_dsts + l.length < U32 →
    (l.foldl shared_body s).metrics.unique_dsts = s.metrics.unique_dsts + l.length := by
  induction l with
  | nil => intro d s _ _ _; rfl
  | cons x t ih =>
    intro d s hd hne hb
    simp only [List.length_cons] at hb
    simp only [List.map_cons, List.length_cons, List.range'_succ, List.cons.injEq] at hd
    obtain ⟨hx, ht⟩ := hd
    obtain ⟨b1, b2, b3⟩ := shared_body_dsts s x
    have hcond : rwRecGetDIPv4 x ≠ s.last_dip ∨ rwRecGetDPort x ≠ s.last_dp := by
      rcases hne with h | h
      · left; rw [hx]; exact fun e => h e.symm
      · right; exact h x (List.mem_cons_self _ _)
    rw [if_pos hcond, Nat.mod_eq_of_lt (by omega)] at b1
    rw [List.foldl_cons, ih (d + 1) (shared_body s x) ht (Or.inl (by rw [b2, hx]; omega))
      (by rw [b1]; omega), b1]
    simp only [List.length_cons]
    omega

end SweepCounting

section SweepLoop
variable {K : Type} [LinearOrderedField K]
open EventClassification ScanModel

/-- One iteration of the loop of `calculate_icmp_metrics` when the following
record goes to the next address of the same /24: the count of addresses in the
/24 and the current run grow, the maxima are not touched. -/
theorem icmp_body_step (s : icmp_state K) (x y : rwRec)
    (hcls : rwRecGetDIPv4 x &&& 0xFFFFFF00 = rwRecGetDIPv4 y &&& 0xFFFFFF00)
    (hnext : rwRecGetDIPv4 y = rwRecGetDIPv4 x + 1)
    (hcnt : s.class_c_dip_count + 1 < U8) :
    icmp_body s x (some y)
      = { s with dip_next := rwRecGetDIPv4 y, class_c_next := rwRecGetDIPv4 y &&& 0xFFFFFF00,
                 class_c_dip_count := s.class_c_dip_count + 1, run := (s.run + 1) % U8 } := by
  have h1 : (rwRecGetDIPv4 y + U32 - rwRecGetDIPv4 x) % U32 = 1 := by
    rw [hnext]
    unfold U32
    omega
  have h2 : rwRecGetDIPv4 x ≠ rwRecGetDIPv4 y := by rw [hnext]; omega
  unfold icmp_body
  dsimp only
  rw [if_pos ⟨rfl, hcls⟩, if_pos h2, if_pos h1, Nat.mod_eq_of_lt hcnt]

/-- The last iteration of the loop of `calculate_icmp_metrics` when the
last-but-one record went to the same /24: the run length reported is
`max_run_curr`, not the run that is still open. -/
theorem icmp_body_last (s : icmp_state K) (x : rwRec)
    (hcls : s.class_c_next = rwRecGetDIPv4 x &&& 0xFFFFFF00)
    (hcr : s.class_c_run = 1) (hmr : s.max_class_c_run = 1) :
    (icmp_body s x none).max_class_c_run = 1
    ∧ (icmp_body s x none).max_class_c_dip_count
        = (if s.class_c_dip_count > s.max_class_c_dip_count then s.class_c_dip_count
            else s.max_class_c_dip_count)
    ∧ (icmp_body s x none).metrics.icmp.max_class_c_dip_run_length
        = (if s.max_run_curr > s.metrics.icmp.max_class_c_dip_run_length then s.max_run_curr
            else s.metrics.icmp.max_class_c_dip_run_length) := by
  have h0 : ¬ (((s.class_c_next + U32 - (rwRecGetDIPv4 x &&& 0xFFFFFF00)) % U32) >>> 8 = 1) := by
    rw [hcls, Nat.add_sub_cancel_left, Nat.mod_self]
    decide
  have h1 : ¬ (s.class_c_run > s.max_class_c_run) := by rw [hcr, hmr]; decide
  unfold icmp_body
  dsimp only
  rw [if_neg (by simp), if_neg h0, if_neg h1]
  dsimp only
  split_ifs <;> exact ⟨hmr, rfl, rfl⟩


/-- The loop of `calculate_icmp_metrics` over flows to consecutive addresses of
one /24, entered with no broken run behind it: the largest count of addresses
in a /24 becomes the number of addresses met, while the reported run length
stays `max_run_curr`. -/
theorem icmp_loop_sweep (c : Nat) (l : List rwRec) :
    ∀ (d : Nat) (s : icmp_state K), l ≠ [] →
    l.map rwRecGetDIPv4 = List.range' d l.length →
    (∀ f ∈ l, rwRecGetDIPv4 f &&& 0xFFFFFF00 = c) →
    (2 ≤ l.length ∨ s.class_c_next = c) →
    s.class_c_run = 1 → s.max_class_c_run = 1 →
    s.class_c_dip_count + l.length ≤ U8 →
    (icmp_loop l s).max_class_c_run = 1
    ∧ (icmp_loop l s).max_class_c_dip_count
        = (if s.class_c_dip_count + l.length - 1 > s.max_class_c_dip_count
            then s.class_c_dip_count + l.length - 1 else s.max_class_c_dip_count)
    ∧ (icmp_loop l s).metrics.icmp.max_class_c_dip_run_length
        = (if s.max_run_curr > s.metrics.icmp.max_class_c_dip_run_length then s.max_run_curr
            else s.metrics.icmp.max_class_c_dip_run_length) := by
  induction l with
  | nil => intro d s h; exact absurd rfl h
  | cons x t ih =>
    intro d s _ hd hc hn hcr hmr hcnt
    rcases t with _ | ⟨y, t1⟩
    · have hcx : s.class_c_next = rwRecGetDIPv4 x &&& 0xFFFFFF00 := by
        rcases hn with h | h
        · simp at h
        · rw [h, hc x (List.mem_cons_self _ _)]
      have := icmp_body_last s x hcx hcr hmr
      simpa [icmp_loop] using this
    · simp only [List.map_cons, List.length_cons, List.range'_succ, List.cons.injEq] at hd
      obtain ⟨hx, hy, ht⟩ := hd
      have hcx := hc x (List.mem_cons_self _ _)
      have hcy := hc y (List.mem_cons_of_mem _ (List.mem_cons_self _ _))
      simp only [List.length_cons] at hcnt
      have hstep := icmp_body_step s x y (hcx.trans hcy.symm) (by rw [hx, hy])
        (by omega)
      have hloop : icmp_loop (x :: y :: t1) s
          = icmp_loop (y :: t1) (icmp_body s x (some y)) := by
        rw [icmp_loop]; rfl
      rw [hloop, hstep]
      have := ih (d + 1)
        ({ s with dip_next := rwRecGetDIPv4 y, class_c_next := rwRecGetDIPv4 y &&& 0xFFFFFF00,
                  class_c_dip_count := s.class_c_dip_count + 1, run := (s.run + 1) % U8 } :
          icmp_state K)
        (List.cons_ne_nil _ _)
        (by simp only [List.map_cons, List.length_cons, List.range'_succ, List.cons.injEq]
            exact ⟨hy, ht⟩)
        (fun f hf => hc f (List.mem_cons_of_mem _ hf)) (Or.inr hcy) hcr hmr
        (by simp only [List.length_cons]; omega)
      simp only [List.length_cons] at this ⊢
      have e : s.class_c_dip_count + 1 + (t1.length + 1) - 1
          = s.class_c_dip_count + (t1.length + 1 + 1) - 1 := by omega
      rw [e] at this
      exact this

end SweepLoop

section SweepFeatures
variable {K : Type} [LinearOrderedField K]
open EventClassification ScanModel

/-- The loop of `calculate_icmp_metrics` changes nothing in the metrics block
but `max_class_c_dip_run_length`. -/
theorem icmp_loop_frame (l : List rwRec) :
    ∀ s : icmp_state K, ∃ v, (icmp_loop l s).metrics
      = { s.metrics with icmp := { s.metrics.icmp with max_class_c_dip_run_length := v } } := by
  induction l with
  | nil => intro s; exact ⟨_, rfl⟩
  | cons x t ih =>
    intro s
    obtain ⟨v1, h1⟩ := icmp_body_frame s x t.head?
    obtain ⟨v2, h2⟩ := ih (icmp_body s x t.head?)
    rw [icmp_loop, h2, h1]
    exact ⟨v2, rfl⟩

/-- On flows to consecutive addresses `calculate_shared_metrics` counts every
flow as a destination. -/
theorem calculate_shared_metrics_sweep (F : List rwRec) (m : event_metrics K) (b n : Nat)
    (hd : F.map rwRecGetDIPv4 = List.range' b n) (hn : n < U32) (hsz : m.event_size = n)
    (hport : ∀ f ∈ F, rwRecGetDPort f ≠ 0xffffffff) :
    (calculate_shared_metrics F m).unique_dsts = n := by
  have hlen : F.length = n := by
    have := congrArg List.length hd
    rw [List.length_map, List.length_range'] at this
    exact this
  have htake : F.take m.event_size = F := List.take_of_length_le (by rw [hlen, hsz])
  unfold calculate_shared_metrics
  rw [htake]
  have := shared_fold_dsts F b
    ({ metrics := { m with sp_count := 1, unique_dips := 1, unique_dsts := 0 },
       last_dip := rwRecGetDIPv4 (F.headD RWREC_CLEAR),
       last_sp := rwRecGetSPort (F.headD RWREC_CLEAR), last_dp := 0xffffffff } :
      shared_state K) (by rw [hlen]; exact hd) (Or.inr hport)
      (by show 0 + F.length < U32; rw [hlen]; omega)
  rw [this, hlen]
  exact Nat.zero_add n

/-- The ICMP features of an event of `n` flows, sorted, to `n` consecutive
addresses of one /24 (`2 ≤ n ≤ 255`): one /24, `n` addresses in it and `n`
destinations, and a reported run length of 1. -/
theorem calculate_icmp_metrics_sweep (F : List rwRec) (m : event_metrics K) (b n c : Nat)
    (hd : F.map rwRecGetDIPv4 = List.range' b n) (h2 : 2 ≤ n) (h255 : n ≤ 255)
    (hc : ∀ f ∈ F, rwRecGetDIPv4 f &&& 0xFFFFFF00 = c) (hsz : m.event_size = n)
    (hport : ∀ f ∈ F, rwRecGetDPort f ≠ 0xffffffff)
    (hrl : m.icmp.max_class_c_dip_run_length = 0) :
    (calculate_icmp_metrics F m).icmp
      = { max_class_c_subnet_run_length := 1, max_class_c_dip_run_length := 1,
          max_class_c_dip_count := n, total_dip_count := n,
          echo_ratio := (m.flows_icmp_echo : K) / (n : K) } := by
  have hlen : F.length = n := by
    have := congrArg List.length hd
    rw [List.length_map, List.length_range'] at this
    exact this
  have hne : F ≠ [] := by
    intro e
    rw [e] at hlen
    simp at hlen
    omega
  obtain ⟨a1, a2, a3, a4, a5, hfr⟩ := calculate_shared_metrics_frame F m
  have hds := calculate_shared_metrics_sweep F m b n hd (by unfold U32; omega) hsz hport
  have hsize : (calculate_shared_metrics F m).event_size = n := by rw [hfr]; exact hsz
  unfold calculate_icmp_metrics
  dsimp only
  rw [hsize, List.take_of_length_le (by rw [hlen])]
  obtain ⟨s1, s2, s3⟩ := icmp_loop_sweep c F b
    ({ metrics := calculate_shared_metrics F m, class_c_next := 0, dip_next := 0,
       run := 1, max_run_curr := 1, class_c_run := 1, max_class_c_run := 1,
       class_c_dip_count := 1, max_class_c_dip_count := 1 } : icmp_state K)
    hne (by rw [hlen]; exact hd) hc (Or.inl (by rw [hlen]; exact h2)) rfl rfl
    (by show 1 + F.length ≤ U8; rw [hlen]; unfold U8; omega)
  obtain ⟨v, hv⟩ := icmp_loop_frame F
    ({ metrics := calculate_shared_metrics F m, class_c_next := 0, dip_next := 0,
       run := 1, max_run_curr := 1, class_c_run := 1, max_class_c_run := 1,
       class_c_dip_count := 1, max_class_c_dip_count := 1 } : icmp_state K)
  dsimp only at s1 s2 s3 hv
  have hrl2 : (calculate_shared_metrics F m).icmp.max_class_c_dip_run_length = 0 := by
    rw [hfr]; exact hrl
  rw [hrl2, if_pos (by decide)] at s3
  rw [hlen, if_pos (by omega)] at s2
  have e1 : (1 + n - 1 : Nat) = n := by omega
  rw [e1] at s2
  rw [s1, s2, s3]
  rw [hv]
  dsimp only
  rw [hds, hsize]
  have hecho : (calculate_shared_metrics F m).flows_icmp_echo = m.flows_icmp_echo := by
    rw [hfr]
  rw [hecho]

end SweepFeatures

section Sorting
open EventClassification ScanModel

/-- Inserting into a sorted list keeps it sorted when the relation is
transitive and total on the elements at hand. -/
theorem orderedInsert_pairwise (r : rwRec → rwRec → Prop) [DecidableRel r] (a : rwRec) :
    ∀ L : List rwRec,
    (∀ x ∈ a :: L, ∀ y ∈ a :: L, ∀ z ∈ a :: L, r x y → r y z → r x z) →
    (∀ x ∈ a :: L, ∀ y ∈ a :: L, r x y ∨ r y x) →
    List.Pairwise r L → List.Pairwise r (List.orderedInsert r a L) := by
  intro L
  induction L with
  | nil => intro _ _ _; simp
  | cons b L ih =>
    intro htr htot hp
    rw [List.orderedInsert]
    have ha : a ∈ a :: b :: L := List.mem_cons_self _ _
    have hb : b ∈ a :: b :: L := List.mem_cons_of_mem _ (List.mem_cons_self _ _)
    have hL : ∀ x ∈ L, x ∈ a :: b :: L :=
      fun x hx => List.mem_cons_of_mem _ (List.mem_cons_of_mem _ hx)
    rw [List.pairwise_cons] at hp
    obtain ⟨hbL, hpL⟩ := hp
    split_ifs with hab
    · rw [List.pairwise_cons]
      refine ⟨?_, List.pairwise_cons.mpr ⟨hbL, hpL⟩⟩
      intro x hx
      rcases List.mem_cons.mp hx with e | hxL
      · rw [e]; exact hab
      · exact htr a ha b hb x (hL x hxL) hab (hbL x hxL)
    · have hba : r b a := by
        rcases htot a ha b hb with h | h
        · exact absurd h hab
        · exact h
      rw [List.pairwise_cons]
      refine ⟨?_, ?_⟩
      · intro x hx
        rcases (List.mem_orderedInsert r).mp hx with e | hxL
        · rw [e]; exact hba
        · exact hbL x hxL
      · have hsub : ∀ x ∈ a :: L, x ∈ a :: b :: L := by
          intro x hx
          rcases List.mem_cons.mp hx with e | hxL
          · rw [e]; exact ha
          · exact hL x hxL
        exact ih (fun x hx y hy z hz => htr x (hsub x hx) y (hsub y hy) z (hsub z hz))
          (fun x hx y hy => htot x (hsub x hx) y (hsub y hy)) hpL

/-- Insertion sort sorts when the relation is transitive and total on the
elements of the list. -/
theorem insertionSort_pairwise (r : rwRec → rwRec → Prop) [DecidableRel r] :
    ∀ l : List rwRec,
    (∀ x ∈ l, ∀ y ∈ l, ∀ z ∈ l, r x y → r y z → r x z) →
    (∀ x ∈ l, ∀ y ∈ l, r x y ∨ r y x) →
    List.Pairwise r (List.insertionSort r l) := by
  intro l
  induction l with
  | nil => intro _ _; simp
  | cons a l ih =>
    intro htr htot
    rw [List.insertionSort]
    have hsub : ∀ x ∈ a :: List.insertionSort r l, x ∈ a :: l := by
      intro x hx
      rcases List.mem_cons.mp hx with e | hxL
      · rw [e]; exact List.mem_cons_self _ _
      · exact List.mem_cons_of_mem _ ((List.perm_insertionSort r l).subset hxL)
    apply orderedInsert_pairwise r a
    · exact fun x hx y hy z hz => htr x (hsub x hx) y (hsub y hy) z (hsub z hz)
    · exact fun x hx y hy => htot x (hsub x hx) y (hsub y hy)
    · exact ih
        (fun x hx y hy z hz => htr x (List.mem_cons_of_mem _ hx) y (List.mem_cons_of_mem _ hy)
          z (List.mem_cons_of_mem _ hz))
        (fun x hx y hy => htot x (List.mem_cons_of_mem _ hx) y (List.mem_cons_of_mem _ hy))

theorem qsort_insertion_sorted : qsort_sorted qsort_insertion := by
  intro cmp l htr htot
  exact insertionSort_pairwise (fun a b => cmp a b ≤ 0) l htr htot

/-- On an ICMP record the comparator of the second sort of BLR compares the
destination addresses only. -/
theorem rwrec_compare_dip_sport_icmp (a b : rwRec) (ha : rwRecGetProto a = IPPROTO_ICMP) :
    rwrec_compare_dip_sport a b ≤ 0 ↔ rwRecGetDIPv4 a ≤ rwRecGetDIPv4 b := by
  have hne : ¬ (rwRecGetProto a = IPPROTO_TCP) := by rw [ha]; decide
  unfold rwrec_compare_dip_sport
  split_ifs with h1 h2 h3
  · constructor
    · intro h; exact absurd h (by decide)
    · intro h; omega
  · constructor
    · intro _; omega
    · intro _; decide
  · constructor
    · intro _; omega
    · intro _; exact le_refl _
  all_goals exact absurd (Or.inl hne) h3

/-- The second sort of BLR puts an ICMP event with one flow to each of `n`
consecutive addresses into the order of these addresses. -/
theorem qsort_sweep (qsort : (rwRec → rwRec → Int) → List rwRec → List rwRec)
    (hq : qsort_perm qsort) (hs : qsort_sorted qsort) (X : List rwRec) (b n : Nat)
    (hicmp : ∀ f ∈ X, rwRecGetProto f = IPPROTO_ICMP)
    (hperm : List.Perm (X.map rwRecGetDIPv4) (List.range' b n)) :
    (qsort rwrec_compare_dip_sport X).map rwRecGetDIPv4 = List.range' b n := by
  have hsorted := hs rwrec_compare_dip_sport X
    (by
      intro x hx y hy z _ h1 h2
      rw [rwrec_compare_dip_sport_icmp x _ (hicmp x hx)] at h1 ⊢
      rw [rwrec_compare_dip_sport_icmp y _ (hicmp y hy)] at h2
      exact le_trans h1 h2)
    (by
      intro x hx y hy
      rw [rwrec_compare_dip_sport_icmp x _ (hicmp x hx),
        rwrec_compare_dip_sport_icmp y _ (hicmp y hy)]
      exact le_total _ _)
  have hmem : ∀ f ∈ qsort rwrec_compare_dip_sport X, f ∈ X := fun f hf => (hq _ _).subset hf
  have hle : List.Pairwise (fun x y : Nat => x ≤ y)
      ((qsort rwrec_compare_dip_sport X).map rwRecGetDIPv4) := by
    rw [List.pairwise_map]
    refine List.Pairwise.imp_of_mem ?_ hsorted
    intro x y hx _ hxy
    exact (rwrec_compare_dip_sport_icmp x y (hicmp x (hmem x hx))).mp hxy
  have hp2 : List.Perm ((qsort rwrec_compare_dip_sport X).map rwRecGetDIPv4)
      (List.range' b n) := ((hq _ _).map _).trans hperm
  exact List.eq_of_perm_of_sorted hp2 hle (List.pairwise_le_range' b n)

end Sorting

section SweepScore
open EventClassification ScanModel

/-- The ICMP scorer changes nothing but scan probability and class. -/
theorem calculate_icmp_scan_probability_icmp {K : Type} [LinearOrderedField K]
    (exp : K → K) (m : event_metrics K) :
    (calculate_icmp_scan_probability exp m).icmp = m.icmp := by
  unfold calculate_icmp_scan_probability
  dsimp only
  split_ifs <;> rfl

/-- Over the reals the ICMP scorer sets the class SCAN for a positive score. -/
theorem calculate_icmp_scan_probability_pos (m : event_metrics ℝ) (h : 0 < icmp_score m) :
    (calculate_icmp_scan_probability Real.exp m).event_class = EVENT_SCAN := by
  unfold calculate_icmp_scan_probability
  dsimp only
  rw [if_pos ((logistic_bounds (icmp_score m)).2.2.mpr h)]

/-- The ICMP score of the features of a sweep of `n ≥ 32` addresses is
positive. -/
theorem icmp_score_sweep (m : event_metrics ℝ) (n : Nat) (h32 : 32 ≤ n)
    (h : m.icmp = { max_class_c_subnet_run_length := 1, max_class_c_dip_run_length := 1,
                    max_class_c_dip_count := n, total_dip_count := n, echo_ratio := 1 }) :
    0 < icmp_score m := by
  have hn : (32 : ℝ) ≤ (n : ℝ) := by exact_mod_cast h32
  unfold icmp_score ICMP_BETA0 ICMP_BETA1 ICMP_BETA5 ICMP_BETA6 ICMP_BETA11 ICMP_BETA22
  rw [h]
  dsimp only
  norm_num
  linarith

/-- BLR on an ICMP event of `n` echo requests, one to each of `n` consecutive
addresses of one /24 (`32 ≤ n ≤ 255`), in any order: the features are one /24,
a reported run length of 1, `n` addresses in the /24, `n` destinations and an
echo ratio of 1; the score is positive and the class SCAN. -/
theorem invoke_blr_model_sweep
    (qsort : (rwRec → rwRec → Int) → List rwRec → List rwRec)
    (hq : qsort_perm qsort) (hs : qsort_sorted qsort)
    (flows : List rwRec) (m : event_metrics ℝ) (b n c : Nat)
    (h32 : 32 ≤ n) (h255 : n ≤ 255)
    (hzero : m.flows_icmp_echo = 0 ∧ m.icmp.max_class_c_dip_run_length = 0)
    (hproto : m.protocol = IPPROTO_ICMP) (hsz : m.event_size = n)
    (hecho : ∀ f ∈ flows, echo_request f)
    (hdips : List.Perm (flows.map rwRecGetDIPv4) (List.range' b n))
    (hc : ∀ f ∈ flows, rwRecGetDIPv4 f &&& 0xFFFFFF00 = c) :
    ∃ m1, invoke_blr_model Real.exp qsort flows m = some m1
      ∧ m1.icmp = { max_class_c_subnet_run_length := 1, max_class_c_dip_run_length := 1,
                    max_class_c_dip_count := n, total_dip_count := n, echo_ratio := 1 }
      ∧ m1.event_class = EVENT_SCAN ∧ m1.model = RWSCAN_MODEL_BLR ∧ 0 < icmp_score m1 := by
  subst hsz
  have hlen : flows.length = m.event_size := by
    have := hdips.length_eq
    rw [List.length_map, List.length_range'] at this
    exact this
  have htake : flows.take m.event_size = flows := List.take_of_length_le (by rw [hlen])
  have hdrop : flows.drop m.event_size = [] := List.drop_eq_nil_of_le (by rw [hlen])
  have hcount : blr_count flows ({ m with model := RWSCAN_MODEL_BLR } : event_metrics ℝ)
      = some { m with model := RWSCAN_MODEL_BLR, flows_icmp_echo := m.event_size } := by
    rw [blr_count_echo flows _ hecho (by
      show m.flows_icmp_echo + flows.length < U32
      rw [hzero.1, hlen]; unfold U32; omega)]
    show some ({ m with model := RWSCAN_MODEL_BLR,
                        flows_icmp_echo := m.flows_icmp_echo + flows.length } :
      event_metrics ℝ) = _
    rw [hzero.1, hlen, Nat.zero_add]
  set mc : event_metrics ℝ := { m with model := RWSCAN_MODEL_BLR, flows_icmp_echo := m.event_size }
    with hmc
  set F := qsort rwrec_compare_dip_sport flows with hF
  have hFmem : ∀ f ∈ F, f ∈ flows := fun f hf => (hq _ _).subset hf
  have hFd : F.map rwRecGetDIPv4 = List.range' b m.event_size :=
    qsort_sweep qsort hq hs flows b m.event_size (fun f hf => (hecho f hf).1) hdips
  have hport : ∀ f ∈ F, rwRecGetDPort f ≠ 0xffffffff := by
    intro f hf e
    have := (hecho f (hFmem f hf)).2.2
    unfold rwRecGetIcmpCode at this
    unfold rwRecGetDPort at e
    rw [e] at this
    exact absurd this (by decide)
  have hfeat := calculate_icmp_metrics_sweep F mc b m.event_size c hFd (by omega) h255
    (fun f hf => hc f (hFmem f hf)) rfl hport hzero.2
  have hecho1 : ((mc.flows_icmp_echo : ℝ) / (m.event_size : ℝ)) = 1 := by
    show ((m.event_size : ℝ) / (m.event_size : ℝ)) = 1
    have : (m.event_size : ℝ) ≠ 0 := by
      have : (32 : ℝ) ≤ (m.event_size : ℝ) := by exact_mod_cast h32
      linarith
    exact div_self this
  rw [hecho1] at hfeat
  have hres : invoke_blr_model Real.exp qsort flows m
      = some (calculate_icmp_scan_probability Real.exp (calculate_icmp_metrics F mc)) := by
    unfold invoke_blr_model
    dsimp only
    rw [if_pos (show m.event_size ≥ EVENT_FLOW_THRESHOLD from h32), htake, hcount]
    dsimp only
    rw [if_pos hproto]
    unfold qsort_flows
    show some (calculate_icmp_scan_probability Real.exp (calculate_icmp_metrics
      (qsort rwrec_compare_dip_sport (flows.take m.event_size) ++ flows.drop m.event_size) mc))
      = _
    rw [htake, hdrop, List.append_nil]
  have hicmp := calculate_icmp_scan_probability_icmp Real.exp (calculate_icmp_metrics F mc)
  have hscore := icmp_score_sweep (calculate_icmp_metrics F mc) m.event_size h32 hfeat
  have hyes := calculate_icmp_scan_probability_pos (calculate_icmp_metrics F mc)
  refine ⟨_, hres, hicmp.trans hfeat, hyes hscore, ?_, ?_⟩
  · rw [(calculate_icmp_scan_probability_spec Real.exp _).2,
      (calculate_icmp_metrics_tag F mc).2.2.2.2.2.2.2]
  · exact icmp_score_sweep _ m.event_size h32 (hicmp.trans hfeat)

end SweepScore

section SweepEvent
open EventClassification ScanModel

/-- The sorted array is a rearrangement of the unsorted one. -/
theorem qsort_flows_perm (qsort : (rwRec → rwRec → Int) → List rwRec → List rwRec)
    (hq : qsort_perm qsort) (cmp : rwRec → rwRec → Int) (flows : List rwRec) (n : Nat) :
    List.Perm (qsort_flows qsort cmp flows n) flows := by
  unfold qsort_flows
  have h := List.Perm.append_right (flows.drop n) (hq cmp (flows.take n))
  rw [List.take_append_drop] at h
  exact h

theorem sample_sweep_dips (sIP b n : Nat) :
    (sample_sweep sIP b n).map rwRecGetDIPv4 = List.range' b n := by
  unfold sample_sweep
  rw [List.map_map]
  exact List.map_id _

theorem sample_sweep_echo (sIP b n : Nat) : ∀ f ∈ sample_sweep sIP b n, echo_request f := by
  intro f hf
  unfold sample_sweep at hf
  obtain ⟨d, -, rfl⟩ := List.mem_map.mp hf
  unfold echo_request
  exact ⟨rfl, by show (2048 / 256) % 256 = 8; decide, by show 2048 % 256 = 0; decide⟩

/-- The addresses 203.0.113.0 to 203.0.113.63 lie in the /24 of 203.0.113.0. -/
theorem sample_sweep_class :
    ∀ f ∈ sample_sweep 9 3405803776 64, rwRecGetDIPv4 f &&& 0xFFFFFF00 = 3405803776 := by
  decide

/-- C14: under the scan model HYBRID or BLR an ICMP event of `n` echo requests
(type 8, code 0), `32 ≤ n ≤ 255`, one to each of `n` consecutive addresses of
one /24, in any order, ends with the class SCAN and the model tag BLR; its
linear score is positive. -/
theorem icmp_sweep_scan
    (qsort : (rwRec → rwRec → Int) → List rwRec → List rwRec)
    (hq : qsort_perm qsort) (hs : qsort_sorted qsort)
    (opts : options_t ℝ)
    (hmodel : opts.scan_model = RWSCAN_MODEL_HYBRID ∨ opts.scan_model = RWSCAN_MODEL_BLR)
    (w : worker_thread_data ℝ) (data : trw_data) (b n c : Nat)
    (h32 : 32 ≤ n) (h255 : n ≤ 255)
    (hfresh : fresh_metrics w.metrics) (hproto : w.metrics.protocol = IPPROTO_ICMP)
    (hsz : w.metrics.event_size = n)
    (hecho : ∀ f ∈ w.flows, echo_request f)
    (hdips : List.Perm (w.flows.map rwRecGetDIPv4) (List.range' b n))
    (hc : ∀ f ∈ w.flows, rwRecGetDIPv4 f &&& 0xFFFFFF00 = c) :
    ∃ m, worker_classify Real.exp qsort opts w data = some (m, data)
      ∧ m.event_class = EVENT_SCAN ∧ m.model = RWSCAN_MODEL_BLR ∧ 0 < icmp_score m := by
  have hclass : w.metrics.event_class = EVENT_UNKNOWN := (fresh_metrics_class _ hfresh).1
  have hzero : w.metrics.flows_icmp_echo = 0
      ∧ w.metrics.icmp.max_class_c_dip_run_length = 0 := by
    unfold fresh_metrics at hfresh
    rw [hfresh]
    exact ⟨rfl, rfl⟩
  have hperm := qsort_flows_perm qsort hq rwrec_compare_proto_stime w.flows
    w.metrics.event_size
  obtain ⟨m1, e1, -, e3, e4, e5⟩ := invoke_blr_model_sweep qsort hq hs
    (qsort_flows qsort rwrec_compare_proto_stime w.flows w.metrics.event_size) w.metrics
    b n c h32 h255 hzero hproto hsz
    (fun f hf => hecho f (hperm.subset hf))
    ((hperm.map _).trans hdips)
    (fun f hf => hc f (hperm.subset hf))
  refine ⟨m1, ?_, e3, e4, e5⟩
  unfold worker_classify
  dsimp only
  have hnt : ¬ (w.metrics.protocol = IPPROTO_TCP
      ∧ (opts.scan_model = RWSCAN_MODEL_HYBRID ∨ opts.scan_model = RWSCAN_MODEL_TRW)) := by
    rw [hproto]
    exact fun h => absurd h.1 (by decide)
  have hblr : (w.metrics.event_class ≠ EVENT_SCAN ∧ w.metrics.event_class ≠ EVENT_FLOOD
      ∧ w.metrics.event_class ≠ EVENT_BACKSCATTER)
      ∧ (opts.scan_model = RWSCAN_MODEL_HYBRID ∨ opts.scan_model = RWSCAN_MODEL_BLR) := by
    rw [hclass]
    exact ⟨by decide, hmodel⟩
  rw [if_neg hnt]
  dsimp only
  rw [if_pos hblr, e1]
  rfl

/-- C14 at the event of the specification: 64 echo requests to 203.0.113.0 up
to 203.0.113.63, under the scan model HYBRID. -/
theorem icmp_sweep_scan_witness :
    ∃ m, worker_classify Real.exp qsort_insertion
        (default_options RWSCAN_MODEL_HYBRID : options_t ℝ)
        { flows := sample_sweep 9 3405803776 64, metrics := sample_metrics 1 9 64 }
        trw_data_empty = some (m, trw_data_empty)
      ∧ m.event_class = EVENT_SCAN ∧ m.model = RWSCAN_MODEL_BLR ∧ 0 < icmp_score m :=
  icmp_sweep_scan qsort_insertion qsort_insertion_perm qsort_insertion_sorted
    (default_options RWSCAN_MODEL_HYBRID : options_t ℝ) (Or.inl rfl)
    { flows := sample_sweep 9 3405803776 64, metrics := sample_metrics 1 9 64 }
    trw_data_empty 3405803776 64 3405803776 (by decide) (by decide) rfl rfl rfl
    (sample_sweep_echo 9 3405803776 64)
    (List.Perm.of_eq (sample_sweep_dips 9 3405803776 64))
    sample_sweep_class

/-- C15 as stated fails: for the 64 echo requests to 203.0.113.0 up to
203.0.113.63 the feature extraction of BLR yields a maximal run length of 1,
not 63. -/
theorem icmp_sweep_run_length :
    ∃ m1, invoke_blr_model Real.exp qsort_insertion (sample_sweep 9 3405803776 64)
        (sample_metrics 1 9 64) = some m1
      ∧ m1.icmp.max_class_c_dip_run_length = 1
      ∧ m1.icmp.max_class_c_dip_run_length ≠ 64 - 1 := by
  obtain ⟨m1, e1, e2, -⟩ := invoke_blr_model_sweep qsort_insertion qsort_insertion_perm
    qsort_insertion_sorted (sample_sweep 9 3405803776 64) (sample_metrics 1 9 64)
    3405803776 64 3405803776 (by decide) (by decide) ⟨rfl, rfl⟩ rfl rfl
    (sample_sweep_echo 9 3405803776 64)
    (List.Perm.of_eq (sample_sweep_dips 9 3405803776 64))
    sample_sweep_class
  refine ⟨m1, e1, by rw [e2], by rw [e2]; decide⟩

/-- C15 as amended: for an ICMP event of `n` echo requests (type 8, code 0),
`32 ≤ n ≤ 255`, one to each of `n` consecutive addresses of one /24, in any
order, the feature extraction of BLR yields `max_class_c_dip_count = n`,
`echo_ratio = 1`, `total_dip_count = n` and
`max_class_c_subnet_run_length = 1`. -/
theorem icmp_sweep_features
    (qsort : (rwRec → rwRec → Int) → List rwRec → List rwRec)
    (hq : qsort_perm qsort) (hs : qsort_sorted qsort)
    (flows : List rwRec) (m : event_metrics ℝ) (b n c : Nat)
    (h32 : 32 ≤ n) (h255 : n ≤ 255)
    (hfresh : fresh_metrics m) (hproto : m.protocol = IPPROTO_ICMP)
    (hsz : m.event_size = n)
    (hecho : ∀ f ∈ flows, echo_request f)
    (hdips : List.Perm (flows.map rwRecGetDIPv4) (List.range' b n))
    (hc : ∀ f ∈ flows, rwRecGetDIPv4 f &&& 0xFFFFFF00 = c) :
    ∃ m1, invoke_blr_model Real.exp qsort flows m = some m1
      ∧ m1.icmp.max_class_c_dip_count = n ∧ m1.icmp.echo_ratio = 1
      ∧ m1.icmp.total_dip_count = n ∧ m1.icmp.max_class_c_subnet_run_length = 1 := by
  have hzero : m.flows_icmp_echo = 0 ∧ m.icmp.max_class_c_dip_run_length = 0 := by
    unfold fresh_metrics at hfresh
    rw [hfresh]
    exact ⟨rfl, rfl⟩
  obtain ⟨m1, e1, e2, -⟩ := invoke_blr_model_sweep qsort hq hs flows m b n c h32 h255
    hzero hproto hsz hecho hdips hc
  exact ⟨m1, e1, by rw [e2], by rw [e2], by rw [e2], by rw [e2]⟩

/-- C15 as amended at the event of the specification: 64 echo requests to
203.0.113.0 up to 203.0.113.63. -/
theorem icmp_sweep_features_witness :
    ∃ m1, invoke_blr_model Real.exp qsort_insertion (sample_sweep 9 3405803776 64)
        (sample_metrics 1 9 64) = some m1
      ∧ m1.icmp.max_class_c_dip_count = 64 ∧ m1.icmp.echo_ratio = 1
      ∧ m1.icmp.total_dip_count = 64 ∧ m1.icmp.max_class_c_subnet_run_length = 1 :=
  icmp_sweep_features qsort_insertion qsort_insertion_perm qsort_insertion_sorted
    (sample_sweep 9 3405803776 64) (sample_metrics 1 9 64) 3405803776 64 3405803776
    (by decide) (by decide) rfl rfl rfl (sample_sweep_echo 9 3405803776 64)
    (List.Perm.of_eq (sample_sweep_dips 9 3405803776 64)) sample_sweep_class

/-- A run that is broken inside the /24 is reported with the number of its
addresses: echo requests to 203.0.113.0, .1, .2 and to 203.0.113.4, .5 give a
maximal run length of 3. -/
theorem calculate_icmp_metrics_broken_run :
    (calculate_icmp_metrics (K := ℚ)
      (sample_sweep 9 3405803776 3 ++ sample_sweep 9 3405803780 2)
      (sample_metrics 1 9 5)).icmp.max_class_c_dip_run_length = 3 := by
  decide

end SweepEvent

section Options
open EventClassification ScanModel

/-- Options other than `--threads` leave `worker_threads` as it is. -/
theorem appOptionsHandler_fold_threads (argv : List thread_option)
    (h : ∀ a ∈ argv, ∃ n, a = thread_option.OPT_WORK_QUEUE_DEPTH n) :
    ∀ o : thread_options, (argv.foldl appOptionsHandler o).worker_threads = o.worker_threads := by
  induction argv with
  | nil => intro o; rfl
  | cons a rest ih =>
    intro o
    obtain ⟨n, rfl⟩ := h a (List.mem_cons_self _ _)
    rw [List.foldl_cons, ih (fun b hb => h b (List.mem_cons_of_mem _ hb))]
    rfl

/-- Without `--threads` the queue depth is 1, whatever `--queue-depth` says. -/
theorem appSetup_without_threads (argv : List thread_option)
    (h : ∀ a ∈ argv, ∃ n, a = thread_option.OPT_WORK_QUEUE_DEPTH n) :
    appSetup argv = { worker_threads := 1, work_queue_depth := 1 } := by
  unfold appSetup
  dsimp only
  rw [if_pos (appOptionsHandler_fold_threads argv h _)]

/-- With `--threads t` and `--queue-depth n`, both positive, the queue depth is
`n`; with `--threads t` alone it is `t`. -/
theorem appSetup_with_threads (t n : Nat) (ht : 0 < t) (hn : 0 < n) :
    appSetup [thread_option.OPT_WORKER_THREADS t, thread_option.OPT_WORK_QUEUE_DEPTH n]
      = { worker_threads := t, work_queue_depth := n }
    ∧ appSetup [thread_option.OPT_WORK_QUEUE_DEPTH n, thread_option.OPT_WORKER_THREADS t]
      = { worker_threads := t, work_queue_depth := n }
    ∧ appSetup [thread_option.OPT_WORKER_THREADS t]
      = { worker_threads := t, work_queue_depth := t } := by
  have h1 : ¬ t = 0 := by omega
  have h2 : ¬ n = 0 := by omega
  refine ⟨?_, ?_, ?_⟩ <;> simp [appSetup, appOptionsHandler, h1, h2]

/-- C21 (the code departs from it): with `--queue-depth 8` and no `--threads`
the work queue is created with the maximum depth 1, not 8: the defaults are
filled in whenever `worker_threads` is zero, over a queue depth that was
given.  With `--threads 2 --queue-depth 8` the depth is 8, and with
`--threads 2` alone it is 2. -/
theorem queue_depth_overwritten :
    appSetup [thread_option.OPT_WORK_QUEUE_DEPTH 8]
      = { worker_threads := 1, work_queue_depth := 1 }
    ∧ (main_work_queue [thread_option.OPT_WORK_QUEUE_DEPTH 8]).maxdepth = 1
    ∧ (main_work_queue [thread_option.OPT_WORKER_THREADS 2,
        thread_option.OPT_WORK_QUEUE_DEPTH 8]).maxdepth = 8
    ∧ (main_work_queue [thread_option.OPT_WORKER_THREADS 2]).maxdepth = 2 := by
  decide

end Options

section TrwCounters
variable {K : Type} [LinearOrderedField K]
open EventClassification ScanModel

theorem trw_prev_append (pre : List rwRec) (f : rwRec) :
    trw_prev (pre ++ [f]) = rwRecGetDIPv4 f := by
  unfold trw_prev
  rw [List.getLast?_append]
  simp

theorem trw_counts_append (opts : options_t K) (ex : List Nat) (l1 : List rwRec) :
    ∀ (l2 : List rwRec) (prev : Nat) (c : trw_counters K),
    trw_counts opts ex (l1 ++ l2) prev c
      = trw_counts opts ex l2 (if l1 = [] then prev else trw_prev l1)
          (trw_counts opts ex l1 prev c) := by
  induction l1 with
  | nil => intro l2 prev c; simp [trw_counts]
  | cons x t ih =>
    intro l2 prev c
    rw [List.cons_append, trw_counts, ih, trw_counts]
    rw [if_neg (List.cons_ne_nil _ _)]
    by_cases ht : t = []
    · subst ht
      simp [trw_prev]
    · rw [if_neg ht]
      congr 1
      rcases t with _ | ⟨y, ys⟩
      · exact absurd rfl ht
      · unfold trw_prev
        rw [List.getLast?_cons_cons]


/-- The hit and miss counters after one iteration. -/
theorem trw_count_hits_misses (opts : options_t K) (ex : List Nat) (prev : Nat)
    (c : trw_counters K) (rw : rwRec) :
    (trw_count opts ex prev c rw).hits
        = (if rwRecGetDIPv4 rw ≠ prev then (trw_lookup ex c rw).hits else c.hits)
    ∧ (trw_count opts ex prev c rw).misses
        = (if rwRecGetDIPv4 rw ≠ prev then (trw_lookup ex c rw).misses else c.misses) := by
  unfold trw_count trw_lookup
  dsimp only
  split_ifs <;> exact ⟨rfl, rfl⟩

/-- The critical section of an iteration bumps exactly one of the hit and miss
counters and leaves `dips` alone. -/
theorem trw_lookup_spec (ex : List Nat) (c : trw_counters K) (rw : rwRec) :
    (trw_lookup ex c rw).dips = c.dips
    ∧ (((trw_lookup ex c rw).hits = (c.hits + 1) % U32 ∧ (trw_lookup ex c rw).misses = c.misses)
      ∨ ((trw_lookup ex c rw).hits = c.hits
        ∧ (trw_lookup ex c rw).misses = (c.misses + 1) % U32)) := by
  unfold trw_lookup
  dsimp only
  split_ifs
  · exact ⟨rfl, Or.inl ⟨rfl, rfl⟩⟩
  · exact ⟨rfl, Or.inr ⟨rfl, rfl⟩⟩
  · exact ⟨rfl, Or.inl ⟨rfl, rfl⟩⟩

/-- One iteration keeps `hits + misses = dips` as long as no counter wraps. -/
theorem trw_count_inv (opts : options_t K) (ex : List Nat) (prev : Nat)
    (c : trw_counters K) (rw : rwRec) (n : Nat)
    (h : c.hits + c.misses = c.dips) (hn : c.dips ≤ n) (hb : n + 1 < U32) :
    (trw_count opts ex prev c rw).hits + (trw_count opts ex prev c rw).misses
        = (trw_count opts ex prev c rw).dips
    ∧ (trw_count opts ex prev c rw).dips ≤ n + 1 := by
  obtain ⟨h1, h2⟩ := trw_count_hits_misses opts ex prev c rw
  obtain ⟨l1, l2⟩ := trw_lookup_spec ex c rw
  rw [h1, h2, trw_count_dips]
  by_cases hd : rwRecGetDIPv4 rw ≠ prev
  · rw [if_pos hd, if_pos hd, if_pos hd, Nat.mod_eq_of_lt (by omega)]
    rcases l2 with ⟨a, b⟩ | ⟨a, b⟩
    · rw [a, b, Nat.mod_eq_of_lt (by omega)]
      omega
    · rw [a, b, Nat.mod_eq_of_lt (by omega)]
      omega
  · rw [if_neg hd, if_neg hd, if_neg hd]
    omega

/-- Any number of iterations keeps `hits + misses = dips` as long as no counter
wraps. -/
theorem trw_counts_inv (opts : options_t K) (ex : List Nat) (l : List rwRec) :
    ∀ (prev : Nat) (c : trw_counters K) (n : Nat),
    c.hits + c.misses = c.dips → c.dips ≤ n → n + l.length < U32 →
    (trw_counts opts ex l prev c).hits + (trw_counts opts ex l prev c).misses
        = (trw_counts opts ex l prev c).dips
    ∧ (trw_counts opts ex l prev c).dips ≤ n + l.length := by
  induction l with
  | nil => intro prev c n h hn _; exact ⟨h, hn⟩
  | cons x t ih =>
    intro prev c n h hn hb
    simp only [List.length_cons] at hb
    obtain ⟨a, b⟩ := trw_count_inv opts ex prev c x n h hn (by omega)
    obtain ⟨a2, b2⟩ := ih (rwRecGetDIPv4 x) (trw_count opts ex prev c x) (n + 1) a b (by omega)
    rw [trw_counts]
    refine ⟨a2, ?_⟩
    simp only [List.length_cons]
    omega

/-- The counters the loop of `invoke_trw_model` ends with are those after the
iterations over the first `k` of its flows, where `k` with the loop index stays
within the cutoff plus two; the set `existing` is not changed. -/
theorem trw_loop_counts (opts : options_t K) (flows : List rwRec) :
    ∀ (rest : List rwRec) (i prev : Nat) (st : trw_state K),
    ∃ k, k ≤ rest.length
      ∧ (i ≤ RWSCAN_FLOW_CUTOFF + 1 → i + k ≤ RWSCAN_FLOW_CUTOFF + 2)
      ∧ (trw_loop opts flows rest i prev st).2.counters
          = trw_counts opts st.data.existing (rest.take k) prev st.counters
      ∧ (trw_loop opts flows rest i prev st).2.data.existing = st.data.existing := by
  intro rest
  induction rest with
  | nil =>
    intro i prev st
    exact ⟨0, Nat.le_refl _, fun h => by omega, rfl, rfl⟩
  | cons rw rest ih =>
    intro i prev st
    have one : ∀ c : trw_counters K, c = trw_count opts st.data.existing prev st.counters rw →
        c = trw_counts opts st.data.existing ((rw :: rest).take 1) prev st.counters := by
      intro c hc
      rw [hc]
      rfl
    rw [trw_loop_cons]
    dsimp only
    split_ifs with h1 h2 h3 h4
    · exact ⟨1, by simp, fun h => by omega, one _ rfl, rfl⟩
    · exact ⟨1, by simp, fun h => by omega, one _ rfl, rfl⟩
    · exact ⟨1, by simp, fun h => by omega, one _ rfl, rfl⟩
    · obtain ⟨k, k1, k2, k3, k4⟩ := ih (i + 1) (rwRecGetDIPv4 rw)
        { st with counters := trw_count opts st.data.existing prev st.counters rw }
      refine ⟨k + 1, by simp only [List.length_cons]; omega, fun h => ?_, ?_, k4⟩
      · have := k2 (by unfold RWSCAN_FLOW_CUTOFF at h1 ⊢; omega)
        omega
      · rw [k3]
        rfl
    · obtain ⟨k, k1, k2, k3, k4⟩ := ih (i + 1) (rwRecGetDIPv4 rw)
        { st with counters := trw_count opts st.data.existing prev st.counters rw }
      refine ⟨k + 1, by simp only [List.length_cons]; omega, fun h => ?_, ?_, k4⟩
      · have := k2 (by unfold RWSCAN_FLOW_CUTOFF at h1 ⊢; omega)
        omega
      · rw [k3]
        rfl

/-- The flow counter after the iterations over a list of flows. -/
theorem trw_counts_flows (opts : options_t K) (ex : List Nat) (l : List rwRec) :
    ∀ (prev : Nat) (c : trw_counters K), c.flows + l.length < U32 →
    (trw_counts opts ex l prev c).flows = c.flows + l.length := by
  induction l with
  | nil => intro prev c _; rfl
  | cons x t ih =>
    intro prev c hb
    simp only [List.length_cons] at hb
    have h1 : (trw_count opts ex prev c x).flows = c.flows + 1 := by
      rw [trw_count_flows]
      exact Nat.mod_eq_of_lt (by omega)
    rw [trw_counts, ih _ _ (by rw [h1]; omega), h1]
    simp only [List.length_cons]
    omega

/-- From zeroed counters `invoke_trw_model` counts at most the cutoff plus two
flows, and never more than the event has. -/
theorem invoke_trw_model_flows_le (opts : options_t K) (flows : List rwRec)
    (m : event_metrics K) (data : trw_data) :
    (invoke_trw_model opts flows m trw_counters_zero data).counters.flows
      ≤ RWSCAN_FLOW_CUTOFF + 2
    ∧ (invoke_trw_model opts flows m trw_counters_zero data).counters.flows ≤ flows.length := by
  obtain ⟨k, k1, k2, k3, -⟩ := trw_loop_counts opts flows (flows.take m.event_size) 0 0xffffffff
    { counters := trw_counters_zero, metrics := { m with model := RWSCAN_MODEL_TRW },
      data := data }
  have hk := k2 (by omega)
  have hc : (invoke_trw_model opts flows m trw_counters_zero data).counters
      = trw_counts opts data.existing ((flows.take m.event_size).take k) 0xffffffff
          trw_counters_zero := by
    unfold invoke_trw_model
    dsimp only
    split_ifs <;> exact k3
  have hlen : ((flows.take m.event_size).take k).length = k := by
    rw [List.length_take]
    omega
  rw [hc, trw_counts_flows _ _ _ _ _ (by
    rw [hlen]
    show 0 + k < U32
    unfold U32
    unfold RWSCAN_FLOW_CUTOFF at hk
    omega), hlen]
  have : k ≤ flows.length := le_trans k1 (by rw [List.length_take]; omega)
  constructor
  · show 0 + k ≤ RWSCAN_FLOW_CUTOFF + 2
    omega
  · show 0 + k ≤ flows.length
    omega


/-- On an event of flows of the backscatter pattern `invoke_trw_model` has
counted all flows, or the cutoff plus two of them, when it returns. -/
theorem invoke_trw_model_bs_flows (opts : options_t K) (flows : List rwRec)
    (m : event_metrics K) (data : trw_data)
    (hsize : m.event_size = flows.length)
    (hall : ∀ f ∈ flows, bs_flags (rwRecGetFlags f)) :
    (invoke_trw_model opts flows m trw_counters_zero data).counters.flows
      = min flows.length (RWSCAN_FLOW_CUTOFF + 2) := by
  obtain ⟨c, h1, h2, -, -, -⟩ := trw_loop_bs opts flows flows 0 0xffffffff
    { counters := trw_counters_zero, metrics := { m with model := RWSCAN_MODEL_TRW },
      data := data }
    (fun f hf => hall f (List.mem_of_mem_take hf)) (by simp) rfl rfl rfl (Nat.le_refl 0)
  have ht : List.take m.event_size flows = flows := by rw [hsize, List.take_length]
  have hc : (invoke_trw_model opts flows m trw_counters_zero data).counters = c := by
    unfold invoke_trw_model
    dsimp only
    rw [ht, h1]
    rfl
  rw [hc, h2]
  simp

/-- C22: the cutoff is applied two flows late.  On an event of 100002 `RST`
flows (99999 to one address, then one to each of three more) the function
`invoke_trw_model` returns with `counters.flows = 100002`, above the cutoff of
100000 flows after which the code says it gives up; 100002 is also the most
the function ever counts. -/
theorem invoke_trw_model_counts_past_cutoff :
    (sample_backscatter 99999).length = 100002
    ∧ (invoke_trw_model (default_options RWSCAN_MODEL_HYBRID : options_t ℚ)
        (sample_backscatter 99999) (sample_metrics 6 9 100002) trw_counters_zero
        trw_data_empty).counters.flows = 100002
    ∧ RWSCAN_FLOW_CUTOFF = 100000
    ∧ ∀ (flows : List rwRec) (m : event_metrics ℚ) (data : trw_data),
        (invoke_trw_model (default_options RWSCAN_MODEL_HYBRID : options_t ℚ)
          flows m trw_counters_zero data).counters.flows ≤ 100002 := by
  refine ⟨sample_backscatter_length _, ?_, rfl, fun flows m data =>
    (invoke_trw_model_flows_le _ flows m data).1⟩
  rw [invoke_trw_model_bs_flows _ _ _ _ (by rw [sample_backscatter_length]; rfl)
    (sample_backscatter_flags _), sample_backscatter_length]
  rfl

/-- An iteration whose flow goes to a new destination address leaves the
closed form of the likelihood. -/
theorem trw_count_closed (opts : options_t K) (ex : List Nat) (prev : Nat)
    (c : trw_counters K) (rw : rwRec) (h : rwRecGetDIPv4 rw ≠ prev) :
    trw_closed opts (trw_count opts ex prev c rw) := by
  unfold trw_closed trw_count
  dsimp only
  rw [if_pos h]
  simp only [mul_loop_eq, one_mul]

/-- An iteration whose flow goes to the destination address of the one before
keeps the hits, the misses and the likelihood. -/
theorem trw_count_closed_same (opts : options_t K) (ex : List Nat) (prev : Nat)
    (c : trw_counters K) (rw : rwRec) (h : rwRecGetDIPv4 rw = prev)
    (hc : trw_closed opts c) :
    trw_closed opts (trw_count opts ex prev c rw) := by
  obtain ⟨h1, h2⟩ := trw_count_hits_misses opts ex prev c rw
  unfold trw_closed at hc ⊢
  rw [trw_count_likelihood_same opts ex prev c rw h, h1, h2,
    if_neg (not_not.mpr h), if_neg (not_not.mpr h)]
  exact hc

/-- The closed form of the likelihood is kept by any number of iterations. -/
theorem trw_counts_closed (opts : options_t K) (ex : List Nat) (l : List rwRec) :
    ∀ (prev : Nat) (c : trw_counters K), trw_closed opts c →
    trw_closed opts (trw_counts opts ex l prev c) := by
  induction l with
  | nil => intro prev c hc; exact hc
  | cons x t ih =>
    intro prev c hc
    rw [trw_counts]
    apply ih
    by_cases h : rwRecGetDIPv4 x = prev
    · exact trw_count_closed_same opts ex prev c x h hc
    · exact trw_count_closed opts ex prev c x h

/-- The state of the loop after the flows `pre ++ [f]` is that of one
iteration for `f` from the state after `pre`. -/
theorem trw_counts_snoc (opts : options_t K) (ex : List Nat) (pre : List rwRec) (f : rwRec)
    (c : trw_counters K) :
    trw_counts opts ex (pre ++ [f]) 0xffffffff c
      = trw_count opts ex (trw_prev pre) (trw_counts opts ex pre 0xffffffff c) f := by
  rw [trw_counts_append]
  by_cases h : pre = []
  · subst h
    rfl
  · rw [if_neg h]
    rfl

/-- C24: the two multiplication loops compute the closed form.  With theta0
and theta1 strictly between 0 and 1, let the flows of an event processed so
far be `pre`, then `f`, then `post`, where the destination address of `f`
differs from `dip_prev` (that of the last flow of `pre`, initially
`0xffffffff`); the bounds on theta keep both quotients away from a division
by zero.  Then the likelihood stored after the iteration for `f`, and
still after the iterations for `post`, equals
`(theta1/theta0)^hits * ((1 - theta1)/(1 - theta0))^misses` for the values of
`hits` and `misses` stored at that moment. -/
theorem trw_likelihood_closed_form (opts : options_t K) (ex : List Nat)
    (pre post : List rwRec) (f : rwRec)
    (_h0 : 0 < opts.trw_theta0 ∧ opts.trw_theta0 < 1)
    (_h1 : 0 < opts.trw_theta1 ∧ opts.trw_theta1 < 1)
    (hchange : rwRecGetDIPv4 f ≠ trw_prev pre) :
    (trw_counts opts ex (pre ++ [f]) 0xffffffff trw_counters_zero).likelihood
        = (opts.trw_theta1 / opts.trw_theta0)
            ^ (trw_counts opts ex (pre ++ [f]) 0xffffffff trw_counters_zero).hits
          * ((1 - opts.trw_theta1) / (1 - opts.trw_theta0))
            ^ (trw_counts opts ex (pre ++ [f]) 0xffffffff trw_counters_zero).misses
    ∧ (trw_counts opts ex (pre ++ [f] ++ post) 0xffffffff trw_counters_zero).likelihood
        = (opts.trw_theta1 / opts.trw_theta0)
            ^ (trw_counts opts ex (pre ++ [f] ++ post) 0xffffffff trw_counters_zero).hits
          * ((1 - opts.trw_theta1) / (1 - opts.trw_theta0))
            ^ (trw_counts opts ex (pre ++ [f] ++ post) 0xffffffff trw_counters_zero).misses := by
  have hc : trw_closed opts (trw_counts opts ex (pre ++ [f]) 0xffffffff trw_counters_zero) := by
    rw [trw_counts_snoc]
    exact trw_count_closed opts ex _ _ f hchange
  refine ⟨hc, ?_⟩
  rw [trw_counts_append opts ex (pre ++ [f]) post]
  exact trw_counts_closed opts ex post _ _ hc

theorem trw_likelihood_closed_form_witness :
    (trw_counts (default_options RWSCAN_MODEL_TRW : options_t ℚ) []
        ([sample_flow 9 1 6 2] ++ [sample_flow 9 2 6 2]) 0xffffffff
        trw_counters_zero).likelihood
      = ((default_options RWSCAN_MODEL_TRW : options_t ℚ).trw_theta1
          / (default_options RWSCAN_MODEL_TRW : options_t ℚ).trw_theta0)
          ^ (trw_counts (default_options RWSCAN_MODEL_TRW : options_t ℚ) []
              ([sample_flow 9 1 6 2] ++ [sample_flow 9 2 6 2]) 0xffffffff
              trw_counters_zero).hits
        * ((1 - (default_options RWSCAN_MODEL_TRW : options_t ℚ).trw_theta1)
          / (1 - (default_options RWSCAN_MODEL_TRW : options_t ℚ).trw_theta0))
          ^ (trw_counts (default_options RWSCAN_MODEL_TRW : options_t ℚ) []
              ([sample_flow 9 1 6 2] ++ [sample_flow 9 2 6 2]) 0xffffffff
              trw_counters_zero).misses :=
  (trw_likelihood_closed_form (default_options RWSCAN_MODEL_TRW : options_t ℚ) []
    [sample_flow 9 1 6 2] [] (sample_flow 9 2 6 2)
    (by unfold default_options TRW_DEFAULT_THETA0; norm_num)
    (by unfold default_options TRW_DEFAULT_THETA1; norm_num)
    (by decide)).1


/-- C25 as stated fails: at the release of the mutex in the first iteration
of an event whose first flow is a bare SYN to address 1 (not in `existing`)
the miss counter is 1 and `dips` is still 0, because `counters->dips++` comes
after `pthread_mutex_unlock`. -/
theorem trw_unlock_before_dips :
    (trw_lookup [] (trw_counters_zero : trw_counters ℚ) (sample_flow 9 1 6 2)).hits
        + (trw_lookup [] (trw_counters_zero : trw_counters ℚ) (sample_flow 9 1 6 2)).misses = 1
    ∧ (trw_lookup [] (trw_counters_zero : trw_counters ℚ) (sample_flow 9 1 6 2)).dips = 0 := by
  decide

/-- C25 as amended: let the flows of an event processed so far be `pre`, then
`f`, fewer than 2^32 together, the destination address of `f` differing from
`dip_prev`.  Where the mutex is released in the iteration for `f` the counters
satisfy `hits + misses = dips + 1`, and `hits + misses = dips` holds at the end
of this and of every other iteration (and before the first). -/
theorem trw_hits_misses_dips (opts : options_t K) (ex : List Nat) (pre : List rwRec)
    (f : rwRec) (hlen : (pre ++ [f]).length < U32)
    (hchange : rwRecGetDIPv4 f ≠ trw_prev pre) :
    (trw_lookup ex (trw_counts opts ex pre 0xffffffff trw_counters_zero) f).hits
        + (trw_lookup ex (trw_counts opts ex pre 0xffffffff trw_counters_zero) f).misses
      = (trw_lookup ex (trw_counts opts ex pre 0xffffffff trw_counters_zero) f).dips + 1
    ∧ (trw_counts opts ex pre 0xffffffff trw_counters_zero).hits
        + (trw_counts opts ex pre 0xffffffff trw_counters_zero).misses
      = (trw_counts opts ex pre 0xffffffff trw_counters_zero).dips
    ∧ (trw_counts opts ex (pre ++ [f]) 0xffffffff trw_counters_zero).hits
        + (trw_counts opts ex (pre ++ [f]) 0xffffffff trw_counters_zero).misses
      = (trw_counts opts ex (pre ++ [f]) 0xffffffff trw_counters_zero).dips
    ∧ (trw_counts opts ex (pre ++ [f]) 0xffffffff trw_counters_zero).hits
      = (trw_lookup ex (trw_counts opts ex pre 0xffffffff trw_counters_zero) f).hits
    ∧ (trw_counts opts ex (pre ++ [f]) 0xffffffff trw_counters_zero).misses
      = (trw_lookup ex (trw_counts opts ex pre 0xffffffff trw_counters_zero) f).misses := by
  rw [List.length_append, List.length_singleton] at hlen
  obtain ⟨a, b⟩ := trw_counts_inv opts ex pre 0xffffffff trw_counters_zero 0 rfl
    (Nat.le_refl 0) (by omega)
  obtain ⟨a2, -⟩ := trw_counts_inv opts ex (pre ++ [f]) 0xffffffff trw_counters_zero 0 rfl
    (Nat.le_refl 0) (by rw [List.length_append, List.length_singleton]; omega)
  obtain ⟨l1, l2⟩ := trw_lookup_spec ex (trw_counts opts ex pre 0xffffffff trw_counters_zero) f
  obtain ⟨e1, e2⟩ := trw_count_hits_misses opts ex (trw_prev pre)
    (trw_counts opts ex pre 0xffffffff trw_counters_zero) f
  rw [if_pos hchange] at e1 e2
  refine ⟨?_, a, a2, ?_, ?_⟩
  · rw [l1]
    rcases l2 with ⟨u, v⟩ | ⟨u, v⟩
    · rw [u, v, Nat.mod_eq_of_lt (by omega)]
      omega
    · rw [u, v, Nat.mod_eq_of_lt (by omega)]
      omega
  · rw [trw_counts_snoc, e1]
  · rw [trw_counts_snoc, e2]

theorem trw_hits_misses_dips_witness :
    (trw_lookup [] (trw_counts (default_options RWSCAN_MODEL_TRW : options_t ℚ) []
        [sample_flow 9 1 6 2] 0xffffffff trw_counters_zero) (sample_flow 9 2 6 2)).hits
      + (trw_lookup [] (trw_counts (default_options RWSCAN_MODEL_TRW : options_t ℚ) []
        [sample_flow 9 1 6 2] 0xffffffff trw_counters_zero) (sample_flow 9 2 6 2)).misses
    = (trw_lookup [] (trw_counts (default_options RWSCAN_MODEL_TRW : options_t ℚ) []
        [sample_flow 9 1 6 2] 0xffffffff trw_counters_zero) (sample_flow 9 2 6 2)).dips + 1 :=
  (trw_hits_misses_dips (default_options RWSCAN_MODEL_TRW : options_t ℚ) []
    [sample_flow 9 1 6 2] (sample_flow 9 2 6 2) (by decide) (by decide)).1

/-- C26: the first flow is not treated as a change of destination address when
it goes to 255.255.255.255, the initial value of `dip_prev`.  After the first
flow of such an event `dips`, `hits` and `misses` are 0 and the likelihood is
the 0 it was cleared to; for a bare SYN `invoke_trw_model` then returns BENIGN
at that first flow with scan probability 0.  A first flow to any other address
(here address 1) gives `dips = 1` and `hits + misses = 1`. -/
theorem trw_first_flow_broadcast :
    rwRecGetDIPv4 (sample_flow 9 0xffffffff 6 2) = 0xffffffff
    ∧ (trw_count (default_options RWSCAN_MODEL_TRW : options_t ℚ) [] 0xffffffff
        trw_counters_zero (sample_flow 9 0xffffffff 6 2)).dips = 0
    ∧ (trw_count (default_options RWSCAN_MODEL_TRW : options_t ℚ) [] 0xffffffff
        trw_counters_zero (sample_flow 9 0xffffffff 6 2)).hits = 0
    ∧ (trw_count (default_options RWSCAN_MODEL_TRW : options_t ℚ) [] 0xffffffff
        trw_counters_zero (sample_flow 9 0xffffffff 6 2)).misses = 0
    ∧ (trw_count (default_options RWSCAN_MODEL_TRW : options_t ℚ) [] 0xffffffff
        trw_counters_zero (sample_flow 9 0xffffffff 6 2)).likelihood = 0
    ∧ (invoke_trw_model (default_options RWSCAN_MODEL_TRW : options_t ℚ)
        [sample_flow 9 0xffffffff 6 2] (sample_metrics 6 9 1) trw_counters_zero
        trw_data_empty).metrics.event_class = EVENT_BENIGN
    ∧ (invoke_trw_model (default_options RWSCAN_MODEL_TRW : options_t ℚ)
        [sample_flow 9 0xffffffff 6 2] (sample_metrics 6 9 1) trw_counters_zero
        trw_data_empty).metrics.scan_probability = 0
    ∧ (trw_count (default_options RWSCAN_MODEL_TRW : options_t ℚ) [] 0xffffffff
        trw_counters_zero (sample_flow 9 1 6 2)).dips = 1
    ∧ (trw_count (default_options RWSCAN_MODEL_TRW : options_t ℚ) [] 0xffffffff
        trw_counters_zero (sample_flow 9 1 6 2)).hits
      + (trw_count (default_options RWSCAN_MODEL_TRW : options_t ℚ) [] 0xffffffff
        trw_counters_zero (sample_flow 9 1 6 2)).misses = 1 := by
  have hl : (trw_count (default_options RWSCAN_MODEL_TRW : options_t ℚ)
      trw_data_empty.existing 0xffffffff
      trw_counters_zero (sample_flow 9 0xffffffff 6 2)).likelihood = 0 :=
    trw_count_likelihood_same _ _ _ _ _ rfl
  have hs : (trw_count (default_options RWSCAN_MODEL_TRW : options_t ℚ)
      trw_data_empty.existing 0xffffffff
      trw_counters_zero (sample_flow 9 0xffffffff 6 2)).syns
      = (trw_count (default_options RWSCAN_MODEL_TRW : options_t ℚ)
      trw_data_empty.existing 0xffffffff
      trw_counters_zero (sample_flow 9 0xffffffff 6 2)).flows := by decide
  have hr : trw_loop (default_options RWSCAN_MODEL_TRW : options_t ℚ)
      [sample_flow 9 0xffffffff 6 2] [sample_flow 9 0xffffffff 6 2] 0 0xffffffff
      { counters := trw_counters_zero,
        metrics := { (sample_metrics 6 9 1 : event_metrics ℚ) with model := RWSCAN_MODEL_TRW },
        data := trw_data_empty }
      = (true, { counters := trw_count (default_options RWSCAN_MODEL_TRW : options_t ℚ) []
                    0xffffffff trw_counters_zero (sample_flow 9 0xffffffff 6 2),
                 metrics := { (sample_metrics 6 9 1 : event_metrics ℚ) with
                    model := RWSCAN_MODEL_TRW, scan_probability := 0,
                    event_class := EVENT_BENIGN },
                 data := { trw_data_empty with
                    benign := List.insert 9 trw_data_empty.benign } }) := by
    rw [trw_loop_cons]
    dsimp only
    rw [if_neg (by decide), if_pos hs, hl, if_neg (by rw [eta1_val]; norm_num),
      if_pos (by rw [eta0_val]; norm_num)]
    rfl
  have hi : (invoke_trw_model (default_options RWSCAN_MODEL_TRW : options_t ℚ)
      [sample_flow 9 0xffffffff 6 2] (sample_metrics 6 9 1) trw_counters_zero
      trw_data_empty).metrics
      = { (sample_metrics 6 9 1 : event_metrics ℚ) with
            model := RWSCAN_MODEL_TRW, scan_probability := 0,
            event_class := EVENT_BENIGN } := by
    unfold invoke_trw_model
    dsimp only
    have ht : List.take (sample_metrics 6 9 1 : event_metrics ℚ).event_size
        [sample_flow 9 0xffffffff 6 2] = [sample_flow 9 0xffffffff 6 2] := rfl
    rw [ht, hr]
    rfl
  refine ⟨rfl, by decide, by decide, by decide, hl, ?_, ?_, by decide, by decide⟩
  · rw [hi]
  · rw [hi]

end TrwCounters

section TrwHeader
open EventClassification ScanModel

theorem sample_syns_ten :
    sample_syns 10 = sample_flow 9 1 6 2 :: sample_flow 9 2 6 2 :: sample_flow 9 3 6 2
      :: sample_flow 9 4 6 2 :: (List.range' 5 6).map (fun d => sample_flow 9 d 6 2) := rfl

theorem sample_syns_six :
    sample_syns 6 = sample_flow 9 1 6 2 :: sample_flow 9 2 6 2 :: sample_flow 9 3 6 2
      :: sample_flow 9 4 6 2 :: (List.range' 5 2).map (fun d => sample_flow 9 d 6 2) := rfl

/-- C23: the numbers documented in the header (10 valid destinations for
BENIGN, 6 invalid ones for SCAN) are not those of the code.  With the default
values, an event of 10 bare SYNs to 10 distinct destinations that are all in
`existing` is returned BENIGN when `dips = 4`, with likelihood 1/256, and an
event of 6 bare SYNs to 6 distinct destinations none of which is in
`existing` is returned SCAN when `dips = 4`, with likelihood 256. -/
theorem trw_header_thresholds :
    ((sample_syns 10).map rwRecGetDIPv4 = [1, 2, 3, 4, 5, 6, 7, 8, 9, 10]
      ∧ (∀ f ∈ sample_syns 10, rwRecGetFlags f = SYN_FLAG
          ∧ rwRecGetDIPv4 f ∈ (trw_data_known 10).existing)
      ∧ (invoke_trw_model (default_options RWSCAN_MODEL_TRW : options_t ℚ) (sample_syns 10)
          (sample_metrics 6 9 10) trw_counters_zero (trw_data_known 10)).counters.dips = 4
      ∧ (invoke_trw_model (default_options RWSCAN_MODEL_TRW : options_t ℚ) (sample_syns 10)
          (sample_metrics 6 9 10) trw_counters_zero (trw_data_known 10)).counters.likelihood
          = 1 / 256
      ∧ (invoke_trw_model (default_options RWSCAN_MODEL_TRW : options_t ℚ) (sample_syns 10)
          (sample_metrics 6 9 10) trw_counters_zero (trw_data_known 10)).metrics.event_class
          = EVENT_BENIGN)
    ∧ ((sample_syns 6).map rwRecGetDIPv4 = [1, 2, 3, 4, 5, 6]
      ∧ (∀ f ∈ sample_syns 6, rwRecGetFlags f = SYN_FLAG
          ∧ rwRecGetDIPv4 f ∉ trw_data_empty.existing)
      ∧ (invoke_trw_model (default_options RWSCAN_MODEL_TRW : options_t ℚ) (sample_syns 6)
          (sample_metrics 6 9 6) trw_counters_zero trw_data_empty).counters.dips = 4
      ∧ (invoke_trw_model (default_options RWSCAN_MODEL_TRW : options_t ℚ) (sample_syns 6)
          (sample_metrics 6 9 6) trw_counters_zero trw_data_empty).counters.likelihood = 256
      ∧ (invoke_trw_model (default_options RWSCAN_MODEL_TRW : options_t ℚ) (sample_syns 6)
          (sample_metrics 6 9 6) trw_counters_zero trw_data_empty).metrics.event_class
          = EVENT_SCAN) := by
  have hb := invoke_trw_model_benign_four (default_options RWSCAN_MODEL_TRW : options_t ℚ)
    (sample_flow 9 1 6 2) (sample_flow 9 2 6 2) (sample_flow 9 3 6 2) (sample_flow 9 4 6 2)
    ((List.range' 5 6).map (fun d => sample_flow 9 d 6 2)) (sample_metrics 6 9 10)
    (trw_data_known 10) rfl rfl rfl (by decide) (by decide) (by decide) (by decide)
    (by decide) (by decide) (by decide) (by decide)
    (by decide) (by decide) (by decide) (by decide)
  have hs := invoke_trw_model_scan_four (default_options RWSCAN_MODEL_TRW : options_t ℚ)
    (sample_flow 9 1 6 2) (sample_flow 9 2 6 2) (sample_flow 9 3 6 2) (sample_flow 9 4 6 2)
    ((List.range' 5 2).map (fun d => sample_flow 9 d 6 2)) (sample_metrics 6 9 6)
    trw_data_empty rfl rfl rfl (by decide) (by decide) (by decide) (by decide)
    (by decide) (by decide) (by decide) (by decide)
    (by decide) (by decide) (by decide) (by decide)
  rw [← sample_syns_ten] at hb
  rw [← sample_syns_six] at hs
  refine ⟨⟨by decide, by decide, ?_, ?_, ?_⟩, ⟨by decide, by decide, ?_, ?_, ?_⟩⟩
  · rw [hb]
  · rw [hb]
  · rw [hb]
  · rw [hs]
  · rw [hs]
  · rw [hs]

end TrwHeader

section SweepWrap
variable {K : Type} [LinearOrderedField K]
open EventClassification ScanModel

set_option maxRecDepth 100000 in
/-- C27: the count of addresses in a /24 is kept in a `uint8_t` and wraps.  An
event of 256 echo requests, one to each address of 203.0.113.0/24 in
increasing order, has 256 distinct destinations in that block, and
`calculate_icmp_metrics` reports `max_class_c_dip_count = 1`; with the first
255 addresses only it reports 255. -/
theorem icmp_full_block_wraps :
    (sample_sweep 9 3405803776 256).map rwRecGetDIPv4 = List.range' 3405803776 256
    ∧ (∀ d ∈ List.range' 3405803776 256, d &&& 0xFFFFFF00 = 3405803776)
    ∧ (List.range' 3405803776 256).Nodup
    ∧ (List.range' 3405803776 256).length = 256
    ∧ (calculate_icmp_metrics (sample_sweep 9 3405803776 256)
        (sample_metrics 1 9 256 : event_metrics ℚ)).icmp.max_class_c_dip_count = 1
    ∧ (calculate_icmp_metrics (sample_sweep 9 3405803776 255)
        (sample_metrics 1 9 255 : event_metrics ℚ)).icmp.max_class_c_dip_count = 255 := by
  refine ⟨by decide, by decide, List.nodup_range' _ _, by decide, by decide, by decide⟩

end SweepWrap

section SubnetRuns
variable {K : Type} [LinearOrderedField K]
open EventClassification ScanModel

/-- What one iteration of the loop of `calculate_icmp_metrics` does to
`class_c_next`, `class_c_run` and `max_class_c_run`. -/
theorem icmp_body_subnet (s : icmp_state K) (x : rwRec) (nx : Option rwRec) :
    (icmp_body s x nx).class_c_next
        = (nx.map (fun f => rwRecGetDIPv4 f &&& 0xFFFFFF00)).getD s.class_c_next
    ∧ ((icmp_body s x nx).class_c_run, (icmp_body s x nx).max_class_c_run)
        = (if nx.isSome = true ∧ rwRecGetDIPv4 x &&& 0xFFFFFF00
              = (nx.map (fun f => rwRecGetDIPv4 f &&& 0xFFFFFF00)).getD s.class_c_next then
            (s.class_c_run, s.max_class_c_run)
          else if (((nx.map (fun f => rwRecGetDIPv4 f &&& 0xFFFFFF00)).getD s.class_c_next
              + U32 - (rwRecGetDIPv4 x &&& 0xFFFFFF00)) % U32) >>> 8 = 1 then
            ((s.class_c_run + 1) % U32, s.max_class_c_run)
          else
            (1, if s.class_c_run > s.max_class_c_run then s.class_c_run
                else s.max_class_c_run)) := by
  cases nx with
  | none =>
    unfold icmp_body
    simp only [Option.map_none', Option.getD_none, Option.isSome_none, Bool.false_eq_true,
      false_and, if_false]
    split_ifs <;> exact ⟨rfl, rfl⟩
  | some y =>
    unfold icmp_body
    simp only [Option.map_some', Option.getD_some, Option.isSome_some, true_and]
    split_ifs <;> exact ⟨rfl, rfl⟩

/-- The loop of `calculate_icmp_metrics` ends with the `max_class_c_run` that
`subnet_runs` computes. -/
theorem icmp_loop_subnet_runs (l : List rwRec) :
    ∀ s : icmp_state K, (icmp_loop l s).max_class_c_run
      = subnet_runs (l.map (fun f => rwRecGetDIPv4 f &&& 0xFFFFFF00))
          s.class_c_next s.class_c_run s.max_class_c_run := by
  induction l with
  | nil => intro s; rfl
  | cons x rest ih =>
    intro s
    obtain ⟨h1, h2⟩ := icmp_body_subnet s x rest.head?
    have h3 := congrArg Prod.fst h2
    have h4 := congrArg Prod.snd h2
    dsimp only at h3 h4
    rw [icmp_loop, ih, h1, h3, h4, List.map_cons, subnet_runs]
    have e1 : (List.map (fun f => rwRecGetDIPv4 f &&& 0xFFFFFF00) rest).head?
        = rest.head?.map (fun f => rwRecGetDIPv4 f &&& 0xFFFFFF00) := by
      cases rest <;> rfl
    have e2 : (rest.head?.map (fun f => rwRecGetDIPv4 f &&& 0xFFFFFF00)).isSome
        = rest.head?.isSome := by
      cases rest <;> rfl
    rw [e1, e2]
    split_ifs <;> rfl


theorem class_c_shift (c d : Nat) (hc : 256 ∣ c) (hd : 256 ∣ d) (hlt : c < d) (hd32 : d < U32) :
    ((d + U32 - c) % U32) >>> 8 = 1 ↔ d = c + 256 := by
  obtain ⟨a, rfl⟩ := hc
  obtain ⟨b, rfl⟩ := hd
  have h1 : (256 * b + U32 - 256 * a) % U32 = 256 * (b - a) := by
    have : 256 * b + U32 - 256 * a = 256 * (b - a) + U32 := by omega
    rw [this, Nat.add_mod_right]
    exact Nat.mod_eq_of_lt (by omega)
  rw [h1, Nat.shiftRight_eq_div_pow]
  have h2 : 256 * (b - a) / 2 ^ 8 = b - a := by
    rw [show (2 : Nat) ^ 8 = 256 from rfl]
    exact Nat.mul_div_cancel_left _ (by decide)
  rw [h2]
  omega

theorem blocks_run_bound (c run b k : Nat)
    (h : ∀ j < k, ∃ i < run, b + 256 * j + 256 * i = c) : k ≤ run := by
  rcases Nat.eq_zero_or_pos k with h0 | h0
  · omega
  · obtain ⟨i0, hi0, e0⟩ := h 0 h0
    obtain ⟨i1, hi1, e1⟩ := h (k - 1) (by omega)
    omega

theorem blocks_run_exists (c run : Nat) (h2 : 256 * run ≤ c + 256) :
    ∀ j < run, ∃ i < run, (c + 256 - 256 * run) + 256 * j + 256 * i = c :=
  fun j hj => ⟨run - 1 - j, by omega, by omega⟩

/-- The last iteration of the loop folds the open run into the maximum. -/
theorem subnet_runs_last (c run mx : Nat) :
    subnet_runs [c] c run mx = if run > mx then run else mx := by
  rw [subnet_runs]
  simp only [List.head?_nil, Option.isSome_none, Bool.false_eq_true, false_and, if_false,
    Option.getD_none]
  rw [if_neg (by rw [Nat.add_sub_cancel_left, Nat.mod_self]; decide)]
  rfl

/-- One iteration of the loop with a record to follow. -/
theorem subnet_runs_next (c d next run mx : Nat) (rest : List Nat) :
    subnet_runs (c :: d :: rest) next run mx
      = if c = d then subnet_runs (d :: rest) d run mx
        else if ((d + U32 - c) % U32) >>> 8 = 1 then
          subnet_runs (d :: rest) d ((run + 1) % U32) mx
        else subnet_runs (d :: rest) d 1 (if run > mx then run else mx) := by
  rw [subnet_runs]
  simp only [List.head?_cons, Option.isSome_some, true_and, Option.getD_some]


/-- The invariant of the loop of `calculate_icmp_metrics` for the run of /24
blocks, on records in non-decreasing order: the final `max_class_c_run` bounds
the length of every sequence of adjacent blocks among the open ones, and is
the old maximum or the length of such a sequence. -/
theorem subnet_runs_spec (rest : List Nat) :
    ∀ (c next run mx : Nat),
    (∀ y ∈ c :: rest, 256 ∣ y ∧ y < U32) →
    List.Pairwise (fun a b => a ≤ b) (c :: rest) →
    1 ≤ run → 256 * run ≤ c + 256 →
    (rest = [] → next = c) →
    mx ≤ subnet_runs (c :: rest) next run mx
    ∧ (∀ b k, (∀ j < k, blocks_open c run rest (b + 256 * j)) →
        k ≤ subnet_runs (c :: rest) next run mx)
    ∧ (subnet_runs (c :: rest) next run mx = mx
      ∨ ∃ b, ∀ j < subnet_runs (c :: rest) next run mx,
          blocks_open c run rest (b + 256 * j)) := by
  induction rest with
  | nil =>
    intro c next run mx _ _ hr1 hr2 hn
    rw [hn rfl, subnet_runs_last]
    refine ⟨by split_ifs <;> omega, ?_, ?_⟩
    · intro b k hk
      have := blocks_run_bound c run b k (fun j hj => by
        rcases hk j hj with h | h
        · exact h
        · exact absurd h (List.not_mem_nil _))
      split_ifs <;> omega
    · by_cases h : run > mx
      · rw [if_pos h]
        exact Or.inr ⟨c + 256 - 256 * run, fun j hj =>
          Or.inl (blocks_run_exists c run hr2 j hj)⟩
      · rw [if_neg h]
        exact Or.inl rfl
  | cons d rest ih =>
    intro c next run mx hm hs hr1 hr2 _
    have hc := hm c (List.mem_cons_self _ _)
    have hd := hm d (List.mem_cons_of_mem _ (List.mem_cons_self _ _))
    have hm2 : ∀ y ∈ d :: rest, 256 ∣ y ∧ y < U32 :=
      fun y hy => hm y (List.mem_cons_of_mem _ hy)
    rw [List.pairwise_cons] at hs
    obtain ⟨hcle, hs2⟩ := hs
    have hcd : c ≤ d := hcle d (List.mem_cons_self _ _)
    have hdle : ∀ y ∈ rest, d ≤ y := (List.pairwise_cons.mp hs2).1
    rw [subnet_runs_next]
    by_cases h1 : c = d
    · rw [if_pos h1]
      subst h1
      obtain ⟨a1, a2, a3⟩ := ih c c run mx hm2 hs2 hr1 hr2 (fun _ => rfl)
      have hiff : ∀ y, blocks_open c run (c :: rest) y ↔ blocks_open c run rest y := by
        intro y
        unfold blocks_open
        constructor
        · rintro (h | h)
          · exact Or.inl h
          · rcases List.mem_cons.mp h with h | h
            · exact Or.inl ⟨0, by omega, by omega⟩
            · exact Or.inr h
        · rintro (h | h)
          · exact Or.inl h
          · exact Or.inr (List.mem_cons_of_mem _ h)
      refine ⟨a1, fun b k hk => a2 b k (fun j hj => (hiff _).mp (hk j hj)), ?_⟩
      rcases a3 with h | ⟨b, hb⟩
      · exact Or.inl h
      · exact Or.inr ⟨b, fun j hj => (hiff _).mpr (hb j hj)⟩
    · rw [if_neg h1]
      have hlt : c < d := lt_of_le_of_ne hcd h1
      have hsh := class_c_shift c d hc.1 hd.1 hlt hd.2
      by_cases h2 : ((d + U32 - c) % U32) >>> 8 = 1
      · rw [if_pos h2]
        have hdc : d = c + 256 := hsh.mp h2
        have hrun : (run + 1) % U32 = run + 1 :=
          Nat.mod_eq_of_lt (by have := hc.2; unfold U32 at this ⊢; omega)
        rw [hrun]
        obtain ⟨a1, a2, a3⟩ := ih d d (run + 1) mx hm2 hs2 (by omega) (by omega)
          (fun _ => rfl)
        have hiff : ∀ y, blocks_open c run (d :: rest) y ↔ blocks_open d (run + 1) rest y := by
          intro y
          unfold blocks_open
          constructor
          · rintro (⟨i, hi, e⟩ | h)
            · exact Or.inl ⟨i + 1, by omega, by omega⟩
            · rcases List.mem_cons.mp h with h | h
              · exact Or.inl ⟨0, by omega, by omega⟩
              · exact Or.inr h
          · rintro (⟨i, hi, e⟩ | h)
            · rcases Nat.eq_zero_or_pos i with h0 | h0
              · exact Or.inr (List.mem_cons.mpr (Or.inl (by omega)))
              · exact Or.inl ⟨i - 1, by omega, by omega⟩
            · exact Or.inr (List.mem_cons_of_mem _ h)
        refine ⟨a1, fun b k hk => a2 b k (fun j hj => (hiff _).mp (hk j hj)), ?_⟩
        rcases a3 with h | ⟨b, hb⟩
        · exact Or.inl h
        · exact Or.inr ⟨b, fun j hj => (hiff _).mpr (hb j hj)⟩
      · rw [if_neg h2]
        have hgap : c + 512 ≤ d := by
          have hne : d ≠ c + 256 := fun h => h2 (hsh.mpr h)
          obtain ⟨a, ha⟩ := hc.1
          obtain ⟨b, hb⟩ := hd.1
          omega
        obtain ⟨a1, a2, a3⟩ := ih d d 1 (if run > mx then run else mx) hm2 hs2
          (Nat.le_refl 1) (by omega) (fun _ => rfl)
        have hmx : mx ≤ (if run > mx then run else mx) := by split_ifs <;> omega
        have hrn : run ≤ (if run > mx then run else mx) := by split_ifs <;> omega
        have hnew : ∀ y, y ∈ d :: rest → blocks_open d 1 rest y := by
          intro y hy
          rcases List.mem_cons.mp hy with h | h
          · exact Or.inl ⟨0, by omega, by omega⟩
          · exact Or.inr h
        have hold : ∀ y, blocks_open d 1 rest y → blocks_open c run (d :: rest) y := by
          rintro y (⟨i, hi, e⟩ | h)
          · exact Or.inr (List.mem_cons.mpr (Or.inl (by omega)))
          · exact Or.inr (List.mem_cons_of_mem _ h)
        have hge : ∀ y, y ∈ d :: rest → d ≤ y := by
          intro y hy
          rcases List.mem_cons.mp hy with h | h
          · omega
          · exact hdle y h
        refine ⟨le_trans hmx a1, ?_, ?_⟩
        · intro b k hk
          by_cases hb : b ≤ c
          · have hall : ∀ j, j < k → b + 256 * j ≤ c
                ∧ ∃ i < run, b + 256 * j + 256 * i = c := by
              intro j
              induction j with
              | zero =>
                intro hj
                rcases hk 0 hj with h | h
                · exact ⟨by omega, h⟩
                · have := hge _ h
                  omega
              | succ j ihj =>
                intro hj
                have hp := (ihj (by omega)).1
                rcases hk (j + 1) hj with ⟨i, hi, e⟩ | h
                · exact ⟨by omega, ⟨i, hi, e⟩⟩
                · have := hge _ h
                  omega
            have := blocks_run_bound c run b k (fun j hj => (hall j hj).2)
            omega
          · apply a2 b k
            intro j hj
            rcases hk j hj with ⟨i, hi, e⟩ | h
            · omega
            · exact hnew _ h
        · rcases a3 with h | ⟨b, hb⟩
          · by_cases hr : run > mx
            · rw [if_pos hr] at h ⊢
              rw [h]
              exact Or.inr ⟨c + 256 - 256 * run, fun j hj =>
                Or.inl (blocks_run_exists c run hr2 j hj)⟩
            · rw [if_neg hr] at h ⊢
              exact Or.inl h
          · exact Or.inr ⟨b, fun j hj => hold _ (hb j hj)⟩

theorem mask_testBit (i : Nat) :
    Nat.testBit 0xFFFFFF00 i = (decide (8 ≤ i) && decide (i < 32)) := by
  by_cases hi : i < 32
  · interval_cases i <;> rfl
  · have h1 : (0xFFFFFF00 : Nat) < 2 ^ i :=
      lt_of_lt_of_le (by decide) (Nat.pow_le_pow_right (by decide) (not_lt.mp hi))
    rw [Nat.testBit_lt_two_pow h1]
    simp [hi]

theorem class_c_mask (x : Nat) (h : x < U32) : x &&& 0xFFFFFF00 = x / 256 * 256 := by
  have e : x / 256 * 256 = (x >>> 8) <<< 8 := by
    rw [Nat.shiftLeft_eq, Nat.shiftRight_eq_div_pow]
  rw [e]
  apply Nat.eq_of_testBit_eq
  intro i
  rw [Nat.testBit_and, Nat.testBit_shiftLeft, Nat.testBit_shiftRight, mask_testBit]
  by_cases h8 : 8 ≤ i
  · have e2 : 8 + (i - 8) = i := by omega
    rw [e2]
    by_cases hi : i < 32
    · simp [h8, hi]
    · have h0 : x < 2 ^ 32 := h
      have h1 : x < 2 ^ i :=
        lt_of_lt_of_le h0 (Nat.pow_le_pow_right (show 2 > 0 by decide) (not_lt.mp hi))
      rw [Nat.testBit_lt_two_pow h1]
      simp
  · simp [h8]


theorem event_blocks_eq (flows : List rwRec) (h : ∀ f ∈ flows, rwRecGetDIPv4 f < U32) :
    flows.map (fun f => rwRecGetDIPv4 f &&& 0xFFFFFF00) = event_blocks flows := by
  unfold event_blocks
  apply List.map_congr_left
  intro f hf
  exact class_c_mask _ (h f hf)

theorem event_blocks_sorted (flows : List rwRec)
    (h : (flows.map rwRecGetDIPv4).Sorted (· ≤ ·)) :
    List.Pairwise (fun a b => a ≤ b) (event_blocks flows) := by
  unfold event_blocks
  unfold List.Sorted at h
  rw [List.pairwise_map] at h ⊢
  exact h.imp (fun hab => Nat.mul_le_mul_right 256 (Nat.div_le_div_right hab))

/-- The run of /24 blocks that `calculate_icmp_metrics` reports is what its
loop leaves in `max_class_c_run`. -/
theorem calculate_icmp_metrics_subnet (flows : List rwRec) (m : event_metrics K)
    (hsize : m.event_size = flows.length) :
    (calculate_icmp_metrics flows m).icmp.max_class_c_subnet_run_length
      = subnet_runs (flows.map (fun f => rwRecGetDIPv4 f &&& 0xFFFFFF00)) 0 1 1 := by
  obtain ⟨a, b, c, d, e, h⟩ := calculate_shared_metrics_frame flows m
  have hs : (calculate_shared_metrics flows m).event_size = flows.length := by
    rw [h]
    exact hsize
  unfold calculate_icmp_metrics
  dsimp only
  rw [hs, List.take_length, icmp_loop_subnet_runs]

/-- C28: for an ICMP event of at least two flows in non-decreasing order of
destination address (32-bit addresses), `calculate_icmp_metrics` sets
`max_class_c_subnet_run_length` to the length of the longest sequence of
numerically adjacent /24 blocks (each 256 above the one before) that each hold
a destination address of the event. -/
theorem icmp_subnet_run_length (flows : List rwRec) (m : event_metrics K)
    (hsize : m.event_size = flows.length) (hlen : 2 ≤ flows.length)
    (hdip : ∀ f ∈ flows, rwRecGetDIPv4 f < U32)
    (hsorted : (flows.map rwRecGetDIPv4).Sorted (· ≤ ·)) :
    longest_subnet_run flows
      (calculate_icmp_metrics flows m).icmp.max_class_c_subnet_run_length := by
  rw [calculate_icmp_metrics_subnet flows m hsize, event_blocks_eq flows hdip]
  have hp := event_blocks_sorted flows hsorted
  have hm : ∀ y ∈ event_blocks flows, 256 ∣ y ∧ y < U32 := by
    intro y hy
    unfold event_blocks at hy
    obtain ⟨f, hf, rfl⟩ := List.mem_map.mp hy
    exact ⟨Dvd.intro_left _ rfl, lt_of_le_of_lt (Nat.div_mul_le_self _ _) (hdip f hf)⟩
  rcases hb : event_blocks flows with _ | ⟨c, rest⟩
  · have : (event_blocks flows).length = flows.length := by
      unfold event_blocks
      exact List.length_map _ _
    rw [hb] at this
    simp only [List.length_nil] at this
    omega
  · rw [hb] at hp hm
    have hrest : rest ≠ [] := by
      intro h
      have : (event_blocks flows).length = flows.length := by
        unfold event_blocks
        exact List.length_map _ _
      rw [hb, h] at this
      simp only [List.length_cons, List.length_nil] at this
      omega
    obtain ⟨a1, a2, a3⟩ := subnet_runs_spec rest c 0 1 1 hm hp (Nat.le_refl 1) (by omega)
      (fun h => absurd h hrest)
    have hiff : ∀ y, blocks_open c 1 rest y ↔ y ∈ c :: rest := by
      intro y
      unfold blocks_open
      constructor
      · rintro (⟨i, hi, e⟩ | h)
        · exact List.mem_cons.mpr (Or.inl (by omega))
        · exact List.mem_cons_of_mem _ h
      · intro h
        rcases List.mem_cons.mp h with h | h
        · exact Or.inl ⟨0, by omega, by omega⟩
        · exact Or.inr h
    unfold longest_subnet_run adjacent_blocks
    rw [hb]
    refine ⟨?_, fun b k hk => a2 b k (fun j hj => (hiff _).mpr (hk j hj))⟩
    rcases a3 with h | ⟨b, h⟩
    · rw [h]
      exact ⟨c, fun j hj => by
        have : j = 0 := by omega
        subst this
        exact List.mem_cons_self _ _⟩
    · exact ⟨b, fun j hj => (hiff _).mp (h j hj)⟩

theorem icmp_subnet_run_length_witness :
    (calculate_icmp_metrics sample_blocks
        (sample_metrics 1 9 3 : event_metrics ℚ)).icmp.max_class_c_subnet_run_length = 2
    ∧ longest_subnet_run sample_blocks 2 :=
  ⟨by decide,
   icmp_subnet_run_length sample_blocks (sample_metrics 1 9 3 : event_metrics ℚ) rfl
    (by decide) (by decide) (by decide)⟩

end SubnetRuns

section SharedGroups
variable {K : Type} [LinearOrderedField K]
open EventClassification ScanModel

/-- What one iteration of the loop of `calculate_shared_metrics` does to
`last_dip`, `last_sp`, `sp_count` and `unique_dips`. -/
theorem shared_body_groups (s : shared_state K) (rw : rwRec) :
    (shared_body s rw).last_dip = rwRecGetDIPv4 rw
    ∧ (shared_body s rw).last_sp = rwRecGetSPort rw
    ∧ (shared_body s rw).metrics.sp_count
        = (if rwRecGetDIPv4 rw = s.last_dip then
            (if rwRecGetSPort rw ≠ s.last_sp then (s.metrics.sp_count + 1) % U32
              else s.metrics.sp_count)
          else 1)
    ∧ (shared_body s rw).metrics.unique_dips
        = (if rwRecGetDIPv4 rw = s.last_dip then s.metrics.unique_dips
          else (s.metrics.unique_dips + 1) % U32) := by
  unfold shared_body
  dsimp only
  split_ifs <;> exact ⟨rfl, rfl, rfl, rfl⟩

theorem largest_dip_last (Q : List rwRec) (p : rwRec)
    (h : ∀ g ∈ Q, rwRecGetDIPv4 g ≤ rwRecGetDIPv4 p) :
    largest_dip (Q ++ [p]) = rwRecGetDIPv4 p := by
  unfold largest_dip
  induction Q with
  | nil => simp
  | cons g t ih =>
    have hg := h g (List.mem_cons_self _ _)
    have ht := ih (fun x hx => h x (List.mem_cons_of_mem _ hx))
    simp only [List.cons_append, List.map_cons, List.foldr_cons]
    rw [ht]
    exact max_eq_right hg

theorem sports_to_le (flows : List rwRec) (d : Nat) : sports_to flows d ≤ flows.length := by
  unfold sports_to
  refine le_trans (List.toFinset_card_le _) ?_
  rw [List.length_map]
  exact List.length_filter_le _ _

theorem distinct_dips_le (flows : List rwRec) : distinct_dips flows ≤ flows.length := by
  unfold distinct_dips
  refine le_trans (List.toFinset_card_le _) ?_
  rw [List.length_map]

theorem sports_to_snoc (R : List rwRec) (x : rwRec) :
    sports_to (R ++ [x]) (rwRecGetDIPv4 x)
      = (insert (rwRecGetSPort x)
          ((R.filter (fun f => decide (rwRecGetDIPv4 f = rwRecGetDIPv4 x))).map
            rwRecGetSPort).toFinset).card := by
  unfold sports_to
  rw [List.filter_append]
  have : List.filter (fun f => decide (rwRecGetDIPv4 f = rwRecGetDIPv4 x)) [x] = [x] := by
    simp
  rw [this, List.map_append, List.toFinset_append]
  simp only [List.map_cons, List.map_nil, List.toFinset_cons, List.toFinset_nil,
    insert_emptyc_eq]
  rw [Finset.union_comm]
  rfl

theorem distinct_dips_snoc (R : List rwRec) (x : rwRec) :
    distinct_dips (R ++ [x])
      = (insert (rwRecGetDIPv4 x) (R.map rwRecGetDIPv4).toFinset).card := by
  unfold distinct_dips
  rw [List.map_append, List.toFinset_append]
  simp only [List.map_cons, List.map_nil, List.toFinset_cons, List.toFinset_nil,
    insert_emptyc_eq]
  rw [Finset.union_comm]
  rfl


/-- One iteration of the loop of `calculate_shared_metrics` on records in the
order by destination address and source port: `sp_count` stays the number of
distinct source ports met for the current destination address and
`unique_dips` the number of distinct destination addresses met. -/
theorem shared_body_groups_step (Q : List rwRec) (p x : rwRec) (s : shared_state K)
    (hQp : ∀ g ∈ Q, dip_sport_le g p) (hpx : dip_sport_le p x)
    (hd : s.last_dip = rwRecGetDIPv4 p) (hsp : s.last_sp = rwRecGetSPort p)
    (hc : s.metrics.sp_count = sports_to (Q ++ [p]) (rwRecGetDIPv4 p))
    (hu : s.metrics.unique_dips = distinct_dips (Q ++ [p]))
    (hlen : (Q ++ [p]).length + 1 < U32) :
    (shared_body s x).metrics.sp_count = sports_to ((Q ++ [p]) ++ [x]) (rwRecGetDIPv4 x)
    ∧ (shared_body s x).metrics.unique_dips = distinct_dips ((Q ++ [p]) ++ [x]) := by
  obtain ⟨-, -, b3, b4⟩ := shared_body_groups s x
  have hp : p ∈ Q ++ [p] := List.mem_append_right _ (List.mem_singleton_self p)
  have hcb := sports_to_le (Q ++ [p]) (rwRecGetDIPv4 p)
  have hub := distinct_dips_le (Q ++ [p])
  rw [b3, b4, hd, hsp, sports_to_snoc, distinct_dips_snoc]
  by_cases h : rwRecGetDIPv4 x = rwRecGetDIPv4 p
  · rw [if_pos h, if_pos h, h]
    constructor
    · by_cases h2 : rwRecGetSPort x = rwRecGetSPort p
      · rw [if_neg (not_not.mpr h2), Finset.insert_eq_of_mem, hc]
        · rfl
        · rw [List.mem_toFinset, List.mem_map]
          exact ⟨p, List.mem_filter.mpr ⟨hp, by simp⟩, h2.symm⟩
      · rw [if_pos h2, Finset.card_insert_of_not_mem, hc, Nat.mod_eq_of_lt (by omega)]
        · rfl
        · rw [List.mem_toFinset, List.mem_map]
          rintro ⟨g, hg, e⟩
          obtain ⟨hg1, hg2⟩ := List.mem_filter.mp hg
          have hg3 : rwRecGetDIPv4 g = rwRecGetDIPv4 p := by simpa using hg2
          have hps : rwRecGetSPort p ≤ rwRecGetSPort x := by
            rcases hpx with h4 | h4
            · omega
            · exact h4.2
          rcases List.mem_append.mp hg1 with hq | hq
          · rcases hQp g hq with h4 | h4
            · omega
            · have := h4.2
              omega
          · rw [List.mem_singleton] at hq
            subst hq
            exact h2 e.symm
    · rw [Finset.insert_eq_of_mem, hu]
      · rfl
      · rw [List.mem_toFinset]
        exact List.mem_map_of_mem _ hp
  · have hlt : rwRecGetDIPv4 p < rwRecGetDIPv4 x := by
      rcases hpx with h4 | h4
      · exact h4
      · exact absurd h4.1.symm h
    have hall : ∀ g ∈ Q ++ [p], rwRecGetDIPv4 g < rwRecGetDIPv4 x := by
      intro g hg
      rcases List.mem_append.mp hg with hq | hq
      · rcases hQp g hq with h4 | h4
        · omega
        · omega
      · rw [List.mem_singleton] at hq
        subst hq
        exact hlt
    rw [if_neg h, if_neg h]
    constructor
    · have he : List.filter (fun f => decide (rwRecGetDIPv4 f = rwRecGetDIPv4 x)) (Q ++ [p])
          = [] := by
        rw [List.filter_eq_nil_iff]
        intro g hg
        have := hall g hg
        simp only [decide_eq_true_eq]
        omega
      rw [he]
      rfl
    · rw [Finset.card_insert_of_not_mem, hu, Nat.mod_eq_of_lt (by omega)]
      · rfl
      · rw [List.mem_toFinset, List.mem_map]
        rintro ⟨g, hg, e⟩
        have := hall g hg
        omega

/-- The loop of `calculate_shared_metrics` on records in the order by
destination address and source port: at its end `sp_count` is the number of
distinct source ports of the flows to the largest destination address, and
`unique_dips` the number of distinct destination addresses. -/
theorem shared_fold_groups (l : List rwRec) :
    ∀ (Q : List rwRec) (p : rwRec) (s : shared_state K),
    List.Pairwise dip_sport_le (Q ++ p :: l) →
    s.last_dip = rwRecGetDIPv4 p → s.last_sp = rwRecGetSPort p →
    s.metrics.sp_count = sports_to (Q ++ [p]) (rwRecGetDIPv4 p) →
    s.metrics.unique_dips = distinct_dips (Q ++ [p]) →
    (Q ++ p :: l).length < U32 →
    (l.foldl shared_body s).metrics.sp_count
        = sports_to (Q ++ p :: l) (largest_dip (Q ++ p :: l))
    ∧ (l.foldl shared_body s).metrics.unique_dips = distinct_dips (Q ++ p :: l) := by
  induction l with
  | nil =>
    intro Q p s hs _ _ hc hu _
    have hQp : ∀ g ∈ Q, rwRecGetDIPv4 g ≤ rwRecGetDIPv4 p := by
      intro g hg
      rcases (List.pairwise_append.mp hs).2.2 g hg p (List.mem_singleton_self p) with h | h
      · omega
      · omega
    rw [largest_dip_last Q p hQp]
    exact ⟨hc, hu⟩
  | cons x t ih =>
    intro Q p s hs hd hsp hc hu hlen
    obtain ⟨-, h2, h3⟩ := List.pairwise_append.mp hs
    have hQp : ∀ g ∈ Q, dip_sport_le g p := fun g hg => h3 g hg p (List.mem_cons_self _ _)
    have hpx : dip_sport_le p x :=
      (List.pairwise_cons.mp h2).1 x (List.mem_cons_self _ _)
    have e : Q ++ p :: x :: t = (Q ++ [p]) ++ x :: t := by simp
    rw [e] at hs hlen ⊢
    obtain ⟨b1, b2, -, -⟩ := shared_body_groups s x
    obtain ⟨c1, c2⟩ := shared_body_groups_step Q p x s hQp hpx hd hsp hc hu (by
      simp only [List.length_append, List.length_cons, List.length_nil] at hlen ⊢
      omega)
    rw [List.foldl_cons]
    exact ih (Q ++ [p]) x (shared_body s x) hs b1 b2 c1 c2 hlen


/-- The counters `sp_count` and `unique_dips` after `calculate_shared_metrics`
on a non-empty event in the order by destination address and source port. -/
theorem calculate_shared_metrics_groups (flows : List rwRec) (m : event_metrics K)
    (hne : flows ≠ []) (hsize : m.event_size = flows.length) (hlen : flows.length < U32)
    (hsorted : List.Pairwise dip_sport_le flows) :
    (calculate_shared_metrics flows m).sp_count = sports_to flows (largest_dip flows)
    ∧ (calculate_shared_metrics flows m).unique_dips = distinct_dips flows := by
  rcases flows with _ | ⟨f, t⟩
  · exact absurd rfl hne
  · have ht : List.take m.event_size (f :: t) = f :: t := by rw [hsize, List.take_length]
    unfold calculate_shared_metrics
    dsimp only
    rw [ht, List.foldl_cons]
    obtain ⟨b1, b2, b3, b4⟩ := shared_body_groups
      ({ metrics := { m with sp_count := 1, unique_dips := 1, unique_dsts := 0 },
         last_dip := rwRecGetDIPv4 ((f :: t).headD RWREC_CLEAR),
         last_sp := rwRecGetSPort ((f :: t).headD RWREC_CLEAR),
         last_dp := 0xffffffff } : shared_state K) f
    dsimp only [List.headD_cons] at b3 b4
    rw [if_pos rfl, if_neg (not_not.mpr rfl)] at b3
    rw [if_pos rfl] at b4
    exact shared_fold_groups t [] f _ hsorted b1 b2
      (b3.trans (by unfold sports_to; simp))
      (b4.trans (by unfold distinct_dips; simp)) hlen

/-- C30: for a non-empty event of fewer than 2^32 flows in the order by
destination address, then source port, `calculate_shared_metrics` leaves in
`sp_count` the number of distinct source ports among the flows to the
numerically largest destination address, and `calculate_tcp_metrics` sets
`sp_dip_ratio` to that number divided by the number of distinct destination
addresses of the event. -/
theorem shared_sp_count (flows : List rwRec) (m : event_metrics K)
    (hne : flows ≠ []) (hsize : m.event_size = flows.length) (hlen : flows.length < U32)
    (hsorted : List.Pairwise dip_sport_le flows) :
    (calculate_shared_metrics flows m).sp_count = sports_to flows (largest_dip flows)
    ∧ (calculate_tcp_metrics flows m).tcp.sp_dip_ratio
        = (sports_to flows (largest_dip flows) : K) / (distinct_dips flows : K) := by
  obtain ⟨h1, h2⟩ := calculate_shared_metrics_groups flows m hne hsize hlen hsorted
  refine ⟨h1, ?_⟩
  unfold calculate_tcp_metrics
  dsimp only
  rw [h1, h2]

theorem shared_sp_count_witness :
    (calculate_shared_metrics sample_ports (sample_metrics 6 9 4 : event_metrics ℚ)).sp_count
        = sports_to sample_ports (largest_dip sample_ports)
    ∧ (calculate_tcp_metrics sample_ports (sample_metrics 6 9 4 : event_metrics ℚ)).tcp.sp_dip_ratio
        = (sports_to sample_ports (largest_dip sample_ports) : ℚ)
          / (distinct_dips sample_ports : ℚ)
    ∧ largest_dip sample_ports = 2
    ∧ sports_to sample_ports 2 = 2
    ∧ distinct_dips sample_ports = 2 :=
  ⟨(shared_sp_count sample_ports (sample_metrics 6 9 4 : event_metrics ℚ) (by decide) rfl
      (by decide) (by decide)).1,
   (shared_sp_count sample_ports (sample_metrics 6 9 4 : event_metrics ℚ) (by decide) rfl
      (by decide) (by decide)).2,
   by decide, by decide, by decide⟩

end SharedGroups

section TcpRatios
variable {K : Type} [LinearOrderedField K]
open EventClassification ScanModel

/-- What `increment_tcp_counters` does on a record that carries a packet: it
returns, the four flow counters are bumped by their tests, and the header is
left alone. -/
theorem increment_tcp_counters_counts (rw : rwRec) (m : event_metrics K)
    (hpk : 1 ≤ rwRecGetPkts rw) :
    ∃ m1, increment_tcp_counters rw m = some m1
    ∧ m1.flows_noack
        = (if rwRecGetFlags rw &&& ACK_FLAG = 0 then (m.flows_noack + 1) % U32
            else m.flows_noack)
    ∧ m1.flows_small
        = (if rwRecGetPkts rw < SMALL_PKT_CUTOFF then (m.flows_small + 1) % U32
            else m.flows_small)
    ∧ m1.flows_with_payload
        = (if rwRecGetBytes rw / rwRecGetPkts rw > PACKET_PAYLOAD_CUTOFF then
            (m.flows_with_payload + 1) % U32 else m.flows_with_payload)
    ∧ m1.flows_backscatter
        = (if bs_flags (rwRecGetFlags rw) then (m.flows_backscatter + 1) % U32
            else m.flows_backscatter)
    ∧ m1.event_size = m.event_size
    ∧ m1.protocol = m.protocol := by
  have h0 : ¬ (rwRecGetPkts rw = 0) := by omega
  unfold increment_tcp_counters bs_flags
  dsimp only
  rw [if_neg h0]
  refine ⟨_, rfl, ?_⟩
  split_ifs <;> exact ⟨rfl, rfl, rfl, rfl, rfl, rfl⟩

/-- The first loop of `invoke_blr_model` on TCP flows that carry a packet
each: each of the four flow counters grows by the number of flows with its
property. -/
theorem blr_count_tcp (l : List rwRec) :
    ∀ m : event_metrics K,
    (∀ f ∈ l, rwRecGetProto f = IPPROTO_TCP ∧ 1 ≤ rwRecGetPkts f) →
    m.flows_noack + l.length < U32 → m.flows_small + l.length < U32 →
    m.flows_with_payload + l.length < U32 → m.flows_backscatter + l.length < U32 →
    ∃ m1, blr_count l m = some m1
      ∧ m1.flows_noack
          = m.flows_noack + l.countP (fun f => decide (rwRecGetFlags f &&& ACK_FLAG = 0))
      ∧ m1.flows_small
          = m.flows_small + l.countP (fun f => decide (rwRecGetPkts f < SMALL_PKT_CUTOFF))
      ∧ m1.flows_with_payload
          = m.flows_with_payload + l.countP (fun f =>
              decide (rwRecGetBytes f / rwRecGetPkts f > PACKET_PAYLOAD_CUTOFF))
      ∧ m1.flows_backscatter
          = m.flows_backscatter + l.countP (fun f => decide (bs_flags (rwRecGetFlags f)))
      ∧ m1.event_size = m.event_size ∧ m1.protocol = m.protocol := by
  induction l with
  | nil => intro m _ _ _ _ _; exact ⟨m, rfl, rfl, rfl, rfl, rfl, rfl, rfl⟩
  | cons x t ih =>
    intro m h b1 b2 b3 b4
    simp only [List.length_cons] at b1 b2 b3 b4
    obtain ⟨hx, hpx⟩ := h x (List.mem_cons_self _ _)
    obtain ⟨m2, e2, c1, c2, c3, c4, c5, c6⟩ := increment_tcp_counters_counts x m hpx
    have hle : ∀ (n : Nat) (P : Prop) [Decidable P], n + (t.length + 1) < U32 →
        (if P then (n + 1) % U32 else n) = n + (if P then 1 else 0) := by
      intro n P _ hn
      split_ifs
      · exact Nat.mod_eq_of_lt (by omega)
      · rfl
    rw [hle _ _ b1] at c1
    rw [hle _ _ b2] at c2
    rw [hle _ _ b3] at c3
    rw [hle _ _ b4] at c4
    obtain ⟨m1, e, d1, d2, d3, d4, d5, d6⟩ := ih m2
      (fun f hf => h f (List.mem_cons_of_mem _ hf))
      (by rw [c1]; split_ifs <;> omega) (by rw [c2]; split_ifs <;> omega)
      (by rw [c3]; split_ifs <;> omega) (by rw [c4]; split_ifs <;> omega)
    have hne : ¬ (rwRecGetProto x = IPPROTO_ICMP) := by rw [hx]; decide
    refine ⟨m1, ?_, ?_, ?_, ?_, ?_, d5.trans c5, d6.trans c6⟩
    · rw [blr_count, if_neg hne, if_pos hx, e2]
      exact e
    · rw [d1, c1, List.countP_cons]
      simp only [decide_eq_true_eq]
      omega
    · rw [d2, c2, List.countP_cons]
      simp only [decide_eq_true_eq]
      omega
    · rw [d3, c3, List.countP_cons]
      simp only [decide_eq_true_eq]
      omega
    · rw [d4, c4, List.countP_cons]
      simp only [decide_eq_true_eq]
      omega

/-- On a TCP record the comparator of the second sort of BLR is the order by
destination address, then source port. -/
theorem rwrec_compare_dip_sport_tcp (a b : rwRec) (ha : rwRecGetProto a = IPPROTO_TCP) :
    rwrec_compare_dip_sport a b ≤ 0 ↔ dip_sport_le a b := by
  have hne : ¬ (¬ (rwRecGetProto a = IPPROTO_TCP) ∨ rwRecGetProto a = IPPROTO_UDP) := by
    rw [ha]
    decide
  unfold rwrec_compare_dip_sport dip_sport_le
  rw [if_neg hne]
  split_ifs with h1 h2 h3 h4
  · constructor
    · intro h; exact absurd h (by decide)
    · intro h; omega
  · constructor
    · intro _; exact Or.inl h2
    · intro _; decide
  · constructor
    · intro h; exact absurd h (by decide)
    · intro h; omega
  · constructor
    · intro _; exact Or.inr ⟨by omega, by omega⟩
    · intro _; decide
  · constructor
    · intro _; exact Or.inr ⟨by omega, by omega⟩
    · intro _; exact le_refl _

/-- The logistic step leaves the TCP ratios alone. -/
theorem calculate_tcp_scan_probability_tcp (exp : K → K) (m : event_metrics K) :
    (calculate_tcp_scan_probability exp m).tcp = m.tcp := by
  unfold calculate_tcp_scan_probability
  dsimp only
  split_ifs <;> rfl

/-- The second sort of BLR puts a TCP event into the order by destination
address, then source port, keeping its records. -/
theorem qsort_flows_tcp (qsort : (rwRec → rwRec → Int) → List rwRec → List rwRec)
    (hq : qsort_perm qsort) (hs : qsort_sorted qsort) (flows : List rwRec)
    (htcp : ∀ f ∈ flows, rwRecGetProto f = IPPROTO_TCP) :
    List.Perm (qsort_flows qsort rwrec_compare_dip_sport flows flows.length) flows
    ∧ List.Pairwise dip_sport_le
        (qsort_flows qsort rwrec_compare_dip_sport flows flows.length) := by
  refine ⟨qsort_flows_perm qsort hq _ _ _, ?_⟩
  have e : qsort_flows qsort rwrec_compare_dip_sport flows flows.length
      = qsort rwrec_compare_dip_sport flows := by
    unfold qsort_flows
    rw [List.take_length, List.drop_length, List.append_nil]
  rw [e]
  have hp := hs rwrec_compare_dip_sport flows
    (by
      intro a ha b hb c _ h1 h2
      rw [rwrec_compare_dip_sport_tcp a _ (htcp a ha)] at h1 ⊢
      rw [rwrec_compare_dip_sport_tcp b _ (htcp b hb)] at h2
      unfold dip_sport_le at h1 h2 ⊢
      omega)
    (by
      intro a ha b hb
      rw [rwrec_compare_dip_sport_tcp a _ (htcp a ha),
        rwrec_compare_dip_sport_tcp b _ (htcp b hb)]
      unfold dip_sport_le
      omega)
  refine hp.imp_of_mem ?_
  intro a b ha _ hab
  exact (rwrec_compare_dip_sport_tcp a b (htcp a ((hq _ _).mem_iff.mp ha))).mp hab


/-- The four flow ratios and the ratio of destination addresses as
`calculate_tcp_metrics` computes them. -/
theorem calculate_tcp_metrics_ratios (F : List rwRec) (mc : event_metrics K) :
    (calculate_tcp_metrics F mc).tcp.noack_ratio
        = (mc.flows_noack : K) / (mc.event_size : K)
    ∧ (calculate_tcp_metrics F mc).tcp.small_ratio
        = (mc.flows_small : K) / (mc.event_size : K)
    ∧ (calculate_tcp_metrics F mc).tcp.payload_ratio
        = (mc.flows_with_payload : K) / (mc.event_size : K)
    ∧ (calculate_tcp_metrics F mc).tcp.backscatter_ratio
        = (mc.flows_backscatter : K) / (mc.event_size : K)
    ∧ (calculate_tcp_metrics F mc).tcp.unique_dip_ratio
        = ((calculate_shared_metrics F mc).unique_dips : K) / (mc.event_size : K) := by
  obtain ⟨a, b, c, d, e, h⟩ := calculate_shared_metrics_frame F mc
  have h1 : (calculate_shared_metrics F mc).flows_noack = mc.flows_noack := by rw [h]
  have h2 : (calculate_shared_metrics F mc).flows_small = mc.flows_small := by rw [h]
  have h3 : (calculate_shared_metrics F mc).flows_with_payload = mc.flows_with_payload := by
    rw [h]
  have h4 : (calculate_shared_metrics F mc).flows_backscatter = mc.flows_backscatter := by
    rw [h]
  have h5 : (calculate_shared_metrics F mc).event_size = mc.event_size := by rw [h]
  refine ⟨?_, ?_, ?_, ?_, ?_⟩
  · show ((calculate_shared_metrics F mc).flows_noack : K)
      / ((calculate_shared_metrics F mc).event_size : K) = _
    rw [h1, h5]
  · show ((calculate_shared_metrics F mc).flows_small : K)
      / ((calculate_shared_metrics F mc).event_size : K) = _
    rw [h2, h5]
  · show ((calculate_shared_metrics F mc).flows_with_payload : K)
      / ((calculate_shared_metrics F mc).event_size : K) = _
    rw [h3, h5]
  · show ((calculate_shared_metrics F mc).flows_backscatter : K)
      / ((calculate_shared_metrics F mc).event_size : K) = _
    rw [h4, h5]
  · show ((calculate_shared_metrics F mc).unique_dips : K)
      / ((calculate_shared_metrics F mc).event_size : K) = _
    rw [h5]

theorem ratio_bounds (a n : Nat) (h : a ≤ n) (hn : 0 < n) :
    0 ≤ (a : K) / (n : K) ∧ (a : K) / (n : K) ≤ 1 := by
  have hp : (0 : K) < (n : K) := Nat.cast_pos.mpr hn
  exact ⟨div_nonneg (Nat.cast_nonneg a) hp.le, (div_le_one hp).mpr (Nat.cast_le.mpr h)⟩

/-- C29: for a TCP event of n flows, 32 or more and fewer than 2^32, each with
at least one packet, whose four flow counters are still zero, `invoke_blr_model`
ends normally, and in its result `noack_ratio`, `small_ratio`,
`payload_ratio` and `backscatter_ratio` are the numbers of flows with ACK
unset, with fewer than 3 packets, with `bytes / packets` (integer quotient)
above 60, and with the flag byte `RST`, `SYN|ACK` or `RST|ACK`, each divided
by n; `unique_dip_ratio` is the number of distinct destination addresses
divided by n; and each of the five lies in [0, 1].  The sort routine is
assumed to rearrange its input into the order of the comparator. -/
theorem tcp_ratios (exp : K → K)
    (qsort : (rwRec → rwRec → Int) → List rwRec → List rwRec)
    (hq : qsort_perm qsort) (hs : qsort_sorted qsort)
    (flows : List rwRec) (m : event_metrics K)
    (hproto : m.protocol = IPPROTO_TCP) (hsize : m.event_size = flows.length)
    (hlen : 32 ≤ flows.length) (hlt : flows.length < U32)
    (hzero : m.flows_noack = 0 ∧ m.flows_small = 0 ∧ m.flows_with_payload = 0
      ∧ m.flows_backscatter = 0)
    (htcp : ∀ f ∈ flows, rwRecGetProto f = IPPROTO_TCP ∧ 1 ≤ rwRecGetPkts f) :
    ∃ m1, invoke_blr_model exp qsort flows m = some m1
      ∧ m1.tcp.noack_ratio
          = (flows.countP (fun f => decide (rwRecGetFlags f &&& ACK_FLAG = 0)) : K)
            / (flows.length : K)
      ∧ m1.tcp.small_ratio
          = (flows.countP (fun f => decide (rwRecGetPkts f < 3)) : K) / (flows.length : K)
      ∧ m1.tcp.payload_ratio
          = (flows.countP (fun f => decide (rwRecGetBytes f / rwRecGetPkts f > 60)) : K)
            / (flows.length : K)
      ∧ m1.tcp.backscatter_ratio
          = (flows.countP (fun f => decide (rwRecGetFlags f = RST_FLAG
              ∨ rwRecGetFlags f = (SYN_FLAG ||| ACK_FLAG)
              ∨ rwRecGetFlags f = (RST_FLAG ||| ACK_FLAG))) : K) / (flows.length : K)
      ∧ m1.tcp.unique_dip_ratio = (distinct_dips flows : K) / (flows.length : K)
      ∧ (0 ≤ m1.tcp.noack_ratio ∧ m1.tcp.noack_ratio ≤ 1)
      ∧ (0 ≤ m1.tcp.small_ratio ∧ m1.tcp.small_ratio ≤ 1)
      ∧ (0 ≤ m1.tcp.payload_ratio ∧ m1.tcp.payload_ratio ≤ 1)
      ∧ (0 ≤ m1.tcp.backscatter_ratio ∧ m1.tcp.backscatter_ratio ≤ 1)
      ∧ (0 ≤ m1.tcp.unique_dip_ratio ∧ m1.tcp.unique_dip_ratio ≤ 1) := by
  obtain ⟨z1, z2, z3, z4⟩ := hzero
  have hpos : 0 < flows.length := by omega
  have ht : flows.take m.event_size = flows := by rw [hsize, List.take_length]
  obtain ⟨mc, e, d1, d2, d3, d4, d5, d6⟩ := blr_count_tcp flows
    ({ m with model := RWSCAN_MODEL_BLR } : event_metrics K) htcp
    (by show m.flows_noack + flows.length < U32; omega)
    (by show m.flows_small + flows.length < U32; omega)
    (by show m.flows_with_payload + flows.length < U32; omega)
    (by show m.flows_backscatter + flows.length < U32; omega)
  have d1a : mc.flows_noack
      = flows.countP (fun f => decide (rwRecGetFlags f &&& ACK_FLAG = 0)) := by
    rw [d1]
    show m.flows_noack + _ = _
    omega
  have d2a : mc.flows_small = flows.countP (fun f => decide (rwRecGetPkts f < 3)) := by
    rw [d2]
    show m.flows_small + _ = _
    rw [z2, Nat.zero_add]
    rfl
  have d3a : mc.flows_with_payload
      = flows.countP (fun f => decide (rwRecGetBytes f / rwRecGetPkts f > 60)) := by
    rw [d3]
    show m.flows_with_payload + _ = _
    rw [z3, Nat.zero_add]
    rfl
  have d4a : mc.flows_backscatter
      = flows.countP (fun f => decide (rwRecGetFlags f = RST_FLAG
          ∨ rwRecGetFlags f = (SYN_FLAG ||| ACK_FLAG)
          ∨ rwRecGetFlags f = (RST_FLAG ||| ACK_FLAG))) := by
    rw [d4]
    show m.flows_backscatter + _ = _
    rw [z4, Nat.zero_add]
    rfl
  have hes : mc.event_size = flows.length := d5.trans hsize
  have hpr : mc.protocol = IPPROTO_TCP := d6.trans hproto
  obtain ⟨pm, ps⟩ := qsort_flows_tcp qsort hq hs flows (fun f hf => (htcp f hf).1)
  have hFne : qsort_flows qsort rwrec_compare_dip_sport flows flows.length ≠ [] := by
    intro h
    have := pm.length_eq
    rw [h] at this
    simp only [List.length_nil] at this
    omega
  obtain ⟨-, g2⟩ := calculate_shared_metrics_groups
    (qsort_flows qsort rwrec_compare_dip_sport flows flows.length) mc hFne
    (by rw [hes, pm.length_eq]) (by rw [pm.length_eq]; exact hlt) ps
  have hdd : distinct_dips (qsort_flows qsort rwrec_compare_dip_sport flows flows.length)
      = distinct_dips flows := by
    unfold distinct_dips
    rw [List.toFinset_eq_of_perm _ _ (pm.map rwRecGetDIPv4)]
  obtain ⟨r1, r2, r3, r4, r5⟩ := calculate_tcp_metrics_ratios
    (qsort_flows qsort rwrec_compare_dip_sport flows flows.length) mc
  rw [d1a, hes] at r1
  rw [d2a, hes] at r2
  rw [d3a, hes] at r3
  rw [d4a, hes] at r4
  rw [g2, hdd, hes] at r5
  have hres : invoke_blr_model exp qsort flows m
      = some (calculate_tcp_scan_probability exp (calculate_tcp_metrics
          (qsort_flows qsort rwrec_compare_dip_sport flows flows.length) mc)) := by
    unfold invoke_blr_model
    dsimp only
    rw [if_pos (by rw [hsize]; exact hlen), ht, e]
    dsimp only
    rw [if_neg (by rw [hpr]; decide), if_pos hpr, hes]
  refine ⟨_, hres, ?_, ?_, ?_, ?_, ?_, ?_, ?_, ?_, ?_, ?_⟩
  · rw [calculate_tcp_scan_probability_tcp, r1]
  · rw [calculate_tcp_scan_probability_tcp, r2]
  · rw [calculate_tcp_scan_probability_tcp, r3]
  · rw [calculate_tcp_scan_probability_tcp, r4]
  · rw [calculate_tcp_scan_probability_tcp, r5]
  · rw [calculate_tcp_scan_probability_tcp, r1]
    exact ratio_bounds _ _ (List.countP_le_length _) hpos
  · rw [calculate_tcp_scan_probability_tcp, r2]
    exact ratio_bounds _ _ (List.countP_le_length _) hpos
  · rw [calculate_tcp_scan_probability_tcp, r3]
    exact ratio_bounds _ _ (List.countP_le_length _) hpos
  · rw [calculate_tcp_scan_probability_tcp, r4]
    exact ratio_bounds _ _ (List.countP_le_length _) hpos
  · rw [calculate_tcp_scan_probability_tcp, r5]
    exact ratio_bounds _ _ (distinct_dips_le flows) hpos


theorem tcp_ratios_witness :
    ∃ m1, invoke_blr_model Real.exp qsort_insertion (sample_syns 32)
        (sample_metrics 6 9 32 : event_metrics ℝ) = some m1
      ∧ m1.tcp.noack_ratio = 1 ∧ m1.tcp.small_ratio = 1 ∧ m1.tcp.payload_ratio = 0
      ∧ m1.tcp.backscatter_ratio = 0 ∧ m1.tcp.unique_dip_ratio = 1 := by
  obtain ⟨m1, h, a1, a2, a3, a4, a5, -⟩ := tcp_ratios Real.exp qsort_insertion
    qsort_insertion_perm qsort_insertion_sorted (sample_syns 32)
    (sample_metrics 6 9 32 : event_metrics ℝ) rfl rfl (by decide) (by decide)
    ⟨rfl, rfl, rfl, rfl⟩ (by decide)
  have hl : (sample_syns 32).length = 32 := rfl
  have c1 : (sample_syns 32).countP (fun f => decide (rwRecGetFlags f &&& ACK_FLAG = 0))
      = 32 := by decide
  have c2 : (sample_syns 32).countP (fun f => decide (rwRecGetPkts f < 3)) = 32 := by decide
  have c3 : (sample_syns 32).countP
      (fun f => decide (rwRecGetBytes f / rwRecGetPkts f > 60)) = 0 := by decide
  have c4 : (sample_syns 32).countP (fun f => decide (rwRecGetFlags f = RST_FLAG
      ∨ rwRecGetFlags f = (SYN_FLAG ||| ACK_FLAG)
      ∨ rwRecGetFlags f = (RST_FLAG ||| ACK_FLAG))) = 0 := by decide
  have c5 : distinct_dips (sample_syns 32) = 32 := by decide
  rw [c1, hl] at a1
  rw [c2, hl] at a2
  rw [c3, hl] at a3
  rw [c4, hl] at a4
  rw [c5, hl] at a5
  refine ⟨m1, h, ?_, ?_, ?_, ?_, ?_⟩
  · rw [a1]; norm_num
  · rw [a2]; norm_num
  · rw [a3]; norm_num
  · rw [a4]; norm_num
  · rw [a5]; norm_num

end TcpRatios

section Comparator
open EventClassification ScanModel

/-- C34: for UDP the comparator does not look at the source ports.  Two UDP
records to the same destination address, from the source ports 1024 and 1025,
compare as equal in both directions (the order by destination address and
source port puts the first strictly before the second), because the test
`!(proto == TCP) || (proto == UDP)` is true for UDP; the same two records with
protocol TCP compare as -1 and 1. -/
theorem rwrec_compare_dip_sport_udp_ports :
    rwRecGetProto (sample_from_port 17 1024) = IPPROTO_UDP
    ∧ rwRecGetProto (sample_from_port 17 1025) = IPPROTO_UDP
    ∧ rwRecGetDIPv4 (sample_from_port 17 1024) = rwRecGetDIPv4 (sample_from_port 17 1025)
    ∧ rwRecGetSPort (sample_from_port 17 1024) < rwRecGetSPort (sample_from_port 17 1025)
    ∧ rwrec_compare_dip_sport (sample_from_port 17 1024) (sample_from_port 17 1025) = 0
    ∧ rwrec_compare_dip_sport (sample_from_port 17 1025) (sample_from_port 17 1024) = 0
    ∧ rwrec_compare_dip_sport (sample_from_port 6 1024) (sample_from_port 6 1025) = -1
    ∧ rwrec_compare_dip_sport (sample_from_port 6 1025) (sample_from_port 6 1024) = 1 := by
  decide

/-- C35 as stated fails: two TCP records to the same destination address, from
the source ports 1024 and 1025, do not compare as equal. -/
theorem rwrec_compare_dip_sport_tcp_ports :
    rwRecGetProto (sample_from_port 6 1024) = IPPROTO_TCP
    ∧ rwRecGetDIPv4 (sample_from_port 6 1024) = rwRecGetDIPv4 (sample_from_port 6 1025)
    ∧ rwrec_compare_dip_sport (sample_from_port 6 1024) (sample_from_port 6 1025) ≠ 0 := by
  decide

/-- C35 as amended: the protocol test of `rwrec_compare_dip_sport` is false
when the first record is TCP and true when it is ICMP.  For two records to the
same destination address the comparator returns the sign of the comparison of
the source ports when the first is TCP, and 0 when the first is ICMP. -/
theorem rwrec_compare_dip_sport_equal_dips (a b : rwRec)
    (hdip : rwRecGetDIPv4 a = rwRecGetDIPv4 b) :
    (rwRecGetProto a = IPPROTO_TCP →
      rwrec_compare_dip_sport a b
        = (if rwRecGetSPort a > rwRecGetSPort b then 1
           else if rwRecGetSPort a < rwRecGetSPort b then -1 else 0))
    ∧ (rwRecGetProto a = IPPROTO_ICMP → rwrec_compare_dip_sport a b = 0) := by
  constructor
  · intro h
    unfold rwrec_compare_dip_sport
    rw [if_neg (by omega), if_neg (by omega), if_neg (by rw [h]; decide)]
  · intro h
    unfold rwrec_compare_dip_sport
    rw [if_neg (by omega), if_neg (by omega), if_pos (by rw [h]; decide)]

theorem rwrec_compare_dip_sport_equal_dips_witness :
    rwrec_compare_dip_sport (sample_from_port 6 1025) (sample_from_port 6 1024)
      = (if rwRecGetSPort (sample_from_port 6 1025) > rwRecGetSPort (sample_from_port 6 1024)
          then 1
         else if rwRecGetSPort (sample_from_port 6 1025)
            < rwRecGetSPort (sample_from_port 6 1024) then -1 else 0) :=
  (rwrec_compare_dip_sport_equal_dips (sample_from_port 6 1025) (sample_from_port 6 1024)
    rfl).1 rfl

end Comparator

section SharedCounts
variable {K : Type} [LinearOrderedField K]
open EventClassification ScanModel

/-- The loop of `calculate_shared_metrics` on records in non-decreasing order
of destination address: `unique_dips` stays the number of distinct destination
addresses met. -/
theorem shared_fold_dips (l : List rwRec) :
    ∀ (Q : List rwRec) (p : rwRec) (s : shared_state K),
    List.Pairwise (fun a b => rwRecGetDIPv4 a ≤ rwRecGetDIPv4 b) (Q ++ p :: l) →
    s.last_dip = rwRecGetDIPv4 p →
    s.metrics.unique_dips = distinct_dips (Q ++ [p]) →
    (Q ++ p :: l).length < U32 →
    (l.foldl shared_body s).metrics.unique_dips = distinct_dips (Q ++ p :: l) := by
  induction l with
  | nil => intro Q p s _ _ hu _; exact hu
  | cons x t ih =>
    intro Q p s hs hd hu hlen
    obtain ⟨-, h2, h3⟩ := List.pairwise_append.mp hs
    have hQp : ∀ g ∈ Q, rwRecGetDIPv4 g ≤ rwRecGetDIPv4 p :=
      fun g hg => h3 g hg p (List.mem_cons_self _ _)
    have hpx : rwRecGetDIPv4 p ≤ rwRecGetDIPv4 x :=
      (List.pairwise_cons.mp h2).1 x (List.mem_cons_self _ _)
    have e : Q ++ p :: x :: t = (Q ++ [p]) ++ x :: t := by simp
    rw [e] at hs hlen ⊢
    obtain ⟨b1, -, -, b4⟩ := shared_body_groups s x
    have hp : p ∈ Q ++ [p] := List.mem_append_right _ (List.mem_singleton_self p)
    have hub := distinct_dips_le (Q ++ [p])
    have hl2 : (Q ++ [p]).length + 1 < U32 := by
      simp only [List.length_append, List.length_cons, List.length_nil] at hlen ⊢
      omega
    have c2 : (shared_body s x).metrics.unique_dips = distinct_dips ((Q ++ [p]) ++ [x]) := by
      rw [b4, hd, distinct_dips_snoc]
      by_cases h : rwRecGetDIPv4 x = rwRecGetDIPv4 p
      · rw [if_pos h, h, Finset.insert_eq_of_mem, hu]
        · rfl
        · rw [List.mem_toFinset]
          exact List.mem_map_of_mem _ hp
      · rw [if_neg h, Finset.card_insert_of_not_mem, hu, Nat.mod_eq_of_lt (by omega)]
        · rfl
        · rw [List.mem_toFinset, List.mem_map]
          rintro ⟨g, hg, e2⟩
          rcases List.mem_append.mp hg with hq | hq
          · have := hQp g hq
            omega
          · rw [List.mem_singleton] at hq
            subst hq
            exact h e2.symm
    rw [List.foldl_cons]
    exact ih (Q ++ [p]) x (shared_body s x) hs b1 c2 hlen

/-- C31: for a non-empty event of fewer than 2^32 flows in non-decreasing order
of destination address, `calculate_shared_metrics` sets `unique_dips` to the
number of distinct destination addresses of the event. -/
theorem shared_unique_dips (flows : List rwRec) (m : event_metrics K)
    (hne : flows ≠ []) (hsize : m.event_size = flows.length) (hlen : flows.length < U32)
    (hsorted : (flows.map rwRecGetDIPv4).Sorted (· ≤ ·)) :
    (calculate_shared_metrics flows m).unique_dips = distinct_dips flows := by
  have hp : List.Pairwise (fun a b => rwRecGetDIPv4 a ≤ rwRecGetDIPv4 b) flows :=
    List.pairwise_map.mp hsorted
  rcases flows with _ | ⟨f, t⟩
  · exact absurd rfl hne
  · have ht : List.take m.event_size (f :: t) = f :: t := by rw [hsize, List.take_length]
    unfold calculate_shared_metrics
    dsimp only
    rw [ht, List.foldl_cons]
    obtain ⟨b1, -, -, b4⟩ := shared_body_groups
      ({ metrics := { m with sp_count := 1, unique_dips := 1, unique_dsts := 0 },
         last_dip := rwRecGetDIPv4 ((f :: t).headD RWREC_CLEAR),
         last_sp := rwRecGetSPort ((f :: t).headD RWREC_CLEAR),
         last_dp := 0xffffffff } : shared_state K) f
    dsimp only [List.headD_cons] at b4
    rw [if_pos rfl] at b4
    exact shared_fold_dips t [] f _ hp b1
      (b4.trans (by unfold distinct_dips; simp)) hlen

theorem shared_unique_dips_witness :
    (calculate_shared_metrics sample_ports (sample_metrics 6 9 4 : event_metrics ℚ)).unique_dips
        = distinct_dips sample_ports
    ∧ distinct_dips sample_ports = 2 :=
  ⟨shared_unique_dips sample_ports (sample_metrics 6 9 4 : event_metrics ℚ) (by decide) rfl
      (by decide) (by decide),
   by decide⟩

/-- C32: `unique_dsts` counts the flows whose destination address or port
differs from that of the flow before, not the distinct destinations.  Three
TCP flows to one address in the order of their source ports, to the ports 80,
443 and 80, have 2 distinct pairs of destination address and port, and
`calculate_shared_metrics` sets `unique_dsts` to 3. -/
theorem shared_unique_dsts_overcount :
    List.Pairwise dip_sport_le sample_dports
    ∧ sample_dports.map (fun f => (rwRecGetDIPv4 f, rwRecGetDPort f))
        = [(1, 80), (1, 443), (1, 80)]
    ∧ distinct_dsts sample_dports = 2
    ∧ (calculate_shared_metrics sample_dports
        (sample_metrics 6 9 3 : event_metrics ℚ)).unique_dsts = 3 := by
  decide


/-- The loop of `calculate_shared_metrics` moves `unique_dips` and
`unique_dsts` up by at most one per record. -/
theorem shared_fold_bounds (l : List rwRec) :
    ∀ (s : shared_state K) (n : Nat),
    1 ≤ s.metrics.unique_dips → s.metrics.unique_dips ≤ n →
    1 ≤ s.metrics.unique_dsts → s.metrics.unique_dsts ≤ n →
    n + l.length < U32 →
    1 ≤ (l.foldl shared_body s).metrics.unique_dips
    ∧ (l.foldl shared_body s).metrics.unique_dips ≤ n + l.length
    ∧ 1 ≤ (l.foldl shared_body s).metrics.unique_dsts
    ∧ (l.foldl shared_body s).metrics.unique_dsts ≤ n + l.length := by
  induction l with
  | nil => intro s n a1 a2 a3 a4 _; exact ⟨a1, a2, a3, a4⟩
  | cons x t ih =>
    intro s n a1 a2 a3 a4 hb
    simp only [List.length_cons] at hb
    obtain ⟨-, -, -, b4⟩ := shared_body_groups s x
    obtain ⟨c1, -, -⟩ := shared_body_dsts s x
    have d1 : 1 ≤ (shared_body s x).metrics.unique_dips
        ∧ (shared_body s x).metrics.unique_dips ≤ n + 1 := by
      rw [b4]
      split_ifs
      · omega
      · rw [Nat.mod_eq_of_lt (by omega)]
        omega
    have d2 : 1 ≤ (shared_body s x).metrics.unique_dsts
        ∧ (shared_body s x).metrics.unique_dsts ≤ n + 1 := by
      rw [c1]
      split_ifs
      · rw [Nat.mod_eq_of_lt (by omega)]
        omega
      · omega
    obtain ⟨e1, e2, e3, e4⟩ := ih (shared_body s x) (n + 1) d1.1 d1.2 d2.1 d2.2 (by omega)
    rw [List.foldl_cons]
    simp only [List.length_cons]
    exact ⟨e1, by omega, e3, by omega⟩

/-- After `calculate_shared_metrics` on a non-empty event of fewer than 2^32
flows with 16-bit destination ports neither `unique_dips` nor `unique_dsts`
is zero. -/
theorem calculate_shared_metrics_bounds (flows : List rwRec) (m : event_metrics K)
    (hne : flows ≠ []) (hsize : m.event_size = flows.length) (hlen : flows.length < U32)
    (hport : ∀ f ∈ flows, rwRecGetDPort f < 65536) :
    1 ≤ (calculate_shared_metrics flows m).unique_dips
    ∧ 1 ≤ (calculate_shared_metrics flows m).unique_dsts := by
  rcases flows with _ | ⟨f, t⟩
  · exact absurd rfl hne
  · have ht : List.take m.event_size (f :: t) = f :: t := by rw [hsize, List.take_length]
    unfold calculate_shared_metrics
    dsimp only
    rw [ht, List.foldl_cons]
    obtain ⟨-, -, -, b4⟩ := shared_body_groups
      ({ metrics := { m with sp_count := 1, unique_dips := 1, unique_dsts := 0 },
         last_dip := rwRecGetDIPv4 ((f :: t).headD RWREC_CLEAR),
         last_sp := rwRecGetSPort ((f :: t).headD RWREC_CLEAR),
         last_dp := 0xffffffff } : shared_state K) f
    obtain ⟨c1, -, -⟩ := shared_body_dsts
      ({ metrics := { m with sp_count := 1, unique_dips := 1, unique_dsts := 0 },
         last_dip := rwRecGetDIPv4 ((f :: t).headD RWREC_CLEAR),
         last_sp := rwRecGetSPort ((f :: t).headD RWREC_CLEAR),
         last_dp := 0xffffffff } : shared_state K) f
    dsimp only [List.headD_cons] at b4 c1
    rw [if_pos rfl] at b4
    have hf := hport f (List.mem_cons_self _ _)
    rw [if_pos (Or.inr (by omega))] at c1
    have c2 : (0 + 1) % U32 = 1 := by decide
    rw [c2] at c1
    simp only [List.length_cons] at hlen
    obtain ⟨e1, -, e3, -⟩ := shared_fold_bounds t _ 1 (le_of_eq b4.symm) (le_of_eq b4)
      (le_of_eq c1.symm) (le_of_eq c1) (by omega)
    exact ⟨e1, e3⟩

theorem udp_low_ports_frame (s : udp_state K) (rw : rwRec) (d : Nat) :
    ∃ u, (udp_low_ports s rw d).metrics = { s.metrics with udp := u } := by
  unfold udp_low_ports
  by_cases h : d ≠ s.dip_next
  · rw [if_pos h]
    generalize List.foldl (port_run_body s.low_dp_bitmap)
      (0, s.metrics.udp.max_low_port_run_length) (List.range 1024) = pr
    dsimp only
    split_ifs <;> exact ⟨_, rfl⟩
  · rw [if_neg h]
    exact ⟨_, rfl⟩

theorem udp_class_c_frame (s : udp_state K) (c : Nat) :
    ∃ u, (udp_class_c s c).metrics = { s.metrics with udp := u } := by
  unfold udp_class_c
  dsimp only
  split_ifs <;> exact ⟨_, rfl⟩

theorem udp_body_frame (s : udp_state K) (rw : rwRec) (nx : Option rwRec) :
    ∃ u, (udp_body s rw nx).metrics = { s.metrics with udp := u } := by
  unfold udp_body
  dsimp only
  have h1 := udp_advance_metrics s rw nx
  obtain ⟨u2, h2⟩ := udp_low_ports_frame (udp_advance s rw nx) rw s.dip_next
  obtain ⟨u3, h3⟩ := udp_class_c_frame (udp_low_ports (udp_advance s rw nx) rw s.dip_next)
    s.class_c_next
  rw [h3, h2, h1]
  exact ⟨_, rfl⟩

/-- The loop of `calculate_udp_metrics` changes nothing in the metrics block
outside its UDP member. -/
theorem udp_loop_frame (l : List rwRec) :
    ∀ s : udp_state K, ∃ u, (udp_loop l s).metrics = { s.metrics with udp := u } := by
  induction l with
  | nil => intro s; exact ⟨_, rfl⟩
  | cons x t ih =>
    intro s
    obtain ⟨u1, h1⟩ := udp_body_frame s x t.head?
    obtain ⟨u2, h2⟩ := ih (udp_body s x t.head?)
    rw [udp_loop, h2, h1]
    exact ⟨_, rfl⟩


/-- The ratio of `calculate_icmp_metrics` with its numerator and divisor. -/
theorem calculate_icmp_metrics_ratio (flows : List rwRec) (m : event_metrics K) :
    (calculate_icmp_metrics flows m).icmp.echo_ratio
      = ((calculate_shared_metrics flows m).flows_icmp_echo : K)
        / ((calculate_shared_metrics flows m).event_size : K) := by
  unfold calculate_icmp_metrics
  dsimp only
  obtain ⟨v, hv⟩ := icmp_loop_frame
    (flows.take (calculate_shared_metrics flows m).event_size)
    ({ metrics := calculate_shared_metrics flows m, class_c_next := 0, dip_next := 0,
       run := 1, max_run_curr := 1, class_c_run := 1, max_class_c_run := 1,
       class_c_dip_count := 1, max_class_c_dip_count := 1 } : icmp_state K)
  rw [hv]

/-- The ratios of `calculate_udp_metrics` with their numerators and divisors. -/
theorem calculate_udp_metrics_ratios (flows : List rwRec) (m : event_metrics K) :
    (calculate_udp_metrics flows m).udp.sp_dip_ratio
        = ((calculate_shared_metrics flows m).sp_count : K)
          / ((calculate_shared_metrics flows m).unique_dsts : K)
    ∧ (calculate_udp_metrics flows m).udp.payload_ratio
        = ((calculate_shared_metrics flows m).flows_with_payload : K)
          / ((calculate_shared_metrics flows m).event_size : K)
    ∧ (calculate_udp_metrics flows m).udp.small_ratio
        = ((calculate_shared_metrics flows m).flows_small : K)
          / ((calculate_shared_metrics flows m).event_size : K)
    ∧ ∃ n : Nat, (calculate_udp_metrics flows m).udp.unique_sp_ratio
        = (n : K) / ((calculate_shared_metrics flows m).event_size : K) := by
  unfold calculate_udp_metrics
  dsimp only
  obtain ⟨u, hu⟩ := udp_loop_frame
    (flows.take (calculate_shared_metrics flows m).event_size)
    ({ metrics := calculate_shared_metrics flows m
       low_dp_bitmap := skBitmapSetBit (skBitmapCreate 1024)
          (rwRecGetDPort (flows.headD RWREC_CLEAR))
       sp_bitmap := skBitmapCreate UINT16_MAX
       dip_next := rwRecGetDIPv4 (flows.headD RWREC_CLEAR)
       class_c_next := rwRecGetDIPv4 (flows.headD RWREC_CLEAR) &&& 0xFFFFFF00
       subnet_run := 1, max_subnet_run := 1 } : udp_state K)
  rw [hu]
  exact ⟨rfl, rfl, rfl, _, rfl⟩

/-- C33: no ratio of BLR divides by zero.  For an event of at least one and
fewer than 2^32 flows with 16-bit destination ports, `calculate_shared_metrics`
leaves `unique_dips >= 1`, `unique_dsts >= 1` and `event_size` as it was; every
ratio of `calculate_icmp_metrics`, `calculate_tcp_metrics` and
`calculate_udp_metrics` has one of these three as its divisor; and below 32
flows `invoke_blr_model` only sets the model tag and computes no ratio. -/
theorem blr_divisors_nonzero (flows : List rwRec) (m : event_metrics K)
    (hsize : m.event_size = flows.length) (hpos : 1 ≤ m.event_size)
    (hlen : flows.length < U32) (hport : ∀ f ∈ flows, rwRecGetDPort f < 65536) :
    (1 ≤ (calculate_shared_metrics flows m).unique_dips
      ∧ 1 ≤ (calculate_shared_metrics flows m).unique_dsts
      ∧ (calculate_shared_metrics flows m).event_size = m.event_size)
    ∧ (calculate_icmp_metrics flows m).icmp.echo_ratio
        = ((calculate_shared_metrics flows m).flows_icmp_echo : K)
          / ((calculate_shared_metrics flows m).event_size : K)
    ∧ ((calculate_tcp_metrics flows m).tcp.noack_ratio
        = ((calculate_shared_metrics flows m).flows_noack : K)
          / ((calculate_shared_metrics flows m).event_size : K)
      ∧ (calculate_tcp_metrics flows m).tcp.small_ratio
        = ((calculate_shared_metrics flows m).flows_small : K)
          / ((calculate_shared_metrics flows m).event_size : K)
      ∧ (calculate_tcp_metrics flows m).tcp.sp_dip_ratio
        = ((calculate_shared_metrics flows m).sp_count : K)
          / ((calculate_shared_metrics flows m).unique_dips : K)
      ∧ (calculate_tcp_metrics flows m).tcp.payload_ratio
        = ((calculate_shared_metrics flows m).flows_with_payload : K)
          / ((calculate_shared_metrics flows m).event_size : K)
      ∧ (calculate_tcp_metrics flows m).tcp.unique_dip_ratio
        = ((calculate_shared_metrics flows m).unique_dips : K)
          / ((calculate_shared_metrics flows m).event_size : K)
      ∧ (calculate_tcp_metrics flows m).tcp.backscatter_ratio
        = ((calculate_shared_metrics flows m).flows_backscatter : K)
          / ((calculate_shared_metrics flows m).event_size : K))
    ∧ ((calculate_udp_metrics flows m).udp.sp_dip_ratio
        = ((calculate_shared_metrics flows m).sp_count : K)
          / ((calculate_shared_metrics flows m).unique_dsts : K)
      ∧ (calculate_udp_metrics flows m).udp.payload_ratio
        = ((calculate_shared_metrics flows m).flows_with_payload : K)
          / ((calculate_shared_metrics flows m).event_size : K)
      ∧ (calculate_udp_metrics flows m).udp.small_ratio
        = ((calculate_shared_metrics flows m).flows_small : K)
          / ((calculate_shared_metrics flows m).event_size : K)
      ∧ ∃ n : Nat, (calculate_udp_metrics flows m).udp.unique_sp_ratio
        = (n : K) / ((calculate_shared_metrics flows m).event_size : K))
    ∧ (∀ (exp : K → K) (qsort : (rwRec → rwRec → Int) → List rwRec → List rwRec),
        m.event_size < EVENT_FLOW_THRESHOLD →
        invoke_blr_model exp qsort flows m = some { m with model := RWSCAN_MODEL_BLR }) := by
  have hne : flows ≠ [] := by
    intro h
    rw [h] at hsize
    simp only [List.length_nil] at hsize
    omega
  obtain ⟨a1, a2⟩ := calculate_shared_metrics_bounds flows m hne hsize hlen hport
  obtain ⟨a, b, c, d, e, h⟩ := calculate_shared_metrics_frame flows m
  have a3 : (calculate_shared_metrics flows m).event_size = m.event_size := by rw [h]
  exact ⟨⟨a1, a2, a3⟩, calculate_icmp_metrics_ratio flows m,
    ⟨rfl, rfl, rfl, rfl, rfl, rfl⟩, calculate_udp_metrics_ratios flows m,
    fun exp qsort hs => invoke_blr_model_small exp qsort flows m hs⟩

theorem blr_divisors_nonzero_witness :
    1 ≤ (calculate_shared_metrics sample_ports
        (sample_metrics 6 9 4 : event_metrics ℚ)).unique_dips
    ∧ 1 ≤ (calculate_shared_metrics sample_ports
        (sample_metrics 6 9 4 : event_metrics ℚ)).unique_dsts
    ∧ (calculate_shared_metrics sample_ports
        (sample_metrics 6 9 4 : event_metrics ℚ)).event_size = 4 :=
  (blr_divisors_nonzero sample_ports (sample_metrics 6 9 4 : event_metrics ℚ) rfl
    (by decide) (by decide) (by decide)).1

end SharedCounts

section UdpFeatures
open EventClassification ScanModel

set_option maxRecDepth 100000 in
/-- C36: when the destination address changes, the bitmap of low ports is
restarted with the port of the record just left (`rwcurr`), not with that of
the first record of the new address.  Of three UDP flows in the order of their
destination addresses, one to port 81 of address 1 and one each to the ports 80
and 81 of address 2, the flows to address 2 use 2 distinct ports below 1024,
and `calculate_udp_metrics` sets `max_low_dp_hit` to 1. -/
theorem udp_low_ports_restart :
    (sample_low_ports.map rwRecGetDIPv4).Sorted (· ≤ ·)
    ∧ (∀ f ∈ sample_low_ports, rwRecGetProto f = IPPROTO_UDP)
    ∧ low_ports_to sample_low_ports 1 = 1
    ∧ low_ports_to sample_low_ports 2 = 2
    ∧ (calculate_udp_metrics sample_low_ports
        (sample_metrics 17 9 3 : event_metrics ℚ)).udp.max_low_dp_hit = 1 := by
  decide

set_option maxRecDepth 100000 in
/-- C37: a run of addresses that ends is folded into the maximum and restarted
only when it is longer than the maximum so far.  Of six UDP flows to the
addresses 1, 2, 4, 5, 7 and 8 of one /24 no three addresses are consecutive,
so the longest run of consecutive addresses has length 2, and
`calculate_udp_metrics` sets `max_class_c_dip_run_length` to 3. -/
theorem udp_run_not_restarted :
    sample_pairs.map rwRecGetDIPv4 = [1, 2, 4, 5, 7, 8]
    ∧ (∀ f ∈ sample_pairs, rwRecGetProto f = IPPROTO_UDP
        ∧ rwRecGetDIPv4 f &&& 0xFFFFFF00 = 0)
    ∧ (∀ d ∈ sample_pairs.map rwRecGetDIPv4,
        ¬ (d + 1 ∈ sample_pairs.map rwRecGetDIPv4 ∧ d + 2 ∈ sample_pairs.map rwRecGetDIPv4))
    ∧ (calculate_udp_metrics sample_pairs
        (sample_metrics 17 9 6 : event_metrics ℚ)).udp.max_class_c_dip_run_length = 3 := by
  decide

end UdpFeatures

section TrwDips
variable {K : Type} [LinearOrderedField K]
open EventClassification ScanModel

/-- The counter `dips` after the iterations over a list of flows. -/
theorem trw_counts_dips (opts : options_t K) (ex : List Nat) (l : List rwRec) :
    ∀ (prev : Nat) (c : trw_counters K), c.dips + l.length < U32 →
    (trw_counts opts ex l prev c).dips
      = c.dips + dip_changes prev (l.map rwRecGetDIPv4) := by
  induction l with
  | nil => intro prev c _; rfl
  | cons x t ih =>
    intro prev c hb
    simp only [List.length_cons] at hb
    have h1 : (trw_count opts ex prev c x).dips
        = c.dips + (if rwRecGetDIPv4 x ≠ prev then 1 else 0) := by
      rw [trw_count_dips]
      split_ifs
      · exact Nat.mod_eq_of_lt (by omega)
      · rfl
    rw [trw_counts, ih _ _ (by rw [h1]; split_ifs <;> omega), h1, List.map_cons, dip_changes]
    omega

/-- The counters `invoke_trw_model` returns are those after the iterations
over the flows it has counted. -/
theorem invoke_trw_model_counts (opts : options_t K) (flows : List rwRec)
    (m : event_metrics K) (data : trw_data) :
    (invoke_trw_model opts flows m trw_counters_zero data).counters
        = trw_counts opts data.existing
            (flows.take (invoke_trw_model opts flows m trw_counters_zero data).counters.flows)
            0xffffffff trw_counters_zero
    ∧ (invoke_trw_model opts flows m trw_counters_zero data).counters.flows
        ≤ RWSCAN_FLOW_CUTOFF + 2 := by
  obtain ⟨k, k1, k2, k3, -⟩ := trw_loop_counts opts flows (flows.take m.event_size) 0 0xffffffff
    { counters := trw_counters_zero, metrics := { m with model := RWSCAN_MODEL_TRW },
      data := data }
  have hk := k2 (by omega)
  have hc : (invoke_trw_model opts flows m trw_counters_zero data).counters
      = trw_counts opts data.existing ((flows.take m.event_size).take k) 0xffffffff
          trw_counters_zero := by
    unfold invoke_trw_model
    dsimp only
    split_ifs <;> exact k3
  have hlen : ((flows.take m.event_size).take k).length = k := by
    rw [List.length_take]
    omega
  have hfl : (invoke_trw_model opts flows m trw_counters_zero data).counters.flows = k := by
    rw [hc, trw_counts_flows _ _ _ _ _ (by
      rw [hlen]
      show 0 + k < U32
      unfold U32
      unfold RWSCAN_FLOW_CUTOFF at hk
      omega), hlen]
    show 0 + k = k
    omega
  have htk : (flows.take m.event_size).take k = flows.take k := by
    rw [List.take_take]
    congr 1
    rw [List.length_take] at k1
    omega
  rw [hfl]
  exact ⟨by rw [hc, htk], by omega⟩

/-- C38: in `invoke_trw_model`, after the iterations over any flows `pre`
(fewer than 2^32) from the cleared counters, `hits + misses = dips`, and `dips`
is the number of flows of `pre` whose destination address differs from that of
the flow before them, the first being compared with `0xffffffff`; the same
holds of the counters with which the function returns, for the flows it has
counted. -/
theorem trw_dips_count (opts : options_t K) (ex : List Nat) (pre : List rwRec)
    (flows : List rwRec) (m : event_metrics K) (data : trw_data)
    (hlen : pre.length < U32) :
    ((trw_counts opts ex pre 0xffffffff trw_counters_zero).hits
        + (trw_counts opts ex pre 0xffffffff trw_counters_zero).misses
        = (trw_counts opts ex pre 0xffffffff trw_counters_zero).dips
      ∧ (trw_counts opts ex pre 0xffffffff trw_counters_zero).dips
        = dip_changes 0xffffffff (pre.map rwRecGetDIPv4))
    ∧ ((invoke_trw_model opts flows m trw_counters_zero data).counters.hits
        + (invoke_trw_model opts flows m trw_counters_zero data).counters.misses
        = (invoke_trw_model opts flows m trw_counters_zero data).counters.dips
      ∧ (invoke_trw_model opts flows m trw_counters_zero data).counters.dips
        = dip_changes 0xffffffff
            ((flows.take (invoke_trw_model opts flows m trw_counters_zero
              data).counters.flows).map rwRecGetDIPv4)) := by
  have key : ∀ (e : List Nat) (l : List rwRec), l.length < U32 →
      (trw_counts opts e l 0xffffffff trw_counters_zero).hits
        + (trw_counts opts e l 0xffffffff trw_counters_zero).misses
        = (trw_counts opts e l 0xffffffff trw_counters_zero).dips
      ∧ (trw_counts opts e l 0xffffffff trw_counters_zero).dips
        = dip_changes 0xffffffff (l.map rwRecGetDIPv4) := by
    intro e l hl
    obtain ⟨a, -⟩ := trw_counts_inv opts e l 0xffffffff trw_counters_zero 0 rfl
      (Nat.le_refl 0) (by omega)
    have b := trw_counts_dips opts e l 0xffffffff trw_counters_zero (by
      show 0 + l.length < U32
      omega)
    refine ⟨a, ?_⟩
    rw [b]
    show 0 + _ = _
    omega
  refine ⟨key ex pre hlen, ?_⟩
  obtain ⟨h1, h2⟩ := invoke_trw_model_counts opts flows m data
  have hb : (flows.take (invoke_trw_model opts flows m trw_counters_zero
      data).counters.flows).length < U32 := by
    rw [List.length_take]
    unfold RWSCAN_FLOW_CUTOFF at h2
    unfold U32
    omega
  have := key data.existing _ hb
  rw [← h1] at this
  exact this

theorem trw_dips_count_witness :
    (trw_counts (default_options RWSCAN_MODEL_TRW : options_t ℚ) [] (sample_syns 6) 0xffffffff
        trw_counters_zero).hits
      + (trw_counts (default_options RWSCAN_MODEL_TRW : options_t ℚ) [] (sample_syns 6)
        0xffffffff trw_counters_zero).misses
      = (trw_counts (default_options RWSCAN_MODEL_TRW : options_t ℚ) [] (sample_syns 6)
        0xffffffff trw_counters_zero).dips
    ∧ (trw_counts (default_options RWSCAN_MODEL_TRW : options_t ℚ) [] (sample_syns 6)
        0xffffffff trw_counters_zero).dips
      = dip_changes 0xffffffff ((sample_syns 6).map rwRecGetDIPv4) :=
  (trw_dips_count (default_options RWSCAN_MODEL_TRW : options_t ℚ) [] (sample_syns 6)
    (sample_syns 6) (sample_metrics 6 9 6) trw_data_empty (by decide)).1

end TrwDips

section TrwScan
variable {K : Type} [LinearOrderedField K]
open EventClassification ScanModel

/-- With the default values of theta the closed form of the likelihood is a
power of 4 or of 1/4. -/
theorem default_likelihood (opts : options_t K) (c : trw_counters K)
    (h0 : opts.trw_theta0 = TRW_DEFAULT_THETA0) (h1 : opts.trw_theta1 = TRW_DEFAULT_THETA1)
    (hc : trw_closed opts c) (d : Nat) :
    (c.misses = c.hits + d → c.likelihood = 4 ^ d)
    ∧ (c.hits = c.misses + d → c.likelihood = (1 / 4) ^ d) := by
  unfold trw_closed at hc
  rw [default_theta_hit opts h0 h1, default_theta_miss opts h0 h1] at hc
  have e : ∀ n : Nat, ((1 / 4 : K)) ^ n * 4 ^ n = 1 := by
    intro n
    rw [← mul_pow]
    norm_num
  constructor
  · intro h
    rw [hc, h, pow_add, ← mul_assoc, e, one_mul]
  · intro h
    rw [hc, h, pow_add, mul_assoc, mul_comm ((1 / 4 : K) ^ d), ← mul_assoc, e, one_mul]

/-- The two tests on the likelihood when hits and misses are at most 4 apart:
it is above `TRW_ETA1` only as 256, with 4 more misses than hits, and when it
is neither above `TRW_ETA1` nor below `TRW_ETA0` they are at most 3 apart. -/
theorem trw_within_decide (opts : options_t K) (c : trw_counters K)
    (h0 : opts.trw_theta0 = TRW_DEFAULT_THETA0) (h1 : opts.trw_theta1 = TRW_DEFAULT_THETA1)
    (hw : trw_within opts 4 c) :
    (c.likelihood > TRW_ETA1 → c.likelihood = 256 ∧ c.misses = c.hits + 4)
    ∧ (¬ (c.likelihood > TRW_ETA1) → ¬ (c.likelihood < TRW_ETA0) → trw_within opts 3 c) := by
  rw [eta1_val, eta0_val]
  rcases hw with ⟨z1, -, -⟩ | ⟨hc, b1, b2⟩
  · rw [z1]
    constructor
    · intro h
      norm_num at h
    · intro _ h
      norm_num at h
  · rcases le_total c.hits c.misses with hle | hle
    · obtain ⟨d, hd⟩ := Nat.exists_eq_add_of_le hle
      have hl := (default_likelihood opts c h0 h1 hc d).1 hd
      have hd4 : d ≤ 4 := by omega
      rw [hl]
      interval_cases d
      · refine ⟨fun h => by norm_num at h, fun _ _ => Or.inr ⟨hc, by omega, by omega⟩⟩
      · refine ⟨fun h => by norm_num at h, fun _ _ => Or.inr ⟨hc, by omega, by omega⟩⟩
      · refine ⟨fun h => by norm_num at h, fun _ _ => Or.inr ⟨hc, by omega, by omega⟩⟩
      · refine ⟨fun h => by norm_num at h, fun _ _ => Or.inr ⟨hc, by omega, by omega⟩⟩
      · refine ⟨fun _ => ⟨by norm_num, hd⟩, fun h => absurd (by norm_num) h⟩
    · obtain ⟨d, hd⟩ := Nat.exists_eq_add_of_le hle
      have hl := (default_likelihood opts c h0 h1 hc d).2 hd
      have hd4 : d ≤ 4 := by omega
      rw [hl]
      interval_cases d
      · refine ⟨fun h => by norm_num at h, fun _ _ => Or.inr ⟨hc, by omega, by omega⟩⟩
      · refine ⟨fun h => by norm_num at h, fun _ _ => Or.inr ⟨hc, by omega, by omega⟩⟩
      · refine ⟨fun h => by norm_num at h, fun _ _ => Or.inr ⟨hc, by omega, by omega⟩⟩
      · refine ⟨fun h => by norm_num at h, fun _ _ => Or.inr ⟨hc, by omega, by omega⟩⟩
      · refine ⟨fun h => by norm_num at h, fun _ h => absurd (by norm_num) h⟩

/-- One iteration moves hits and misses at most one further apart. -/
theorem trw_count_within (opts : options_t K) (ex : List Nat) (prev : Nat)
    (c : trw_counters K) (rw : rwRec)
    (hw : trw_within opts 3 c) (hh : c.hits + 1 < U32) (hm : c.misses + 1 < U32) :
    trw_within opts 4 (trw_count opts ex prev c rw) := by
  obtain ⟨e1, e2⟩ := trw_count_hits_misses opts ex prev c rw
  by_cases hd : rwRecGetDIPv4 rw ≠ prev
  · rw [if_pos hd] at e1 e2
    obtain ⟨-, l2⟩ := trw_lookup_spec ex c rw
    refine Or.inr ⟨trw_count_closed opts ex prev c rw hd, ?_⟩
    rw [e1, e2]
    rcases l2 with ⟨u, v⟩ | ⟨u, v⟩
    · rw [u, v, Nat.mod_eq_of_lt hh]
      rcases hw with ⟨-, z2, z3⟩ | ⟨-, b1, b2⟩
      · omega
      · omega
    · rw [u, v, Nat.mod_eq_of_lt hm]
      rcases hw with ⟨-, z2, z3⟩ | ⟨-, b1, b2⟩
      · omega
      · omega
  · rw [if_neg hd] at e1 e2
    have e3 := trw_count_likelihood_same opts ex prev c rw (not_not.mp hd)
    rcases hw with ⟨z1, z2, z3⟩ | ⟨hc, b1, b2⟩
    · exact Or.inl ⟨e3.trans z1, e1.trans z2, e2.trans z3⟩
    · refine Or.inr ⟨trw_count_closed_same opts ex prev c rw (not_not.mp hd) hc, ?_, ?_⟩
      · rw [e1, e2]; omega
      · rw [e1, e2]; omega

/-- Once a flow that is not a bare SYN has been counted, the loop of
`invoke_trw_model` takes no decision any more. -/
theorem trw_loop_no_decision (opts : options_t K) (flows : List rwRec) :
    ∀ (rest : List rwRec) (i prev : Nat) (st : trw_state K),
    st.counters.flows = i → st.counters.syns < i →
    (trw_loop opts flows rest i prev st).1 = false := by
  intro rest
  induction rest with
  | nil => intro i prev st _ _; rfl
  | cons rw rest ih =>
    intro i prev st hf hs
    rw [trw_loop_cons]
    dsimp only
    by_cases hcut : i > RWSCAN_FLOW_CUTOFF
    · rw [if_pos hcut]
    · rw [if_neg hcut]
      have c1 : (trw_count opts st.data.existing prev st.counters rw).flows = i + 1 := by
        rw [trw_count_flows, hf]
        exact Nat.mod_eq_of_lt (by unfold RWSCAN_FLOW_CUTOFF at hcut; unfold U32; omega)
      have c2 : (trw_count opts st.data.existing prev st.counters rw).syns < i + 1 := by
        rw [trw_count_syns]
        split_ifs
        · exact lt_of_le_of_lt (Nat.mod_le _ _) (by omega)
        · omega
      rw [if_neg (by rw [c1]; omega)]
      exact ih (i + 1) (rwRecGetDIPv4 rw) _ c1 c2


/-- The loop of `invoke_trw_model` with the default values of theta, entered
after the flows `pre`: when it ends with the decision SCAN, it does so at a
flow up to which every flow is a bare SYN, with 4 more misses than hits and the
likelihood 256, and after no earlier flow were there 4 more misses than
hits. -/
theorem trw_loop_scan (opts : options_t K)
    (h0 : opts.trw_theta0 = TRW_DEFAULT_THETA0) (h1 : opts.trw_theta1 = TRW_DEFAULT_THETA1)
    (flows : List rwRec) :
    ∀ (rest pre : List rwRec) (st : trw_state K) (res : Bool × trw_state K),
    st.counters = trw_counts opts st.data.existing pre 0xffffffff trw_counters_zero →
    st.counters.syns ≤ pre.length →
    (st.counters.syns = pre.length → trw_within opts 3 st.counters
      ∧ ∀ j ≤ pre.length,
          (trw_counts opts st.data.existing (pre.take j) 0xffffffff trw_counters_zero).misses
            ≤ (trw_counts opts st.data.existing (pre.take j) 0xffffffff
                trw_counters_zero).hits + 3) →
    trw_loop opts flows rest pre.length (trw_prev pre) st = res →
    res.1 = true → res.2.metrics.event_class = EVENT_SCAN →
    ∃ k, k < rest.length ∧ pre.length + k ≤ RWSCAN_FLOW_CUTOFF
      ∧ res.2.counters = trw_counts opts st.data.existing (pre ++ rest.take (k + 1))
          0xffffffff trw_counters_zero
      ∧ res.2.counters.likelihood = 256 ∧ res.2.metrics.scan_probability = 256
      ∧ res.2.counters.misses = res.2.counters.hits + 4
      ∧ res.2.counters.syns = res.2.counters.flows
      ∧ ∀ j ≤ pre.length + k,
          (trw_counts opts st.data.existing ((pre ++ rest).take j) 0xffffffff
            trw_counters_zero).misses
            ≤ (trw_counts opts st.data.existing ((pre ++ rest).take j) 0xffffffff
                trw_counters_zero).hits + 3 := by
  intro rest
  induction rest with
  | nil =>
    intro pre st res _ _ _ hres htrue _
    rw [trw_loop] at hres
    rw [← hres] at htrue
    exact absurd htrue (by simp)
  | cons rw rest ih =>
    intro pre st res hc hsyn hinv hres htrue hscan
    rw [trw_loop_cons] at hres
    dsimp only at hres
    by_cases hcut : pre.length > RWSCAN_FLOW_CUTOFF
    · rw [if_pos hcut] at hres
      rw [← hres] at htrue
      exact absurd htrue (by simp)
    rw [if_neg hcut] at hres
    have hlen : pre.length + 1 < U32 := by
      unfold RWSCAN_FLOW_CUTOFF at hcut
      unfold U32
      omega
    have hfl : st.counters.flows = pre.length := by
      rw [hc, trw_counts_flows _ _ _ _ _ (by show 0 + pre.length < U32; omega)]
      show 0 + pre.length = pre.length
      omega
    obtain ⟨hhm, hdl⟩ := trw_counts_inv opts st.data.existing pre 0xffffffff trw_counters_zero
      0 rfl (Nat.le_refl 0) (by omega)
    rw [← hc] at hhm hdl
    have hsn : trw_counts opts st.data.existing (pre ++ [rw]) 0xffffffff trw_counters_zero
        = trw_count opts st.data.existing (trw_prev pre) st.counters rw := by
      rw [trw_counts_snoc, ← hc]
    have c1 : (trw_count opts st.data.existing (trw_prev pre) st.counters rw).flows
        = pre.length + 1 := by
      rw [trw_count_flows, hfl]
      exact Nat.mod_eq_of_lt hlen
    have c2 := trw_count_syns opts st.data.existing (trw_prev pre) st.counters rw
    have e1 : pre.length + 1 = (pre ++ [rw]).length := by
      rw [List.length_append, List.length_singleton]
    have e2 : rwRecGetDIPv4 rw = trw_prev (pre ++ [rw]) := (trw_prev_append pre rw).symm
    by_cases hsf : (trw_count opts st.data.existing (trw_prev pre) st.counters rw).syns
        = (trw_count opts st.data.existing (trw_prev pre) st.counters rw).flows
    · rw [if_pos hsf] at hres
      have hsi : st.counters.syns = pre.length := by
        rw [c1, c2] at hsf
        split_ifs at hsf
        · rw [Nat.mod_eq_of_lt (by omega)] at hsf
          omega
        · omega
      obtain ⟨hw3, hbelow⟩ := hinv hsi
      have hw4 := trw_count_within opts st.data.existing (trw_prev pre) st.counters rw hw3
        (by omega) (by omega)
      obtain ⟨A, B⟩ := trw_within_decide opts _ h0 h1 hw4
      have hpre : ∀ j ≤ pre.length, (pre ++ rw :: rest).take j = pre.take j := by
        intro j hj
        exact List.take_append_of_le_length hj
      by_cases hgt : (trw_count opts st.data.existing (trw_prev pre) st.counters rw).likelihood
          > TRW_ETA1
      · rw [if_pos hgt] at hres
        obtain ⟨a1, a2⟩ := A hgt
        refine ⟨0, by simp, by omega, ?_, ?_, ?_, ?_, ?_, ?_⟩
        · rw [← hres]
          exact hsn.symm
        · rw [← hres]
          exact a1
        · rw [← hres]
          show (calculate_shared_metrics flows _).scan_probability = 256
          rw [calculate_shared_metrics_scan_probability]
          exact a1
        · rw [← hres]
          exact a2
        · rw [← hres]
          exact hsf
        · intro j hj
          rw [hpre j (by omega)]
          exact hbelow j (by omega)
      · rw [if_neg hgt] at hres
        by_cases hlt : (trw_count opts st.data.existing (trw_prev pre) st.counters
            rw).likelihood < TRW_ETA0
        · rw [if_pos hlt] at hres
          rw [← hres] at hscan
          exact absurd hscan (by simp)
        · rw [if_neg hlt] at hres
          have hw3n := B hgt hlt
          rw [e1, e2] at hres
          obtain ⟨k, k1, k0, k2, k3, k4, k5, k6, k7⟩ := ih (pre ++ [rw])
            { st with counters := trw_count opts st.data.existing (trw_prev pre) st.counters rw }
            res hsn.symm
            (by
              show (trw_count opts st.data.existing (trw_prev pre) st.counters rw).syns ≤ _
              rw [hsf, c1, e1])
            (by
              intro _
              refine ⟨hw3n, ?_⟩
              intro j hj
              rw [← e1] at hj
              rcases Nat.lt_or_ge j (pre.length + 1) with hj2 | hj2
              · rw [List.take_append_of_le_length (by omega)]
                exact hbelow j (by omega)
              · have ej : j = (pre ++ [rw]).length := by omega
                rw [ej, List.take_length]
                show (trw_counts opts st.data.existing (pre ++ [rw]) 0xffffffff
                  trw_counters_zero).misses ≤ _
                rw [hsn]
                rcases hw3n with ⟨-, z2, z3⟩ | ⟨-, b1, -⟩
                · omega
                · exact b1)
            hres htrue hscan
          have e3 : (pre ++ [rw]) ++ rest = pre ++ rw :: rest := by simp
          have e4 : (pre ++ [rw]) ++ rest.take (k + 1) = pre ++ (rw :: rest).take (k + 1 + 1) := by
            simp
          rw [e3] at k7
          rw [e4] at k2
          refine ⟨k + 1, by simp only [List.length_cons]; omega, by rw [← e1] at k0; omega,
            k2, k3, k4, k5, k6, ?_⟩
          intro j hj
          exact k7 j (by rw [← e1]; omega)
    · rw [if_neg hsf] at hres
      have hno := trw_loop_no_decision opts flows rest (pre.length + 1) (rwRecGetDIPv4 rw)
        { st with counters := trw_count opts st.data.existing (trw_prev pre) st.counters rw }
        c1 (by
          show (trw_count opts st.data.existing (trw_prev pre) st.counters rw).syns < _
          have hle : (trw_count opts st.data.existing (trw_prev pre) st.counters rw).syns
              ≤ pre.length + 1 := by
            rw [c2]
            split_ifs
            · exact le_trans (Nat.mod_le _ _) (by omega)
            · omega
          rw [c1] at hsf
          omega)
      rw [hres] at hno
      rw [hno] at htrue
      exact absurd htrue (by simp)


/-- C39: with the default values of theta and exact arithmetic, whenever
`invoke_trw_model` returns SCAN, the scan probability it stores is exactly 256:
the decision is taken at a flow up to which every flow is a bare SYN
(`syns = flows`) and at which the misses are 4 ahead of the hits, and after no
earlier flow were the misses 4 ahead. -/
theorem trw_scan_probability (opts : options_t K) (flows : List rwRec)
    (m : event_metrics K) (data : trw_data)
    (h0 : opts.trw_theta0 = TRW_DEFAULT_THETA0) (h1 : opts.trw_theta1 = TRW_DEFAULT_THETA1)
    (hscan : (invoke_trw_model opts flows m trw_counters_zero data).metrics.event_class
      = EVENT_SCAN) :
    (invoke_trw_model opts flows m trw_counters_zero data).metrics.scan_probability = 256
    ∧ (invoke_trw_model opts flows m trw_counters_zero data).counters.likelihood = 256
    ∧ (invoke_trw_model opts flows m trw_counters_zero data).counters.misses
        = (invoke_trw_model opts flows m trw_counters_zero data).counters.hits + 4
    ∧ (invoke_trw_model opts flows m trw_counters_zero data).counters.syns
        = (invoke_trw_model opts flows m trw_counters_zero data).counters.flows
    ∧ ∀ j < (invoke_trw_model opts flows m trw_counters_zero data).counters.flows,
        (trw_counts opts data.existing (flows.take j) 0xffffffff trw_counters_zero).misses
          < (trw_counts opts data.existing (flows.take j) 0xffffffff
              trw_counters_zero).hits + 4 := by
  have hinv : invoke_trw_model opts flows m trw_counters_zero data
      = (if (trw_loop opts flows (flows.take m.event_size) 0 0xffffffff
            { counters := trw_counters_zero, metrics := { m with model := RWSCAN_MODEL_TRW },
              data := data }).1 = true
         then (trw_loop opts flows (flows.take m.event_size) 0 0xffffffff
            { counters := trw_counters_zero, metrics := { m with model := RWSCAN_MODEL_TRW },
              data := data }).2
         else { (trw_loop opts flows (flows.take m.event_size) 0 0xffffffff
            { counters := trw_counters_zero, metrics := { m with model := RWSCAN_MODEL_TRW },
              data := data }).2 with
            metrics := { (trw_loop opts flows (flows.take m.event_size) 0 0xffffffff
              { counters := trw_counters_zero, metrics := { m with model := RWSCAN_MODEL_TRW },
                data := data }).2.metrics with
              event_class := trw_final (trw_loop opts flows (flows.take m.event_size) 0
                0xffffffff
                { counters := trw_counters_zero,
                  metrics := { m with model := RWSCAN_MODEL_TRW },
                  data := data }).2.counters } }) := rfl
  rw [hinv] at hscan ⊢
  generalize hres : trw_loop opts flows (flows.take m.event_size) 0 0xffffffff
    { counters := trw_counters_zero, metrics := { m with model := RWSCAN_MODEL_TRW },
      data := data } = res at hscan ⊢
  by_cases ht : res.1 = true
  · rw [if_pos ht] at hscan ⊢
    obtain ⟨k, k1, k0, k2, k3, k4, k5, k6, k7⟩ := trw_loop_scan opts h0 h1 flows
      (flows.take m.event_size) []
      { counters := trw_counters_zero, metrics := { m with model := RWSCAN_MODEL_TRW },
        data := data } res rfl (Nat.le_refl 0)
      (fun _ => ⟨Or.inl ⟨rfl, rfl, rfl⟩, fun j hj => by
        have : j = 0 := by
          simp only [List.length_nil] at hj
          omega
        subst this
        exact Nat.zero_le _⟩)
      hres ht hscan
    simp only [List.length_nil, Nat.zero_add, List.nil_append] at k0 k2 k7
    have hk : k + 1 ≤ m.event_size := by
      rw [List.length_take] at k1
      omega
    have htk : ∀ j ≤ k + 1, (flows.take m.event_size).take j = flows.take j := by
      intro j hj
      rw [List.take_take]
      congr 1
      omega
    have hfl : res.2.counters.flows = k + 1 := by
      have hl : ((flows.take m.event_size).take (k + 1)).length = k + 1 := by
        rw [List.length_take]
        omega
      rw [k2, trw_counts_flows _ _ _ _ _ (by
        rw [hl]
        show 0 + (k + 1) < U32
        unfold RWSCAN_FLOW_CUTOFF at k0
        unfold U32
        omega), hl]
      show 0 + (k + 1) = k + 1
      omega
    refine ⟨k4, k3, k5, k6, ?_⟩
    intro j hj
    rw [hfl] at hj
    have := k7 j (by omega)
    rw [htk j (by omega)] at this
    omega
  · rw [if_neg ht] at hscan
    exact absurd hscan (trw_final_ne_scan _)

theorem trw_scan_probability_witness :
    (invoke_trw_model (default_options RWSCAN_MODEL_TRW : options_t ℚ) (sample_syns 6)
        (sample_metrics 6 9 6) trw_counters_zero trw_data_empty).metrics.event_class
      = EVENT_SCAN
    ∧ (invoke_trw_model (default_options RWSCAN_MODEL_TRW : options_t ℚ) (sample_syns 6)
        (sample_metrics 6 9 6) trw_counters_zero trw_data_empty).metrics.scan_probability
      = 256 :=
  have hs : (invoke_trw_model (default_options RWSCAN_MODEL_TRW : options_t ℚ) (sample_syns 6)
      (sample_metrics 6 9 6) trw_counters_zero trw_data_empty).metrics.event_class
      = EVENT_SCAN := by
    have h := invoke_trw_model_scan_four (default_options RWSCAN_MODEL_TRW : options_t ℚ)
      (sample_flow 9 1 6 2) (sample_flow 9 2 6 2) (sample_flow 9 3 6 2) (sample_flow 9 4 6 2)
      ((List.range' 5 2).map (fun d => sample_flow 9 d 6 2)) (sample_metrics 6 9 6)
      trw_data_empty rfl rfl rfl (by decide) (by decide) (by decide) (by decide)
      (by decide) (by decide) (by decide) (by decide)
      (by decide) (by decide) (by decide) (by decide)
    rw [← sample_syns_six] at h
    rw [h]
  ⟨hs, (trw_scan_probability (default_options RWSCAN_MODEL_TRW : options_t ℚ) (sample_syns 6)
    (sample_metrics 6 9 6) trw_data_empty rfl rfl hs).1⟩

end TrwScan

section HybridBenign
variable {K : Type} [LinearOrderedField K]
open EventClassification ScanModel

/-- BLR on a TCP event of at least 32 flows, each with a packet, whose flow
counters are still zero: the result is the logistic step applied to the TCP
features of the sorted array, and these features are the six quotients. -/
theorem invoke_blr_model_tcp (exp : K → K)
    (qsort : (rwRec → rwRec → Int) → List rwRec → List rwRec)
    (hq : qsort_perm qsort) (hs : qsort_sorted qsort)
    (flows : List rwRec) (m : event_metrics K)
    (hproto : m.protocol = IPPROTO_TCP) (hsize : m.event_size = flows.length)
    (hlen : 32 ≤ flows.length) (hlt : flows.length < U32)
    (hzero : m.flows_noack = 0 ∧ m.flows_small = 0 ∧ m.flows_with_payload = 0
      ∧ m.flows_backscatter = 0)
    (htcp : ∀ f ∈ flows, rwRecGetProto f = IPPROTO_TCP ∧ 1 ≤ rwRecGetPkts f) :
    ∃ mc, invoke_blr_model exp qsort flows m
        = some (calculate_tcp_scan_probability exp (calculate_tcp_metrics
            (qsort_flows qsort rwrec_compare_dip_sport flows flows.length) mc))
      ∧ mc.model = RWSCAN_MODEL_BLR ∧ mc.sip = m.sip
      ∧ (calculate_tcp_metrics
            (qsort_flows qsort rwrec_compare_dip_sport flows flows.length) mc).tcp.noack_ratio
          = (flows.countP (fun f => decide (rwRecGetFlags f &&& ACK_FLAG = 0)) : K)
            / (flows.length : K)
      ∧ (calculate_tcp_metrics
            (qsort_flows qsort rwrec_compare_dip_sport flows flows.length) mc).tcp.small_ratio
          = (flows.countP (fun f => decide (rwRecGetPkts f < SMALL_PKT_CUTOFF)) : K)
            / (flows.length : K)
      ∧ (calculate_tcp_metrics
            (qsort_flows qsort rwrec_compare_dip_sport flows flows.length) mc).tcp.sp_dip_ratio
          = (sports_to (qsort_flows qsort rwrec_compare_dip_sport flows flows.length)
              (largest_dip (qsort_flows qsort rwrec_compare_dip_sport flows flows.length)) : K)
            / (distinct_dips flows : K)
      ∧ (calculate_tcp_metrics
            (qsort_flows qsort rwrec_compare_dip_sport flows flows.length) mc).tcp.payload_ratio
          = (flows.countP (fun f =>
              decide (rwRecGetBytes f / rwRecGetPkts f > PACKET_PAYLOAD_CUTOFF)) : K)
            / (flows.length : K)
      ∧ (calculate_tcp_metrics
            (qsort_flows qsort rwrec_compare_dip_sport flows flows.length)
              mc).tcp.unique_dip_ratio
          = (distinct_dips flows : K) / (flows.length : K)
      ∧ (calculate_tcp_metrics
            (qsort_flows qsort rwrec_compare_dip_sport flows flows.length)
              mc).tcp.backscatter_ratio
          = (flows.countP (fun f => decide (bs_flags (rwRecGetFlags f))) : K)
            / (flows.length : K) := by
  obtain ⟨z1, z2, z3, z4⟩ := hzero
  have ht : flows.take m.event_size = flows := by rw [hsize, List.take_length]
  obtain ⟨mc, e, d1, d2, d3, d4, d5, d6⟩ := blr_count_tcp flows
    ({ m with model := RWSCAN_MODEL_BLR } : event_metrics K) htcp
    (by show m.flows_noack + flows.length < U32; omega)
    (by show m.flows_small + flows.length < U32; omega)
    (by show m.flows_with_payload + flows.length < U32; omega)
    (by show m.flows_backscatter + flows.length < U32; omega)
  have tg := blr_count_tag _ _ _ e
  have d1a : mc.flows_noack
      = flows.countP (fun f => decide (rwRecGetFlags f &&& ACK_FLAG = 0)) := by
    rw [d1]
    show m.flows_noack + _ = _
    omega
  have d2a : mc.flows_small
      = flows.countP (fun f => decide (rwRecGetPkts f < SMALL_PKT_CUTOFF)) := by
    rw [d2]
    show m.flows_small + _ = _
    omega
  have d3a : mc.flows_with_payload = flows.countP (fun f =>
      decide (rwRecGetBytes f / rwRecGetPkts f > PACKET_PAYLOAD_CUTOFF)) := by
    rw [d3]
    show m.flows_with_payload + _ = _
    omega
  have d4a : mc.flows_backscatter
      = flows.countP (fun f => decide (bs_flags (rwRecGetFlags f))) := by
    rw [d4]
    show m.flows_backscatter + _ = _
    omega
  have hes : mc.event_size = flows.length := d5.trans hsize
  have hpr : mc.protocol = IPPROTO_TCP := d6.trans hproto
  obtain ⟨pm, ps⟩ := qsort_flows_tcp qsort hq hs flows (fun f hf => (htcp f hf).1)
  have hFne : qsort_flows qsort rwrec_compare_dip_sport flows flows.length ≠ [] := by
    intro h
    have := pm.length_eq
    rw [h] at this
    simp only [List.length_nil] at this
    omega
  obtain ⟨g1, g2⟩ := calculate_shared_metrics_groups
    (qsort_flows qsort rwrec_compare_dip_sport flows flows.length) mc hFne
    (by rw [hes, pm.length_eq]) (by rw [pm.length_eq]; exact hlt) ps
  have hdd : distinct_dips (qsort_flows qsort rwrec_compare_dip_sport flows flows.length)
      = distinct_dips flows := by
    unfold distinct_dips
    rw [List.toFinset_eq_of_perm _ _ (pm.map rwRecGetDIPv4)]
  obtain ⟨r1, r2, r3, r4, r5⟩ := calculate_tcp_metrics_ratios
    (qsort_flows qsort rwrec_compare_dip_sport flows flows.length) mc
  rw [d1a, hes] at r1
  rw [d2a, hes] at r2
  rw [d3a, hes] at r3
  rw [d4a, hes] at r4
  rw [g2, hdd, hes] at r5
  have r6 : (calculate_tcp_metrics
      (qsort_flows qsort rwrec_compare_dip_sport flows flows.length) mc).tcp.sp_dip_ratio
      = (sports_to (qsort_flows qsort rwrec_compare_dip_sport flows flows.length)
          (largest_dip (qsort_flows qsort rwrec_compare_dip_sport flows flows.length)) : K)
        / (distinct_dips flows : K) := by
    show ((calculate_shared_metrics _ mc).sp_count : K)
      / ((calculate_shared_metrics _ mc).unique_dips : K) = _
    rw [g1, g2, hdd]
  have hres : invoke_blr_model exp qsort flows m
      = some (calculate_tcp_scan_probability exp (calculate_tcp_metrics
          (qsort_flows qsort rwrec_compare_dip_sport flows flows.length) mc)) := by
    unfold invoke_blr_model
    dsimp only
    rw [if_pos (by rw [hsize]; exact hlen), ht, e]
    dsimp only
    rw [if_neg (by rw [hpr]; decide), if_pos hpr, hes]
  exact ⟨mc, hres, tg.2.2.2.2.2.2.2, tg.2.1, r1, r2, r6, r3, r5, r4⟩

/-- Over the reals the TCP scorer sets the class SCAN for a positive score and
leaves model tag and source address alone. -/
theorem calculate_tcp_scan_probability_pos (m : event_metrics ℝ) (h : 0 < tcp_score m) :
    (calculate_tcp_scan_probability Real.exp m).event_class = EVENT_SCAN
    ∧ (calculate_tcp_scan_probability Real.exp m).model = m.model
    ∧ (calculate_tcp_scan_probability Real.exp m).sip = m.sip := by
  unfold calculate_tcp_scan_probability
  dsimp only
  rw [if_pos ((logistic_bounds (tcp_score m)).2.2.mpr h)]
  exact ⟨rfl, rfl, rfl⟩


theorem sample_syns_thirty_two :
    sample_syns 32 = sample_flow 9 1 6 2 :: sample_flow 9 2 6 2 :: sample_flow 9 3 6 2
      :: sample_flow 9 4 6 2 :: (List.range' 5 28).map (fun d => sample_flow 9 d 6 2) := rfl

/-- The first sort of the worker leaves the 32 sample flows in their order. -/
theorem sample_syns_proto_stime :
    qsort_flows qsort_insertion rwrec_compare_proto_stime (sample_syns 32) 32
      = sample_syns 32 := by
  decide

/-- The second sort of BLR leaves the 32 sample flows in their order. -/
theorem sample_syns_dip_sport :
    qsort_flows qsort_insertion rwrec_compare_dip_sport (sample_syns 32) 32
      = sample_syns 32 := by
  decide

/-- TRW on the 32 sample flows when the first four destinations are known:
BENIGN at the fourth flow, and the source is recorded as benign. -/
theorem sample_syns_trw_benign :
    invoke_trw_model (default_options RWSCAN_MODEL_HYBRID : options_t K) (sample_syns 32)
        (sample_metrics 6 9 32) trw_counters_zero (trw_data_known 4)
      = { counters := { flows := 4, dips := 4, hits := 4, misses := 0, syns := 4, bs := 0,
                        floodresponse := 0, likelihood := 1 / 256 },
          metrics := { (sample_metrics 6 9 32 : event_metrics K) with
                        model := RWSCAN_MODEL_TRW, scan_probability := 1 / 256,
                        event_class := EVENT_BENIGN },
          data := { trw_data_known 4 with
                      benign := List.insert 9 (trw_data_known 4).benign } } := by
  have h := invoke_trw_model_benign_four (default_options RWSCAN_MODEL_HYBRID : options_t K)
    (sample_flow 9 1 6 2) (sample_flow 9 2 6 2) (sample_flow 9 3 6 2) (sample_flow 9 4 6 2)
    ((List.range' 5 28).map (fun d => sample_flow 9 d 6 2)) (sample_metrics 6 9 32)
    (trw_data_known 4) rfl rfl rfl (by decide) (by decide) (by decide) (by decide)
    (by decide) (by decide) (by decide) (by decide)
    (by decide) (by decide) (by decide) (by decide)
  rw [← sample_syns_thirty_two] at h
  exact h

/-- BLR on the 32 sample flows, entered with the metrics TRW leaves: the score
is positive and the class becomes SCAN with the model tag BLR. -/
theorem sample_syns_blr_scan :
    ∃ m1, invoke_blr_model Real.exp qsort_insertion (sample_syns 32)
        { (sample_metrics 6 9 32 : event_metrics ℝ) with
            model := RWSCAN_MODEL_TRW, scan_probability := 1 / 256,
            event_class := EVENT_BENIGN } = some m1
      ∧ m1.event_class = EVENT_SCAN ∧ m1.model = RWSCAN_MODEL_BLR ∧ m1.sip = 9 := by
  obtain ⟨mc, h, a1, a2, r1, r2, r3, r4, r5, r6⟩ := invoke_blr_model_tcp Real.exp
    qsort_insertion qsort_insertion_perm qsort_insertion_sorted (sample_syns 32)
    { (sample_metrics 6 9 32 : event_metrics ℝ) with
        model := RWSCAN_MODEL_TRW, scan_probability := 1 / 256,
        event_class := EVENT_BENIGN }
    rfl rfl (by decide) (by decide) ⟨rfl, rfl, rfl, rfl⟩ (by decide)
  have hl : (sample_syns 32).length = 32 := rfl
  have c1 : (sample_syns 32).countP (fun f => decide (rwRecGetFlags f &&& ACK_FLAG = 0))
      = 32 := by decide
  have c2 : (sample_syns 32).countP (fun f => decide (rwRecGetPkts f < SMALL_PKT_CUTOFF))
      = 32 := by decide
  have c3 : (sample_syns 32).countP
      (fun f => decide (rwRecGetBytes f / rwRecGetPkts f > PACKET_PAYLOAD_CUTOFF)) = 0 := by
    decide
  have c4 : (sample_syns 32).countP (fun f => decide (bs_flags (rwRecGetFlags f))) = 0 := by
    decide
  have c5 : distinct_dips (sample_syns 32) = 32 := by decide
  have c6 : sports_to (sample_syns 32) (largest_dip (sample_syns 32)) = 1 := by decide
  rw [hl, sample_syns_dip_sport] at h r1 r2 r3 r4 r5 r6
  rw [c1] at r1
  rw [c2] at r2
  rw [c6, c5] at r3
  rw [c3] at r4
  rw [c5] at r5
  rw [c4] at r6
  have hscore : 0 < tcp_score (calculate_tcp_metrics (sample_syns 32) mc) := by
    unfold tcp_score TCP_BETA0 TCP_BETA2 TCP_BETA4 TCP_BETA13 TCP_BETA15 TCP_BETA19 TCP_BETA21
    rw [r1, r2, r3, r4, r5, r6]
    norm_num
  obtain ⟨p1, p2, p3⟩ := calculate_tcp_scan_probability_pos _ hscore
  have tg := calculate_tcp_metrics_tag (sample_syns 32) mc
  refine ⟨_, h, p1, ?_, ?_⟩
  · rw [p2, tg.2.2.2.2.2.2.2, a1]
  · rw [p3, tg.2.1, a2]
    rfl

/-- The report of the worker does not touch the TRW sets. -/
theorem worker_report_data (m : event_metrics K) (ws : worker_state K) :
    (worker_report m ws).data = ws.data := by
  unfold worker_report
  cases m.event_class <;> rfl

/-- C40: under the model HYBRID a BENIGN verdict of TRW is not final.  For the
TCP event of 32 one-packet, 40-byte bare-SYN flows from address 9 to the
addresses 1 to 32, of which the first four are in `existing`,
`invoke_trw_model` returns BENIGN and puts the source into the set `benign`;
the worker then runs BLR, the final class is SCAN with the model tag BLR, and
a scanner row for the source is written while the source is in `benign`. -/
theorem trw_benign_not_final :
    (invoke_trw_model (default_options RWSCAN_MODEL_HYBRID : options_t ℝ) (sample_syns 32)
        (sample_metrics 6 9 32) trw_counters_zero (trw_data_known 4)).metrics.event_class
      = EVENT_BENIGN
    ∧ 9 ∈ (invoke_trw_model (default_options RWSCAN_MODEL_HYBRID : options_t ℝ)
        (sample_syns 32) (sample_metrics 6 9 32) trw_counters_zero
        (trw_data_known 4)).data.benign
    ∧ ∃ m1 ws1,
        worker_classify Real.exp qsort_insertion
          (default_options RWSCAN_MODEL_HYBRID : options_t ℝ)
          { flows := sample_syns 32, metrics := sample_metrics 6 9 32 } (trw_data_known 4)
          = some (m1, ws1.data)
        ∧ m1.event_class = EVENT_SCAN ∧ m1.model = RWSCAN_MODEL_BLR ∧ m1.sip = 9
        ∧ worker_event Real.exp qsort_insertion
            (default_options RWSCAN_MODEL_HYBRID : options_t ℝ)
            { (worker_state_zero : worker_state ℝ) with data := trw_data_known 4 }
            { flows := sample_syns 32, metrics := sample_metrics 6 9 32 } = some ws1
        ∧ ws1.out_scans = [scan_record m1]
        ∧ (scan_record m1).ip = 9 ∧ (scan_record m1).model = RWSCAN_MODEL_BLR
        ∧ 9 ∈ ws1.data.benign := by
  have ht := sample_syns_trw_benign (K := ℝ)
  obtain ⟨m1, hb, b1, b2, b3⟩ := sample_syns_blr_scan
  have hcl : worker_classify Real.exp qsort_insertion
      (default_options RWSCAN_MODEL_HYBRID : options_t ℝ)
      { flows := sample_syns 32, metrics := sample_metrics 6 9 32 } (trw_data_known 4)
      = some (m1, { trw_data_known 4 with
          benign := List.insert 9 (trw_data_known 4).benign }) := by
    have hc1 : (sample_metrics 6 9 32 : event_metrics ℝ).protocol = IPPROTO_TCP
        ∧ ((default_options RWSCAN_MODEL_HYBRID : options_t ℝ).scan_model = RWSCAN_MODEL_HYBRID
          ∨ (default_options RWSCAN_MODEL_HYBRID : options_t ℝ).scan_model
              = RWSCAN_MODEL_TRW) := ⟨rfl, Or.inl rfl⟩
    unfold worker_classify
    dsimp only
    rw [if_pos hc1, ht]
    dsimp only
    rw [if_pos ⟨⟨by simp, by simp, by simp⟩, Or.inl rfl⟩]
    change Option.map _ (invoke_blr_model Real.exp qsort_insertion
      (qsort_flows qsort_insertion rwrec_compare_proto_stime (sample_syns 32) 32) _) = _
    rw [sample_syns_proto_stime, hb]
    rfl
  refine ⟨by rw [ht], by rw [ht]; decide, m1,
    worker_report m1 { (worker_state_zero : worker_state ℝ) with
      data := { trw_data_known 4 with benign := List.insert 9 (trw_data_known 4).benign } },
    ?_, b1, b2, b3, ?_, ?_, b3, b2, ?_⟩
  · rw [hcl, worker_report_data]
  · unfold worker_event
    dsimp only
    rw [hcl]
  · rw [worker_report_out, if_pos b1]
    rfl
  · rw [worker_report_data]
    decide

end HybridBenign

end RwScan
